import Mathlib

/-! # GS1 Syntax Engine: AI data engine and scan-data codec

A shallow embedding of `src/c-lib/ai.c` and `src/c-lib/scandata.c`.

Conventions of the embedding:

* a C string is the `List Char` of its bytes before the terminating NUL;
  reading the terminator yields the NUL character;
* a `char *` into the context's data buffer is the offset of the byte it
  points to, so an extracted AI is an (offset, length) pair as in the
  data model of the specification;
* `uint8_t` fields are natural numbers reduced modulo 256 where they are
  stored;
* loops are functions by recursion on a fuel argument that the callers
  initialise with a bound on the number of iterations.
-/

namespace GS1

/-! ## C string primitives -/

/-- The byte at index `i` of a C string; past the end it is the NUL terminator. -/
def charAt (s : List Char) (i : Nat) : Char := s.getD i '\x00'

/-- The C library `strncmp`, bytes compared as unsigned values. -/
def strncmp : List Char → List Char → Nat → Int
  | _, _, 0 => 0
  | [], [], _ + 1 => 0
  | [], b :: _, _ + 1 => 0 - (b.toNat : Int)
  | a :: _, [], _ + 1 => (a.toNat : Int)
  | a :: as, b :: bs, n + 1 =>
    if a = b then strncmp as bs n else (a.toNat : Int) - (b.toNat : Int)

/-- The C library `strchr` for a non-NUL byte: the index of its first occurrence. -/
def strchr : List Char → Char → Option Nat
  | [], _ => none
  | a :: as, c => if a = c then some 0 else (strchr as c).map (· + 1)

/-- The test `str[i] < '0' || str[i] > '9'` negated. -/
def isDigit (c : Char) : Bool := decide ('0' ≤ c) && decide (c ≤ '9')

/-- The loop of `gs1_allDigits` over the first `len` bytes; the terminator is not a digit. -/
def allDigitsLoop : List Char → Nat → Bool
  | _, 0 => true
  | [], _ + 1 => false
  | c :: cs, n + 1 => if isDigit c then allDigitsLoop cs n else false

/-- The function `gs1_allDigits`: a zero `len` stands for the whole string. -/
def gs1_allDigits (str : List Char) (len : Nat) : Bool :=
  allDigitsLoop str (if len = 0 then str.length else len)

/-- The C library `strspn(s, "0123456789")`. -/
def strspnDigits (s : List Char) : Nat := (s.takeWhile isDigit).length

/-- The successive tokens that repeated `strtok_r` calls with the one-byte
delimiter set `d` return: the maximal runs of bytes other than `d`.
The second argument is the token being collected. -/
def strtokLoop (d : Char) : List Char → List Char → List (List Char)
  | [], cur => if cur = [] then [] else [cur]
  | c :: cs, cur =>
    if c = d then
      (if cur = [] then strtokLoop d cs [] else cur :: strtokLoop d cs [])
    else strtokLoop d cs (cur ++ [c])

/-- All tokens of `s` for the delimiter `d`, in order. -/
def strtokAll (s : List Char) (d : Char) : List (List Char) := strtokLoop d s []

/-! ## Data model -/

/-- Character set of a component (`cset_N`, `cset_X`, `cset_Y`, `cset_Z`); the
value that terminates a component array is the end of the list. -/
inductive Cset where
  | N | X | Y | Z
  deriving DecidableEq, Repr

/-- A linter function pointer, identified by a number; the linter library
itself is external to the two source files. -/
abbrev LinterRef := Nat

/-- One `struct aiComponent`: `opt` is true for `OPT` and false for `MAN`. -/
structure AiComponent where
  cset : Cset
  min : Nat
  max : Nat
  opt : Bool
  linters : List LinterRef
  deriving DecidableEq, Repr

/-- One `struct aiEntry`; `parts` holds the components before the terminator. -/
structure AiEntry where
  ai : List Char
  fnc1 : Bool
  parts : List AiComponent
  attrs : List Char
  title : List Char
  deriving DecidableEq, Repr

/-- Kinds of extracted entries: an AI value or a Digital Link placeholder. -/
inductive AiValueKind where
  | aiValue_aival
  | aiValue_other (tag : Nat)
  deriving DecidableEq, Repr

/-- One `struct aiValue`; `ai` and `value` are offsets into the data buffer. -/
structure AiValue where
  kind : AiValueKind
  aiEntry : Option AiEntry
  ai : Nat
  ailen : Nat
  value : Nat
  vallen : Nat
  dlPathOrder : Int
  deriving DecidableEq, Repr

/-- The symbologies of `enum gs1_encoder_symbologies` used by the codec. -/
inductive Sym where
  | sNONE | sDataBarOmni | sDataBarTruncated | sDataBarStacked
  | sDataBarStackedOmni | sDataBarLimited | sDataBarExpanded
  | sUPCA | sUPCE | sEAN13 | sEAN8
  | sGS1_128_CCA | sGS1_128_CCC | sQR | sDM
  deriving DecidableEq, Repr

/-- The validation functions a `validationEntry` can point to. -/
inductive ValidationFn where
  | validateAImutex | validateAIrequisites | validateAIrepeats
  deriving DecidableEq, Repr

/-- One `struct validationEntry`. -/
structure ValidationEntry where
  locked : Bool
  enabled : Bool
  fn : Option ValidationFn
  deriving DecidableEq, Repr

/-- The fields of `gs1_encoder` that the two source files read or write.
`aiData` holds the first `numAIs` slots of the C array, so `numAIs` is its length. -/
structure Ctx where
  sym : Sym
  dataStr : List Char
  outStr : List Char
  dlAIbuffer : List Char
  aiData : List AiValue
  errMsg : List Char
  errFlag : Bool
  linterErr : Nat
  linterErrMarkup : List Char
  permitUnknownAIs : Bool
  addCheckDigit : Bool
  aiTable : List AiEntry
  aiLengthByPrefix : List Nat
  validationTable : List ValidationEntry
  deriving DecidableEq, Repr

/-- Result of a linter call: `err = 0` is `GS1_LINTER_OK`; otherwise the
error kind with the position and length of the offending bytes. -/
structure LintResult where
  err : Nat
  errpos : Nat
  errlen : Nat
  deriving DecidableEq, Repr, Inhabited

/-- What the two source files use but do not define: limits from the headers,
the linter library, the error strings of the linters and the Digital Link parser. -/
structure Env where
  MAX_AIS : Nat
  MAX_DATA : Nat
  MAX_AI_ATTR_LEN : Nat
  DL_PATH_ORDER_ATTRIBUTE : Int
  gs1_lint_csetnumeric : List Char → LintResult
  gs1_lint_cset82 : List Char → LintResult
  gs1_lint_cset39 : List Char → LintResult
  gs1_lint_cset64 : List Char → LintResult
  linterFn : LinterRef → List Char → LintResult
  gs1_lint_err_str : Nat → List Char
  gs1_parseDLuri : Ctx → Bool × Ctx

/-! ## AI lookup (`ai.c`) -/

/-- The table `fixedAIprefixLengths`; 0 is `VL`, variable length. -/
def fixedAIprefixLengths : List Nat :=
  [18, 14, 14, 14, 16,
   0, 0, 0, 0, 0, 0,
   6, 6, 6, 6, 6, 6, 6, 6, 6, 2,
   0, 0,
   0,
   0, 0, 0, 0, 0, 0, 0,
   6, 6, 6, 6, 6, 6,
   0, 0, 0, 0,
   13,
   0, 0, 0, 0, 0, 0, 0, 0,
   0, 0, 0, 0, 0, 0, 0, 0, 0, 0,
   0, 0, 0, 0, 0, 0, 0, 0, 0, 0,
   0, 0, 0, 0, 0, 0, 0, 0, 0, 0,
   0, 0, 0, 0, 0, 0, 0, 0, 0, 0,
   0, 0, 0, 0, 0, 0, 0, 0, 0, 0]

/-- The index `(ai[0] - '0') * 10 + (ai[1] - '0')` of a two-digit prefix. -/
def prefixIndex (ai : List Char) : Nat :=
  ((charAt ai 0).toNat - 48) * 10 + ((charAt ai 1).toNat - 48)

/-- The inline function `aiLengthByPrefix`. -/
def aiLengthByPrefix (ctx : Ctx) (ai : List Char) : Nat :=
  ctx.aiLengthByPrefix.getD (prefixIndex ai) 0

/-- The inline function `valLengthByPrefix`. -/
def valLengthByPrefix (ai : List Char) : Nat :=
  fixedAIprefixLengths.getD (prefixIndex ai) 0

/-- The one component of every pseudo entry: cset X, mandatory, no linters. -/
def unknownPart (mn mx : Nat) : AiComponent :=
  { cset := Cset.X, min := mn, max := mx, opt := false, linters := [] }

/-- Pseudo entry of the given AI text, FNC1 flag and value length range. -/
def unknownEntry (ai : String) (fnc1 : Bool) (mn mx : Nat) : AiEntry :=
  { ai := ai.toList, fnc1 := fnc1, parts := [unknownPart mn mx], attrs := [],
    title := "UNKNOWN".toList }

def unknownAI : AiEntry := unknownEntry "" true 1 90
def unknownAI2 : AiEntry := unknownEntry "XX" true 1 90
def unknownAI3 : AiEntry := unknownEntry "XXX" true 1 90
def unknownAI4 : AiEntry := unknownEntry "XXXX" true 1 90
def unknownAI2fixed2 : AiEntry := unknownEntry "XX" false 2 2
def unknownAI2fixed14 : AiEntry := unknownEntry "XX" false 14 14
def unknownAI2fixed16 : AiEntry := unknownEntry "XX" false 16 16
def unknownAI2fixed18 : AiEntry := unknownEntry "XX" false 18 18
def unknownAI3fixed13 : AiEntry := unknownEntry "XXX" false 13 13
def unknownAI4fixed6 : AiEntry := unknownEntry "XXXX" false 6 6

/-- The binary search loop of `gs1_lookupAIentry` over the table slots `s..e-1`.
`some r` is a `return r` from inside the loop (`r = none` is `NULL`); `none`
means the loop ended without returning. -/
def lookupLoop (aiTable : List AiEntry) (p : List Char) (ailen : Nat) :
    Nat → Nat → Nat → Option (Option AiEntry)
  | 0, _, _ => none
  | fuel + 1, s, e =>
    if s < e then
      let m := s + (e - s) / 2
      match aiTable[m]? with
      | none => none
      | some entry =>
        let entrylen := entry.ai.length
        let cmp := strncmp entry.ai p entrylen
        if cmp = 0 then
          (if ailen ≠ 0 ∧ entrylen ≠ ailen then some none else some (some entry))
        else if ailen ≠ 0 ∧ strncmp p entry.ai ailen = 0 then some none
        else if cmp < 0 then lookupLoop aiTable p ailen fuel (m + 1) e
        else lookupLoop aiTable p ailen fuel s m
    else none

/-- The vivification step of `gs1_lookupAIentry`, taken when the search found nothing. -/
def vivify (ctx : Ctx) (p : List Char) (ailen : Nat) : Option AiEntry :=
  let aiLenByPrefix := aiLengthByPrefix ctx p
  if ailen ≠ 0 ∧ aiLenByPrefix ≠ 0 ∧ aiLenByPrefix ≠ ailen then none
  else if aiLenByPrefix ≠ 0 ∧ !gs1_allDigits p aiLenByPrefix then none
  else
    let valLenByPrefix := valLengthByPrefix p
    if aiLenByPrefix = 2 ∧ valLenByPrefix = 0 then some unknownAI2
    else if aiLenByPrefix = 2 ∧ valLenByPrefix = 2 then some unknownAI2fixed2
    else if aiLenByPrefix = 2 ∧ valLenByPrefix = 14 then some unknownAI2fixed14
    else if aiLenByPrefix = 2 ∧ valLenByPrefix = 16 then some unknownAI2fixed16
    else if aiLenByPrefix = 2 ∧ valLenByPrefix = 18 then some unknownAI2fixed18
    else if aiLenByPrefix = 3 ∧ valLenByPrefix = 0 then some unknownAI3
    else if aiLenByPrefix = 3 ∧ valLenByPrefix = 13 then some unknownAI3fixed13
    else if aiLenByPrefix = 4 ∧ valLenByPrefix = 0 then some unknownAI4
    else if aiLenByPrefix = 4 ∧ valLenByPrefix = 6 then some unknownAI4fixed6
    else some unknownAI

/-- The function `gs1_lookupAIentry`; `aiTableEntries` is the length of the table. -/
def gs1_lookupAIentry (ctx : Ctx) (p : List Char) (ailen : Nat) : Option AiEntry :=
  if ailen = 1 ∨ ailen > 4 then none
  else if !gs1_allDigits p (if ailen ≠ 0 then ailen else 2) then none
  else
    match lookupLoop ctx.aiTable p ailen ctx.aiTable.length 0 ctx.aiTable.length with
    | some r => r
    | none => if !ctx.permitUnknownAIs then none else vivify ctx p ailen

/-! ## Component validation (`ai.c`) -/

/-- The bytes `"%.*s"` prints for precision `n` from the C string `s`. -/
def fmtPrec (n : Nat) (s : List Char) : List Char := s.take n

/-- The bytes `"%.*s"` prints for an `int` precision: a negative precision
is taken as if the precision were omitted. -/
def fmtPrecInt (n : Int) (s : List Char) : List Char :=
  if n < 0 then s else s.take n.toNat

/-- The cset linter that the `switch` of `validate_ai_val` selects. -/
def csetLinter (env : Env) : Cset → List Char → LintResult
  | Cset.N => env.gs1_lint_csetnumeric
  | Cset.X => env.gs1_lint_cset82
  | Cset.Y => env.gs1_lint_cset39
  | Cset.Z => env.gs1_lint_cset64

/-- The linters of a component in the order the `do ... while` loop calls
them: the cset linter, then the additional linters of the component. -/
def partLinters (env : Env) (part : AiComponent) : List (List Char → LintResult) :=
  csetLinter env part.cset :: part.linters.map env.linterFn

/-- The `do ... while` loop over the linters: the result of the first linter
that reports an error, if any. -/
def runLinters : List (List Char → LintResult) → List Char → Option LintResult
  | [], _ => none
  | l :: ls, compval =>
    if (l compval).err ≠ 0 then some (l compval) else runLinters ls compval

/-- The error exits of `validate_ai_val`. For a linter error, `errpos` is the
position after `errpos += (size_t)(p-start)` and `complen` is `strlen(compval)`. -/
inductive ValErr where
  | dataEmpty
  | tooShort
  | linter (err errpos errlen complen : Nat)
  deriving DecidableEq, Repr

/-- The `for` loop of `validate_ai_val` over the components. `start` is the
C string at the start of the value, `r` the offset of `end` and `p` the
offset of the read pointer, both from `start`. The normal exit returns `p - start`. -/
def validateParts (env : Env) (start : List Char) (r : Nat) :
    List AiComponent → Nat → Except ValErr Nat
  | [], p => Except.ok p
  | part :: parts, p =>
    let complen := if part.max < r - p then part.max else r - p
    let compval := (start.drop p).take complen
    if part.opt = true ∧ complen = 0 then validateParts env start r parts p
    else if complen < part.min then Except.error ValErr.tooShort
    else
      match runLinters (partLinters env part) compval with
      | some res => Except.error (ValErr.linter res.err (res.errpos + p) res.errlen complen)
      | none => validateParts env start r parts (p + complen)

/-- The control flow of `validate_ai_val` on the value `start[0..r)`: either the
number of bytes consumed or the error exit taken. -/
def validateAiVal (env : Env) (entry : AiEntry) (start : List Char) (r : Nat) :
    Except ValErr Nat :=
  if r = 0 then Except.error ValErr.dataEmpty
  else validateParts env start r entry.parts 0

/-- The context fields written at an error exit of `validate_ai_val`. -/
def setValErr (env : Env) (ctx : Ctx) (ai : List Char) (entry : AiEntry)
    (start : List Char) : ValErr → Ctx
  | ValErr.dataEmpty =>
    { ctx with
      errMsg := "AI (".toList ++ fmtPrec entry.ai.length ai ++ ") data is empty".toList,
      errFlag := true }
  | ValErr.tooShort =>
    { ctx with
      errMsg := "AI (".toList ++ fmtPrec entry.ai.length ai ++ ") data is too short".toList,
      errFlag := true }
  | ValErr.linter err errpos errlen complen =>
    { ctx with
      errMsg := "AI (".toList ++ fmtPrec entry.ai.length ai ++ "): ".toList ++
        env.gs1_lint_err_str err,
      linterErr := err,
      linterErrMarkup :=
        "(".toList ++ fmtPrec entry.ai.length ai ++ ")".toList ++
        fmtPrec errpos start ++ "|".toList ++
        fmtPrec errlen (start.drop errpos) ++ "|".toList ++
        fmtPrecInt ((complen : Int) - (errpos : Int) - (errlen : Int))
          (start.drop (errpos + errlen)),
      errFlag := true }

/-- The function `validate_ai_val`: the returned `size_t` (0 at every error
exit) and the context afterwards. `ai` is the C string at the AI digits. -/
def validate_ai_val (env : Env) (ctx : Ctx) (ai : List Char) (entry : AiEntry)
    (start : List Char) (r : Nat) : Nat × Ctx :=
  match validateAiVal env entry start r with
  | Except.ok n => (n, ctx)
  | Except.error e => (0, setValErr env ctx ai entry start e)

/-- The inline function `aiEntryMinLength`: minimum lengths of the mandatory components. -/
def aiEntryMinLength (entry : AiEntry) : Nat :=
  (entry.parts.map fun part => if part.opt = false then part.min else 0).sum

/-- The inline function `aiEntryMaxLength`: maximum lengths of all components. -/
def aiEntryMaxLength (entry : AiEntry) : Nat :=
  (entry.parts.map fun part => part.max).sum

/-- The function `gs1_aiValLengthContentCheck`. -/
def gs1_aiValLengthContentCheck (ctx : Ctx) (ai : List Char) (entry : AiEntry)
    (aiVal : List Char) (vallen : Nat) : Bool × Ctx :=
  if vallen < aiEntryMinLength entry then
    (false, { ctx with errMsg :=
      "AI (".toList ++ fmtPrec entry.ai.length ai ++ ") value is too short".toList })
  else if vallen > aiEntryMaxLength entry then
    (false, { ctx with errMsg :=
      "AI (".toList ++ fmtPrec entry.ai.length ai ++ ") value is too long".toList })
  else if '^' ∈ aiVal.take vallen then
    (false, { ctx with errMsg :=
      "AI (".toList ++ fmtPrec entry.ai.length ai ++ ") contains illegal ^ character".toList })
  else (true, ctx)

/-! ## Unbracketed processor (`ai.c`) -/

/-- The extracted entry that both front ends store for an AI value. -/
def mkAiValue (env : Env) (entry : AiEntry) (ai ailen value vallen : Nat) : AiValue :=
  { kind := AiValueKind.aiValue_aival, aiEntry := some entry, ai := ai,
    ailen := ailen % 256, value := value, vallen := vallen % 256,
    dlPathOrder := env.DL_PATH_ORDER_ATTRIBUTE }

/-- One pass through the body of a `while` loop: either the function returns, or the
loop goes on with a new read pointer `p` at offset `off` and a new context. -/
inductive Step where
  | ret (r : Bool × Ctx)
  | next (p : List Char) (off : Nat) (ctx : Ctx)

/-- The second half of the body of the `while (*p)` loop of `gs1_processAIdata`, from
the test of `vallen`: `res` is what `validate_ai_val` returned for the value at `p1`. -/
def processValue (env : Env) (extractAIs : Bool) (ai : List Char) (off : Nat)
    (entry : AiEntry) (p1 : List Char) (res : Nat × Ctx) : Step :=
  if res.1 = 0 then Step.ret (false, res.2)
  else if extractAIs = true ∧ res.2.aiData.length ≥ env.MAX_AIS then
    Step.ret (false, { res.2 with errMsg := "Too many AIs".toList, errFlag := true })
  else
    let ctx2 : Ctx :=
      if extractAIs = true then
        { res.2 with aiData := res.2.aiData ++
            [mkAiValue env entry off entry.ai.length (off + entry.ai.length) res.1] }
      else res.2
    let p2 := p1.drop res.1
    if entry.fnc1 = true ∧ charAt p2 0 ≠ '^' ∧ p2 ≠ [] then
      Step.ret (false, { ctx2 with
        errMsg := "AI (".toList ++ fmtPrec entry.ai.length ai ++
          ") data is too long".toList,
        errFlag := true })
    else if charAt p2 0 = '^' then
      Step.next (p2.drop 1) (off + entry.ai.length + res.1 + 1) ctx2
    else
      Step.next p2 (off + entry.ai.length + res.1) ctx2

/-- The body of the `while (*p)` loop of `gs1_processAIdata`. `p` is the C string at the
read pointer, which is not at the end, and `off` its offset in the data buffer. -/
def processStep (env : Env) (extractAIs : Bool) (p : List Char) (off : Nat) (ctx : Ctx) : Step :=
  let noAI : Ctx := { ctx with
    errMsg := "No known AI is a prefix of: ".toList ++ fmtPrec 4 p ++ "...".toList,
    errFlag := true }
  match gs1_lookupAIentry ctx p 0 with
  | none => Step.ret (false, noAI)
  | some entry =>
    if extractAIs = true ∧ entry = unknownAI then Step.ret (false, noAI)
    else
      let ai := p
      let p1 := p.drop entry.ai.length
      let r := match strchr p1 '^' with
        | some i => i
        | none => p1.length
      processValue env extractAIs ai off entry p1 (validate_ai_val env ctx ai entry p1 r)

/-- The `while (*p)` loop of `gs1_processAIdata`. -/
def processLoop (env : Env) (extractAIs : Bool) : Nat → List Char → Nat → Ctx → Bool × Ctx
  | 0, _, _, ctx => (false, ctx)
  | fuel + 1, p, off, ctx =>
    if p = [] then (true, ctx)
    else
      match processStep env extractAIs p off ctx with
      | Step.ret r => r
      | Step.next p' off' ctx' => processLoop env extractAIs fuel p' off' ctx'

/-- The function `gs1_processAIdata` on the C string `dataStr`, which starts
at offset `base` of the data buffer. -/
def gs1_processAIdata (env : Env) (ctx : Ctx) (dataStr : List Char) (base : Nat)
    (extractAIs : Bool) : Bool × Ctx :=
  let ctx0 : Ctx := { ctx with errMsg := [], errFlag := false, linterErr := 0,
                               linterErrMarkup := [] }
  if dataStr = [] ∨ charAt dataStr 0 ≠ '^' then
    (false, { ctx0 with errMsg := "Missing FNC1 in first position".toList, errFlag := true })
  else if dataStr.drop 1 = [] then
    (false, { ctx0 with errMsg := "The AI data is empty".toList, errFlag := true })
  else
    processLoop env extractAIs (dataStr.length + 1) (dataStr.drop 1) (base + 1) ctx0

/-! ## Bracketed parser (`ai.c`) -/

/-- Modelled from the spec: the macro `writeDataStr`, defined in a header that is
not among the sources. The parser appends the bytes to the normalized buffer
`data_str`, which has the fixed capacity `MAX_DATA`; a write that does not
fit makes the parse fail (`none`). -/
def writeDataStr (env : Env) (dataStr v : List Char) : Option (List Char) :=
  if dataStr.length + v.length > env.MAX_DATA then none else some (dataStr ++ v)

/-- Modelled from the spec: the macro `nwriteDataStr`, the counted form of
`writeDataStr`: it appends the first `l` bytes of `v`. -/
def nwriteDataStr (env : Env) (dataStr v : List Char) (l : Nat) : Option (List Char) :=
  if dataStr.length + l > env.MAX_DATA then none else some (dataStr ++ v.take l)

/-- The `again:` loop of `gs1_parseAIdata`: copy the value that starts at the
C string `r`, whose preceding byte is `prev`, to the end of `dataStr`. The
result is the buffer and the C string at the next unescaped bracket (or at
the end of the input); `none` is a `goto fail`. -/
def copyValue (env : Env) : Nat → List Char → Char → List Char →
    Option (List Char × List Char)
  | 0, _, _, _ => none
  | fuel + 1, r, prev, dataStr =>
    let k := match strchr r '(' with
      | some i => i
      | none => r.length
    let p := r.drop k
    if p ≠ [] ∧ (if k = 0 then prev else charAt r (k - 1)) = '\\' then
      match nwriteDataStr env dataStr r (k - 1) with
      | none => none
      | some d1 =>
        match writeDataStr env d1 "(".toList with
        | none => none
        | some d2 => copyValue env fuel (p.drop 1) '(' d2
    else
      match nwriteDataStr env dataStr r k with
      | none => none
      | some d1 => some (d1, p)

/-- One pass through the body of the `while (*p)` loop of `gs1_parseAIdata`:
`fail` is a `goto fail`, `next` the next read pointer with the flag `fnc1req`. -/
inductive ParseStep where
  | fail (ctx : Ctx)
  | next (p : List Char) (fnc1req : Bool) (ctx : Ctx)

/-- The body of the `while (*p)` loop of `gs1_parseAIdata` at the byte `c` followed by
the C string `p`. The output buffer `dataStr` is the field of the context. -/
def parseStep (env : Env) (c : Char) (p : List Char) (fnc1req : Bool) (ctx : Ctx) : ParseStep :=
  if c ≠ '(' then ParseStep.fail ctx
  else
    match strchr p ')' with
    | none => ParseStep.fail ctx
    | some ailen =>
      match gs1_lookupAIentry ctx p ailen with
      | none =>
        ParseStep.fail { ctx with errMsg := "Unrecognised AI: ".toList ++ fmtPrec ailen p }
      | some entry =>
        let ai := p
        match (if fnc1req = true then writeDataStr env ctx.dataStr "^".toList
               else some ctx.dataStr) with
        | none => ParseStep.fail ctx
        | some d1 =>
          let outai := d1.length
          match nwriteDataStr env d1 p ailen with
          | none => ParseStep.fail { ctx with dataStr := d1 }
          | some d2 =>
            let r := p.drop (ailen + 1)
            if r = [] then ParseStep.fail { ctx with dataStr := d2 }
            else
              let outval := d2.length
              match copyValue env (r.length + 1) r ')' d2 with
              | none => ParseStep.fail { ctx with dataStr := d2 }
              | some (d3, p') =>
                let chk := gs1_aiValLengthContentCheck { ctx with dataStr := d3 } ai entry
                  (d3.drop outval) (d3.drop outval).length
                if chk.1 = false then ParseStep.fail chk.2
                else if chk.2.aiData.length ≥ env.MAX_AIS then
                  ParseStep.fail { chk.2 with errMsg := "Too many AIs".toList }
                else
                  ParseStep.next p' entry.fnc1
                    { chk.2 with aiData := chk.2.aiData ++
                        [mkAiValue env entry outai ailen outval (d3.drop outval).length] }

/-- The `while (*p)` loop of `gs1_parseAIdata`; `false` is a `goto fail`. -/
def parseLoop (env : Env) : Nat → List Char → Bool → Ctx → Bool × Ctx
  | 0, _, _, ctx => (false, ctx)
  | fuel + 1, p, fnc1req, ctx =>
    match p with
    | [] => (true, ctx)
    | c :: p =>
      match parseStep env c p fnc1req ctx with
      | ParseStep.fail ctx1 => (false, ctx1)
      | ParseStep.next p' fnc1req' ctx1 => parseLoop env fuel p' fnc1req' ctx1

/-- The function `gs1_parseAIdata`; the output buffer is the `dataStr` of the context. -/
def gs1_parseAIdata (env : Env) (ctx : Ctx) (aiData : List Char) : Bool × Ctx :=
  let ctx0 : Ctx := { ctx with dataStr := [], errMsg := [], errFlag := false,
                               linterErr := 0, linterErrMarkup := [] }
  match parseLoop env (aiData.length + 1) aiData true ctx0 with
  | (true, ctx1) => gs1_processAIdata env ctx1 ctx1.dataStr 0 false
  | (false, ctx1) =>
    let ctx2 : Ctx :=
      if ctx1.errMsg = [] then { ctx1 with errMsg := "Failed to parse AI data".toList }
      else ctx1
    (false, { ctx2 with errFlag := true, dataStr := [] })

/-! ## Cross-AI validation passes (`ai.c`) -/

/-- The C string that a pointer at offset `off` of the data buffer points to. -/
def strAt (ctx : Ctx) (off : Nat) : List Char := ctx.dataStr.drop off

/-- The test `!ignoreAI || strncmp(ai2->ai, ignoreAI, strlen(ai)) != 0` of `aiExists`. -/
def notIgnored (ctx : Ctx) (ai2 : AiValue) (ai : List Char) : Option Nat → Bool
  | none => true
  | some ig => decide (strncmp (strAt ctx ai2.ai) (strAt ctx ig) ai.length ≠ 0)

/-- The loop of `aiExists` over the extracted AIs; `ai` is the pattern and
`ignoreAI` the offset of the AI to ignore, if any. On a match the result
holds the bytes that `strncpy(matchedAI, ai2->ai, strlen(ai))` copies. -/
def aiExistsLoop (ctx : Ctx) (ai : List Char) (ignoreAI : Option Nat) (prefixlen : Nat) :
    List AiValue → Option (List Char)
  | [] => none
  | ai2 :: rest =>
    if ai2.kind ≠ AiValueKind.aiValue_aival then aiExistsLoop ctx ai ignoreAI prefixlen rest
    else if strncmp (strAt ctx ai2.ai) ai prefixlen = 0 ∧
        notIgnored ctx ai2 ai ignoreAI = true then
      some ((strAt ctx ai2.ai).take ai.length)
    else aiExistsLoop ctx ai ignoreAI prefixlen rest

/-- The function `aiExists`: `some m` is `true` with `m` the matched bytes. -/
def aiExists (ctx : Ctx) (ai : List Char) (ignoreAI : Option Nat) : Option (List Char) :=
  aiExistsLoop ctx ai ignoreAI (strspnDigits ai) ctx.aiData

/-- The copy `attrs` of the attributes of an entry: `strncat` of at most
`MAX_AI_ATTR_LEN` bytes. -/
def attrsCopy (env : Env) (entry : AiEntry) : List Char := entry.attrs.take env.MAX_AI_ATTR_LEN

/-- The inner `strtok_r` loop of `validateAImutex` over the patterns of one
`ex=` token: the matched bytes of the first pattern that `aiExists` finds. -/
def mutexPatternLoop (ctx : Ctx) (ai : AiValue) : List (List Char) → Option (List Char)
  | [] => none
  | pat :: pats =>
    match aiExists ctx pat (some ai.ai) with
    | some m => some m
    | none => mutexPatternLoop ctx ai pats

/-- The outer `strtok_r` loop of `validateAImutex` over the tokens of the attributes. -/
def mutexTokenLoop (ctx : Ctx) (ai : AiValue) : List (List Char) → Option (List Char)
  | [] => none
  | token :: tokens =>
    if strncmp token "ex=".toList 3 = 0 then
      match mutexPatternLoop ctx ai (strtokAll (token.drop 3) ',') with
      | some m => some m
      | none => mutexTokenLoop ctx ai tokens
    else mutexTokenLoop ctx ai tokens

/-- The `for` loop of `validateAImutex` over the extracted AIs. -/
def mutexLoop (env : Env) (ctx : Ctx) : List AiValue → Bool × Ctx
  | [] => (true, ctx)
  | ai :: rest =>
    if ai.kind ≠ AiValueKind.aiValue_aival then mutexLoop env ctx rest
    else
      match ai.aiEntry with
      | none => mutexLoop env ctx rest
      | some entry =>
        match mutexTokenLoop ctx ai (strtokAll (attrsCopy env entry) ' ') with
        | some matchedAI =>
          (false, { ctx with
            errMsg := "It is invalid to pair AI (".toList ++ fmtPrec ai.ailen (strAt ctx ai.ai) ++
              ") with AI (".toList ++ matchedAI ++ ")".toList,
            errFlag := true })
        | none => mutexLoop env ctx rest

/-- The function `validateAImutex`. -/
def validateAImutex (env : Env) (ctx : Ctx) : Bool × Ctx := mutexLoop env ctx ctx.aiData

/-- The inner `strtok_r` loop of `validateAIrequisites`: whether some pattern
of the token is found by `aiExists`. -/
def reqPatternLoop (ctx : Ctx) (ai : AiValue) : List (List Char) → Bool
  | [] => false
  | pat :: pats =>
    match aiExists ctx pat (some ai.ai) with
    | some _ => true
    | none => reqPatternLoop ctx ai pats

/-- The bytes that `"%.*s"` prints from `reqErr` after the inner `strtok_r`
loop has run to its end: that loop has put a NUL at the end of the first pattern. -/
def reqErrText (s : List Char) : List Char :=
  s.takeWhile (· = ',') ++ (s.dropWhile (· = ',')).takeWhile (· ≠ ',')

/-- The outer `strtok_r` loop of `validateAIrequisites`: the `reqErr` text of
the first `req=` token none of whose patterns is found. -/
def reqTokenLoop (ctx : Ctx) (ai : AiValue) : List (List Char) → Option (List Char)
  | [] => none
  | token :: tokens =>
    if strncmp token "req=".toList 4 = 0 then
      if reqPatternLoop ctx ai (strtokAll (token.drop 4) ',') = true then
        reqTokenLoop ctx ai tokens
      else some (reqErrText (token.drop 4))
    else reqTokenLoop ctx ai tokens

/-- The `for` loop of `validateAIrequisites` over the extracted AIs. -/
def requisitesLoop (env : Env) (ctx : Ctx) : List AiValue → Bool × Ctx
  | [] => (true, ctx)
  | ai :: rest =>
    if ai.kind ≠ AiValueKind.aiValue_aival then requisitesLoop env ctx rest
    else
      match ai.aiEntry with
      | none => requisitesLoop env ctx rest
      | some entry =>
        match reqTokenLoop ctx ai (strtokAll (attrsCopy env entry) ' ') with
        | some reqErr =>
          (false, { ctx with
            errMsg := "Required AIs for AI (".toList ++ fmtPrec ai.ailen (strAt ctx ai.ai) ++
              ") are not satisfied: ".toList ++ reqErr,
            errFlag := true })
        | none => requisitesLoop env ctx rest

/-- The function `validateAIrequisites`. -/
def validateAIrequisites (env : Env) (ctx : Ctx) : Bool × Ctx :=
  requisitesLoop env ctx ctx.aiData

/-- The inner `for` loop of `validateAIrepeats`: whether some later entry
repeats the AI of `ai` with a different value. -/
def repeatsInner (ctx : Ctx) (ai : AiValue) : List AiValue → Bool
  | [] => false
  | ai2 :: rest =>
    if ai2.kind ≠ AiValueKind.aiValue_aival then repeatsInner ctx ai rest
    else if ai.ailen = ai2.ailen ∧ strncmp (strAt ctx ai.ai) (strAt ctx ai2.ai) ai.ailen = 0 ∧
        (ai.vallen ≠ ai2.vallen ∨
          strncmp (strAt ctx ai.value) (strAt ctx ai2.value) ai.vallen ≠ 0) then true
    else repeatsInner ctx ai rest

/-- The outer `for` loop of `validateAIrepeats`. -/
def repeatsLoop (ctx : Ctx) : List AiValue → Bool × Ctx
  | [] => (true, ctx)
  | ai :: rest =>
    if ai.kind ≠ AiValueKind.aiValue_aival then repeatsLoop ctx rest
    else if repeatsInner ctx ai rest = true then
      (false, { ctx with
        errMsg := "Multiple instances of AI (".toList ++ fmtPrec ai.ailen (strAt ctx ai.ai) ++
          ") have different values".toList,
        errFlag := true })
    else repeatsLoop ctx rest

/-- The function `validateAIrepeats`. -/
def validateAIrepeats (ctx : Ctx) : Bool × Ctx := repeatsLoop ctx ctx.aiData

/-- A call through the function pointer of a validation entry. -/
def callValidation (env : Env) (ctx : Ctx) : ValidationFn → Bool × Ctx
  | ValidationFn.validateAImutex => validateAImutex env ctx
  | ValidationFn.validateAIrequisites => validateAIrequisites env ctx
  | ValidationFn.validateAIrepeats => validateAIrepeats ctx

/-- The loop of `gs1_validateAIs` over the validation table. -/
def validateAIsLoop (env : Env) : List ValidationEntry → Ctx → Bool × Ctx
  | [], ctx => (true, ctx)
  | v :: vs, ctx =>
    match v.fn with
    | some fn =>
      if v.enabled = true then
        match callValidation env ctx fn with
        | (false, ctx1) => (false, ctx1)
        | (true, ctx1) => validateAIsLoop env vs ctx1
      else validateAIsLoop env vs ctx
    | none => validateAIsLoop env vs ctx

/-- The function `gs1_validateAIs`. -/
def gs1_validateAIs (env : Env) (ctx : Ctx) : Bool × Ctx :=
  validateAIsLoop env ctx.validationTable ctx

/-- The function `gs1_loadValidationTable`. -/
def gs1_loadValidationTable (ctx : Ctx) : Ctx :=
  { ctx with validationTable :=
      [ { locked := true, enabled := true, fn := some ValidationFn.validateAImutex },
        { locked := false, enabled := true, fn := some ValidationFn.validateAIrequisites },
        { locked := true, enabled := true, fn := some ValidationFn.validateAIrepeats } ] }

/-- The `while (*(str+1))` loop of `gs1_validateParity`: the weighted sum of
`*str - '0'` over all bytes but the last, and the last byte. -/
def parityLoop : List Char → Int → Int → Int × Char
  | [], _, parity => (parity, '\x00')
  | [c], _, parity => (parity, c)
  | c :: d :: rest, weight, parity =>
    parityLoop (d :: rest) (4 - weight) (parity + weight * ((c.toNat : Int) - 48))

/-- The function `gs1_validateParity` on a non-empty string: the result and
the string afterwards, whose last byte is recalculated when it was wrong. -/
def gs1_validateParity (str : List Char) : Bool × List Char :=
  let weight : Int := if str.length % 2 = 0 then 3 else 1
  let (sum, last) := parityLoop str weight 0
  let parity : Int := Int.tmod (10 - Int.tmod sum 10) 10
  if parity + 48 = (last.toNat : Int) then (true, str)
  else (false, str.dropLast ++ [Char.ofNat ((parity + 48) % 256).toNat])

/-- The loop of `populateAIlengthByPrefix` over the table; the error is the
failure exit, with the two bytes of the offending prefix and the array as the
entries before the offending one have filled it. -/
def populateLoop : List AiEntry → List Nat → Except (Char × Char × List Nat) (List Nat)
  | [], arr => Except.ok arr
  | e :: es, arr =>
    let pfx : Nat :=
      ((((charAt e.ai 0).toNat : Int) - 48) * 10 + (((charAt e.ai 1).toNat : Int) - 48)).emod 256
        |>.toNat
    let length := e.ai.length % 256
    if arr.getD pfx 0 ≠ 0 ∧ arr.getD pfx 0 ≠ length then
      Except.error (charAt e.ai 0, charAt e.ai 1, arr)
    else populateLoop es (arr.set pfx length)

/-- The function `populateAIlengthByPrefix`: the array is zeroed by `memset` and then
filled entry by entry, so at the failure exit it holds what the earlier entries wrote. -/
def populateAIlengthByPrefix (ctx : Ctx) : Bool × Ctx :=
  match populateLoop ctx.aiTable (List.replicate 100 0) with
  | Except.ok arr => (true, { ctx with aiLengthByPrefix := arr })
  | Except.error (c0, c1, arr) =>
    (false, { ctx with
      aiLengthByPrefix := arr,
      errMsg := "AI table is broken: AIs beginning '".toList ++ [c0, c1] ++
        "' have different lengths".toList,
      errFlag := true })

/-! ## Scan-data codec (`scandata.c`) -/

/-- One `struct symIdEntry`. -/
structure SymIdEntry where
  identifier : List Char
  aiMode : Bool
  defaultSym : Sym
  deriving DecidableEq, Repr

/-- The table `symIdTable`. -/
def symIdTable : List SymIdEntry :=
  [ { identifier := "]C1".toList, aiMode := true, defaultSym := Sym.sGS1_128_CCA },
    { identifier := "]E0".toList, aiMode := false, defaultSym := Sym.sEAN13 },
    { identifier := "]E4".toList, aiMode := false, defaultSym := Sym.sEAN8 },
    { identifier := "]e0".toList, aiMode := true, defaultSym := Sym.sDataBarExpanded },
    { identifier := "]d1".toList, aiMode := false, defaultSym := Sym.sDM },
    { identifier := "]d2".toList, aiMode := true, defaultSym := Sym.sDM },
    { identifier := "]Q1".toList, aiMode := false, defaultSym := Sym.sQR },
    { identifier := "]Q3".toList, aiMode := true, defaultSym := Sym.sQR } ]

/-- The GS byte 0x1D that stands for FNC1 in scan data. -/
def GS : Char := '\x1d'

/-- The function `scancat`: the output string after `inp` has been appended to `out`.
In GS1 mode the test `*(p - 1) == '^'` looks at the last byte of `inp`, and
`q--` then drops the last byte written so far. -/
def scancat (out inp : List Char) : List Char :=
  if charAt inp 0 = '^' then
    let written := out ++ (inp.drop 1).map (fun c => if c = '^' then GS else c)
    if inp.getLast? = some '^' then written.dropLast else written
  else
    let r := inp.dropWhile (· = '\\')
    if charAt r 0 = '^' then out ++ inp.drop 1 else out ++ inp

/-- The common body of the `gs1_normalise...` functions: strip the first
`skip` bytes when the data starts with the first `skip` bytes of `pfx`, check
the length and the digits, prepend `lead`, and check or add the check digit.
On failure the primary string is empty and the message is set. -/
def normalisePrimary (ctx : Ctx) (dataStr : List Char) (pfx : List Char) (skip : Nat)
    (digits : Nat) (lead : List Char) (msgLen msgLenNoCheck : List Char) :
    Bool × List Char × Ctx :=
  let dataStr := if dataStr.length ≥ skip ∧ strncmp dataStr pfx skip = 0
    then dataStr.drop skip else dataStr
  if ctx.addCheckDigit = false ∧ dataStr.length ≠ digits then
    (false, [], { ctx with errMsg := msgLen, errFlag := true })
  else if ctx.addCheckDigit = true ∧ dataStr.length ≠ digits - 1 then
    (false, [], { ctx with errMsg := msgLenNoCheck, errFlag := true })
  else if gs1_allDigits dataStr 0 = false then
    (false, [], { ctx with errMsg := "Primary data must be all digits".toList, errFlag := true })
  else
    let primaryStr := lead ++ dataStr ++ (if ctx.addCheckDigit = true then "-".toList else [])
    let (ok, primaryStr) := gs1_validateParity primaryStr
    if ok = false ∧ ctx.addCheckDigit = false then
      (false, [], { ctx with errMsg := "Primary data check digit is incorrect".toList,
                             errFlag := true })
    else (true, primaryStr, ctx)

/-- The function `gs1_normaliseEAN13`, for EAN-13 and UPC-A. -/
def gs1_normaliseEAN13 (ctx : Ctx) (dataStr : List Char) : Bool × List Char × Ctx :=
  let digits : Nat := if ctx.sym = Sym.sEAN13 then 13 else 12
  normalisePrimary ctx dataStr "^0100".toList (17 - digits) digits
    (if ctx.sym = Sym.sEAN13 then [] else ['0'])
    ("Primary data must be ".toList ++ Nat.toDigits 10 digits ++ " digits".toList)
    ("Primary data must be ".toList ++ Nat.toDigits 10 (digits - 1) ++
      " digits without check digit".toList)

/-- The function `gs1_normaliseEAN8`. -/
def gs1_normaliseEAN8 (ctx : Ctx) (dataStr : List Char) : Bool × List Char × Ctx :=
  normalisePrimary ctx dataStr "^01000000".toList 9 8 []
    "Primary data must be 8 digits".toList
    "Primary data must be 7 digits without check digit".toList

/-- The function `gs1_normaliseUPCE`. -/
def gs1_normaliseUPCE (ctx : Ctx) (dataStr : List Char) : Bool × List Char × Ctx :=
  normalisePrimary ctx dataStr "^0100".toList 5 12 []
    "Primary data must be 12 digits".toList
    "Primary data must be 11 digits without check digit".toList

/-- The function `gs1_normaliseRSS14`. -/
def gs1_normaliseRSS14 (ctx : Ctx) (dataStr : List Char) : Bool × List Char × Ctx :=
  normalisePrimary ctx dataStr "^01".toList 3 14 []
    "Primary data must be a GTIN-14".toList
    "Primary data must be a GTIN-14 without check digit".toList

/-- The value `atof` reads from a string of decimal digits: the number denoted
by the leading digits. Up to 14 digits it is represented exactly. -/
def atofDigits (s : List Char) : Nat :=
  (s.takeWhile isDigit).foldl (fun acc c => acc * 10 + (c.toNat - 48)) 0

/-- The function `gs1_normaliseRSSLim`. -/
def gs1_normaliseRSSLim (ctx : Ctx) (dataStr : List Char) : Bool × List Char × Ctx :=
  match normalisePrimary ctx dataStr "^01".toList 3 14 []
      "Primary data must be 14 digits".toList
      "Primary data must be 13 digits without check digit".toList with
  | (false, primaryStr, ctx1) => (false, primaryStr, ctx1)
  | (true, primaryStr, ctx1) =>
    if atofDigits primaryStr > 19999999999999 then
      (false, [], { ctx1 with errMsg := "Primary data item value is too large".toList,
                              errFlag := true })
    else (true, primaryStr, ctx1)

/-- The loop of `gs1_generateScanData` that finds whether the last AI of the
linear component requires FNC1: it runs over the leading extracted entries
that have an AI table entry. -/
def lastAIfnc1Loop : List AiValue → Bool → Bool
  | [], acc => acc
  | v :: vs, acc =>
    match v.aiEntry with
    | none => acc
    | some entry => lastAIfnc1Loop vs entry.fnc1

/-- The `switch` of `gs1_generateScanData`. `linear` is the C string
`ctx->dataStr` while the delimiter is overwritten and `cc` the composite part.
The result holds whether the exit is `ret = ctx->outStr` (not `goto fail`),
the context with `outStr` written, and whether `*--cc = '|'` has been run. -/
def generateSwitch (ctx : Ctx) (linear : List Char) (cc : Option (List Char)) :
    Bool × Ctx × Bool :=
  let ccOk : Bool := match cc with
    | none => true
    | some c => decide (charAt c 0 = '^')
  let ccCat (out : List Char) (pre : List Char) : List Char := match cc with
    | none => out
    | some c => scancat (out ++ pre) c
  match ctx.sym with
  | Sym.sNONE => (true, ctx, false)
  | Sym.sQR | Sym.sDM =>
    if charAt linear 0 = '^' then
      (true, { ctx with outStr := scancat (if ctx.sym = Sym.sQR then "]Q3".toList
                                           else "]d2".toList) linear }, false)
    else
      let whole := match cc with
        | none => linear
        | some c => linear ++ '|' :: c
      (true, { ctx with outStr := scancat (if ctx.sym = Sym.sQR then "]Q1".toList
                                           else "]d1".toList) whole }, cc.isSome)
  | Sym.sGS1_128_CCA | Sym.sGS1_128_CCC | Sym.sDataBarExpanded =>
    if cc.isNone ∧ ctx.sym ≠ Sym.sDataBarExpanded then
      if charAt linear 0 ≠ '^' then (false, ctx, false)
      else (true, { ctx with outStr := scancat "]C1".toList linear }, false)
    else if charAt linear 0 ≠ '^' then (false, ctx, false)
    else
      let out := scancat "]e0".toList linear
      if ccOk = false then (false, { ctx with outStr := out }, false)
      else
        let sep : List Char := if lastAIfnc1Loop ctx.aiData false = true then [GS] else []
        (true, { ctx with outStr := ccCat out sep }, false)
  | Sym.sDataBarOmni | Sym.sDataBarTruncated | Sym.sDataBarStacked
  | Sym.sDataBarStackedOmni | Sym.sDataBarLimited =>
    let (_, primaryStr, ctx1) :=
      if ctx.sym = Sym.sDataBarLimited then gs1_normaliseRSSLim ctx linear
      else gs1_normaliseRSS14 ctx linear
    if primaryStr = [] then (false, ctx1, false)
    else
      let out := scancat "]e001".toList primaryStr
      if ccOk = false then (false, { ctx1 with outStr := out }, false)
      else (true, { ctx1 with outStr := ccCat out [] }, false)
  | Sym.sUPCA | Sym.sUPCE | Sym.sEAN13 | Sym.sEAN8 =>
    let ((_, primaryStr, ctx1), pfx) :=
      if ctx.sym = Sym.sEAN8 then (gs1_normaliseEAN8 ctx linear, "]E4".toList)
      else if ctx.sym = Sym.sUPCE then (gs1_normaliseUPCE ctx linear, "]E00".toList)
      else (gs1_normaliseEAN13 ctx linear, "]E0".toList)
    if primaryStr = [] then (false, ctx1, false)
    else
      let out := scancat pfx primaryStr
      if ccOk = false then (false, { ctx1 with outStr := out }, false)
      else (true, { ctx1 with outStr := ccCat out "|]e0".toList }, false)

/-- The function `gs1_generateScanData`: the returned string (`none` is `NULL`)
and the context afterwards. The delimiter `|` of `dataStr` is overwritten by a
NUL during the call; at `out:` the byte before `cc` is set to `|` again. When
`*--cc = '|'` has been run, `cc - 1` is the byte before the delimiter; a
delimiter at offset 0 makes that a byte outside `dataStr`, which is left as it is. -/
def gs1_generateScanData (ctx : Ctx) : Option (List Char) × Ctx :=
  let ctx0 : Ctx := { ctx with outStr := [] }
  match strchr ctx.dataStr '|' with
  | none =>
    match generateSwitch ctx0 ctx.dataStr none with
    | (true, ctx1, _) => (some ctx1.outStr, ctx1)
    | (false, ctx1, _) => (none, ctx1)
  | some i =>
    let (ok, ctx1, moved) :=
      generateSwitch { ctx0 with dataStr := ctx.dataStr.take i } (ctx.dataStr.take i)
        (some (ctx.dataStr.drop (i + 1)))
    let restored : List Char :=
      if moved = true then (if i = 0 then ctx.dataStr else ctx.dataStr.set (i - 1) '|')
      else ctx.dataStr
    let ctx2 : Ctx := { ctx1 with dataStr := restored }
    if ok = true then (some ctx2.outStr, ctx2) else (none, ctx2)

/-- The loop of `gs1_processScanData` over `symIdTable`: the first entry whose
identifier equals the first three bytes of the scan data. -/
def findSymId (scanData : List Char) : List SymIdEntry → Option SymIdEntry
  | [] => none
  | entry :: rest =>
    if strncmp scanData entry.identifier 3 ≠ 0 then findSymId scanData rest
    else some entry

/-- The `fail:` exit of `gs1_processScanData`. -/
def scanFail (ctx : Ctx) : Bool × Ctx :=
  (false, { ctx with dataStr := [], sym := Sym.sNONE, errFlag := true })

/-- The AI-mode part of `gs1_processScanData`: `pre` is what `dataStr` holds
before `q` (empty, or the primary and the delimiter) and `scanData` the AI data. -/
def processScanAI (env : Env) (ctx : Ctx) (pre scanData : List Char) : Bool × Ctx :=
  if '^' ∈ scanData then
    scanFail { ctx with dataStr := pre ++ ['^'],
                        errMsg := "Scan data contains illegal ^ character".toList }
  else
    let q := '^' :: scanData.map (fun c => if c = GS then '^' else c)
    let ctx1 : Ctx := { ctx with dataStr := pre ++ q }
    match gs1_processAIdata env ctx1 q pre.length true with
    | (false, ctx2) => scanFail ctx2
    | (true, ctx2) => (true, ctx2)

/-- The plain-data part of `gs1_processScanData`. -/
def processScanPlain (env : Env) (ctx : Ctx) (scanData : List Char) : Bool × Ctx :=
  let q := scanData.dropWhile (· = '\\')
  let dataStr := if charAt q 0 = '^' then '\\' :: scanData else scanData
  let ctx1 : Ctx := { ctx with dataStr := dataStr }
  if (dataStr.length ≥ 8 ∧ strncmp dataStr "https://".toList 8 = 0) ∨
     (dataStr.length ≥ 7 ∧ strncmp dataStr "http://".toList 7 = 0) then
    match env.gs1_parseDLuri ctx1 with
    | (false, ctx2) => scanFail ctx2
    | (true, ctx2) => (true, ctx2)
  else (true, ctx1)

/-- The function `gs1_processScanData`. -/
def gs1_processScanData (env : Env) (ctx : Ctx) (scanData : List Char) : Bool × Ctx :=
  let ctx0 : Ctx := { ctx with sym := Sym.sNONE, dataStr := [], aiData := [], errMsg := [],
                               errFlag := false, linterErr := 0, linterErrMarkup := [] }
  if charAt scanData 0 ≠ ']' ∨ scanData.length < 3 then
    scanFail { ctx0 with errMsg := "Missing symbology identifier".toList }
  else
    match findSymId scanData symIdTable with
    | none => scanFail { ctx0 with errMsg := "Unsupported symbology identifier".toList }
    | some entry =>
      let scanData := scanData.drop 3
      let ctx1 : Ctx := { ctx0 with sym := entry.defaultSym }
      if entry.defaultSym = Sym.sEAN13 ∨ entry.defaultSym = Sym.sEAN8 then
        let primaryLen : Nat := if entry.defaultSym = Sym.sEAN13 then 13 else 8
        if scanData.length < primaryLen then
          scanFail { ctx1 with errMsg := "Primary scan data is too short".toList }
        else
          let hasCC : Bool := decide (scanData.length ≥ primaryLen + 4 ∧
            strncmp (scanData.drop primaryLen) "|]e0".toList 4 = 0)
          if hasCC = false ∧ scanData.length > primaryLen then
            scanFail { ctx1 with errMsg := "Primary message is too long".toList }
          else
            let p := scanData.take primaryLen
            if gs1_allDigits p 0 = false then
              scanFail { ctx1 with
                dataStr := p,
                errMsg := "Primary message number only contain digits".toList }
            else
              match gs1_validateParity p with
              | (false, p') =>
                scanFail { ctx1 with
                  dataStr := p',
                  errMsg := "Primary message check digit is incorrect".toList }
              | (true, p') =>
                if hasCC = false then (true, { ctx1 with dataStr := p' })
                else processScanAI env ctx1 (p' ++ ['|']) (scanData.drop (primaryLen + 4))
      else if entry.aiMode = true then processScanAI env ctx1 [] scanData
      else processScanPlain env ctx1 scanData

/-- Lexicographic order of C strings by byte value, the order of `strcmp`. -/
def aiLt : List Char → List Char → Bool
  | [], [] => false
  | [], _ :: _ => true
  | _ :: _, [] => false
  | a :: as, b :: bs => if a = b then aiLt as bs else decide (a.toNat < b.toNat)

/-- An AI of the data model: at least two bytes, all of them digits. -/
def IsAI (ai : List Char) : Prop := 2 ≤ ai.length ∧ ∀ c ∈ ai, isDigit c = true

instance (ai : List Char) : Decidable (IsAI ai) := by unfold IsAI; infer_instance

/-- Invariant I5: the table is sorted by `ai`, each entry strictly before the next ones. -/
def TableSorted (t : List AiEntry) : Prop :=
  t.Pairwise (fun e1 e2 => aiLt e1.ai e2.ai = true)

/-- Invariant I1: all AIs sharing a two-digit prefix have the same length. -/
def SameLengthPerPrefix (t : List AiEntry) : Prop :=
  ∀ e1 ∈ t, ∀ e2 ∈ t, e1.ai.take 2 = e2.ai.take 2 → e1.ai.length = e2.ai.length

instance (t : List AiEntry) : Decidable (TableSorted t) := by unfold TableSorted; infer_instance

instance (t : List AiEntry) : Decidable (SameLengthPerPrefix t) := by
  unfold SameLengthPerPrefix; infer_instance

/-! ## Example data

A small AI table in the style of the embedded one, a linter library and a
context over them, used to evaluate the embedding on concrete inputs. -/

/-- A character-set linter: the first byte that fails `ok` is reported with error `kind`. -/
def lintCset (ok : Char → Bool) (kind : Nat) (s : List Char) : LintResult :=
  match s.findIdx? (fun c => !ok c) with
  | none => { err := 0, errpos := 0, errlen := 0 }
  | some i => { err := kind, errpos := i, errlen := 1 }

/-- The 82-character set: punctuation, digits, letters and the underscore. -/
def inCset82 (c : Char) : Bool :=
  let n := c.toNat
  n = 33 || n = 34 || (37 ≤ n && n ≤ 63) || (65 ≤ n && n ≤ 90) || n = 95 || (97 ≤ n && n ≤ 122)

/-- The 39-character set: hash, hyphen, slash, digits and capital letters. -/
def inCset39 (c : Char) : Bool :=
  let n := c.toNat
  n = 35 || n = 45 || (47 ≤ n && n ≤ 57) || (65 ≤ n && n ≤ 90)

/-- The 64-character set of base64url with `=` padding. -/
def inCset64 (c : Char) : Bool :=
  let n := c.toNat
  n = 45 || (48 ≤ n && n ≤ 57) || n = 61 || (65 ≤ n && n ≤ 90) || n = 95 || (97 ≤ n && n ≤ 122)

/-- A check-digit linter: error 8 on the last byte when it is not the check digit. -/
def lintCsum (s : List Char) : LintResult :=
  if s ≠ [] ∧ (gs1_validateParity s).1 = true then { err := 0, errpos := 0, errlen := 0 }
  else { err := 8, errpos := s.length - 1, errlen := 1 }

/-- The example environment: linter 1 is the check-digit linter, the others accept. -/
def demoEnv : Env :=
  { MAX_AIS := 64, MAX_DATA := 8191, MAX_AI_ATTR_LEN := 64, DL_PATH_ORDER_ATTRIBUTE := 0,
    gs1_lint_csetnumeric := lintCset isDigit 1,
    gs1_lint_cset82 := lintCset inCset82 2,
    gs1_lint_cset39 := lintCset inCset39 3,
    gs1_lint_cset64 := lintCset inCset64 5,
    linterFn := fun l s => if l = 1 then lintCsum s else { err := 0, errpos := 0, errlen := 0 },
    gs1_lint_err_str := fun n => "linter error ".toList ++ Nat.toDigits 10 n,
    gs1_parseDLuri := fun ctx => (false, ctx) }

/-- A table entry from its AI, FNC1 flag, components and attributes. -/
def mkEntry (ai : String) (fnc1 : Bool) (parts : List AiComponent) (attrs : String) : AiEntry :=
  { ai := ai.toList, fnc1 := fnc1, parts := parts, attrs := attrs.toList, title := [] }

/-- A mandatory component. -/
def man (cset : Cset) (mn mx : Nat) (linters : List LinterRef) : AiComponent :=
  { cset := cset, min := mn, max := mx, opt := false, linters := linters }

/-- An optional component. -/
def optc (cset : Cset) (mn mx : Nat) (linters : List LinterRef) : AiComponent :=
  { cset := cset, min := mn, max := mx, opt := true, linters := linters }

def e00 : AiEntry := mkEntry "00" false [man Cset.N 18 18 [1]] ""
def e01 : AiEntry := mkEntry "01" false [man Cset.N 14 14 [1]] "ex=02,255,37"
def e02 : AiEntry := mkEntry "02" false [man Cset.N 14 14 [1]] "req=37"
def e10 : AiEntry := mkEntry "10" true [man Cset.X 1 20 []] ""
def e11 : AiEntry := mkEntry "11" false [man Cset.N 6 6 []] ""
def e21 : AiEntry := mkEntry "21" true [man Cset.X 1 20 []] "req=01,8006 ex=235"
def e235 : AiEntry := mkEntry "235" true [man Cset.X 1 28 []] ""
def e242 : AiEntry := mkEntry "242" true [man Cset.N 1 6 []] ""
def e255 : AiEntry :=
  mkEntry "255" true [man Cset.N 13 13 [1], optc Cset.N 1 12 []] "ex=01,02"
def e37 : AiEntry := mkEntry "37" true [man Cset.N 1 8 []] "req=02,8026"
def e3940 : AiEntry := mkEntry "3940" true [man Cset.N 4 4 []] "ex=394n,8111 req=255"
def e3941 : AiEntry := mkEntry "3941" true [man Cset.N 4 4 []] "ex=394n,8111 req=255"
def e7007 : AiEntry := mkEntry "7007" true [man Cset.N 6 6 [], optc Cset.N 6 6 []] ""
def e8111 : AiEntry := mkEntry "8111" true [man Cset.N 4 4 []] "req=255"
def e99 : AiEntry := mkEntry "99" true [man Cset.X 1 90 []] ""

/-- The example AI table, sorted by AI. -/
def demoTable : List AiEntry :=
  [e00, e01, e02, e10, e11, e21, e235, e242, e255, e37, e3940, e3941, e7007, e8111, e99]

/-- The example context: the example table, its prefix lengths, the default
validation table, no data and no extracted AIs. -/
def demoCtx : Ctx :=
  { sym := Sym.sNONE, dataStr := [], outStr := [], dlAIbuffer := [], aiData := [],
    errMsg := [], errFlag := false, linterErr := 0, linterErrMarkup := [],
    permitUnknownAIs := false, addCheckDigit := false, aiTable := demoTable,
    aiLengthByPrefix := (populateAIlengthByPrefix
      { sym := Sym.sNONE, dataStr := [], outStr := [], dlAIbuffer := [], aiData := [],
        errMsg := [], errFlag := false, linterErr := 0, linterErrMarkup := [],
        permitUnknownAIs := false, addCheckDigit := false, aiTable := demoTable,
        aiLengthByPrefix := [], validationTable := [] }).2.aiLengthByPrefix,
    validationTable :=
      [ { locked := true, enabled := true, fn := some ValidationFn.validateAImutex },
        { locked := false, enabled := true, fn := some ValidationFn.validateAIrequisites },
        { locked := true, enabled := true, fn := some ValidationFn.validateAIrepeats } ] }

/-- The slices of the walk that C3 describes: each component is given the next
`min(remaining, component.max)` bytes of the value. -/
def componentSlices : List Char → List AiComponent → List (AiComponent × List Char)
  | _, [] => []
  | value, part :: parts =>
    (part, value.take part.max) :: componentSlices (value.drop part.max) parts

/-- A component fails on its slice: it is mandatory or its slice is not empty, and the
slice is shorter than `min` or one of its linters (cset linter first) rejects the slice. -/
def componentFails (env : Env) (part : AiComponent) (slice : List Char) : Prop :=
  (part.opt = false ∨ slice ≠ []) ∧
    (slice.length < part.min ∨ ∃ l ∈ partLinters env part, (l slice).err ≠ 0)

/-- The slice `(part, slice)` is the first of `slices` on which its component fails. -/
def FirstFailing (env : Env) (slices : List (AiComponent × List Char))
    (part : AiComponent) (slice : List Char) : Prop :=
  ∃ pre post, slices = pre ++ (part, slice) :: post ∧
    (∀ q ∈ pre, ¬ componentFails env q.1 q.2) ∧ componentFails env part slice

/-- The linter `l` is the first linter of the component that rejects the slice. -/
def FirstRejecting (env : Env) (part : AiComponent) (slice : List Char)
    (l : List Char → LintResult) : Prop :=
  ∃ lpre lpost, partLinters env part = lpre ++ l :: lpost ∧
    (∀ l' ∈ lpre, (l' slice).err = 0) ∧ (l slice).err ≠ 0

/-- A C string of the model holds no NUL byte. -/
def NoNul (s : List Char) : Prop := ∀ c ∈ s, c.toNat ≠ 0

instance (s : List Char) : Decidable (NoNul s) := by unfold NoNul; infer_instance

/-- The patterns of the `ex=` tokens of an entry, in the order the pass reads them from
its copy of the attributes. -/
def exPatterns (env : Env) (entry : AiEntry) : List (List Char) :=
  ((strtokAll (attrsCopy env entry) ' ').filter
    (fun token => decide (strncmp token "ex=".toList 3 = 0))).flatMap
    (fun token => strtokAll (token.drop 3) ',')

/-- The leading digit run of a pattern. -/
def digitRun (b : List Char) : List Char := b.takeWhile isDigit

/-- The AI digits of an extracted AI. -/
def aiDigits (ctx : Ctx) (x : AiValue) : List Char := (strAt ctx x.ai).take x.ailen

/-- The mutual exclusion condition in the words of C9: an extracted AI `a`, a pattern `b`
of an `ex=` token of its entry and an extracted AI `x` with other AI digits such that the
digit run of `b` equals the same-length prefix of the AI digits of `x`. -/
def MutexStated (env : Env) (ctx : Ctx) : Prop :=
  ∃ a ∈ ctx.aiData, a.kind = AiValueKind.aiValue_aival ∧
    ∃ entry, a.aiEntry = some entry ∧ ∃ b ∈ exPatterns env entry,
      ∃ x ∈ ctx.aiData, x.kind = AiValueKind.aiValue_aival ∧
        aiDigits ctx x ≠ aiDigits ctx a ∧
        digitRun b = (aiDigits ctx x).take (digitRun b).length

/-- The mutual exclusion condition that the code tests: the digit run of `b` equals the
bytes of the same length found at the AI of `x` (AI digits, then value), and the first
`len(b)` bytes found at the AI of `x` differ from those found at the AI of `a`. -/
def MutexBytes (env : Env) (ctx : Ctx) : Prop :=
  ∃ a ∈ ctx.aiData, a.kind = AiValueKind.aiValue_aival ∧
    ∃ entry, a.aiEntry = some entry ∧ ∃ b ∈ exPatterns env entry,
      ∃ x ∈ ctx.aiData, x.kind = AiValueKind.aiValue_aival ∧
        (strAt ctx x.ai).take (digitRun b).length = digitRun b ∧
        (strAt ctx x.ai).take b.length ≠ (strAt ctx a.ai).take b.length

/-- The data buffer and the attributes of the entries of the extracted AIs are C strings. -/
def WellFormedStrings (ctx : Ctx) : Prop :=
  NoNul ctx.dataStr ∧ ∀ a ∈ ctx.aiData, ∀ entry ∈ a.aiEntry, NoNul entry.attrs

instance (ctx : Ctx) : Decidable (WellFormedStrings ctx) := by
  unfold WellFormedStrings; infer_instance

/-- A table in which the entry of AI 3940 excludes the two-byte pattern `39`. -/
def shortPatternTable : List AiEntry :=
  [mkEntry "3940" true [man Cset.N 4 4 []] "ex=39", mkEntry "3941" true [man Cset.N 4 4 []] ""]

/-- The example context with `shortPatternTable` before any data is processed. -/
def shortPatternCtx0 : Ctx :=
  { demoCtx with aiTable := shortPatternTable, dataStr := "^39401234^39419999".toList }

/-- The context after `^39401234^39419999` has been processed with `shortPatternTable`. -/
def shortPatternCtx : Ctx :=
  { shortPatternCtx0 with
    aiData := [mkAiValue demoEnv (mkEntry "3940" true [man Cset.N 4 4 []] "ex=39") 1 4 5 4,
               mkAiValue demoEnv (mkEntry "3941" true [man Cset.N 4 4 []] "") 10 4 14 4] }

/-- The example context after `^39401234^39419999` has been processed with the example table. -/
def mutexDemoCtx : Ctx :=
  { demoCtx with
    dataStr := "^39401234^39419999".toList,
    aiData := [mkAiValue demoEnv e3940 1 4 5 4, mkAiValue demoEnv e3941 10 4 14 4] }

/-- The context after `^39419999^39401234` has been processed with `shortPatternTable`:
the AIs of `shortPatternCtx` in the other order. -/
def shortPatternCtxRev : Ctx :=
  { shortPatternCtx0 with
    dataStr := "^39419999^39401234".toList,
    aiData := [mkAiValue demoEnv (mkEntry "3941" true [man Cset.N 4 4 []] "") 1 4 5 4,
               mkAiValue demoEnv (mkEntry "3940" true [man Cset.N 4 4 []] "ex=39") 10 4 14 4] }

/-- The example context after `^39419999^39401234` has been processed with the example table. -/
def mutexDemoCtxRev : Ctx :=
  { demoCtx with
    dataStr := "^39419999^39401234".toList,
    aiData := [mkAiValue demoEnv e3941 1 4 5 4, mkAiValue demoEnv e3940 10 4 14 4] }

/-- Two contexts have the same AI table and lookup configuration. -/
def SameConfig (c1 c2 : Ctx) : Prop :=
  c1.aiTable = c2.aiTable ∧ c1.permitUnknownAIs = c2.permitUnknownAIs ∧
    c1.aiLengthByPrefix = c2.aiLengthByPrefix

instance (c1 c2 : Ctx) : Decidable (SameConfig c1 c2) := by unfold SameConfig; infer_instance

/-- Two contexts have the same configuration and the same extracted AIs. -/
def SameAIs (c1 c2 : Ctx) : Prop := SameConfig c1 c2 ∧ c1.aiData = c2.aiData

/-- The second context differs from the first at most in the extracted AIs and the
error fields. -/
def SameButAIs (c1 c2 : Ctx) : Prop :=
  c2.sym = c1.sym ∧ c2.dataStr = c1.dataStr ∧ c2.outStr = c1.outStr ∧
    c2.dlAIbuffer = c1.dlAIbuffer ∧ c2.permitUnknownAIs = c1.permitUnknownAIs ∧
    c2.addCheckDigit = c1.addCheckDigit ∧ c2.aiTable = c1.aiTable ∧
    c2.aiLengthByPrefix = c1.aiLengthByPrefix ∧ c2.validationTable = c1.validationTable

/-- The context that a loop step hands on or returns. -/
def Step.ctxOf : Step → Ctx
  | Step.ret r => r.2
  | Step.next _ _ c => c

/-- Two loop steps do the same thing, with contexts related by `R`. -/
def StepRel (R : Ctx → Ctx → Prop) : Step → Step → Prop
  | Step.ret r1, Step.ret r2 => r1.1 = r2.1 ∧ R r1.2 r2.2
  | Step.next p1 o1 c1, Step.next p2 o2 c2 => p1 = p2 ∧ o1 = o2 ∧ R c1 c2
  | _, _ => False

/-- The AI-mode symbology identifiers of `symIdTable` with their default symbologies. -/
def aiModeIds : List (List Char × Sym) :=
  [("]C1".toList, Sym.sGS1_128_CCA), ("]e0".toList, Sym.sDataBarExpanded),
   ("]d2".toList, Sym.sDM), ("]Q3".toList, Sym.sQR)]

/-- The unbracketed string that AI-mode scan data with body `B` stands for: a leading
`^`, then the body with every GS byte replaced by `^`. -/
def scanBodyToData (B : List Char) : List Char :=
  '^' :: B.map (fun c => if c = GS then '^' else c)

/-- One `(AI)value` segment of a bracketed input: the entry that the lookup of the AI
gave, the AI digits between the brackets, and the value as written, with its escapes. -/
structure Segment where
  entry : AiEntry
  ai : List Char
  raw : List Char
  deriving DecidableEq, Repr

/-- The value with every escaped bracket `\(` replaced by `(`. -/
def unescape : List Char → List Char
  | [] => []
  | [c] => [c]
  | c :: d :: rest =>
    if c = '\\' ∧ d = '(' then '(' :: unescape rest else c :: unescape (d :: rest)

/-- The normalized text of a list of segments: for each segment the AI digits and the
unescaped value, preceded by one `^` when `sep` holds; `sep` is given for the first
segment and is the FNC1 flag of the preceding entry for the others. -/
def renderSegments : Bool → List Segment → List Char
  | _, [] => []
  | sep, s :: rest =>
    (if sep = true then ['^'] else []) ++ s.ai ++ unescape s.raw ++
      renderSegments s.entry.fnc1 rest

/-- The extracted AIs of a list of segments whose normalized text starts at offset `off`. -/
def segAiValues (env : Env) : Nat → Bool → List Segment → List AiValue
  | _, _, [] => []
  | off, sep, s :: rest =>
    mkAiValue env s.entry (off + (if sep = true then 1 else 0)) s.ai.length
        (off + (if sep = true then 1 else 0) + s.ai.length) (unescape s.raw).length ::
      segAiValues env
        (off + (if sep = true then 1 else 0) + s.ai.length + (unescape s.raw).length)
        s.entry.fnc1 rest

/-- Every bracket of a value is escaped: each `(` follows a backslash, where `prev` is
the byte before the value. -/
def noBareBracket : Char → List Char → Bool
  | _, [] => true
  | prev, c :: cs => (decide (c ≠ '(') || decide (prev = '\\')) && noBareBracket c cs

/-- The input is the concatenation of the segments `(AI)value`, each AI is looked up with
its length and gives the entry of its segment, every bracket inside a value is escaped,
and the bracket that opens the next segment is not. -/
def ParsedAs (ctx : Ctx) : List Char → List Segment → Prop
  | input, [] => input = []
  | input, s :: rest =>
    ∃ input', input = '(' :: s.ai ++ ')' :: s.raw ++ input' ∧ ')' ∉ s.ai ∧
      gs1_lookupAIentry ctx (s.ai ++ ')' :: s.raw ++ input') s.ai.length = some s.entry ∧
      noBareBracket ')' s.raw = true ∧
      (input' ≠ [] → charAt input' 0 = '(' ∧ s.raw.getLast? ≠ some '\\') ∧
      ParsedAs ctx input' rest

/-- The pre-linter gate holds for the unescaped value of the segment. -/
def GateOk (s : Segment) : Prop :=
  aiEntryMinLength s.entry ≤ (unescape s.raw).length ∧
    (unescape s.raw).length ≤ aiEntryMaxLength s.entry ∧ '^' ∉ unescape s.raw

/-- The offset `r` of the next `^`, or of the end of the string, that
`gs1_processAIdata` computes for the C string `p1`. -/
def caretIndex (p1 : List Char) : Nat :=
  match strchr p1 '^' with
  | some i => i
  | none => p1.length

/-- What the parity proof uses of a parsed segment: its entry is in the table, the AI of
the entry is the AI of the segment, and the gate holds for its value. -/
def SegOk (ctx : Ctx) (s : Segment) : Prop :=
  s.entry ∈ ctx.aiTable ∧ s.entry.ai = s.ai ∧ GateOk s

/-- The symbologies whose primary data is a GTIN-14 sent as AI (01). -/
def dataBarSyms : List Sym :=
  [Sym.sDataBarOmni, Sym.sDataBarTruncated, Sym.sDataBarStacked, Sym.sDataBarStackedOmni,
   Sym.sDataBarLimited]

/-- The symbologies that carry AI data under an AI-mode symbology identifier. -/
def aiSyms : List Sym :=
  [Sym.sQR, Sym.sDM, Sym.sGS1_128_CCA, Sym.sGS1_128_CCC, Sym.sDataBarExpanded] ++ dataBarSyms

/-- The context holds AI data that the processor accepts, for a symbology that sends it
under an AI-mode identifier: `dataStr` begins with `^`, does not end with `^`, has no GS
byte, and `aiData` is the list that `gs1_processAIdata` extracts from it. -/
def AiDataState (env : Env) (ctx : Ctx) : Prop :=
  ctx.sym ∈ aiSyms ∧ charAt ctx.dataStr 0 = '^' ∧ GS ∉ ctx.dataStr ∧
    ctx.dataStr.getLast? ≠ some '^' ∧
    (gs1_processAIdata env { ctx with aiData := [] } ctx.dataStr 0 true).1 = true ∧
    (gs1_processAIdata env { ctx with aiData := [] } ctx.dataStr 0 true).2.aiData = ctx.aiData

/-- The context holds plain data for QR or Data Matrix, or the primary digits for EAN-13
or EAN-8: `dataStr` does not begin with `^`, `http://` or `https://`, and there are no
extracted AIs. -/
def PlainDataState (ctx : Ctx) : Prop :=
  ctx.sym ∈ [Sym.sQR, Sym.sDM, Sym.sEAN13, Sym.sEAN8] ∧ charAt ctx.dataStr 0 ≠ '^' ∧
    ¬ "http://".toList <+: ctx.dataStr ∧ ¬ "https://".toList <+: ctx.dataStr ∧
    ctx.aiData = []

instance (env : Env) (ctx : Ctx) : Decidable (AiDataState env ctx) := by
  unfold AiDataState; infer_instance

instance (ctx : Ctx) : Decidable (PlainDataState ctx) := by
  unfold PlainDataState; infer_instance

/-- The `req=` tokens of an entry, in the order the pass reads them from its copy of the
attributes. -/
def reqTokens (env : Env) (entry : AiEntry) : List (List Char) :=
  (strtokAll (attrsCopy env entry) ' ').filter
    (fun token => decide (strncmp token "req=".toList 4 = 0))

/-- The comma-separated patterns of a `req=` token. -/
def reqPatterns (token : List Char) : List (List Char) := strtokAll (token.drop 4) ','

/-- The requisites condition in the words of C11, with "matched" and "other than a" as C9
words them: for every extracted AI `a` and every `req=` token of its entry, some pattern
`b` of the token and some extracted AI `x` with other AI digits are such that the digit
run of `b` equals the same-length prefix of the AI digits of `x`. -/
def ReqStated (env : Env) (ctx : Ctx) : Prop :=
  ∀ a ∈ ctx.aiData, a.kind = AiValueKind.aiValue_aival →
    ∀ entry, a.aiEntry = some entry → ∀ token ∈ reqTokens env entry,
      ∃ b ∈ reqPatterns token, ∃ x ∈ ctx.aiData, x.kind = AiValueKind.aiValue_aival ∧
        aiDigits ctx x ≠ aiDigits ctx a ∧
        digitRun b = (aiDigits ctx x).take (digitRun b).length

/-- The requisites condition that the code tests: for every extracted AI `a` and every
`req=` token of its entry, some pattern `b` of the token and some extracted AI `x` are
such that the digit run of `b` equals the bytes of the same length found at the AI of `x`,
and the first `len(b)` bytes found at the AI of `x` differ from those found at the AI of
`a`. -/
def ReqBytes (env : Env) (ctx : Ctx) : Prop :=
  ∀ a ∈ ctx.aiData, a.kind = AiValueKind.aiValue_aival →
    ∀ entry, a.aiEntry = some entry → ∀ token ∈ reqTokens env entry,
      ∃ b ∈ reqPatterns token, ∃ x ∈ ctx.aiData, x.kind = AiValueKind.aiValue_aival ∧
        (strAt ctx x.ai).take (digitRun b).length = digitRun b ∧
        (strAt ctx x.ai).take b.length ≠ (strAt ctx a.ai).take b.length

/-- A table in which the entry of AI 3940 requires the two-byte pattern `39`. -/
def reqShortTable : List AiEntry :=
  [mkEntry "3940" true [man Cset.N 4 4 []] "req=39", mkEntry "3941" true [man Cset.N 4 4 []] ""]

/-- The example context with `reqShortTable` before any data is processed. -/
def reqShortCtx0 : Ctx :=
  { demoCtx with aiTable := reqShortTable, dataStr := "^39401234^39419999".toList }

/-- The context after `^39401234^39419999` has been processed with `reqShortTable`. -/
def reqShortCtx : Ctx :=
  { reqShortCtx0 with
    aiData := [mkAiValue demoEnv (mkEntry "3940" true [man Cset.N 4 4 []] "req=39") 1 4 5 4,
               mkAiValue demoEnv (mkEntry "3941" true [man Cset.N 4 4 []] "") 10 4 14 4] }

/-- The example context after `^21ABC123` has been processed with the example table. -/
def reqDemoCtx : Ctx :=
  { demoCtx with dataStr := "^21ABC123".toList, aiData := [mkAiValue demoEnv e21 1 2 3 6] }

/-- The value bytes of an extracted AI. -/
def aiValueBytes (ctx : Ctx) (x : AiValue) : List Char := (strAt ctx x.value).take x.vallen

/-- Two extracted AIs have identical AI digits: the same length and the same bytes. -/
def SameAIDigits (ctx : Ctx) (x y : AiValue) : Prop :=
  x.ailen = y.ailen ∧ aiDigits ctx x = aiDigits ctx y

/-- Two extracted AIs have byte-identical values: the same length and the same bytes. -/
def SameValueBytes (ctx : Ctx) (x y : AiValue) : Prop :=
  x.vallen = y.vallen ∧ aiValueBytes ctx x = aiValueBytes ctx y

/-- The repeats condition in the words of C12: every two extracted AI values with
identical AI digits have byte-identical values. -/
def RepeatsAgree (ctx : Ctx) : Prop :=
  ∀ x ∈ ctx.aiData, ∀ y ∈ ctx.aiData,
    x.kind = AiValueKind.aiValue_aival → y.kind = AiValueKind.aiValue_aival →
    SameAIDigits ctx x y → SameValueBytes ctx x y

/-- The example context after `^10ABC^99DEF^10XYZ` has been processed: AI 10 twice, with
different values, and AI 99 between the two. -/
def repeatsDemoCtx : Ctx :=
  { demoCtx with
    dataStr := "^10ABC^99DEF^10XYZ".toList,
    aiData := [mkAiValue demoEnv e10 1 2 3 3, mkAiValue demoEnv e99 7 2 9 3,
               mkAiValue demoEnv e10 13 2 15 3] }

/-- The example context after `^10ABC^99DEF^10ABC` has been processed: AI 10 twice, with
the same value. -/
def repeatsEqualCtx : Ctx :=
  { demoCtx with
    dataStr := "^10ABC^99DEF^10ABC".toList,
    aiData := [mkAiValue demoEnv e10 1 2 3 3, mkAiValue demoEnv e99 7 2 9 3,
               mkAiValue demoEnv e10 13 2 15 3] }

/-- The example context for `^242ABCDEFG`, before it is processed. -/
def tooLongDemoCtx : Ctx := { demoCtx with dataStr := "^242ABCDEFG".toList }

/-- The example context with unknown AIs permitted and the data `^2361234`: no AI 236 is
in the example table, and the AIs that begin with 23 have three digits. -/
def vivifyDemoCtx : Ctx :=
  { demoCtx with permitUnknownAIs := true, dataStr := "^2361234".toList }

/-- The length-unknown pseudo-entry is not among the extracted AIs. -/
def NoUnknownLength (ctx : Ctx) : Prop := ∀ v ∈ ctx.aiData, v.aiEntry ≠ some unknownAI

instance (ctx : Ctx) : Decidable (NoUnknownLength ctx) := by
  unfold NoUnknownLength; infer_instance

/-- What has been extracted, read off the data buffer: for each extracted AI its kind,
its entry, its AI digits and its value bytes. -/
def extractedView (ctx : Ctx) : List (AiValueKind × Option AiEntry × List Char × List Char) :=
  ctx.aiData.map (fun v => (v.kind, v.aiEntry, aiDigits ctx v, aiValueBytes ctx v))

/-- Two contexts have the same configuration and hold the same extracted AIs and values,
each in its own data buffer. -/
def ViewRel (c1 c2 : Ctx) : Prop := SameConfig c1 c2 ∧ extractedView c1 = extractedView c2

/-- The C string at offset `off` of the data buffer is `p`. -/
def AtPointer (c : Ctx) (off : Nat) (p : List Char) : Prop := c.dataStr.drop off = p

/-- Two loop steps from the read string `p` do the same thing: they return the same
result, or go on with the same shorter string, each at its own offset. -/
def StepView (p : List Char) : Step → Step → Prop
  | Step.ret r1, Step.ret r2 => r1.1 = r2.1 ∧ ViewRel r1.2 r2.2
  | Step.next p1 o1 c1, Step.next p2 o2 c2 =>
    p1 = p2 ∧ p1.length < p.length ∧ AtPointer c1 o1 p1 ∧ AtPointer c2 o2 p1 ∧ ViewRel c1 c2
  | _, _ => False

/-- The example context for the data `^0112345678901231^^`, before it is processed. -/
def separatorDemoCtx1 : Ctx := { demoCtx with dataStr := "^0112345678901231^^".toList }

/-- The example context for the data `^0112345678901231^`, before it is processed. -/
def separatorDemoCtx2 : Ctx := { demoCtx with dataStr := "^0112345678901231^".toList }

/-- The example context for the data `^10AB0112345678901231^99X`, before it is processed. -/
def separatorDemoCtx3 : Ctx := { demoCtx with dataStr := "^10AB0112345678901231^99X".toList }

/-- The example context for the data `^10AB011234567890123199X`, before it is processed. -/
def separatorDemoCtx4 : Ctx := { demoCtx with dataStr := "^10AB011234567890123199X".toList }

/-- The input is the concatenation of the segments `(AI)value`: each starts with `(`, its AI
runs to the first `)`, every `(` inside a value is escaped, and the `(` that opens the
next segment is not. -/
def SplitsAs : List Char → List Segment → Prop
  | input, [] => input = []
  | input, s :: rest =>
    ∃ input', input = '(' :: s.ai ++ ')' :: s.raw ++ input' ∧ ')' ∉ s.ai ∧
      noBareBracket ')' s.raw = true ∧
      (input' ≠ [] → charAt input' 0 = '(' ∧ s.raw.getLast? ≠ some '\\') ∧
      SplitsAs input' rest

/-- The segment is without the defects that C17 lists: its AI is made of 2 to 4 digits,
and its value is not empty and holds no `^`. -/
def SegmentWellFormed (s : Segment) : Prop :=
  2 ≤ s.ai.length ∧ s.ai.length ≤ 4 ∧ (∀ c ∈ s.ai, isDigit c = true) ∧ s.raw ≠ [] ∧
    '^' ∉ s.raw

/-- The property `P` holds of the context of a failed call. -/
def OnFailure (P : Ctx → Prop) (r : Bool × Ctx) : Prop := r.1 = false → P r.2

/-- The value `c - '0'` of a digit byte. -/
def digitVal (c : Char) : Nat := c.toNat - 48

/-- The sum of the digit values of a string read from its first byte on, weighted
alternately `w`, `4 - w`, `w`, ... -/
def weightedFrom (w : Nat) : List Char → Nat
  | [] => 0
  | c :: cs => w * digitVal c + weightedFrom (4 - w) cs

/-- The weighted sum of the check digit rule: the digits weighted alternately 3 and 1,
starting with 3 at the last one (the digit immediately left of the check digit). -/
def specWeightedSum (ds : List Char) : Nat := weightedFrom 3 ds.reverse

/-- The GS1 check digit of the digits `ds`: `(10 - (S mod 10)) mod 10`. -/
def specCheckDigit (ds : List Char) : Nat := (10 - specWeightedSum ds % 10) % 10

/-- The byte of the GS1 check digit of `ds`. -/
def specCheckChar (ds : List Char) : Char := Char.ofNat (48 + specCheckDigit ds)

/-- The sum that the loop of `gs1_validateParity` adds up over the bytes `ds` from first
weight `w`. -/
def altSumL : List Char → Int → Int
  | [], _ => 0
  | c :: cs, w => w * ((c.toNat : Int) - 48) + altSumL cs (4 - w)

/-- The body consists of zero or more backslashes followed by `^` and anything after. -/
def BackslashesThenCaret (body : List Char) : Prop :=
  ∃ (k : Nat) (rest : List Char), body = List.replicate k '\\' ++ '^' :: rest

/-- The plain-mode symbology identifiers of `symIdTable` with their default symbologies. -/
def plainModeIds : List (List Char × Sym) :=
  [("]d1".toList, Sym.sDM), ("]Q1".toList, Sym.sQR)]

/-- The last byte of `P` is the GS1 check digit of the bytes before it. -/
def HasCheckDigit (P : List Char) : Prop := P.getLast? = some (specCheckChar P.dropLast)

instance (P : List Char) : Decidable (HasCheckDigit P) := by unfold HasCheckDigit; infer_instance

/-- The body `C` is valid AI-mode scan data: `gs1_processScanData` accepts it as the
message `]e0` followed by `C`. -/
def CompositeAccepted (env : Env) (ctx : Ctx) (C : List Char) : Prop :=
  (gs1_processScanData env ctx ("]e0".toList ++ C)).1 = true

/-- The identifiers of the primary symbologies with the symbology and the number of
primary digits. -/
def eanIds : List (List Char × Sym × Nat) :=
  [("]E0".toList, Sym.sEAN13, 13), ("]E4".toList, Sym.sEAN8, 8)]

/-- The body of AI data in scan data: every `^` replaced by GS, and a trailing
separator removed. The argument is the AI data without its leading `^`. -/
def stripBody (C : List Char) : List Char :=
  if C.getLast? = some '^' then (C.map (fun c => if c = '^' then GS else c)).dropLast
  else C.map (fun c => if c = '^' then GS else c)

/-- The data string made of a linear part and an optional composite part. -/
def joinComposite (L : List Char) : Option (List Char) → List Char
  | none => L
  | some c => L ++ '|' :: c

/-- The symbologies whose AI data is sent behind one identifier, with that identifier. -/
def ai2dIds : List (Sym × List Char) :=
  [(Sym.sQR, "]Q3".toList), (Sym.sDM, "]d2".toList), (Sym.sDataBarExpanded, "]e0".toList)]

/-- The extracted AIs of the linear part: the entries of `ai_data` before the first one
without a table entry. -/
def linearAIs (ctx : Ctx) : List AiValue := ctx.aiData.takeWhile (fun v => v.aiEntry.isSome)

/-- The last AI of the linear part is variable-length: its table entry requires FNC1. -/
def lastLinearVariable (ctx : Ctx) : Bool :=
  match (linearAIs ctx).getLast? with
  | some v => (v.aiEntry.map (fun e => e.fnc1)).getD false
  | none => false

/-- The symbologies that send a linear and a composite part as one `]e0` message. -/
def expandedSyms : List Sym := [Sym.sGS1_128_CCA, Sym.sGS1_128_CCC, Sym.sDataBarExpanded]

/-- Example context: DataBar Expanded with the linear part `^10ABC^`, whose AI (10) has
been extracted, and the composite part `^99X`. -/
def compositeDemoCtx : Ctx :=
  { (gs1_processAIdata demoEnv { demoCtx with dataStr := "^10ABC^|^99X".toList }
      "^10ABC^".toList 0 true).2 with sym := Sym.sDataBarExpanded }

/-- The primary data after the optional AI prefix has been stripped: the first step of
the `gs1_normalise...` functions. -/
def stripPrimary (d pfx : List Char) (skip : Nat) : List Char :=
  if d.length ≥ skip ∧ strncmp d pfx skip = 0 then d.drop skip else d

/-- The symbologies with a primary number: EAN-13, UPC-A, UPC-E and EAN-8. -/
def primarySyms : List Sym := [Sym.sEAN13, Sym.sUPCA, Sym.sUPCE, Sym.sEAN8]

/-- The number of primary digits in the scan data of a symbology. -/
def primaryDigits (sym : Sym) : Nat := if sym = Sym.sEAN8 then 8 else 13

/-- The identifier before the primary digits in the scan data of a symbology. -/
def primaryId (sym : Sym) : List Char :=
  if sym = Sym.sEAN8 then "]E4".toList else "]E0".toList

/-- The zero that makes 13 digits of the 12 digits of UPC-A and UPC-E. -/
def primaryLead (sym : Sym) : List Char :=
  if sym = Sym.sUPCA ∨ sym = Sym.sUPCE then ['0'] else []

/-- The primary digits as given in the linear part `L`: bare, or behind the prefix of
AI (01) and the zeros that pad them to 14 digits. -/
def primaryGiven (sym : Sym) (L : List Char) : List Char :=
  if sym = Sym.sEAN8 then stripPrimary L "^01000000".toList 9
  else if sym = Sym.sEAN13 then stripPrimary L "^0100".toList 4
  else stripPrimary L "^0100".toList 5

/-- The primary digits of the scan data, when there are any: with `add_check_digit`
disabled the given digits, which must end with their check digit; with it enabled the
given digits, one fewer, and the computed check digit. -/
def primaryNormal (ctx : Ctx) (L : List Char) : Option (List Char) :=
  let given := primaryGiven ctx.sym L
  let lead := primaryLead ctx.sym
  if ctx.addCheckDigit = false then
    if (lead ++ given).length = primaryDigits ctx.sym ∧ (∀ c ∈ given, isDigit c = true) ∧
        HasCheckDigit (lead ++ given) then some (lead ++ given)
    else none
  else
    if (lead ++ given).length + 1 = primaryDigits ctx.sym ∧ (∀ c ∈ given, isDigit c = true) then
      some (lead ++ given ++ [specCheckChar (lead ++ given)])
    else none

/-- Example context: EAN-13 with the primary `2112345678900` and the composite part
`^99COMPOSITE^98XYZ`. -/
def primaryDemoCtx : Ctx :=
  { demoCtx with sym := Sym.sEAN13, dataStr := "2112345678900|^99COMPOSITE^98XYZ".toList }

/-- The number that a string of decimal digits denotes. -/
def decimalValue (P : List Char) : Nat := P.foldl (fun acc c => acc * 10 + digitVal c) 0

/-- Example context: DataBar Omnidirectional with the primary `^0124012345678905` and the
composite part `^99COMPOSITE^98XYZ`. -/
def dataBarDemoCtx : Ctx :=
  { demoCtx with sym := Sym.sDataBarOmni,
                 dataStr := "^0124012345678905|^99COMPOSITE^98XYZ".toList }

/-- The array `aiLengthByPrefix` of the context is the one derived from its AI table:
`populateAIlengthByPrefix` succeeds and leaves the context as it is. -/
def LengthsDerived (ctx : Ctx) : Prop := populateAIlengthByPrefix ctx = (true, ctx)

instance (ctx : Ctx) : Decidable (LengthsDerived ctx) := by unfold LengthsDerived; infer_instance

/-- The catalog of pseudo entries for unknown AIs, keyed by the AI length and the fixed
value length (0 for variable length). -/
def catalogEntry (ailen vallen : Nat) : Option AiEntry :=
  if ailen = 2 ∧ vallen = 0 then some unknownAI2
  else if ailen = 2 ∧ vallen = 2 then some unknownAI2fixed2
  else if ailen = 2 ∧ vallen = 14 then some unknownAI2fixed14
  else if ailen = 2 ∧ vallen = 16 then some unknownAI2fixed16
  else if ailen = 2 ∧ vallen = 18 then some unknownAI2fixed18
  else if ailen = 3 ∧ vallen = 0 then some unknownAI3
  else if ailen = 3 ∧ vallen = 13 then some unknownAI3fixed13
  else if ailen = 4 ∧ vallen = 0 then some unknownAI4
  else if ailen = 4 ∧ vallen = 6 then some unknownAI4fixed6
  else none

/-- The nine entries of the catalog. -/
def unknownCatalog : List AiEntry :=
  [unknownAI2, unknownAI2fixed2, unknownAI2fixed14, unknownAI2fixed16, unknownAI2fixed18,
   unknownAI3, unknownAI3fixed13, unknownAI4, unknownAI4fixed6]

/-- A run of the `while (*p)` loop of `gs1_processAIdata` from the read pointer `p` at
offset `off`: it returns `r` after `n` passes through the loop body. -/
inductive Runs (env : Env) (ex : Bool) : List Char → Nat → Ctx → Nat → Bool × Ctx → Prop where
  | done (off : Nat) (ctx : Ctx) : Runs env ex [] off ctx 0 (true, ctx)
  | ret (p : List Char) (off : Nat) (ctx : Ctx) (r : Bool × Ctx) :
      p ≠ [] → processStep env ex p off ctx = Step.ret r → Runs env ex p off ctx 1 r
  | next (p : List Char) (off : Nat) (ctx : Ctx) (p' : List Char) (off' : Nat) (ctx' : Ctx)
      (n : Nat) (r : Bool × Ctx) :
      p ≠ [] → processStep env ex p off ctx = Step.next p' off' ctx' →
      Runs env ex p' off' ctx' n r → Runs env ex p off ctx (n + 1) r

/-- The slices of an extracted entry in the data `d`, which starts at offset `base` of the
data buffer: the AI slice starts inside `d`, the value slice begins where the AI slice
ends, is not empty, ends inside `d` and holds no `^`. -/
def ValueSlice (d : List Char) (base : Nat) (v : AiValue) : Prop :=
  base ≤ v.ai ∧ v.value = v.ai + v.ailen ∧ 1 ≤ v.vallen ∧
    v.value + v.vallen ≤ base + d.length ∧
    '^' ∉ (d.drop (v.value - base)).take v.vallen

/-- The entries are in input order: the AI slice of each entry starts at or after the end
of the value slice of every entry before it. -/
def InInputOrder (l : List AiValue) : Prop :=
  l.Pairwise (fun a b => a.value + a.vallen ≤ b.ai)

instance (d : List Char) (base : Nat) (v : AiValue) : Decidable (ValueSlice d base v) := by
  unfold ValueSlice; infer_instance

instance (l : List AiValue) : Decidable (InInputOrder l) := by
  unfold InInputOrder; infer_instance

/-- The limits of the library with room for `m` extracted AIs. -/
def withMaxAIs (env : Env) (m : Nat) : Env := { env with MAX_AIS := m }

/-- The example limits with no room for extracted AIs. -/
def fullEnv : Env := withMaxAIs demoEnv 0

/-- The character-set linter of a component, in the words of the specification:
`cset_numeric` for the numeric set, `cset_82` for X, `cset_39` for Y and `cset_64` for Z. -/
def specCsetLinter (env : Env) (part : AiComponent) : List Char → LintResult :=
  match part.cset with
  | Cset.N => env.gs1_lint_csetnumeric
  | Cset.X => env.gs1_lint_cset82
  | Cset.Y => env.gs1_lint_cset39
  | Cset.Z => env.gs1_lint_cset64

/-- The error kinds that the linters of a component report on its slice, in the order
that C3 gives: the character-set linter first, then the additional linters of the
component in list order. Kind 0 is "no error". -/
def specLinterKinds (env : Env) (part : AiComponent) (slice : List Char) : List Nat :=
  (specCsetLinter env part slice).err ::
    part.linters.map (fun l => (env.linterFn l slice).err)

/-- The kind of the first rejecting linter of a component on its slice, in the order of
`specLinterKinds`, if any linter rejects. -/
def specFirstKind (env : Env) (part : AiComponent) (slice : List Char) : Option Nat :=
  (specLinterKinds env part slice).find? (fun k => decide (k ≠ 0))

/-- A component fails on its slice, in the words of C3: it is mandatory or its slice is
not empty, and it receives fewer than `min` bytes, or the character-set linter or one of
its additional linters rejects the slice. -/
def SpecComponentFails (env : Env) (part : AiComponent) (slice : List Char) : Prop :=
  (part.opt = false ∨ slice ≠ []) ∧
    (slice.length < part.min ∨ (specCsetLinter env part slice).err ≠ 0 ∨
      ∃ l ∈ part.linters, (env.linterFn l slice).err ≠ 0)

instance (env : Env) (part : AiComponent) (slice : List Char) :
    Decidable (SpecComponentFails env part slice) := by
  unfold SpecComponentFails; infer_instance

/-- The slice `(part, slice)` is the first of `slices`, left to right, on which its
component fails in the words of C3. -/
def SpecFirstFailing (env : Env) (slices : List (AiComponent × List Char))
    (part : AiComponent) (slice : List Char) : Prop :=
  ∃ pre post, slices = pre ++ (part, slice) :: post ∧
    (∀ q ∈ pre, ¬ SpecComponentFails env q.1 q.2) ∧ SpecComponentFails env part slice

/-- The identifiers of `symIdTable` for plain data, with their default symbologies. -/
def plainIds : List (List Char × Sym) :=
  [("]d1".toList, Sym.sDM), ("]Q1".toList, Sym.sQR)]

/-- The context in which `gs1_processScanData` goes on after it has found the
identifier: the AIs and the error fields are reset, the symbology is the default one of
the identifier, and `dataStr` holds what has been written. -/
def scanStart (ctx : Ctx) (sym : Sym) (dataStr : List Char) : Ctx :=
  { ctx with sym := sym, dataStr := dataStr, aiData := [], errMsg := [], errFlag := false,
             linterErr := 0, linterErrMarkup := [] }

/-! # Theorems -/

/-! ## AI lookup -/

theorem isDigit_toNat_pos {c : Char} (h : isDigit c = true) : c.toNat ≠ 0 := by
  unfold isDigit at h
  simp only [Bool.and_eq_true, decide_eq_true_eq] at h
  have h1 : '0'.val ≤ c.val := h.1
  have h2 : (48 : Nat) ≤ c.toNat := by
    have : '0'.val.toNat ≤ c.val.toNat := h1
    simpa using this
  omega

theorem char_toNat_sub_ne {a b : Char} (h : a ≠ b) : (a.toNat : Int) - (b.toNat : Int) ≠ 0 := by
  intro h0
  apply h
  have : a.toNat = b.toNat := by omega
  exact Char.ext (UInt32.ext (by simpa [Char.toNat, UInt32.toNat] using this))

theorem strncmp_prefix_iff (a : List Char) (hd : ∀ c ∈ a, isDigit c = true) :
    ∀ p : List Char, strncmp a p a.length = 0 ↔ a <+: p := by
  induction a with
  | nil => intro p; simp [strncmp]
  | cons x xs ih =>
    intro p
    have hx : x.toNat ≠ 0 := isDigit_toNat_pos (hd x (List.mem_cons_self _ _))
    cases p with
    | nil => simp [strncmp, hx]
    | cons y ys =>
      simp only [List.length_cons, strncmp, List.cons_prefix_cons]
      by_cases hxy : x = y
      · simp [hxy, ih (fun c hc => hd c (List.mem_cons_of_mem _ hc)) ys]
      · simp [hxy, char_toNat_sub_ne hxy]

theorem aiLt_irrefl (a : List Char) : aiLt a a = false := by
  induction a with
  | nil => rfl
  | cons x xs ih => simp [aiLt, ih]

theorem strncmp_pos_of_lt : ∀ (a b p : List Char), aiLt a b = true → a <+: p → ¬ a <+: b →
    0 < strncmp b p b.length := by
  intro a
  induction a with
  | nil => intro b p _ _ h; exact absurd (List.nil_prefix) h
  | cons x xs ih =>
    intro b p hlt hp hnp
    cases p with
    | nil => simp at hp
    | cons z ps =>
      rw [List.cons_prefix_cons] at hp
      obtain ⟨rfl, hp⟩ := hp
      cases b with
      | nil => simp [aiLt] at hlt
      | cons y ys =>
        simp only [aiLt] at hlt
        simp only [List.length_cons, strncmp]
        by_cases hxy : x = y
        · subst hxy
          simp only [if_true] at hlt ⊢
          exact ih ys ps hlt hp (fun h => hnp (List.cons_prefix_cons.2 ⟨rfl, h⟩))
        · have hyx : ¬ y = x := fun h => hxy h.symm
          simp only [hxy, if_false, decide_eq_true_eq] at hlt
          simp only [hyx, if_false]
          omega

theorem strncmp_neg_of_gt : ∀ (b a p : List Char), aiLt b a = true → a <+: p → ¬ b <+: a →
    strncmp b p b.length < 0 := by
  intro b
  induction b with
  | nil => intro a p _ _ h; exact absurd (List.nil_prefix) h
  | cons y ys ih =>
    intro a p hlt hp hnp
    cases a with
    | nil => simp [aiLt] at hlt
    | cons x xs =>
      cases p with
      | nil => simp at hp
      | cons z ps =>
        rw [List.cons_prefix_cons] at hp
        obtain ⟨rfl, hp⟩ := hp
        simp only [aiLt] at hlt
        simp only [List.length_cons, strncmp]
        by_cases hxy : y = x
        · subst hxy
          simp only [if_true] at hlt ⊢
          exact ih xs ps hlt hp (fun h => hnp (List.cons_prefix_cons.2 ⟨rfl, h⟩))
        · simp only [hxy, if_false, decide_eq_true_eq] at hlt
          simp only [hxy, if_false]
          omega

/-- Two AIs of a table obeying I1 that are both prefixes of the same data are equal. -/
theorem ai_eq_of_prefix_same {t : List AiEntry} (hI1 : SameLengthPerPrefix t)
    (hai : ∀ e ∈ t, IsAI e.ai) {e1 e2 : AiEntry} (h1 : e1 ∈ t) (h2 : e2 ∈ t)
    {p : List Char} (hp1 : e1.ai <+: p) (hp2 : e2.ai <+: p) : e1.ai = e2.ai := by
  have hl1 := (hai e1 h1).1
  have hl2 := (hai e2 h2).1
  have ht : e1.ai.take 2 = e2.ai.take 2 := by
    rw [List.prefix_iff_eq_take] at hp1 hp2
    rw [hp1, hp2, List.take_take, List.take_take]
    simp [Nat.min_eq_left hl1, Nat.min_eq_left hl2]
  have hlen := hI1 e1 h1 e2 h2 ht
  rw [List.prefix_iff_eq_take] at hp1 hp2
  rw [hp1, hp2, hlen]

/-- In a table obeying I1 no AI is a prefix of a different AI. -/
theorem not_prefix_of_lt {t : List AiEntry} (hI1 : SameLengthPerPrefix t)
    (hai : ∀ e ∈ t, IsAI e.ai) {e1 e2 : AiEntry} (h1 : e1 ∈ t) (h2 : e2 ∈ t)
    (hne : e1.ai ≠ e2.ai) : ¬ e1.ai <+: e2.ai := by
  intro hp
  exact hne (ai_eq_of_prefix_same hI1 hai h1 h2 hp (List.prefix_refl _))

theorem lookupLoop_sound (t : List AiEntry) (p : List Char) (ailen : Nat) :
    ∀ (fuel s e : Nat) (entry : AiEntry), lookupLoop t p ailen fuel s e = some (some entry) →
      entry ∈ t ∧ strncmp entry.ai p entry.ai.length = 0 ∧ (ailen ≠ 0 → entry.ai.length = ailen) := by
  intro fuel
  induction fuel with
  | zero => intro s e entry h; simp [lookupLoop] at h
  | succ n ih =>
    intro s e entry h
    simp only [lookupLoop] at h
    split at h
    · split at h
      · simp at h
      · rename_i ent hent
        split at h
        · rename_i hcmp
          split at h
          · simp at h
          · rename_i hlen
            simp only [Option.some.injEq] at h
            subst h
            refine ⟨List.getElem?_mem hent, hcmp, ?_⟩
            intro h0
            by_contra hne
            exact hlen ⟨h0, hne⟩
        · split at h
          · simp at h
          · split at h
            · exact ih _ _ _ h
            · exact ih _ _ _ h
    · simp at h

theorem lookupLoop_zero_ne_null (t : List AiEntry) (p : List Char) :
    ∀ (fuel s e : Nat), lookupLoop t p 0 fuel s e ≠ some none := by
  intro fuel
  induction fuel with
  | zero => intro s e h; simp [lookupLoop] at h
  | succ n ih =>
    intro s e h
    simp only [lookupLoop] at h
    split at h
    · split at h
      · simp at h
      · split at h
        · simp at h
        · simp only [ne_eq, not_true_eq_false, false_and, if_false] at h
          split at h
          · exact ih _ _ h
          · exact ih _ _ h
    · simp at h

theorem lookupLoop_complete (t : List AiEntry) (p : List Char)
    (hs : TableSorted t) (hI1 : SameLengthPerPrefix t) (hai : ∀ e ∈ t, IsAI e.ai)
    (k : Nat) (hk : k < t.length) (hpk : (t[k]).ai <+: p) :
    ∀ (fuel s e : Nat), s ≤ k → k < e → e ≤ t.length → e - s ≤ fuel →
      lookupLoop t p 0 fuel s e = some (some t[k]) := by
  have hsorted := List.pairwise_iff_getElem.1 hs
  intro fuel
  induction fuel with
  | zero => intro s e h1 h2 _ h4; omega
  | succ n ih =>
    intro s e h1 h2 h3 h4
    have hse : s < e := by omega
    have hm : s + (e - s) / 2 < t.length := by omega
    simp only [lookupLoop, hse, if_true, List.getElem?_eq_getElem hm]
    by_cases hcmp : strncmp (t[s + (e - s) / 2]).ai p (t[s + (e - s) / 2]).ai.length = 0
    · -- found an entry that is a prefix of the data: it is the entry `k`
      simp only [hcmp, if_true, ne_eq, not_true_eq_false, false_and, if_false]
      have hmem : t[s + (e - s) / 2] ∈ t := List.getElem_mem _
      have hpre := (strncmp_prefix_iff _ (hai _ hmem).2 p).1 hcmp
      have heq := ai_eq_of_prefix_same hI1 hai hmem (List.getElem_mem hk) hpre hpk
      rcases Nat.lt_trichotomy (s + (e - s) / 2) k with hlt | heq' | hgt
      · have := hsorted _ _ hm hk hlt
        rw [heq, aiLt_irrefl] at this
        exact absurd this (by simp)
      · simp [heq']
      · have := hsorted _ _ hk hm hgt
        rw [heq, aiLt_irrefl] at this
        exact absurd this (by simp)
    · simp only [hcmp, if_false, ne_eq, not_true_eq_false, false_and]
      have hmem : t[s + (e - s) / 2] ∈ t := List.getElem_mem _
      have hkmem : t[k] ∈ t := List.getElem_mem hk
      have hnek : s + (e - s) / 2 ≠ k := by
        intro h
        apply hcmp
        have : t[s + (e - s) / 2] = t[k] := by simp [h]
        rw [this]
        exact (strncmp_prefix_iff _ (hai _ hkmem).2 p).2 hpk
      by_cases hneg : strncmp (t[s + (e - s) / 2]).ai p (t[s + (e - s) / 2]).ai.length < 0
      · simp only [hneg, if_true]
        apply ih
        · -- k cannot be below m
          by_contra hlt
          have hlt' : k < s + (e - s) / 2 := by omega
          have hlt2 := hsorted _ _ hk hm hlt'
          have hne : (t[k]).ai ≠ (t[s + (e - s) / 2]).ai := by
            intro h; rw [h, aiLt_irrefl] at hlt2; exact absurd hlt2 (by simp)
          have := strncmp_pos_of_lt _ _ p hlt2 hpk (not_prefix_of_lt hI1 hai hkmem hmem hne)
          omega
        · exact h2
        · exact h3
        · omega
      · simp only [hneg, if_false]
        apply ih
        · exact h1
        · by_contra hge
          have hlt' : s + (e - s) / 2 < k := by omega
          have hlt2 := hsorted _ _ hm hk hlt'
          have hne : (t[s + (e - s) / 2]).ai ≠ (t[k]).ai := by
            intro h; rw [h, aiLt_irrefl] at hlt2; exact absurd hlt2 (by simp)
          have := strncmp_neg_of_gt _ _ p hlt2 hpk (not_prefix_of_lt hI1 hai hmem hkmem hne)
          exact hneg this
        · omega
        · omega

theorem allDigitsLoop_prefix_ok : ∀ (a p : List Char) (n : Nat), a <+: p → n ≤ a.length →
    (∀ c ∈ a, isDigit c = true) → allDigitsLoop p n = true := by
  intro a
  induction a with
  | nil => intro p n _ hn _; simp at hn; subst hn; cases p <;> rfl
  | cons x xs ih =>
    intro p n hp hn hd
    cases n with
    | zero => cases p <;> rfl
    | succ m =>
      cases p with
      | nil => simp at hp
      | cons y ys =>
        rw [List.cons_prefix_cons] at hp
        obtain ⟨rfl, hp⟩ := hp
        simp only [allDigitsLoop, hd x (List.mem_cons_self _ _), if_true]
        exact ih ys m hp (by simpa using hn) (fun c hc => hd c (List.mem_cons_of_mem _ hc))

/-- The prefix lookup returns an entry exactly when that entry is in the table and its AI
is a prefix of the data. -/
theorem lookup_zero_iff (ctx : Ctx) (data : List Char)
    (hai : ∀ e ∈ ctx.aiTable, IsAI e.ai)
    (hsorted : TableSorted ctx.aiTable) (hI1 : SameLengthPerPrefix ctx.aiTable)
    (hperm : ctx.permitUnknownAIs = false) (e : AiEntry) :
    gs1_lookupAIentry ctx data 0 = some e ↔ (e ∈ ctx.aiTable ∧ e.ai <+: data) := by
  constructor
  · intro h
    unfold gs1_lookupAIentry at h
    simp only [Nat.zero_ne_one, gt_iff_lt, Nat.not_lt_zero, or_self, if_false, ne_eq,
      not_true_eq_false] at h
    split at h
    · simp at h
    · split at h
      · rename_i r hr
        subst h
        have := lookupLoop_sound _ _ _ _ _ _ e hr
        exact ⟨this.1, (strncmp_prefix_iff _ (hai e this.1).2 data).1 this.2.1⟩
      · simp [hperm] at h
  · rintro ⟨hmem, hpre⟩
    obtain ⟨k, hk, hke⟩ := List.getElem_of_mem hmem
    have hd : gs1_allDigits data 2 = true := by
      unfold gs1_allDigits
      simp only [OfNat.ofNat_ne_zero, if_false]
      exact allDigitsLoop_prefix_ok e.ai data 2 hpre (hai e hmem).1 (hai e hmem).2
    have hloop := lookupLoop_complete ctx.aiTable data hsorted hI1 hai k hk (by rw [hke]; exact hpre)
      ctx.aiTable.length 0 ctx.aiTable.length (Nat.zero_le _) hk (Nat.le_refl _) (by omega)
    unfold gs1_lookupAIentry
    simp [hd, hloop, hke]

/-- C4: with a sorted table obeying the same-length-per-prefix rule and unknown AIs not
permitted, the prefix lookup `gs1_lookupAIentry ctx data 0` returns an entry exactly when
that entry is in the table and its AI is a prefix of the data, and returns nothing when
no table entry is a prefix of the data. -/
theorem lookup_prefix_correct (ctx : Ctx) (data : List Char)
    (hai : ∀ e ∈ ctx.aiTable, IsAI e.ai)
    (hsorted : TableSorted ctx.aiTable) (hI1 : SameLengthPerPrefix ctx.aiTable)
    (hperm : ctx.permitUnknownAIs = false) :
    (∀ e : AiEntry, gs1_lookupAIentry ctx data 0 = some e ↔ (e ∈ ctx.aiTable ∧ e.ai <+: data)) ∧
    ((∀ e ∈ ctx.aiTable, ¬ e.ai <+: data) → gs1_lookupAIentry ctx data 0 = none) := by
  refine ⟨lookup_zero_iff ctx data hai hsorted hI1 hperm, ?_⟩
  intro hnone
  cases h : gs1_lookupAIentry ctx data 0 with
  | none => rfl
  | some e =>
    have hk := (lookup_zero_iff ctx data hai hsorted hI1 hperm e).1 h
    exact absurd hk.2 (hnone e hk.1)

/-- Witness for C4 on the example table: the data `011234` is resolved to the entry of AI 01. -/
theorem lookup_prefix_correct_witness :
    gs1_lookupAIentry demoCtx "011234".toList 0 = some e01 :=
  ((lookup_prefix_correct demoCtx "011234".toList (by decide) (by decide) (by decide) rfl).1
    e01).2 ⟨by decide, by decide⟩

/-! ## Component validation -/

theorem complen_eq (value : List Char) (p mx : Nat) :
    (if mx < value.length - p then mx else value.length - p) =
      ((value.drop p).take mx).length := by
  simp only [List.length_take, List.length_drop]
  split <;> omega

theorem compval_eq (value rest : List Char) (p mx : Nat) (hp : p ≤ value.length) :
    ((value ++ rest).drop p).take ((value.drop p).take mx).length = (value.drop p).take mx := by
  rw [List.drop_append_of_le_length hp]
  rw [List.take_append_of_le_length (by simp)]
  by_cases h : mx ≤ (value.drop p).length
  · rw [List.length_take, Nat.min_eq_left h]
  · rw [List.length_take, Nat.min_eq_right (by omega), List.take_length,
      List.take_of_length_le (by omega)]

theorem drop_step (value : List Char) (p mx : Nat) :
    value.drop (p + ((value.drop p).take mx).length) = (value.drop p).drop mx := by
  rw [List.drop_drop]
  simp only [List.length_take, List.length_drop]
  by_cases h : mx ≤ value.length - p
  · rw [Nat.min_eq_left h, Nat.add_comm]
  · have h1 : min mx (value.length - p) = value.length - p := Nat.min_eq_right (by omega)
    rw [h1, List.drop_eq_nil_of_le (by omega), List.drop_eq_nil_of_le (by omega)]

theorem runLinters_none (ls : List (List Char → LintResult)) (s : List Char) :
    runLinters ls s = none ↔ ∀ l ∈ ls, (l s).err = 0 := by
  induction ls with
  | nil => exact ⟨fun _ l hl => absurd hl (List.not_mem_nil l), fun _ => rfl⟩
  | cons l ls ih =>
    unfold runLinters
    by_cases h : (l s).err = 0
    · rw [if_neg (not_not.2 h), ih]
      constructor
      · intro hall l' hl'
        rcases List.mem_cons.1 hl' with rfl | hl'
        · exact h
        · exact hall l' hl'
      · intro hall l' hl'
        exact hall l' (List.mem_cons_of_mem _ hl')
    · rw [if_pos h]
      constructor
      · intro hc; exact absurd hc (by simp)
      · intro hall; exact absurd (hall l (List.mem_cons_self _ _)) h

theorem runLinters_some (ls : List (List Char → LintResult)) (s : List Char) (res : LintResult)
    (h : runLinters ls s = some res) :
    ∃ lpre l lpost, ls = lpre ++ l :: lpost ∧ (∀ l' ∈ lpre, (l' s).err = 0) ∧
      res = l s ∧ (l s).err ≠ 0 := by
  induction ls with
  | nil => exact absurd h (by unfold runLinters; exact Option.noConfusion)
  | cons l ls ih =>
    unfold runLinters at h
    by_cases h0 : (l s).err = 0
    · rw [if_neg (not_not.2 h0)] at h
      obtain ⟨lpre, l1, lpost, h1, h2, h3, h4⟩ := ih h
      refine ⟨l :: lpre, l1, lpost, by rw [h1]; rfl, ?_, h3, h4⟩
      intro l' hl'
      rcases List.mem_cons.1 hl' with rfl | hl'
      · exact h0
      · exact h2 l' hl'
    · rw [if_pos h0] at h
      refine ⟨[], l, ls, rfl, ?_, (Option.some.inj h).symm, h0⟩
      intro l' hl'
      exact absurd hl' (List.not_mem_nil l')

theorem validateParts_cons (env : Env) (start : List Char) (r : Nat) (part : AiComponent)
    (parts : List AiComponent) (p : Nat) :
    validateParts env start r (part :: parts) p =
      if part.opt = true ∧ (if part.max < r - p then part.max else r - p) = 0 then
        validateParts env start r parts p
      else if (if part.max < r - p then part.max else r - p) < part.min then
        Except.error ValErr.tooShort
      else
        match runLinters (partLinters env part)
            ((start.drop p).take (if part.max < r - p then part.max else r - p)) with
        | some res => Except.error (ValErr.linter res.err (res.errpos + p) res.errlen
            (if part.max < r - p then part.max else r - p))
        | none => validateParts env start r parts
            (p + (if part.max < r - p then part.max else r - p)) := by
  rfl

theorem firstFailing_cons_of_not (env : Env) (q : AiComponent × List Char)
    (slices : List (AiComponent × List Char)) (part : AiComponent) (slice : List Char)
    (hq : ¬ componentFails env q.1 q.2) (h : FirstFailing env slices part slice) :
    FirstFailing env (q :: slices) part slice := by
  obtain ⟨pre, post, h1, h2, h3⟩ := h
  refine ⟨q :: pre, post, by rw [h1]; rfl, ?_, h3⟩
  intro q' hq'
  rcases List.mem_cons.1 hq' with rfl | hq'
  · exact hq
  · exact h2 q' hq'

theorem validateParts_spec (env : Env) (value rest : List Char) :
    ∀ (parts : List AiComponent) (p : Nat), p ≤ value.length →
      ((∃ e, validateParts env (value ++ rest) value.length parts p = Except.error e) ↔
        ∃ ps ∈ componentSlices (value.drop p) parts, componentFails env ps.1 ps.2) ∧
      (∀ n, validateParts env (value ++ rest) value.length parts p = Except.ok n →
        n = p + ((componentSlices (value.drop p) parts).map (fun ps => ps.2.length)).sum) ∧
      (validateParts env (value ++ rest) value.length parts p ≠ Except.error ValErr.dataEmpty) ∧
      (validateParts env (value ++ rest) value.length parts p = Except.error ValErr.tooShort →
        ∃ part slice, FirstFailing env (componentSlices (value.drop p) parts) part slice ∧
          slice.length < part.min) ∧
      (∀ kind pos len cl,
        validateParts env (value ++ rest) value.length parts p =
          Except.error (ValErr.linter kind pos len cl) →
        ∃ part slice l, FirstFailing env (componentSlices (value.drop p) parts) part slice ∧
          ¬ slice.length < part.min ∧ FirstRejecting env part slice l ∧ (l slice).err = kind) := by
  intro parts
  induction parts with
  | nil =>
    intro p _
    simp [validateParts, componentSlices]
  | cons part parts ih =>
    intro p hp
    rw [validateParts_cons]
    simp only [complen_eq, compval_eq value rest p part.max hp, componentSlices]
    have ih' := ih (p + ((value.drop p).take part.max).length) (by
      simp only [List.length_take, List.length_drop]; omega)
    rw [drop_step] at ih'
    by_cases hskip : part.opt = true ∧ ((value.drop p).take part.max).length = 0
    · -- an empty optional component is skipped
      have hnil : (value.drop p).take part.max = [] := List.length_eq_zero.1 hskip.2
      have hnf : ¬ componentFails env part ((value.drop p).take part.max) := by
        rintro ⟨h1 | h1, _⟩
        · rw [hskip.1] at h1; exact absurd h1 (by simp)
        · exact h1 hnil
      rw [if_pos hskip]
      rw [hskip.2, Nat.add_zero] at ih'
      obtain ⟨i1, i2, i3, i4, i5⟩ := ih'
      refine ⟨?_, ?_, i3, ?_, ?_⟩
      · rw [i1]
        constructor
        · rintro ⟨ps, hps, hf⟩; exact ⟨ps, List.mem_cons_of_mem _ hps, hf⟩
        · rintro ⟨ps, hps, hf⟩
          rcases List.mem_cons.1 hps with rfl | hps
          · exact absurd hf hnf
          · exact ⟨ps, hps, hf⟩
      · intro n hn
        rw [i2 n hn]
        simp [hnil]
      · intro h
        obtain ⟨pt, sl, hff, hlt⟩ := i4 h
        exact ⟨pt, sl, firstFailing_cons_of_not env _ _ _ _ hnf hff, hlt⟩
      · intro kind pos len cl h
        obtain ⟨pt, sl, l, hff, h1, h2, h3⟩ := i5 kind pos len cl h
        exact ⟨pt, sl, l, firstFailing_cons_of_not env _ _ _ _ hnf hff, h1, h2, h3⟩
    · rw [if_neg hskip]
      have hact : part.opt = false ∨ (value.drop p).take part.max ≠ [] := by
        by_cases ho : part.opt = true
        · right
          intro hnil
          exact hskip ⟨ho, by rw [hnil]; rfl⟩
        · left; simpa using ho
      by_cases hshort : ((value.drop p).take part.max).length < part.min
      · -- too short
        rw [if_pos hshort]
        have hf : componentFails env part ((value.drop p).take part.max) := ⟨hact, Or.inl hshort⟩
        refine ⟨?_, ?_, ?_, ?_, ?_⟩
        · exact ⟨fun _ => ⟨_, List.mem_cons_self _ _, hf⟩, fun _ => ⟨_, rfl⟩⟩
        · intro n hn; exact absurd hn (by simp)
        · simp
        · intro _
          exact ⟨part, _, ⟨[], _, rfl, by simp, hf⟩, hshort⟩
        · intro kind pos len cl h; exact absurd h (by simp)
      · rw [if_neg hshort]
        cases hrun : runLinters (partLinters env part) ((value.drop p).take part.max) with
        | some res =>
          obtain ⟨lpre, l, lpost, h1, h2, h3, h4⟩ := runLinters_some _ _ _ hrun
          have hf : componentFails env part ((value.drop p).take part.max) :=
            ⟨hact, Or.inr ⟨l, by rw [h1]; simp, h4⟩⟩
          refine ⟨?_, ?_, ?_, ?_, ?_⟩
          · exact ⟨fun _ => ⟨_, List.mem_cons_self _ _, hf⟩, fun _ => ⟨_, rfl⟩⟩
          · intro n hn; exact absurd hn (by simp)
          · simp
          · intro h; exact absurd h (by simp)
          · intro kind pos len cl h
            simp only [Except.error.injEq, ValErr.linter.injEq] at h
            refine ⟨part, _, l, ⟨[], _, rfl, by simp, hf⟩, hshort, ⟨lpre, lpost, h1, h2, h4⟩, ?_⟩
            rw [← h3]; exact h.1
        | none =>
          have hok := (runLinters_none _ _).1 hrun
          have hnf : ¬ componentFails env part ((value.drop p).take part.max) := by
            rintro ⟨_, h1 | ⟨l, hl, hne⟩⟩
            · exact hshort h1
            · exact hne (hok l hl)
          obtain ⟨i1, i2, i3, i4, i5⟩ := ih'
          refine ⟨?_, ?_, i3, ?_, ?_⟩
          · simp only []
            rw [i1]
            constructor
            · rintro ⟨ps, hps, hf⟩; exact ⟨ps, List.mem_cons_of_mem _ hps, hf⟩
            · rintro ⟨ps, hps, hf⟩
              rcases List.mem_cons.1 hps with rfl | hps
              · exact absurd hf hnf
              · exact ⟨ps, hps, hf⟩
          · intro n hn
            rw [i2 n hn]
            simp [Nat.add_assoc]
          · intro h
            obtain ⟨pt, sl, hff, hlt⟩ := i4 h
            exact ⟨pt, sl, firstFailing_cons_of_not env _ _ _ _ hnf hff, hlt⟩
          · intro kind pos len cl h
            obtain ⟨pt, sl, l, hff, h1, h2, h3⟩ := i5 kind pos len cl h
            exact ⟨pt, sl, l, firstFailing_cons_of_not env _ _ _ _ hnf hff, h1, h2, h3⟩

/-- The walk of `validate_ai_val` over the slices of the components, with the linters of a
component taken as the list `partLinters` that the code runs through: an error exit is
taken exactly when the value is empty or some component fails on its slice; every error
exit returns 0 and sets the error flag; a linter exit reports the kind given by the first
linter of that list that rejects the slice of the first failing component; otherwise the
function returns the total number of bytes of the slices and leaves the context as it
was. -/
theorem walk_of_partLinters (env : Env) (ctx : Ctx) (ai : List Char) (entry : AiEntry)
    (value rest : List Char) :
    ((∃ e, validateAiVal env entry (value ++ rest) value.length = Except.error e) ↔
      (value = [] ∨
        ∃ ps ∈ componentSlices value entry.parts, componentFails env ps.1 ps.2)) ∧
    (∀ e, validateAiVal env entry (value ++ rest) value.length = Except.error e →
      validate_ai_val env ctx ai entry (value ++ rest) value.length =
        (0, setValErr env ctx ai entry (value ++ rest) e) ∧
      (setValErr env ctx ai entry (value ++ rest) e).errFlag = true) ∧
    (∀ kind pos len cl,
      validateAiVal env entry (value ++ rest) value.length =
        Except.error (ValErr.linter kind pos len cl) →
      (validate_ai_val env ctx ai entry (value ++ rest) value.length).2.linterErr = kind ∧
      ∃ part slice l, FirstFailing env (componentSlices value entry.parts) part slice ∧
        ¬ slice.length < part.min ∧ FirstRejecting env part slice l ∧ (l slice).err = kind) ∧
    (¬ (value = [] ∨
        ∃ ps ∈ componentSlices value entry.parts, componentFails env ps.1 ps.2) →
      validate_ai_val env ctx ai entry (value ++ rest) value.length =
        (((componentSlices value entry.parts).map fun ps => ps.2.length).sum, ctx)) := by
  have hspec := validateParts_spec env value rest entry.parts 0 (Nat.zero_le _)
  simp only [List.drop_zero, Nat.zero_add] at hspec
  obtain ⟨s1, s2, s3, s4, s5⟩ := hspec
  have hiff : (∃ e, validateAiVal env entry (value ++ rest) value.length = Except.error e) ↔
      (value = [] ∨
        ∃ ps ∈ componentSlices value entry.parts, componentFails env ps.1 ps.2) := by
    unfold validateAiVal
    by_cases h0 : value.length = 0
    · rw [if_pos h0]
      exact ⟨fun _ => Or.inl (List.length_eq_zero.1 h0), fun _ => ⟨_, rfl⟩⟩
    · rw [if_neg h0, s1]
      constructor
      · exact fun h => Or.inr h
      · rintro (h | h)
        · rw [h] at h0; exact absurd rfl h0
        · exact h
  refine ⟨hiff, ?_, ?_, ?_⟩
  · intro e he
    constructor
    · unfold validate_ai_val; rw [he]
    · cases e <;> rfl
  · intro kind pos len cl he
    constructor
    · unfold validate_ai_val; rw [he]; rfl
    · unfold validateAiVal at he
      by_cases h0 : value.length = 0
      · rw [if_pos h0] at he; exact absurd he (by simp)
      · rw [if_neg h0] at he
        exact s5 kind pos len cl he
  · intro hn
    have hne : ¬ ∃ e, validateAiVal env entry (value ++ rest) value.length = Except.error e :=
      fun h => hn (hiff.1 h)
    cases hv : validateAiVal env entry (value ++ rest) value.length with
    | error e => exact absurd ⟨e, hv⟩ hne
    | ok n =>
      unfold validate_ai_val
      rw [hv]
      unfold validateAiVal at hv
      by_cases h0 : value.length = 0
      · rw [if_pos h0] at hv; exact absurd hv (by simp)
      · rw [if_neg h0] at hv
        rw [s2 n hv]

/-- Evaluation of the walk on the example table: the value `12345678901234` of AI 01 has 14
digits, and its wrong check digit is reported by the additional linter with kind 8. -/
theorem validate_ai_val_walk_example :
    validateAiVal demoEnv e01 "12345678901234".toList 14 =
      Except.error (ValErr.linter 8 13 1 14) ∧
    validateAiVal demoEnv e01 "12345678901231".toList 14 = Except.ok 14 := by
  constructor <;> rfl

/-! ## Mutual exclusion pass -/

theorem strncmp_eq_zero_iff_take : ∀ (s t : List Char) (n : Nat), NoNul s → NoNul t →
    (strncmp s t n = 0 ↔ s.take n = t.take n) := by
  intro s
  induction s with
  | nil =>
    intro t n _ ht
    cases n with
    | zero => simp [strncmp]
    | succ m =>
      cases t with
      | nil => simp [strncmp]
      | cons y ys =>
        have hy : y.toNat ≠ 0 := ht y (List.mem_cons_self _ _)
        simp only [strncmp, List.take_nil, List.take_succ_cons]
        constructor
        · intro h; omega
        · intro h; exact absurd h (by simp)
  | cons x xs ih =>
    intro t n hs ht
    have hx : x.toNat ≠ 0 := hs x (List.mem_cons_self _ _)
    cases n with
    | zero => simp [strncmp]
    | succ m =>
      cases t with
      | nil =>
        simp only [strncmp, List.take_nil, List.take_succ_cons]
        constructor
        · intro h; omega
        · intro h; exact absurd h (by simp)
      | cons y ys =>
        simp only [strncmp, List.take_succ_cons]
        by_cases hxy : x = y
        · subst hxy
          simp only [if_true, List.cons.injEq, true_and]
          exact ih ys m (fun c hc => hs c (List.mem_cons_of_mem _ hc))
            (fun c hc => ht c (List.mem_cons_of_mem _ hc))
        · simp only [hxy, if_false, List.cons.injEq, false_and, iff_false]
          exact char_toNat_sub_ne hxy

theorem aiExistsLoop_isSome (ctx : Ctx) (b : List Char) (ig : Option Nat) (n : Nat) :
    ∀ l : List AiValue, (aiExistsLoop ctx b ig n l).isSome = true ↔
      ∃ x ∈ l, x.kind = AiValueKind.aiValue_aival ∧ strncmp (strAt ctx x.ai) b n = 0 ∧
        notIgnored ctx x b ig = true := by
  intro l
  induction l with
  | nil => simp [aiExistsLoop]
  | cons y ys ih =>
    unfold aiExistsLoop
    by_cases hk : y.kind = AiValueKind.aiValue_aival
    · rw [if_neg (not_not.2 hk)]
      by_cases hm : strncmp (strAt ctx y.ai) b n = 0 ∧ notIgnored ctx y b ig = true
      · rw [if_pos hm]
        simp only [Option.isSome_some, true_iff]
        exact ⟨y, List.mem_cons_self _ _, hk, hm.1, hm.2⟩
      · rw [if_neg hm, ih]
        constructor
        · rintro ⟨x, hx, h⟩; exact ⟨x, List.mem_cons_of_mem _ hx, h⟩
        · rintro ⟨x, hx, h1, h2, h3⟩
          rcases List.mem_cons.1 hx with rfl | hx
          · exact absurd ⟨h2, h3⟩ hm
          · exact ⟨x, hx, h1, h2, h3⟩
    · rw [if_pos hk, ih]
      constructor
      · rintro ⟨x, hx, h⟩; exact ⟨x, List.mem_cons_of_mem _ hx, h⟩
      · rintro ⟨x, hx, h1, h2⟩
        rcases List.mem_cons.1 hx with rfl | hx
        · exact absurd h1 hk
        · exact ⟨x, hx, h1, h2⟩

theorem mutexPatternLoop_isSome (ctx : Ctx) (a : AiValue) :
    ∀ pats : List (List Char), (mutexPatternLoop ctx a pats).isSome = true ↔
      ∃ b ∈ pats, (aiExists ctx b (some a.ai)).isSome = true := by
  intro pats
  induction pats with
  | nil => simp [mutexPatternLoop]
  | cons b bs ih =>
    unfold mutexPatternLoop
    cases h : aiExists ctx b (some a.ai) with
    | some m =>
      simp only [Option.isSome_some, true_iff]
      exact ⟨b, List.mem_cons_self _ _, by rw [h]; rfl⟩
    | none =>
      simp only [ih]
      constructor
      · rintro ⟨c, hc, h1⟩; exact ⟨c, List.mem_cons_of_mem _ hc, h1⟩
      · rintro ⟨c, hc, h1⟩
        rcases List.mem_cons.1 hc with rfl | hc
        · rw [h] at h1; exact absurd h1 (by simp)
        · exact ⟨c, hc, h1⟩

theorem mutexTokenLoop_isSome (ctx : Ctx) (a : AiValue) :
    ∀ tokens : List (List Char), (mutexTokenLoop ctx a tokens).isSome = true ↔
      ∃ b ∈ (tokens.filter (fun token => decide (strncmp token "ex=".toList 3 = 0))).flatMap
          (fun token => strtokAll (token.drop 3) ','),
        (aiExists ctx b (some a.ai)).isSome = true := by
  intro tokens
  induction tokens with
  | nil => simp [mutexTokenLoop]
  | cons t ts ih =>
    unfold mutexTokenLoop
    by_cases hex : strncmp t "ex=".toList 3 = 0
    · rw [if_pos hex, List.filter_cons_of_pos (by simpa using hex), List.flatMap_cons]
      cases h : mutexPatternLoop ctx a (strtokAll (t.drop 3) ',') with
      | some m =>
        have h1 := (mutexPatternLoop_isSome ctx a _).1 (by rw [h]; rfl)
        obtain ⟨b, hb, hb2⟩ := h1
        simp only [Option.isSome_some, true_iff]
        exact ⟨b, List.mem_append_left _ hb, hb2⟩
      | none =>
        have h1 : ¬ ∃ b ∈ strtokAll (t.drop 3) ',', (aiExists ctx b (some a.ai)).isSome = true := by
          intro hc
          have := (mutexPatternLoop_isSome ctx a _).2 hc
          rw [h] at this; exact absurd this (by simp)
        simp only [ih]
        constructor
        · rintro ⟨b, hb, hb2⟩; exact ⟨b, List.mem_append_right _ hb, hb2⟩
        · rintro ⟨b, hb, hb2⟩
          rcases List.mem_append.1 hb with hb | hb
          · exact absurd ⟨b, hb, hb2⟩ h1
          · exact ⟨b, hb, hb2⟩
    · rw [if_neg hex, List.filter_cons_of_neg (by simpa using hex)]
      exact ih

theorem mutexLoop_false (env : Env) (ctx : Ctx) :
    ∀ l : List AiValue, (mutexLoop env ctx l).1 = false ↔
      ∃ a ∈ l, a.kind = AiValueKind.aiValue_aival ∧ ∃ entry, a.aiEntry = some entry ∧
        ∃ b ∈ exPatterns env entry, (aiExists ctx b (some a.ai)).isSome = true := by
  intro l
  induction l with
  | nil => simp [mutexLoop]
  | cons y ys ih =>
    have hstep : (∃ a ∈ ys, a.kind = AiValueKind.aiValue_aival ∧ ∃ entry,
        a.aiEntry = some entry ∧
        ∃ b ∈ exPatterns env entry, (aiExists ctx b (some a.ai)).isSome = true) →
        ∃ a ∈ y :: ys, a.kind = AiValueKind.aiValue_aival ∧ ∃ entry,
        a.aiEntry = some entry ∧
        ∃ b ∈ exPatterns env entry, (aiExists ctx b (some a.ai)).isSome = true := by
      rintro ⟨a, ha, h⟩; exact ⟨a, List.mem_cons_of_mem _ ha, h⟩
    unfold mutexLoop
    by_cases hk : y.kind = AiValueKind.aiValue_aival
    · rw [if_neg (not_not.2 hk)]
      cases he : y.aiEntry with
      | none =>
        simp only [ih]
        refine ⟨hstep, ?_⟩
        rintro ⟨a, ha, h1, entry, h2, h3⟩
        rcases List.mem_cons.1 ha with rfl | ha
        · rw [he] at h2; exact absurd h2 (by simp)
        · exact ⟨a, ha, h1, entry, h2, h3⟩
      | some entry =>
        simp only []
        cases ht : mutexTokenLoop ctx y (strtokAll (attrsCopy env entry) ' ') with
        | some m =>
          simp only [true_iff]
          obtain ⟨b, hb, hb2⟩ := (mutexTokenLoop_isSome ctx y _).1 (by rw [ht]; rfl)
          exact ⟨y, List.mem_cons_self _ _, hk, entry, he, b, hb, hb2⟩
        | none =>
          simp only [ih]
          refine ⟨hstep, ?_⟩
          rintro ⟨a, ha, h1, entry', h2, b, hb, hb2⟩
          rcases List.mem_cons.1 ha with rfl | ha
          · rw [he] at h2
            cases h2
            have := (mutexTokenLoop_isSome ctx a _).2 ⟨b, hb, hb2⟩
            rw [ht] at this; exact absurd this (by simp)
          · exact ⟨a, ha, h1, entry', h2, b, hb, hb2⟩
    · rw [if_pos hk, ih]
      refine ⟨hstep, ?_⟩
      rintro ⟨a, ha, h1, h2⟩
      rcases List.mem_cons.1 ha with rfl | ha
      · exact absurd h1 hk
      · exact ⟨a, ha, h1, h2⟩

theorem strtokLoop_subset (d : Char) : ∀ (s cur : List Char), ∀ t ∈ strtokLoop d s cur,
    ∀ c ∈ t, c ∈ cur ∨ c ∈ s := by
  intro s
  induction s with
  | nil =>
    intro cur t ht c hc
    unfold strtokLoop at ht
    by_cases h : cur = []
    · rw [if_pos h] at ht; exact absurd ht (List.not_mem_nil t)
    · rw [if_neg h] at ht
      rw [List.mem_singleton.1 ht] at hc
      exact Or.inl hc
  | cons x xs ih =>
    intro cur t ht c hc
    unfold strtokLoop at ht
    by_cases hx : x = d
    · rw [if_pos hx] at ht
      by_cases h : cur = []
      · rw [if_pos h] at ht
        rcases ih [] t ht c hc with h1 | h1
        · exact absurd h1 (List.not_mem_nil c)
        · exact Or.inr (List.mem_cons_of_mem _ h1)
      · rw [if_neg h] at ht
        rcases List.mem_cons.1 ht with rfl | ht
        · exact Or.inl hc
        · rcases ih [] t ht c hc with h1 | h1
          · exact absurd h1 (List.not_mem_nil c)
          · exact Or.inr (List.mem_cons_of_mem _ h1)
    · rw [if_neg hx] at ht
      rcases ih (cur ++ [x]) t ht c hc with h1 | h1
      · rcases List.mem_append.1 h1 with h2 | h2
        · exact Or.inl h2
        · rw [List.mem_singleton.1 h2]; exact Or.inr (List.mem_cons_self _ _)
      · exact Or.inr (List.mem_cons_of_mem _ h1)

theorem strtokAll_subset (d : Char) (s t : List Char) (ht : t ∈ strtokAll s d) :
    ∀ c ∈ t, c ∈ s := by
  intro c hc
  rcases strtokLoop_subset d s [] t ht c hc with h | h
  · exact absurd h (List.not_mem_nil c)
  · exact h

theorem exPatterns_noNul (env : Env) (entry : AiEntry) (h : NoNul entry.attrs) :
    ∀ b ∈ exPatterns env entry, NoNul b := by
  intro b hb c hc
  unfold exPatterns at hb
  obtain ⟨token, htok, hb⟩ := List.mem_flatMap.1 hb
  have h1 : c ∈ token.drop 3 := strtokAll_subset ',' _ b hb c hc
  have h2 : c ∈ token := List.mem_of_mem_drop h1
  have h3 : c ∈ attrsCopy env entry :=
    strtokAll_subset ' ' _ token (List.mem_of_mem_filter htok) c h2
  exact h c (List.mem_of_mem_take h3)

theorem take_strspnDigits (b : List Char) : b.take (strspnDigits b) = digitRun b := by
  unfold strspnDigits digitRun
  have h := List.takeWhile_prefix isDigit (l := b)
  rw [List.prefix_iff_eq_take] at h
  exact h.symm

theorem aiExists_isSome (ctx : Ctx) (hdata : NoNul ctx.dataStr) (b : List Char) (hb : NoNul b)
    (a : AiValue) :
    (aiExists ctx b (some a.ai)).isSome = true ↔
      ∃ x ∈ ctx.aiData, x.kind = AiValueKind.aiValue_aival ∧
        (strAt ctx x.ai).take (digitRun b).length = digitRun b ∧
        (strAt ctx x.ai).take b.length ≠ (strAt ctx a.ai).take b.length := by
  have hstr : ∀ off, NoNul (strAt ctx off) := fun off c hc => hdata c (List.mem_of_mem_drop hc)
  unfold aiExists
  rw [aiExistsLoop_isSome]
  have key : ∀ x : AiValue,
      (strncmp (strAt ctx x.ai) b (strspnDigits b) = 0 ∧ notIgnored ctx x b (some a.ai) = true) ↔
      ((strAt ctx x.ai).take (digitRun b).length = digitRun b ∧
        (strAt ctx x.ai).take b.length ≠ (strAt ctx a.ai).take b.length) := by
    intro x
    rw [strncmp_eq_zero_iff_take _ _ _ (hstr _) hb, take_strspnDigits]
    unfold notIgnored
    rw [decide_eq_true_eq, Ne, strncmp_eq_zero_iff_take _ _ _ (hstr _) (hstr _)]
    have : strspnDigits b = (digitRun b).length := rfl
    rw [this]
  constructor
  · rintro ⟨x, hx, hk, h1, h2⟩
    exact ⟨x, hx, hk, (key x).1 ⟨h1, h2⟩⟩
  · rintro ⟨x, hx, hk, h⟩
    exact ⟨x, hx, hk, (key x).2 h⟩

/-- The test of the mutex pass on the bytes of the buffer: for C strings, the pass fails
exactly when there are an extracted AI `a`, a pattern `b` of an `ex=` token in the copied
attributes of its entry and an extracted AI `x` such that the digit run of `b` equals the
bytes of the same length at the AI of `x`, and the first `len(b)` bytes at the AI of `x`
differ from those at the AI of `a`. -/
theorem mutex_bytes_iff (env : Env) (ctx : Ctx) (hwf : WellFormedStrings ctx) :
    (validateAImutex env ctx).1 = false ↔ MutexBytes env ctx := by
  unfold validateAImutex MutexBytes
  rw [mutexLoop_false]
  constructor
  · rintro ⟨a, ha, hk, entry, he, b, hb, hex⟩
    have hbn := exPatterns_noNul env entry (hwf.2 a ha entry he) b hb
    exact ⟨a, ha, hk, entry, he, b, hb, (aiExists_isSome ctx hwf.1 b hbn a).1 hex⟩
  · rintro ⟨a, ha, hk, entry, he, b, hb, hex⟩
    have hbn := exPatterns_noNul env entry (hwf.2 a ha entry he) b hb
    exact ⟨a, ha, hk, entry, he, b, hb, (aiExists_isSome ctx hwf.1 b hbn a).2 hex⟩

/-- The byte test on the example table: in `(3940)1234(3941)9999` the pattern `394n` of
AI 3940 matches AI 3941, whose four bytes differ, so the pass fails; AI 3940 alone
matches its own pattern only by itself and passes. -/
theorem mutex_bytes_iff_witness :
    (validateAImutex demoEnv mutexDemoCtx).1 = false ∧
    ¬ MutexBytes demoEnv
      { mutexDemoCtx with aiData := [mkAiValue demoEnv e3940 1 4 5 4] } :=
  ⟨(mutex_bytes_iff demoEnv mutexDemoCtx (by decide)).2
      ⟨mkAiValue demoEnv e3940 1 4 5 4, by decide, by decide, e3940, rfl, "394n".toList,
        by decide, mkAiValue demoEnv e3941 10 4 14 4, by decide, by decide, by decide,
        by decide⟩,
    fun h => absurd ((mutex_bytes_iff demoEnv _ (by decide)).2 h) (by decide)⟩

/-- The byte test of the mutex pass does not depend on the order of the list: if the
entry of an extracted AI `a` lists the pattern `b` in an `ex=` token, and the list also
holds an extracted AI `x` at whose AI the bytes equal the digit run of `b` and whose first
`len(b)` bytes differ from those at the AI of `a`, then the mutex pass fails, whether `a`
comes before or after `x` and whatever entries precede, separate or follow them. -/
theorem mutex_symmetry_bytes (env : Env) (ctx : Ctx) (hwf : WellFormedStrings ctx)
    (a x : AiValue) (pre mid post : List AiValue) (entry : AiEntry) (b : List Char)
    (horder : ctx.aiData = pre ++ a :: mid ++ x :: post ∨
      ctx.aiData = pre ++ x :: mid ++ a :: post)
    (hka : a.kind = AiValueKind.aiValue_aival) (hea : a.aiEntry = some entry)
    (hb : b ∈ exPatterns env entry) (hkx : x.kind = AiValueKind.aiValue_aival)
    (hmatch : (strAt ctx x.ai).take (digitRun b).length = digitRun b)
    (hother : (strAt ctx x.ai).take b.length ≠ (strAt ctx a.ai).take b.length) :
    (validateAImutex env ctx).1 = false := by
  have hmem : a ∈ ctx.aiData ∧ x ∈ ctx.aiData := by
    rcases horder with h | h <;> rw [h] <;> simp
  unfold validateAImutex
  rw [mutexLoop_false]
  have hbn := exPatterns_noNul env entry (hwf.2 a hmem.1 entry hea) b hb
  exact ⟨a, hmem.1, hka, entry, hea, b, hb,
    (aiExists_isSome ctx hwf.1 b hbn a).2 ⟨x, hmem.2, hkx, hmatch, hother⟩⟩

/-- The order on the example table: AI 3940 lists `394n`, and the pass fails on
`(3941)9999(3940)1234`, where the matching AI 3941 comes first. -/
theorem mutex_symmetry_bytes_witness :
    (validateAImutex demoEnv mutexDemoCtxRev).1 = false :=
  mutex_symmetry_bytes demoEnv mutexDemoCtxRev (by decide)
    (mkAiValue demoEnv e3940 10 4 14 4) (mkAiValue demoEnv e3941 1 4 5 4) [] [] []
    e3940 "394n".toList (Or.inr rfl) rfl rfl (by decide) rfl (by decide) (by decide)

/-! ## Scan-data codec -/

theorem strchr_split : ∀ (s : List Char) (c : Char) (i : Nat), strchr s c = some i →
    s = s.take i ++ c :: s.drop (i + 1) ∧ c ∉ s.take i := by
  intro s
  induction s with
  | nil => intro c i h; simp [strchr] at h
  | cons a as ih =>
    intro c i h
    unfold strchr at h
    by_cases hac : a = c
    · rw [if_pos hac] at h
      cases h
      simp [hac]
    · rw [if_neg hac] at h
      cases hs : strchr as c with
      | none => rw [hs] at h; simp at h
      | some j =>
        rw [hs] at h
        simp only [Option.map_some', Option.some.injEq] at h
        subst h
        obtain ⟨h1, h2⟩ := ih c j hs
        constructor
        · simp only [List.take_succ_cons, List.drop_succ_cons, List.cons_append]
          rw [← h1]
        · simp only [List.take_succ_cons, List.mem_cons, not_or]
          exact ⟨fun h => hac h.symm, h2⟩

theorem strchr_none : ∀ (s : List Char) (c : Char), strchr s c = none ↔ c ∉ s := by
  intro s
  induction s with
  | nil => intro c; simp [strchr]
  | cons a as ih =>
    intro c
    unfold strchr
    by_cases hac : a = c
    · simp [hac]
    · rw [if_neg hac]
      simp only [Option.map_eq_none', ih, List.mem_cons, not_or]
      exact ⟨fun h => ⟨fun h' => hac h'.symm, h⟩, fun h => h.2⟩

theorem charAt_take_pos (s : List Char) (i : Nat) (hi : 0 < i) :
    charAt (s.take i) 0 = charAt s 0 := by
  cases s with
  | nil => simp [charAt]
  | cons a as =>
    cases i with
    | zero => omega
    | succ j => simp [charAt]

/-- For QR and Data Matrix and data that does not start with `^`, the generated scan data
is the plain-data identifier followed by what `scancat` makes of the whole data. -/
theorem generate_plain (ctx : Ctx) (hsym : ctx.sym = Sym.sQR ∨ ctx.sym = Sym.sDM)
    (h : charAt ctx.dataStr 0 ≠ '^') :
    (gs1_generateScanData ctx).1 =
      some (scancat (if ctx.sym = Sym.sQR then "]Q1".toList else "]d1".toList) ctx.dataStr) := by
  unfold gs1_generateScanData
  cases hs : strchr ctx.dataStr '|' with
  | none =>
    rcases hsym with hq | hq <;> simp [generateSwitch, hq, h]
  | some i =>
    obtain ⟨hsplit, _⟩ := strchr_split _ _ _ hs
    have hlin : charAt (ctx.dataStr.take i) 0 ≠ '^' := by
      cases i with
      | zero => simp [charAt]
      | succ j => rw [charAt_take_pos _ _ (Nat.succ_pos j)]; exact h
    rcases hsym with hq | hq <;> simp [generateSwitch, hq, hlin, ← hsplit]

theorem strncmp_right_prefix_iff : ∀ (t s : List Char), NoNul t →
    (strncmp s t t.length = 0 ↔ t <+: s) := by
  intro t
  induction t with
  | nil => intro s _; simp [strncmp]
  | cons y ys ih =>
    intro s ht
    have hy : y.toNat ≠ 0 := ht y (List.mem_cons_self _ _)
    cases s with
    | nil =>
      simp only [List.length_cons, strncmp]
      constructor
      · intro h; omega
      · intro h; simp at h
    | cons x xs =>
      simp only [List.length_cons, strncmp, List.cons_prefix_cons]
      by_cases hxy : x = y
      · subst hxy
        simp only [if_true, true_and]
        exact ih xs (fun c hc => ht c (List.mem_cons_of_mem _ hc))
      · have hyx : ¬ y = x := fun h => hxy h.symm
        simp only [hxy, if_false, hyx, false_and, iff_false]
        exact char_toNat_sub_ne hxy

theorem charAt_zero_eq_iff (s : List Char) (c : Char) (hc : c ≠ '\x00') :
    charAt s 0 = c ↔ [c] <+: s := by
  cases s with
  | nil =>
    simp only [charAt, List.getD_nil]
    constructor
    · intro h; exact absurd h.symm hc
    · intro h; simp at h
  | cons a as => simp [charAt, eq_comm]

theorem scancat_plain (out x : List Char) (h : charAt x 0 ≠ '^') :
    scancat out x =
      out ++ (if charAt (x.dropWhile (· = '\\')) 0 = '^' then x.drop 1 else x) := by
  unfold scancat
  rw [if_neg h]
  simp only []
  split <;> rfl

theorem plain_restore (x : List Char) (h : charAt x 0 ≠ '^') :
    (if charAt ((if charAt (x.dropWhile (· = '\\')) 0 = '^' then x.drop 1 else x).dropWhile
        (· = '\\')) 0 = '^'
      then '\\' :: (if charAt (x.dropWhile (· = '\\')) 0 = '^' then x.drop 1 else x)
      else (if charAt (x.dropWhile (· = '\\')) 0 = '^' then x.drop 1 else x)) = x := by
  by_cases hc : charAt (x.dropWhile (· = '\\')) 0 = '^'
  · cases x with
    | nil => simp [charAt] at hc
    | cons a as =>
      by_cases ha : a = '\\'
      · subst ha
        have hd : List.dropWhile (fun x => decide (x = '\\')) ('\\' :: as) =
            List.dropWhile (fun x => decide (x = '\\')) as := by
          simp [List.dropWhile_cons]
        rw [hd] at hc
        simp only [hd, hc, if_true, List.drop_succ_cons, List.drop_zero]
      · have hd : List.dropWhile (fun x => decide (x = '\\')) (a :: as) = a :: as := by
          simp [List.dropWhile_cons, ha]
        rw [hd] at hc
        exact absurd hc h
  · simp only [hc, if_false]

theorem processScan_plain_QR (env : Env) (ctx : Ctx) (body : List Char) :
    gs1_processScanData env ctx ("]Q1".toList ++ body) =
      processScanPlain env
        { ctx with sym := Sym.sQR, dataStr := [], aiData := [], errMsg := [], errFlag := false,
                   linterErr := 0, linterErrMarkup := [] } body := by
  have h : "]Q1".toList ++ body = ']' :: 'Q' :: '1' :: body := rfl
  rw [h]
  simp [gs1_processScanData, findSymId, symIdTable, strncmp, charAt]

theorem processScan_plain_DM (env : Env) (ctx : Ctx) (body : List Char) :
    gs1_processScanData env ctx ("]d1".toList ++ body) =
      processScanPlain env
        { ctx with sym := Sym.sDM, dataStr := [], aiData := [], errMsg := [], errFlag := false,
                   linterErr := 0, linterErrMarkup := [] } body := by
  have h : "]d1".toList ++ body = ']' :: 'd' :: '1' :: body := rfl
  rw [h]
  simp [gs1_processScanData, findSymId, symIdTable, strncmp, charAt]

theorem processScanPlain_restore (env : Env) (ctx : Ctx) (x : List Char)
    (h : charAt x 0 ≠ '^') (hhttp : ¬ "http://".toList <+: x)
    (hhttps : ¬ "https://".toList <+: x) :
    processScanPlain env ctx
      (if charAt (x.dropWhile (· = '\\')) 0 = '^' then x.drop 1 else x) =
      (true, { ctx with dataStr := x }) := by
  unfold processScanPlain
  simp only [plain_restore x h]
  have h1 : ¬ (strncmp x "https://".toList 8 = 0) := by
    intro hc
    exact hhttps ((strncmp_right_prefix_iff "https://".toList x (by decide)).1 hc)
  have h2 : ¬ (strncmp x "http://".toList 7 = 0) := by
    intro hc
    exact hhttp ((strncmp_right_prefix_iff "http://".toList x (by decide)).1 hc)
  rw [if_neg]
  rintro (⟨_, hc⟩ | ⟨_, hc⟩)
  · exact h1 hc
  · exact h2 hc

/-- C7: for QR and Data Matrix and every `data_str` that does not begin with `^`, with
`http://` or with `https://`, the scan data that `gs1_generateScanData` returns is
processed successfully by `gs1_processScanData` (in any context), which leaves `data_str`
equal to the original data and the symbology equal to the one used for encoding. -/
theorem plain_round_trip (env : Env) (ctx ctx' : Ctx)
    (hsym : ctx.sym = Sym.sQR ∨ ctx.sym = Sym.sDM)
    (hcaret : ¬ "^".toList <+: ctx.dataStr)
    (hhttp : ¬ "http://".toList <+: ctx.dataStr)
    (hhttps : ¬ "https://".toList <+: ctx.dataStr) :
    ∃ scanData, (gs1_generateScanData ctx).1 = some scanData ∧
      (gs1_processScanData env ctx' scanData).1 = true ∧
      (gs1_processScanData env ctx' scanData).2.dataStr = ctx.dataStr ∧
      (gs1_processScanData env ctx' scanData).2.sym = ctx.sym := by
  have h : charAt ctx.dataStr 0 ≠ '^' := by
    intro hc
    exact hcaret ((charAt_zero_eq_iff _ _ (by decide)).1 hc)
  refine ⟨_, generate_plain ctx hsym h, ?_⟩
  rw [scancat_plain _ _ h]
  rcases hsym with hq | hq
  · simp only [hq, if_true]
    rw [processScan_plain_QR, processScanPlain_restore env _ _ h hhttp hhttps]
    exact ⟨rfl, rfl, rfl⟩
  · simp only [hq]
    rw [if_neg (by decide), processScan_plain_DM, processScanPlain_restore env _ _ h hhttp hhttps]
    exact ⟨rfl, rfl, rfl⟩

/-- Witness for C7: the QR data `\\^TESTING`, two backslashes then `^`, is encoded as
`]Q1\^TESTING` and decoded to the same data with both backslashes. -/
theorem plain_round_trip_witness :
    (gs1_generateScanData { demoCtx with sym := Sym.sQR, dataStr := "\\\\^TESTING".toList }).1 =
      some "]Q1\\^TESTING".toList ∧
    ∃ scanData,
      (gs1_generateScanData
        { demoCtx with sym := Sym.sQR, dataStr := "\\\\^TESTING".toList }).1 = some scanData ∧
      (gs1_processScanData demoEnv demoCtx scanData).1 = true ∧
      (gs1_processScanData demoEnv demoCtx scanData).2.dataStr = "\\\\^TESTING".toList ∧
      (gs1_processScanData demoEnv demoCtx scanData).2.sym = Sym.sQR :=
  ⟨by decide,
   plain_round_trip demoEnv { demoCtx with sym := Sym.sQR, dataStr := "\\\\^TESTING".toList }
     demoCtx (Or.inl rfl) (by decide) (by decide) (by decide)⟩

/-! ## Unbracketed processor -/

theorem lookup_congr {c1 c2 : Ctx} (h : SameConfig c1 c2) (p : List Char) (n : Nat) :
    gs1_lookupAIentry c1 p n = gs1_lookupAIentry c2 p n := by
  obtain ⟨h1, h2, h3⟩ := h
  unfold gs1_lookupAIentry vivify aiLengthByPrefix
  rw [h1, h2, h3]

theorem sameButAIs_refl (c : Ctx) : SameButAIs c c :=
  ⟨rfl, rfl, rfl, rfl, rfl, rfl, rfl, rfl, rfl⟩

theorem sameButAIs_trans {c1 c2 c3 : Ctx} (h1 : SameButAIs c1 c2) (h2 : SameButAIs c2 c3) :
    SameButAIs c1 c3 := by
  obtain ⟨a1, a2, a3, a4, a5, a6, a7, a8, a9⟩ := h1
  obtain ⟨b1, b2, b3, b4, b5, b6, b7, b8, b9⟩ := h2
  exact ⟨b1.trans a1, b2.trans a2, b3.trans a3, b4.trans a4, b5.trans a5, b6.trans a6,
    b7.trans a7, b8.trans a8, b9.trans a9⟩

theorem sameConfig_of_sameButAIs {c1 c2 : Ctx} (h : SameButAIs c1 c2) : SameConfig c1 c2 :=
  ⟨h.2.2.2.2.2.2.1.symm, h.2.2.2.2.1.symm, h.2.2.2.2.2.2.2.1.symm⟩

theorem sameConfig_trans {c1 c2 c3 : Ctx} (h1 : SameConfig c1 c2) (h2 : SameConfig c2 c3) :
    SameConfig c1 c3 :=
  ⟨h1.1.trans h2.1, h1.2.1.trans h2.2.1, h1.2.2.trans h2.2.2⟩

theorem sameConfig_symm {c1 c2 : Ctx} (h : SameConfig c1 c2) : SameConfig c2 c1 :=
  ⟨h.1.symm, h.2.1.symm, h.2.2.symm⟩

/-- The value returned by `validate_ai_val` does not depend on the context. -/
theorem validate_ai_val_fst (env : Env) (ctx : Ctx) (ai : List Char) (entry : AiEntry)
    (start : List Char) (r : Nat) :
    (validate_ai_val env ctx ai entry start r).1 =
      (match validateAiVal env entry start r with
       | Except.ok n => n
       | Except.error _ => 0) := by
  unfold validate_ai_val
  cases validateAiVal env entry start r <;> rfl

/-- The context after `validate_ai_val` differs at most in the error fields. -/
theorem validate_ai_val_snd (env : Env) (ctx : Ctx) (ai : List Char) (entry : AiEntry)
    (start : List Char) (r : Nat) :
    SameButAIs ctx (validate_ai_val env ctx ai entry start r).2 ∧
    (validate_ai_val env ctx ai entry start r).2.aiData = ctx.aiData := by
  unfold validate_ai_val
  cases validateAiVal env entry start r with
  | ok n => exact ⟨sameButAIs_refl _, rfl⟩
  | error e => cases e <;> exact ⟨sameButAIs_refl _, rfl⟩

/-- A nonzero return of `validate_ai_val` leaves the context unchanged. -/
theorem validate_ai_val_ok (env : Env) (ctx : Ctx) (ai : List Char) (entry : AiEntry)
    (start : List Char) (r : Nat) (h : (validate_ai_val env ctx ai entry start r).1 ≠ 0) :
    (validate_ai_val env ctx ai entry start r).2 = ctx := by
  unfold validate_ai_val at h ⊢
  cases hv : validateAiVal env entry start r with
  | ok n => rfl
  | error e => rw [hv] at h; exact absurd rfl h

theorem processValue_frame (env : Env) (ex : Bool) (ai : List Char) (off : Nat)
    (entry : AiEntry) (p1 : List Char) (res : Nat × Ctx) :
    SameButAIs res.2 (processValue env ex ai off entry p1 res).ctxOf := by
  unfold processValue
  simp only []
  split_ifs <;> exact sameButAIs_refl _

theorem processStep_frame (env : Env) (ex : Bool) (p : List Char) (off : Nat) (ctx : Ctx) :
    SameButAIs ctx (processStep env ex p off ctx).ctxOf := by
  unfold processStep
  cases hl : gs1_lookupAIentry ctx p 0 with
  | none => exact sameButAIs_refl _
  | some entry =>
    simp only []
    split_ifs
    · exact sameButAIs_refl _
    · exact sameButAIs_trans (validate_ai_val_snd env ctx p entry _ _).1
        (processValue_frame env ex p off entry _ _)

theorem processLoop_frame (env : Env) (ex : Bool) :
    ∀ (fuel : Nat) (p : List Char) (off : Nat) (ctx : Ctx),
      SameButAIs ctx (processLoop env ex fuel p off ctx).2 := by
  intro fuel
  induction fuel with
  | zero => intro p off ctx; exact sameButAIs_refl _
  | succ n ih =>
    intro p off ctx
    unfold processLoop
    by_cases hp : p = []
    · rw [if_pos hp]; exact sameButAIs_refl _
    · rw [if_neg hp]
      have hs := processStep_frame env ex p off ctx
      cases hstep : processStep env ex p off ctx with
      | ret r => rw [hstep] at hs; exact hs
      | next p' off' ctx' =>
        rw [hstep] at hs
        exact sameButAIs_trans hs (ih p' off' ctx')

theorem processValue_congr (env : Env) (ex : Bool) (ai : List Char) (off : Nat)
    (entry : AiEntry) (p1 : List Char) (res1 res2 : Nat × Ctx)
    (h1 : res1.1 = res2.1) (h2 : SameAIs res1.2 res2.2) :
    StepRel SameAIs (processValue env ex ai off entry p1 res1)
      (processValue env ex ai off entry p1 res2) := by
  obtain ⟨n1, c1⟩ := res1
  obtain ⟨n2, c2⟩ := res2
  simp only at h1 h2
  subst h1
  obtain ⟨⟨a1, a2, a3⟩, a4⟩ := h2
  unfold processValue
  simp only [a4]
  split_ifs <;> simp [StepRel, SameAIs, SameConfig, *]

theorem processStep_congr (env : Env) (ex : Bool) (p : List Char) (off : Nat) (c1 c2 : Ctx)
    (h : SameAIs c1 c2) :
    StepRel SameAIs (processStep env ex p off c1) (processStep env ex p off c2) := by
  unfold processStep
  rw [lookup_congr h.1]
  cases hl : gs1_lookupAIentry c2 p 0 with
  | none => exact ⟨rfl, h.1, h.2⟩
  | some entry =>
    simp only []
    split_ifs
    · exact ⟨rfl, h.1, h.2⟩
    · apply processValue_congr
      · rw [validate_ai_val_fst, validate_ai_val_fst]
      · have v1 := validate_ai_val_snd env c1 p entry (p.drop entry.ai.length)
          (match strchr (p.drop entry.ai.length) '^' with
            | some i => i
            | none => (p.drop entry.ai.length).length)
        have v2 := validate_ai_val_snd env c2 p entry (p.drop entry.ai.length)
          (match strchr (p.drop entry.ai.length) '^' with
            | some i => i
            | none => (p.drop entry.ai.length).length)
        refine ⟨?_, ?_⟩
        · exact sameConfig_trans (sameConfig_symm (sameConfig_of_sameButAIs v1.1))
            (sameConfig_trans h.1 (sameConfig_of_sameButAIs v2.1))
        · rw [v1.2, v2.2]; exact h.2

theorem processLoop_congr (env : Env) (ex : Bool) :
    ∀ (fuel : Nat) (p : List Char) (off : Nat) (c1 c2 : Ctx), SameAIs c1 c2 →
      (processLoop env ex fuel p off c1).1 = (processLoop env ex fuel p off c2).1 ∧
      SameAIs (processLoop env ex fuel p off c1).2 (processLoop env ex fuel p off c2).2 := by
  intro fuel
  induction fuel with
  | zero => intro p off c1 c2 h; exact ⟨rfl, h⟩
  | succ n ih =>
    intro p off c1 c2 h
    unfold processLoop
    by_cases hp : p = []
    · rw [if_pos hp, if_pos hp]; exact ⟨rfl, h⟩
    · rw [if_neg hp, if_neg hp]
      have hs := processStep_congr env ex p off c1 c2 h
      cases hs1 : processStep env ex p off c1 with
      | ret r1 =>
        cases hs2 : processStep env ex p off c2 with
        | ret r2 => rw [hs1, hs2] at hs; exact hs
        | next p2 o2 k2 => rw [hs1, hs2] at hs; exact absurd hs (by simp [StepRel])
      | next p1 o1 k1 =>
        cases hs2 : processStep env ex p off c2 with
        | ret r2 => rw [hs1, hs2] at hs; exact absurd hs (by simp [StepRel])
        | next p2 o2 k2 =>
          rw [hs1, hs2] at hs
          obtain ⟨e1, e2, e3⟩ := hs
          subst e1 e2
          exact ih p1 o1 k1 k2 e3

/-- The result of `gs1_processAIdata` depends on the context only through the AI table,
the lookup configuration and the extracted AIs it starts from. -/
theorem processAIdata_congr (env : Env) (c1 c2 : Ctx) (dataStr : List Char) (base : Nat)
    (ex : Bool) (h : SameAIs c1 c2) :
    (gs1_processAIdata env c1 dataStr base ex).1 = (gs1_processAIdata env c2 dataStr base ex).1 ∧
    (gs1_processAIdata env c1 dataStr base ex).2.aiData =
      (gs1_processAIdata env c2 dataStr base ex).2.aiData := by
  unfold gs1_processAIdata
  simp only []
  split_ifs
  · exact ⟨rfl, h.2⟩
  · exact ⟨rfl, h.2⟩
  · have := processLoop_congr env ex (dataStr.length + 1) (dataStr.drop 1) (base + 1)
      { c1 with errMsg := [], errFlag := false, linterErr := 0, linterErrMarkup := [] }
      { c2 with errMsg := [], errFlag := false, linterErr := 0, linterErrMarkup := [] }
      ⟨h.1, h.2⟩
    exact ⟨this.1, this.2.2⟩

/-- The function `gs1_processAIdata` leaves all of the context but the extracted AIs and
the error fields as it was. -/
theorem processAIdata_frame (env : Env) (ctx : Ctx) (dataStr : List Char) (base : Nat)
    (ex : Bool) : SameButAIs ctx (gs1_processAIdata env ctx dataStr base ex).2 := by
  unfold gs1_processAIdata
  simp only []
  split_ifs
  · exact sameButAIs_refl _
  · exact sameButAIs_refl _
  · have h0 : SameButAIs ctx
        { ctx with errMsg := [], errFlag := false, linterErr := 0, linterErrMarkup := [] } :=
      ⟨rfl, rfl, rfl, rfl, rfl, rfl, rfl, rfl, rfl⟩
    exact sameButAIs_trans h0 (processLoop_frame env ex _ _ _ _)

theorem processScan_aiMode (env : Env) (ctx : Ctx) (id : List Char) (sym : Sym)
    (hid : (id, sym) ∈ aiModeIds) (B : List Char) :
    gs1_processScanData env ctx (id ++ B) =
      processScanAI env
        { ctx with sym := sym, dataStr := [], aiData := [], errMsg := [], errFlag := false,
                   linterErr := 0, linterErrMarkup := [] } [] B := by
  simp only [aiModeIds, List.mem_cons, Prod.mk.injEq, List.mem_singleton, List.not_mem_nil,
    or_false] at hid
  rcases hid with ⟨rfl, rfl⟩ | ⟨rfl, rfl⟩ | ⟨rfl, rfl⟩ | ⟨rfl, rfl⟩
  · have h : "]C1".toList ++ B = ']' :: 'C' :: '1' :: B := rfl
    rw [h]; simp [gs1_processScanData, findSymId, symIdTable, strncmp, charAt]
  · have h : "]e0".toList ++ B = ']' :: 'e' :: '0' :: B := rfl
    rw [h]; simp [gs1_processScanData, findSymId, symIdTable, strncmp, charAt]
  · have h : "]d2".toList ++ B = ']' :: 'd' :: '2' :: B := rfl
    rw [h]; simp [gs1_processScanData, findSymId, symIdTable, strncmp, charAt]
  · have h : "]Q3".toList ++ B = ']' :: 'Q' :: '3' :: B := rfl
    rw [h]; simp [gs1_processScanData, findSymId, symIdTable, strncmp, charAt]

/-- What `processScanAI` does at the start of `dataStr` when the body has no `^`: it
succeeds exactly when `gs1_processAIdata` does, and then holds its data and AIs. -/
theorem processScanAI_spec (env : Env) (ctx : Ctx) (B : List Char) (hB : '^' ∉ B) :
    (processScanAI env ctx [] B).1 =
      (gs1_processAIdata env { ctx with dataStr := scanBodyToData B } (scanBodyToData B) 0
        true).1 ∧
    ((processScanAI env ctx [] B).1 = true →
      (processScanAI env ctx [] B).2 =
        (gs1_processAIdata env { ctx with dataStr := scanBodyToData B } (scanBodyToData B) 0
          true).2) := by
  unfold processScanAI scanBodyToData
  rw [if_neg hB]
  simp only [List.nil_append, List.length_nil]
  generalize gs1_processAIdata env
    { ctx with dataStr := '^' :: List.map (fun c => if c = GS then '^' else c) B }
    ('^' :: List.map (fun c => if c = GS then '^' else c) B) 0 true = res
  obtain ⟨b, c2⟩ := res
  cases b with
  | false => simp [scanFail]
  | true => simp

/-- C2: for every AI-mode symbology identifier and every body `B`, `gs1_processScanData`
fails when `B` holds a `^`; otherwise it succeeds exactly when `gs1_processAIdata` with
`extractAIs = true`, started without extracted AIs, succeeds on `^` followed by `B` with
every GS byte replaced by `^`, and then `dataStr` is that string and `aiData` the list
that `gs1_processAIdata` extracts from it. -/
theorem scan_ai_mode (env : Env) (ctx : Ctx) (id : List Char) (sym : Sym)
    (hid : (id, sym) ∈ aiModeIds) (B : List Char) :
    ('^' ∈ B → (gs1_processScanData env ctx (id ++ B)).1 = false) ∧
    ('^' ∉ B →
      (gs1_processScanData env ctx (id ++ B)).1 =
        (gs1_processAIdata env { ctx with aiData := [] } (scanBodyToData B) 0 true).1 ∧
      ((gs1_processScanData env ctx (id ++ B)).1 = true →
        (gs1_processScanData env ctx (id ++ B)).2.dataStr = scanBodyToData B ∧
        (gs1_processScanData env ctx (id ++ B)).2.aiData =
          (gs1_processAIdata env { ctx with aiData := [] } (scanBodyToData B) 0 true).2.aiData)) := by
  rw [processScan_aiMode env ctx id sym hid B]
  constructor
  · intro hB
    unfold processScanAI
    rw [if_pos hB]
    rfl
  · intro hB
    obtain ⟨h1, h2⟩ := processScanAI_spec env
      { ctx with sym := sym, dataStr := [], aiData := [], errMsg := [], errFlag := false,
                 linterErr := 0, linterErrMarkup := [] } B hB
    have hc := processAIdata_congr env
      { ctx with sym := sym, dataStr := scanBodyToData B, aiData := [], errMsg := [],
                 errFlag := false, linterErr := 0, linterErrMarkup := [] }
      { ctx with aiData := [] } (scanBodyToData B) 0 true ⟨⟨rfl, rfl, rfl⟩, rfl⟩
    have hf := processAIdata_frame env
      { ctx with sym := sym, dataStr := scanBodyToData B, aiData := [], errMsg := [],
                 errFlag := false, linterErr := 0, linterErrMarkup := [] }
      (scanBodyToData B) 0 true
    refine ⟨h1.trans hc.1, ?_⟩
    intro hok
    rw [h2 hok]
    exact ⟨hf.2.1, hc.2⟩

/-- Witness for C2: the scan data `]Q3011231231231233310ABC123<GS>99TESTING` is accepted
and leaves `^011231231231233310ABC123^99TESTING` in `dataStr`. -/
theorem scan_ai_mode_witness :
    (gs1_processScanData demoEnv demoCtx
      ("]Q3".toList ++ "011231231231233310ABC123\x1d99TESTING".toList)).1 = true ∧
    (gs1_processScanData demoEnv demoCtx
      ("]Q3".toList ++ "011231231231233310ABC123\x1d99TESTING".toList)).2.dataStr =
        "^011231231231233310ABC123^99TESTING".toList :=
  have h := (scan_ai_mode demoEnv demoCtx "]Q3".toList Sym.sQR (by decide)
    "011231231231233310ABC123\x1d99TESTING".toList).2 (by decide)
  have hok : (gs1_processScanData demoEnv demoCtx
      ("]Q3".toList ++ "011231231231233310ABC123\x1d99TESTING".toList)).1 = true :=
    h.1.trans (by decide)
  ⟨hok, (h.2 hok).1.trans (by decide)⟩

theorem generate_ai2d (ctx : Ctx) (hsym : ctx.sym = Sym.sQR ∨ ctx.sym = Sym.sDM)
    (h : charAt ctx.dataStr 0 = '^') (hbar : '|' ∉ ctx.dataStr) :
    (gs1_generateScanData ctx).1 =
      some (scancat (if ctx.sym = Sym.sQR then "]Q3".toList else "]d2".toList) ctx.dataStr) := by
  unfold gs1_generateScanData
  rw [(strchr_none _ _).2 hbar]
  rcases hsym with hq | hq <;> simp [generateSwitch, hq, h]

theorem scancat_ai (out d : List Char) (h : charAt d 0 = '^') (hlast : d.getLast? ≠ some '^') :
    scancat out d = out ++ (d.drop 1).map (fun c => if c = '^' then GS else c) := by
  unfold scancat
  rw [if_pos h]
  simp only []
  rw [if_neg hlast]

theorem caret_not_mem_map (l : List Char) :
    '^' ∉ l.map (fun c => if c = '^' then GS else c) := by
  intro h
  obtain ⟨c, _, hc⟩ := List.mem_map.1 h
  by_cases h1 : c = '^'
  · rw [if_pos h1] at hc; exact absurd hc (by decide)
  · rw [if_neg h1] at hc; exact h1 hc

theorem map_gs_caret (l : List Char) (h : GS ∉ l) :
    (l.map (fun c => if c = '^' then GS else c)).map (fun c => if c = GS then '^' else c) = l := by
  induction l with
  | nil => rfl
  | cons a as ih =>
    have ha : a ≠ GS := fun he => h (by rw [he]; exact List.mem_cons_self _ _)
    have has : GS ∉ as := fun he => h (List.mem_cons_of_mem _ he)
    simp only [List.map_cons, ih has, List.cons.injEq, and_true]
    by_cases h1 : a = '^'
    · simp [h1]
    · simp [h1, ha]

theorem scanBodyToData_restore (d : List Char) (h : charAt d 0 = '^') (hgs : GS ∉ d) :
    scanBodyToData ((d.drop 1).map (fun c => if c = '^' then GS else c)) = d := by
  cases d with
  | nil => simp [charAt] at h
  | cons a as =>
    have ha : a = '^' := by simpa [charAt] using h
    unfold scanBodyToData
    rw [List.drop_succ_cons, List.drop_zero, map_gs_caret _ (fun he => hgs (List.mem_cons_of_mem _ he)),
      ha]

/-- C8: for QR and Data Matrix and every `data_str` that begins with `^`, does not end
with `^`, holds no `|` and no GS byte and is accepted by `gs1_processAIdata` (with
`extractAIs = true`, started without extracted AIs), the generated scan data is processed
successfully by `gs1_processScanData` in any context with the same AI table and lookup
configuration; it restores `data_str` and the symbology, and `aiData` is the list that
`gs1_processAIdata` extracts from the data. -/
theorem ai_round_trip (env : Env) (ctx ctx' : Ctx)
    (hsym : ctx.sym = Sym.sQR ∨ ctx.sym = Sym.sDM) (hcfg : SameConfig ctx ctx')
    (hcaret : "^".toList <+: ctx.dataStr) (hlast : ctx.dataStr.getLast? ≠ some '^')
    (hbar : '|' ∉ ctx.dataStr) (hgs : GS ∉ ctx.dataStr)
    (hacc : (gs1_processAIdata env { ctx with aiData := [] } ctx.dataStr 0 true).1 = true) :
    ∃ scanData, (gs1_generateScanData ctx).1 = some scanData ∧
      (gs1_processScanData env ctx' scanData).1 = true ∧
      (gs1_processScanData env ctx' scanData).2.dataStr = ctx.dataStr ∧
      (gs1_processScanData env ctx' scanData).2.sym = ctx.sym ∧
      (gs1_processScanData env ctx' scanData).2.aiData =
        (gs1_processAIdata env { ctx with aiData := [] } ctx.dataStr 0 true).2.aiData := by
  have h : charAt ctx.dataStr 0 = '^' := (charAt_zero_eq_iff _ _ (by decide)).2 hcaret
  refine ⟨_, generate_ai2d ctx hsym h hbar, ?_⟩
  rw [scancat_ai _ _ h hlast]
  have hid : ((if ctx.sym = Sym.sQR then "]Q3".toList else "]d2".toList), ctx.sym) ∈ aiModeIds := by
    rcases hsym with hq | hq <;> rw [hq] <;> decide
  rw [processScan_aiMode env ctx' _ ctx.sym hid]
  obtain ⟨s1, s2⟩ := processScanAI_spec env
    { ctx' with sym := ctx.sym, dataStr := [], aiData := [], errMsg := [], errFlag := false,
                linterErr := 0, linterErrMarkup := [] }
    ((ctx.dataStr.drop 1).map (fun c => if c = '^' then GS else c)) (caret_not_mem_map _)
  rw [scanBodyToData_restore _ h hgs] at s1 s2
  have hc := processAIdata_congr env
    { ctx' with sym := ctx.sym, dataStr := ctx.dataStr, aiData := [], errMsg := [],
                errFlag := false, linterErr := 0, linterErrMarkup := [] }
    { ctx with aiData := [] } ctx.dataStr 0 true
    ⟨⟨hcfg.1.symm, hcfg.2.1.symm, hcfg.2.2.symm⟩, rfl⟩
  have hf := processAIdata_frame env
    { ctx' with sym := ctx.sym, dataStr := ctx.dataStr, aiData := [], errMsg := [],
                errFlag := false, linterErr := 0, linterErrMarkup := [] }
    ctx.dataStr 0 true
  have hok := s1.trans (hc.1.trans hacc)
  refine ⟨hok, ?_⟩
  rw [s2 hok]
  exact ⟨hf.2.1, hf.1, hc.2⟩

/-- Witness for C8: the QR data `^011231231231233310ABC123^99TESTING` is encoded as
`]Q3011231231231233310ABC123<GS>99TESTING` and decoded to the same data. -/
theorem ai_round_trip_witness :
    (gs1_generateScanData
      { demoCtx with sym := Sym.sQR,
                     dataStr := "^011231231231233310ABC123^99TESTING".toList }).1 =
      some "]Q3011231231231233310ABC123\x1d99TESTING".toList ∧
    ∃ scanData,
      (gs1_generateScanData
        { demoCtx with sym := Sym.sQR,
                       dataStr := "^011231231231233310ABC123^99TESTING".toList }).1 =
        some scanData ∧
      (gs1_processScanData demoEnv demoCtx scanData).1 = true ∧
      (gs1_processScanData demoEnv demoCtx scanData).2.dataStr =
        "^011231231231233310ABC123^99TESTING".toList ∧
      (gs1_processScanData demoEnv demoCtx scanData).2.sym = Sym.sQR ∧
      (gs1_processScanData demoEnv demoCtx scanData).2.aiData =
        (gs1_processAIdata demoEnv
          { demoCtx with sym := Sym.sQR,
                         dataStr := "^011231231231233310ABC123^99TESTING".toList, aiData := [] }
          "^011231231231233310ABC123^99TESTING".toList 0 true).2.aiData :=
  ⟨by decide,
   ai_round_trip demoEnv
     { demoCtx with sym := Sym.sQR, dataStr := "^011231231231233310ABC123^99TESTING".toList }
     demoCtx (Or.inl rfl) (by decide) (by decide) (by decide) (by decide) (by decide)
     (by decide)⟩

/-! ## Bracketed parser -/

theorem unescape_cons_cons (c d : Char) (rest : List Char) :
    unescape (c :: d :: rest) =
      if c = '\\' ∧ d = '(' then '(' :: unescape rest else c :: unescape (d :: rest) := by
  rw [unescape]

theorem unescape_no_bracket : ∀ l : List Char, '(' ∉ l → unescape l = l := by
  intro l
  induction l using unescape.induct with
  | case1 => intro _; rfl
  | case2 c => intro _; rfl
  | case3 c d rest hcd ih =>
    intro h
    exact absurd (by rw [hcd.2]; simp) h
  | case4 c d rest hcd ih =>
    intro h
    rw [unescape_cons_cons, if_neg hcd, ih (fun hm => h (List.mem_cons_of_mem _ hm))]

theorem unescape_append_escaped : ∀ (a rest : List Char), '(' ∉ a →
    unescape (a ++ '\\' :: '(' :: rest) = a ++ '(' :: unescape rest := by
  intro a
  induction a with
  | nil => intro rest _; simp [unescape_cons_cons]
  | cons c cs ih =>
    intro rest h
    have hc : c ≠ '(' := fun he => h (by rw [he]; exact List.mem_cons_self _ _)
    have hcs : '(' ∉ cs := fun hm => h (List.mem_cons_of_mem _ hm)
    have hih := ih rest hcs
    cases cs with
    | nil =>
      simp only [List.cons_append, List.nil_append] at hih ⊢
      rw [unescape_cons_cons, if_neg (by simp), hih]
    | cons d ds =>
      have hd : d ≠ '(' := fun he => hcs (by rw [he]; exact List.mem_cons_self _ _)
      simp only [List.cons_append] at hih ⊢
      rw [unescape_cons_cons, if_neg (fun hh => hd hh.2), hih]

theorem noBareBracket_of_not_mem : ∀ (l : List Char) (prev : Char), '(' ∉ l →
    noBareBracket prev l = true := by
  intro l
  induction l with
  | nil => intro _ _; rfl
  | cons c cs ih =>
    intro prev h
    have hc : c ≠ '(' := fun he => h (by rw [he]; exact List.mem_cons_self _ _)
    unfold noBareBracket
    simp [hc, ih c (fun hm => h (List.mem_cons_of_mem _ hm))]

theorem getLast_cons_getD (c prev : Char) (cs : List Char) :
    (c :: cs).getLast?.getD prev = cs.getLast?.getD c := by
  cases cs with
  | nil => rfl
  | cons d ds =>
    rw [List.getLast?_cons_cons]
    cases h : (d :: ds).getLast? with
    | none => simp at h
    | some x => rfl

theorem noBareBracket_append : ∀ (a b : List Char) (prev : Char),
    noBareBracket prev (a ++ b) =
      (noBareBracket prev a && noBareBracket (a.getLast?.getD prev) b) := by
  intro a
  induction a with
  | nil => intro b prev; simp [noBareBracket]
  | cons c cs ih =>
    intro b prev
    rw [getLast_cons_getD]
    simp only [List.cons_append, noBareBracket, Bool.and_assoc, List.append_eq]
    rw [ih b c]

theorem strchr_some_split (r : List Char) (c : Char) (k : Nat) (h : strchr r c = some k) :
    ∃ pre post, r = pre ++ c :: post ∧ c ∉ pre ∧ pre.length = k := by
  obtain ⟨h1, h2⟩ := strchr_split r c k h
  refine ⟨r.take k, r.drop (k + 1), h1, h2, ?_⟩
  have hlen : k < r.length := by
    by_contra hge
    have h3 : r.drop (k + 1) = [] := List.drop_eq_nil_of_le (by omega)
    have h4 : r.take k = r := List.take_of_length_le (by omega)
    rw [h3, h4] at h1
    have := congrArg List.length h1
    simp at this
  simp only [List.length_take]
  omega

theorem charAt_append_length (a : List Char) (x : Char) (rest : List Char) :
    charAt (a ++ x :: rest) a.length = x := by
  induction a with
  | nil => rfl
  | cons c cs ih => simpa [charAt] using ih

theorem unescape_cons_of_ne (c : Char) (l : List Char) (h : c ≠ '\\') :
    unescape (c :: l) = c :: unescape l := by
  cases l with
  | nil => rfl
  | cons d ds => rw [unescape_cons_cons, if_neg (fun hh => h hh.1)]

theorem writeDataStr_some (env : Env) (d v d1 : List Char) (h : writeDataStr env d v = some d1) :
    d1 = d ++ v := by
  unfold writeDataStr at h
  split at h
  · exact absurd h (by simp)
  · exact (Option.some.inj h).symm

theorem nwriteDataStr_some (env : Env) (d v d1 : List Char) (l : Nat)
    (h : nwriteDataStr env d v l = some d1) : d1 = d ++ v.take l := by
  unfold nwriteDataStr at h
  split at h
  · exact absurd h (by simp)
  · exact (Option.some.inj h).symm

/-- What the `again:` loop copies: the input splits into a value in which every bracket
is escaped and the rest, which is empty or starts with a bracket that is not escaped; the
buffer receives the unescaped value. -/
theorem copyValue_spec (env : Env) :
    ∀ (fuel : Nat) (r : List Char) (prev : Char) (d d' p' : List Char),
      copyValue env fuel r prev d = some (d', p') →
      ∃ raw, r = raw ++ p' ∧ noBareBracket prev raw = true ∧
        (p' ≠ [] → charAt p' 0 = '(' ∧ raw.getLast?.getD prev ≠ '\\') ∧
        d' = d ++ unescape raw := by
  intro fuel
  induction fuel with
  | zero => intro r prev d d' p' h; simp [copyValue] at h
  | succ n ih =>
    intro r prev d d' p' h
    unfold copyValue at h
    cases hs : strchr r '(' with
    | none =>
      have hnot := (strchr_none r '(').1 hs
      simp only [hs, List.drop_length, ne_eq, not_true_eq_false, false_and, if_false] at h
      cases hw : nwriteDataStr env d r r.length with
      | none => rw [hw] at h; simp at h
      | some d1 =>
        rw [hw] at h
        simp only [Option.some.injEq, Prod.mk.injEq] at h
        obtain ⟨rfl, rfl⟩ := h
        have := nwriteDataStr_some env d r d1 r.length hw
        rw [List.take_length] at this
        exact ⟨r, by simp, noBareBracket_of_not_mem r prev hnot, fun hc => absurd rfl hc,
          by rw [this, unescape_no_bracket r hnot]⟩
    | some k =>
      obtain ⟨pre, post, rfl, hnot, hlen⟩ := strchr_some_split r '(' k hs
      subst hlen
      have hdrop : (pre ++ '(' :: post).drop pre.length = '(' :: post := List.drop_left' rfl
      simp only [hs, hdrop, ne_eq, reduceCtorEq, not_false_eq_true, true_and, List.drop_succ_cons,
        List.drop_zero] at h
      by_cases hesc : (if pre.length = 0 then prev
          else charAt (pre ++ '(' :: post) (pre.length - 1)) = '\\'
      · rw [if_pos hesc] at h
        cases hw : nwriteDataStr env d (pre ++ '(' :: post) (pre.length - 1) with
        | none => rw [hw] at h; simp at h
        | some d1 =>
          rw [hw] at h
          simp only [] at h
          cases hw2 : writeDataStr env d1 "(".toList with
          | none => rw [hw2] at h; simp at h
          | some d2 =>
            rw [hw2] at h
            simp only [] at h
            obtain ⟨raw', h1, h2, h3, h4⟩ := ih post '(' d2 d' p' h
            have e1 := nwriteDataStr_some env _ _ _ _ hw
            have e2 := writeDataStr_some env _ _ _ hw2
            rcases List.eq_nil_or_concat pre with hp | ⟨a, x, hp⟩
            · subst hp
              simp only [List.length_nil, if_true] at hesc
              simp only [List.nil_append, List.length_nil, Nat.zero_sub, List.take_zero,
                List.append_nil] at e1 ⊢
              refine ⟨'(' :: raw', by rw [h1]; rfl, ?_, ?_, ?_⟩
              · simp [noBareBracket, hesc, h2]
              · intro hp'
                rw [getLast_cons_getD]
                exact h3 hp'
              · rw [unescape_cons_of_ne _ _ (by decide), h4, e2, e1]
                simp
            · rw [List.concat_eq_append] at hp
              subst hp
              have hxa : '(' ∉ a := fun hm => hnot (List.mem_append_left _ hm)
              have hlen : (a ++ [x]).length - 1 = a.length := by simp
              have hx : x = '\\' := by
                have hne : ¬ (a ++ [x]).length = 0 := by simp
                rw [if_neg hne, hlen, List.append_assoc, List.singleton_append,
                  charAt_append_length] at hesc
                exact hesc
              subst hx
              rw [hlen] at e1
              have e1' : d1 = d ++ a := by
                rw [e1, List.append_assoc, List.take_left' rfl]
              refine ⟨a ++ '\\' :: '(' :: raw', ?_, ?_, ?_, ?_⟩
              · rw [h1]; simp
              · have : a ++ '\\' :: '(' :: raw' = (a ++ ['\\']) ++ '(' :: raw' := by simp
                rw [this, noBareBracket_append,
                  noBareBracket_of_not_mem _ prev (by simpa using hnot)]
                simp [noBareBracket, h2]
              · intro hp'
                have hg : (a ++ '\\' :: '(' :: raw').getLast?.getD prev = raw'.getLast?.getD '(' := by
                  have : a ++ '\\' :: '(' :: raw' = (a ++ ['\\']) ++ '(' :: raw' := by simp
                  rw [this, List.getLast?_append_of_ne_nil _ (by simp), getLast_cons_getD]
                rw [hg]
                exact h3 hp'
              · rw [unescape_append_escaped a raw' hxa, h4, e2, e1']
                simp
      · rw [if_neg hesc] at h
        cases hw : nwriteDataStr env d (pre ++ '(' :: post) pre.length with
        | none => rw [hw] at h; simp at h
        | some d1 =>
          rw [hw] at h
          simp only [Option.some.injEq, Prod.mk.injEq] at h
          obtain ⟨rfl, rfl⟩ := h
          have e1 := nwriteDataStr_some env _ _ _ _ hw
          rw [List.take_left' rfl] at e1
          refine ⟨pre, rfl, noBareBracket_of_not_mem pre prev hnot, ?_,
            by rw [e1, unescape_no_bracket pre hnot]⟩
          intro _
          refine ⟨by simp [charAt], ?_⟩
          rcases List.eq_nil_or_concat pre with hp | ⟨a, x, hp⟩
          · subst hp
            simpa using hesc
          · rw [List.concat_eq_append] at hp
            subst hp
            have hne : ¬ (a ++ [x]).length = 0 := by simp
            rw [if_neg hne] at hesc
            have hlen : (a ++ [x]).length - 1 = a.length := by simp
            rw [hlen] at hesc
            rw [List.append_assoc, List.singleton_append, charAt_append_length] at hesc
            simpa using hesc

theorem gate_ok_spec (ctx : Ctx) (ai : List Char) (entry : AiEntry) (v : List Char)
    (h : (gs1_aiValLengthContentCheck ctx ai entry v v.length).1 ≠ false) :
    (aiEntryMinLength entry ≤ v.length ∧ v.length ≤ aiEntryMaxLength entry ∧ '^' ∉ v) ∧
    (gs1_aiValLengthContentCheck ctx ai entry v v.length).2 = ctx := by
  unfold gs1_aiValLengthContentCheck at h ⊢
  rw [List.take_length] at h ⊢
  split_ifs at h ⊢ with h1 h2 h3
  · exact absurd rfl h
  · exact absurd rfl h
  · exact absurd rfl h
  · exact ⟨⟨by omega, by omega, h3⟩, rfl⟩

/-- One pass of the parser loop that goes on has read one segment `(AI)value`, looked
its AI up, written `^` if required, the AI and the unescaped value to the buffer, passed
the gate and stored one extracted AI. -/
theorem parseStep_spec (env : Env) (c : Char) (p : List Char) (f : Bool) (ctx : Ctx)
    (p' : List Char) (f' : Bool) (ctx' : Ctx)
    (h : parseStep env c p f ctx = ParseStep.next p' f' ctx') :
    ∃ s : Segment, c :: p = '(' :: s.ai ++ ')' :: s.raw ++ p' ∧ ')' ∉ s.ai ∧
      gs1_lookupAIentry ctx (s.ai ++ ')' :: s.raw ++ p') s.ai.length = some s.entry ∧
      noBareBracket ')' s.raw = true ∧
      (p' ≠ [] → charAt p' 0 = '(' ∧ s.raw.getLast? ≠ some '\\') ∧
      f' = s.entry.fnc1 ∧ GateOk s ∧ ctx.aiData.length < env.MAX_AIS ∧
      ctx' = { ctx with
        dataStr := ctx.dataStr ++ renderSegments f [s],
        aiData := ctx.aiData ++ segAiValues env ctx.dataStr.length f [s] } := by
  unfold parseStep at h
  by_cases hc : c = '('
  swap
  · rw [if_pos hc] at h; exact absurd h (by simp)
  subst hc
  rw [if_neg (by simp)] at h
  cases hs : strchr p ')' with
  | none => rw [hs] at h; simp at h
  | some ailen =>
    obtain ⟨ai, post, rfl, hnot, hlen⟩ := strchr_some_split p ')' ailen hs
    subst hlen
    rw [hs] at h
    simp only [] at h
    cases hl : gs1_lookupAIentry ctx (ai ++ ')' :: post) ai.length with
    | none => rw [hl] at h; simp at h
    | some entry =>
      rw [hl] at h
      simp only [] at h
      cases hw1 : (if f = true then writeDataStr env ctx.dataStr "^".toList
          else some ctx.dataStr) with
      | none => rw [hw1] at h; simp at h
      | some d1 =>
        rw [hw1] at h
        simp only [] at h
        have e1 : d1 = ctx.dataStr ++ (if f = true then ['^'] else []) := by
          by_cases hf : f = true
          · rw [if_pos hf] at hw1 ⊢
            exact writeDataStr_some env _ _ _ hw1
          · rw [if_neg hf] at hw1 ⊢
            simp only [Option.some.injEq] at hw1
            rw [← hw1]; simp
        cases hw2 : nwriteDataStr env d1 (ai ++ ')' :: post) ai.length with
        | none => rw [hw2] at h; simp at h
        | some d2 =>
          rw [hw2] at h
          simp only [] at h
          have e2 : d2 = d1 ++ ai := by
            have := nwriteDataStr_some env _ _ _ _ hw2
            rw [List.take_left' rfl] at this
            exact this
          have hdrop : (ai ++ ')' :: post).drop (ai.length + 1) = post := by
            have : ai ++ ')' :: post = (ai ++ [')']) ++ post := by simp
            rw [this]
            exact List.drop_left' (by simp)
          rw [hdrop] at h
          by_cases hr : post = []
          · rw [if_pos hr] at h; exact absurd h (by simp)
          rw [if_neg hr] at h
          cases hcv : copyValue env (post.length + 1) post ')' d2 with
          | none => rw [hcv] at h; simp at h
          | some res =>
            obtain ⟨d3, q⟩ := res
            rw [hcv] at h
            simp only [] at h
            obtain ⟨raw, hraw, hnb, hnext, e3⟩ := copyValue_spec env _ _ _ _ _ _ hcv
            have hval : d3.drop d2.length = unescape raw := by
              rw [e3]; exact List.drop_left' rfl
            rw [hval] at h
            by_cases hg : (gs1_aiValLengthContentCheck { ctx with dataStr := d3 }
                (ai ++ ')' :: post) entry (unescape raw) (unescape raw).length).1 = false
            · rw [if_pos hg] at h; exact absurd h (by simp)
            rw [if_neg hg] at h
            obtain ⟨hgate, hctx⟩ := gate_ok_spec { ctx with dataStr := d3 }
              (ai ++ ')' :: post) entry (unescape raw) hg
            rw [hctx] at h
            by_cases hmax : ctx.aiData.length ≥ env.MAX_AIS
            · rw [if_pos hmax] at h; exact absurd h (by simp)
            rw [if_neg hmax] at h
            simp only [ParseStep.next.injEq] at h
            obtain ⟨rfl, rfl, rfl⟩ := h
            refine ⟨⟨entry, ai, raw⟩, ?_, hnot, ?_, hnb, ?_, rfl, hgate, ?_, ?_⟩
            · rw [hraw]; simp
            · rw [← hl, hraw]; simp
            · intro hq
              refine ⟨(hnext hq).1, ?_⟩
              intro hlast
              have := (hnext hq).2
              rw [hlast] at this
              exact this rfl
            · simpa using hmax
            · rw [e3, e2, e1]
              cases f <;>
                simp [renderSegments, segAiValues, Nat.add_assoc, Nat.add_comm, Nat.add_left_comm]

theorem parsedAs_congr {c1 c2 : Ctx} (h : SameConfig c1 c2) :
    ∀ (segs : List Segment) (p : List Char), ParsedAs c1 p segs → ParsedAs c2 p segs := by
  intro segs
  induction segs with
  | nil => intro p hp; exact hp
  | cons s rest ih =>
    intro p hp
    obtain ⟨input', h1, h2, h3, h4, h5, h6⟩ := hp
    exact ⟨input', h1, h2, by rw [← lookup_congr h]; exact h3, h4, h5, ih input' h6⟩

theorem parseLoop_spec (env : Env) :
    ∀ (fuel : Nat) (p : List Char) (f : Bool) (ctx ctx' : Ctx),
      parseLoop env fuel p f ctx = (true, ctx') →
      ∃ segs, ParsedAs ctx p segs ∧ (∀ s ∈ segs, GateOk s) ∧
        (segs = [] ∨ ctx.aiData.length + segs.length ≤ env.MAX_AIS) ∧
        ctx' = { ctx with
          dataStr := ctx.dataStr ++ renderSegments f segs,
          aiData := ctx.aiData ++ segAiValues env ctx.dataStr.length f segs } := by
  intro fuel
  induction fuel with
  | zero => intro p f ctx ctx' h; simp [parseLoop] at h
  | succ n ih =>
    intro p f ctx ctx' h
    unfold parseLoop at h
    cases p with
    | nil =>
      simp only [Prod.mk.injEq, true_and] at h
      subst h
      exact ⟨[], rfl, by simp, Or.inl rfl, by simp [renderSegments, segAiValues]⟩
    | cons c q =>
      simp only [] at h
      cases hstep : parseStep env c q f ctx with
      | fail c1 => rw [hstep] at h; simp at h
      | next p' f' ctx1 =>
        rw [hstep] at h
        simp only [] at h
        obtain ⟨s, h1, h2, h3, h4, h5, h6, h7, h8, h9⟩ := parseStep_spec env c q f ctx p' f' ctx1 hstep
        obtain ⟨segs, i1, i2, i3, i4⟩ := ih p' f' ctx1 ctx' h
        have hcfg : SameConfig ctx1 ctx := by rw [h9]; exact ⟨rfl, rfl, rfl⟩
        refine ⟨s :: segs, ?_, ?_, ?_, ?_⟩
        · exact ⟨p', h1, h2, h3, h4, h5, parsedAs_congr hcfg segs p' i1⟩
        · intro t ht
          rcases List.mem_cons.1 ht with rfl | ht
          · exact h7
          · exact i2 t ht
        · right
          rw [h9] at i3
          simp only [List.length_append, segAiValues, List.length_cons, List.length_nil] at i3 ⊢
          rcases i3 with i3 | i3
          · rw [i3]; simp only [List.length_nil]; omega
          · omega
        · rw [i4, h9, h6]
          simp only [renderSegments, segAiValues, List.append_nil, List.length_append,
            List.append_assoc, List.cons_append, List.nil_append]
          congr 3
          · simp [Nat.add_assoc]
            split <;> simp [Nat.add_assoc, Nat.add_comm, Nat.add_left_comm]

/-- C1: every input that `gs1_parseAIdata` accepts splits into segments `(AI)value`, in
input order, and the output buffer is `^`, then for each segment its AI digits and its
value with every `\(` replaced by `(`, with one `^` before a segment other than the first
exactly when the entry of the preceding AI requires FNC1, and nothing after the last
value. -/
theorem parse_output_format (env : Env) (ctx : Ctx) (input : List Char)
    (h : (gs1_parseAIdata env ctx input).1 = true) :
    ∃ segs, segs ≠ [] ∧ ParsedAs ctx input segs ∧
      (gs1_parseAIdata env ctx input).2.dataStr = renderSegments true segs := by
  unfold gs1_parseAIdata at h ⊢
  simp only [] at h ⊢
  cases hloop : parseLoop env (input.length + 1) input true
      { ctx with dataStr := [], errMsg := [], errFlag := false, linterErr := 0,
                 linterErrMarkup := [] } with
  | mk b ctx1 =>
    rw [hloop] at h
    cases b with
    | false => simp at h
    | true =>
      simp only [] at h ⊢
      obtain ⟨segs, s1, _, _, s4⟩ := parseLoop_spec env _ _ _ _ _ hloop
      have hd : ctx1.dataStr = renderSegments true segs := by rw [s4]; simp
      have hf := (processAIdata_frame env ctx1 ctx1.dataStr 0 false).2.1
      have hcfg : SameConfig
          { ctx with dataStr := [], errMsg := [], errFlag := false, linterErr := 0,
                     linterErrMarkup := [] } ctx := ⟨rfl, rfl, rfl⟩
      refine ⟨segs, ?_, parsedAs_congr hcfg segs input s1, by rw [hf, hd]⟩
      intro hnil
      rw [hnil] at hd
      simp only [renderSegments] at hd
      rw [hd] at h
      simp [gs1_processAIdata] at h

/-- Witness for C1: `(10)12345(11)991225` is accepted and normalized to
`^1012345^11991225`, with a `^` after the value of AI 10, whose entry requires FNC1. -/
theorem parse_output_format_witness :
    (gs1_parseAIdata demoEnv demoCtx "(10)12345(11)991225".toList).2.dataStr =
      "^1012345^11991225".toList ∧
    ∃ segs, segs ≠ [] ∧ ParsedAs demoCtx "(10)12345(11)991225".toList segs ∧
      (gs1_parseAIdata demoEnv demoCtx "(10)12345(11)991225".toList).2.dataStr =
        renderSegments true segs :=
  ⟨by decide, parse_output_format demoEnv demoCtx "(10)12345(11)991225".toList (by decide)⟩

/-! ## Parity of the bracketed parser and the unbracketed processor -/

theorem sum_slices (parts : List AiComponent) : ∀ value : List Char,
    ((componentSlices value parts).map (fun ps => ps.2.length)).sum =
      min value.length (parts.map (fun part => part.max)).sum := by
  induction parts with
  | nil => intro value; simp [componentSlices]
  | cons part parts ih =>
    intro value
    simp only [componentSlices, List.map_cons, List.sum_cons, ih, List.length_take,
      List.length_drop]
    omega

theorem validateAiVal_ok_len (env : Env) (entry : AiEntry) (start : List Char) (r n : Nat)
    (hr : r ≤ start.length) (h : validateAiVal env entry start r = Except.ok n) :
    n = min r (aiEntryMaxLength entry) := by
  unfold validateAiVal at h
  by_cases h0 : r = 0
  · rw [if_pos h0] at h; exact absurd h (by simp)
  · rw [if_neg h0] at h
    have hspec := validateParts_spec env (start.take r) (start.drop r) entry.parts 0 (Nat.zero_le _)
    rw [List.take_append_drop, List.length_take, Nat.min_eq_left hr] at hspec
    have := hspec.2.1 n h
    rw [this, List.drop_zero, sum_slices, List.length_take, Nat.min_eq_left hr]
    simp [aiEntryMaxLength]

theorem caretIndex_le (p1 : List Char) : caretIndex p1 ≤ p1.length := by
  unfold caretIndex
  cases h : strchr p1 '^' with
  | none => exact Nat.le_refl _
  | some i =>
    obtain ⟨pre, post, h1, _, h3⟩ := strchr_some_split p1 '^' i h
    rw [h1, ← h3]
    simp

theorem strchr_append_of_not_mem : ∀ (a b : List Char) (c : Char), c ∉ a →
    strchr (a ++ b) c = (strchr b c).map (· + a.length) := by
  intro a
  induction a with
  | nil => intro b c _; simp
  | cons x xs ih =>
    intro b c h
    have hx : x ≠ c := fun he => h (by rw [he]; exact List.mem_cons_self _ _)
    have hih := ih b c (fun hm => h (List.mem_cons_of_mem _ hm))
    rw [List.cons_append, strchr, if_neg hx, hih]
    cases strchr b c with
    | none => rfl
    | some i => simp [Nat.add_assoc]

theorem caretIndex_append (a b : List Char) (h : '^' ∉ a) :
    caretIndex (a ++ b) = a.length + caretIndex b := by
  unfold caretIndex
  rw [strchr_append_of_not_mem a b '^' h]
  cases strchr b '^' with
  | none => simp
  | some i => simp [Nat.add_comm]

theorem renderSegments_true (segs : List Segment) (h : segs ≠ []) :
    renderSegments true segs = '^' :: renderSegments false segs := by
  cases segs with
  | nil => exact absurd rfl h
  | cons s rest => simp [renderSegments]

theorem segAiValues_true (env : Env) (off : Nat) (segs : List Segment) :
    segAiValues env off true segs = segAiValues env (off + 1) false segs := by
  cases segs with
  | nil => rfl
  | cons s rest => simp [segAiValues]

theorem isAI_head_ne_caret (ai tail : List Char) (h : IsAI ai) : charAt (ai ++ tail) 0 ≠ '^' := by
  cases ai with
  | nil => exact absurd h.1 (by simp)
  | cons c cs =>
    have hc := h.2 c (List.mem_cons_self _ _)
    simp only [List.cons_append, charAt, List.getD_cons_zero]
    intro he
    rw [he] at hc
    exact absurd hc (by decide)

/-- The text of segments without a leading separator does not start with `^`. -/
theorem renderSegments_false_head (ctx : Ctx) (hai : ∀ e ∈ ctx.aiTable, IsAI e.ai)
    (segs : List Segment) (hseg : ∀ s ∈ segs, SegOk ctx s) :
    charAt (renderSegments false segs) 0 ≠ '^' := by
  cases segs with
  | nil => simp [renderSegments, charAt]
  | cons s rest =>
    have hs := hseg s (List.mem_cons_self _ _)
    have : IsAI s.ai := by rw [← hs.2.1]; exact hai _ hs.1
    simp only [renderSegments, Bool.false_eq_true, if_false, List.nil_append, List.append_assoc]
    exact isAI_head_ne_caret _ _ this

theorem unknownAI_ai : unknownAI.ai = [] := rfl

/-- The length that validation reports for the value of a parsed segment, when it
succeeds on the bytes up to the next `^`, is the length of the value. -/
theorem segment_value_len (env : Env) (ctx : Ctx)
    (hfixed : ∀ e ∈ ctx.aiTable, e.fnc1 = false → aiEntryMinLength e = aiEntryMaxLength e)
    (s : Segment) (rest : List Segment) (hs : SegOk ctx s) (hrest : ∀ t ∈ rest, SegOk ctx t)
    (n : Nat)
    (h : validateAiVal env s.entry (unescape s.raw ++ renderSegments s.entry.fnc1 rest)
      (caretIndex (unescape s.raw ++ renderSegments s.entry.fnc1 rest)) = Except.ok n) :
    n = (unescape s.raw).length := by
  have hn := validateAiVal_ok_len env _ _ _ n (caretIndex_le _) h
  obtain ⟨hmem, _, hmin, hmax, hcaret⟩ := hs
  rw [caretIndex_append _ _ hcaret] at hn
  by_cases hf : s.entry.fnc1 = true
  · have htail : caretIndex (renderSegments s.entry.fnc1 rest) = 0 := by
      rw [hf]
      cases rest with
      | nil => rfl
      | cons t ts => simp [renderSegments, caretIndex, strchr]
    rw [htail] at hn
    omega
  · have hfx := hfixed _ hmem (by simpa using hf)
    omega

theorem processStep_segment (env : Env) (ctx : Ctx)
    (hai : ∀ e ∈ ctx.aiTable, IsAI e.ai)
    (hsorted : TableSorted ctx.aiTable) (hI1 : SameLengthPerPrefix ctx.aiTable)
    (hperm : ctx.permitUnknownAIs = false)
    (s : Segment) (hs : SegOk ctx s) (tail : List Char) (ex : Bool) (off : Nat) (c : Ctx)
    (hc : SameConfig c ctx) :
    processStep env ex (s.ai ++ unescape s.raw ++ tail) off c =
      processValue env ex (s.ai ++ unescape s.raw ++ tail) off s.entry (unescape s.raw ++ tail)
        (validate_ai_val env c (s.ai ++ unescape s.raw ++ tail) s.entry (unescape s.raw ++ tail)
          (caretIndex (unescape s.raw ++ tail))) := by
  have hl : gs1_lookupAIentry c (s.ai ++ unescape s.raw ++ tail) 0 = some s.entry := by
    rw [lookup_congr hc]
    refine (lookup_zero_iff ctx _ hai hsorted hI1 hperm s.entry).2 ⟨hs.1, ?_⟩
    rw [hs.2.1, List.append_assoc]
    exact List.prefix_append _ _
  have hne : s.entry ≠ unknownAI := by
    intro he
    have := (hai _ hs.1).1
    rw [he, unknownAI_ai] at this
    simp at this
  have hdrop : (s.ai ++ unescape s.raw ++ tail).drop s.entry.ai.length = unescape s.raw ++ tail := by
    rw [hs.2.1, List.append_assoc]
    exact List.drop_left' rfl
  unfold processStep
  rw [hl]
  simp only [hne, and_false, if_false, hdrop]
  rfl

theorem processValue_segment (env : Env) (ctx : Ctx)
    (hai : ∀ e ∈ ctx.aiTable, IsAI e.ai)
    (s : Segment) (rest : List Segment) (hs : SegOk ctx s) (hrest : ∀ t ∈ rest, SegOk ctx t)
    (ex : Bool) (p : List Char) (off : Nat) (c : Ctx)
    (hpos : (unescape s.raw).length ≠ 0)
    (hroom : ¬ (ex = true ∧ c.aiData.length ≥ env.MAX_AIS)) :
    processValue env ex p off s.entry (unescape s.raw ++ renderSegments s.entry.fnc1 rest)
        ((unescape s.raw).length, c) =
      Step.next (renderSegments false rest)
        (off + s.ai.length + (unescape s.raw).length +
          (if s.entry.fnc1 = true ∧ rest ≠ [] then 1 else 0))
        (if ex = true then
          { c with aiData := c.aiData ++
              [mkAiValue env s.entry off s.ai.length (off + s.ai.length) (unescape s.raw).length] }
         else c) := by
  unfold processValue
  simp only [hpos, if_false, hroom, List.drop_left, hs.2.1]
  by_cases hf : s.entry.fnc1 = true
  · rw [hf]
    cases rest with
    | nil => simp [renderSegments, charAt]
    | cons t ts =>
      simp [renderSegments, charAt]
  · have hf' : s.entry.fnc1 = false := by simpa using hf
    have hhead := renderSegments_false_head ctx hai rest hrest
    rw [hf']
    simp [hhead]

theorem renderSegments_false_cons (s : Segment) (rest : List Segment) :
    renderSegments false (s :: rest) =
      s.ai ++ unescape s.raw ++ renderSegments s.entry.fnc1 rest := by
  simp [renderSegments]

/-- A lookup with an explicit AI length that succeeds without vivification returns an
entry of the table whose AI is the looked-up digits. -/
theorem lookup_len_sound (ctx : Ctx) (hai : ∀ e ∈ ctx.aiTable, IsAI e.ai)
    (hsorted : TableSorted ctx.aiTable) (hI1 : SameLengthPerPrefix ctx.aiTable)
    (hperm : ctx.permitUnknownAIs = false) (ai tail : List Char) (entry : AiEntry)
    (h : gs1_lookupAIentry ctx (ai ++ ')' :: tail) ai.length = some entry) :
    entry ∈ ctx.aiTable ∧ entry.ai = ai := by
  by_cases h0 : ai.length = 0
  · rw [h0] at h
    have hp := (lookup_zero_iff ctx _ hai hsorted hI1 hperm entry).1 h
    have hnil : ai = [] := List.length_eq_zero.1 h0
    have he := hai _ hp.1
    rw [hnil] at hp
    exfalso
    cases hea : entry.ai with
    | nil => rw [hea] at he; exact absurd he.1 (by simp)
    | cons c cs =>
      have hc := he.2 c (by rw [hea]; exact List.mem_cons_self _ _)
      have hpre := hp.2
      rw [hea] at hpre
      simp only [List.nil_append, List.cons_prefix_cons] at hpre
      rw [hpre.1] at hc
      exact absurd hc (by decide)
  · unfold gs1_lookupAIentry at h
    simp only [hperm, Bool.not_false, if_true] at h
    split_ifs at h
    cases hl : lookupLoop ctx.aiTable (ai ++ ')' :: tail) ai.length ctx.aiTable.length 0
        ctx.aiTable.length with
    | none => rw [hl] at h; simp at h
    | some r =>
      rw [hl] at h
      simp only [] at h
      subst h
      obtain ⟨hm, hcmp, hlen⟩ := lookupLoop_sound _ _ _ _ _ _ _ hl
      refine ⟨hm, ?_⟩
      have hpre := (strncmp_prefix_iff entry.ai (hai _ hm).2 _).1 hcmp
      have := List.prefix_iff_eq_take.1 hpre
      rw [hlen h0, List.take_left' rfl] at this
      exact this

theorem segOk_of_parsed (ctx : Ctx) (hai : ∀ e ∈ ctx.aiTable, IsAI e.ai)
    (hsorted : TableSorted ctx.aiTable) (hI1 : SameLengthPerPrefix ctx.aiTable)
    (hperm : ctx.permitUnknownAIs = false) :
    ∀ (segs : List Segment) (input : List Char), ParsedAs ctx input segs →
      (∀ s ∈ segs, GateOk s) → ∀ s ∈ segs, SegOk ctx s := by
  intro segs
  induction segs with
  | nil => intro input _ _ s hs; simp at hs
  | cons t rest ih =>
    intro input hp hg s hs
    obtain ⟨input', _, _, hl, _, _, hrest⟩ := hp
    rcases List.mem_cons.1 hs with rfl | hin
    · have hl' : gs1_lookupAIentry ctx (s.ai ++ ')' :: (s.raw ++ input')) s.ai.length =
          some s.entry := by
        simpa using hl
      have := lookup_len_sound ctx hai hsorted hI1 hperm _ _ _ hl'
      exact ⟨this.1, this.2, hg s (List.mem_cons_self _ _)⟩
    · exact ih input' hrest (fun u hu => hg u (List.mem_cons_of_mem _ hu)) s hin

theorem processValue_false_aiData (env : Env) (ai : List Char) (off : Nat)
    (entry : AiEntry) (p1 : List Char) (res : Nat × Ctx) :
    (processValue env false ai off entry p1 res).ctxOf.aiData = res.2.aiData := by
  unfold processValue
  simp only [Bool.false_eq_true, false_and, if_false]
  split_ifs <;> rfl

theorem processStep_false_aiData (env : Env) (p : List Char) (off : Nat) (ctx : Ctx) :
    (processStep env false p off ctx).ctxOf.aiData = ctx.aiData := by
  unfold processStep
  cases hl : gs1_lookupAIentry ctx p 0 with
  | none => rfl
  | some entry =>
    simp only [Bool.false_eq_true, false_and, if_false]
    rw [processValue_false_aiData]
    exact (validate_ai_val_snd env ctx p entry _ _).2

/-- Without extraction, `gs1_processAIdata` leaves the extracted AIs as they were. -/
theorem processLoop_false_aiData (env : Env) :
    ∀ (fuel : Nat) (p : List Char) (off : Nat) (ctx : Ctx),
      (processLoop env false fuel p off ctx).2.aiData = ctx.aiData := by
  intro fuel
  induction fuel with
  | zero => intro p off ctx; rfl
  | succ n ih =>
    intro p off ctx
    unfold processLoop
    by_cases hp : p = []
    · rw [if_pos hp]
    · rw [if_neg hp]
      have hs := processStep_false_aiData env p off ctx
      cases hstep : processStep env false p off ctx with
      | ret r => rw [hstep] at hs; exact hs
      | next p' off' ctx' =>
        rw [hstep] at hs
        simp only []
        rw [ih p' off' ctx']
        exact hs

theorem processAIdata_false_aiData (env : Env) (ctx : Ctx) (dataStr : List Char) (base : Nat) :
    (gs1_processAIdata env ctx dataStr base false).2.aiData = ctx.aiData := by
  unfold gs1_processAIdata
  simp only []
  split_ifs
  · rfl
  · rfl
  · rw [processLoop_false_aiData]

/-- On the text of parsed segments, a validating run of the processor loop that succeeds
is matched by an extracting run, which stores the AIs of the segments. -/
theorem processLoop_render (env : Env) (ctx : Ctx)
    (hai : ∀ e ∈ ctx.aiTable, IsAI e.ai)
    (hsorted : TableSorted ctx.aiTable) (hI1 : SameLengthPerPrefix ctx.aiTable)
    (hfixed : ∀ e ∈ ctx.aiTable, e.fnc1 = false → aiEntryMinLength e = aiEntryMaxLength e)
    (hperm : ctx.permitUnknownAIs = false) :
    ∀ (segs : List Segment), (∀ s ∈ segs, SegOk ctx s) →
      ∀ (fuel off : Nat) (cF cT cF' : Ctx), SameConfig cF ctx → SameConfig cT ctx →
        processLoop env false fuel (renderSegments false segs) off cF = (true, cF') →
        cT.aiData.length + segs.length ≤ env.MAX_AIS →
        (processLoop env true fuel (renderSegments false segs) off cT).1 = true ∧
        (processLoop env true fuel (renderSegments false segs) off cT).2.aiData =
          cT.aiData ++ segAiValues env off false segs := by
  intro segs
  induction segs with
  | nil =>
    intro _ fuel off cF cT cF' _ _ hF _
    cases fuel with
    | zero => simp [processLoop] at hF
    | succ n => simp [processLoop, renderSegments, segAiValues]
  | cons s rest ih =>
    intro hseg fuel off cF cT cF' hcF hcT hF hcount
    have hs := hseg s (List.mem_cons_self _ _)
    have hrest : ∀ t ∈ rest, SegOk ctx t := fun t ht => hseg t (List.mem_cons_of_mem _ ht)
    cases fuel with
    | zero => simp [processLoop] at hF
    | succ n =>
      have hne : renderSegments false (s :: rest) ≠ [] := by
        intro hnil
        have := renderSegments_false_head ctx hai (s :: rest) hseg
        have hsai : IsAI s.ai := by rw [← hs.2.1]; exact hai _ hs.1
        rw [renderSegments_false_cons] at hnil
        have h2 := hsai.1
        have : s.ai = [] := by
          have := congrArg List.length hnil
          simp at this
          exact this.1
        rw [this] at h2
        simp at h2
      unfold processLoop at hF ⊢
      rw [if_neg hne] at hF
      rw [if_neg hne]
      rw [renderSegments_false_cons] at hF ⊢
      rw [processStep_segment env ctx hai hsorted hI1 hperm s hs _ false off cF hcF] at hF
      rw [processStep_segment env ctx hai hsorted hI1 hperm s hs _ true off cT hcT]
      have hfstF := validate_ai_val_fst env cF
        (s.ai ++ unescape s.raw ++ renderSegments s.entry.fnc1 rest) s.entry
        (unescape s.raw ++ renderSegments s.entry.fnc1 rest)
        (caretIndex (unescape s.raw ++ renderSegments s.entry.fnc1 rest))
      have hfstT := validate_ai_val_fst env cT
        (s.ai ++ unescape s.raw ++ renderSegments s.entry.fnc1 rest) s.entry
        (unescape s.raw ++ renderSegments s.entry.fnc1 rest)
        (caretIndex (unescape s.raw ++ renderSegments s.entry.fnc1 rest))
      cases hv : validateAiVal env s.entry (unescape s.raw ++ renderSegments s.entry.fnc1 rest)
          (caretIndex (unescape s.raw ++ renderSegments s.entry.fnc1 rest)) with
      | error e =>
        rw [hv] at hfstF
        simp only [] at hfstF
        exfalso
        unfold processValue at hF
        rw [if_pos hfstF] at hF
        simp at hF
      | ok k =>
        rw [hv] at hfstF hfstT
        simp only [] at hfstF hfstT
        have hk := segment_value_len env ctx hfixed s rest hs hrest k hv
        have hk0 : k ≠ 0 := by
          intro h0
          rw [h0] at hfstF
          unfold processValue at hF
          rw [if_pos hfstF] at hF
          simp at hF
        have hpos : (unescape s.raw).length ≠ 0 := by rw [← hk]; exact hk0
        have hresF : validate_ai_val env cF
            (s.ai ++ unescape s.raw ++ renderSegments s.entry.fnc1 rest) s.entry
            (unescape s.raw ++ renderSegments s.entry.fnc1 rest)
            (caretIndex (unescape s.raw ++ renderSegments s.entry.fnc1 rest)) =
            ((unescape s.raw).length, cF) :=
          Prod.ext (by rw [hfstF, hk])
            (validate_ai_val_ok env cF _ _ _ _ (by rw [hfstF]; exact hk0))
        have hresT : validate_ai_val env cT
            (s.ai ++ unescape s.raw ++ renderSegments s.entry.fnc1 rest) s.entry
            (unescape s.raw ++ renderSegments s.entry.fnc1 rest)
            (caretIndex (unescape s.raw ++ renderSegments s.entry.fnc1 rest)) =
            ((unescape s.raw).length, cT) :=
          Prod.ext (by rw [hfstT, hk])
            (validate_ai_val_ok env cT _ _ _ _ (by rw [hfstT]; exact hk0))
        rw [hresF, processValue_segment env ctx hai s rest hs hrest false _ off cF hpos
          (by simp)] at hF
        have hroom : ¬ (true = true ∧ cT.aiData.length ≥ env.MAX_AIS) := by
          simp only [List.length_cons] at hcount
          intro hh
          have := hh.2
          omega
        rw [hresT, processValue_segment env ctx hai s rest hs hrest true _ off cT hpos hroom]
        simp only [Bool.false_eq_true, if_false, if_true] at hF ⊢
        have hih := ih hrest n
          (off + s.ai.length + (unescape s.raw).length +
            (if s.entry.fnc1 = true ∧ rest ≠ [] then 1 else 0)) cF
          { cT with aiData := cT.aiData ++
              [mkAiValue env s.entry off s.ai.length (off + s.ai.length)
                (unescape s.raw).length] } cF' hcF hcT hF
          (by simp only [List.length_append, List.length_cons, List.length_nil] at hcount ⊢
              omega)
        refine ⟨hih.1, ?_⟩
        rw [hih.2]
        simp only [segAiValues, Bool.false_eq_true, if_false, Nat.add_zero, List.append_assoc,
          List.singleton_append]
        congr 2
        by_cases hf : s.entry.fnc1 = true
        · rw [hf]
          cases rest with
          | nil => rfl
          | cons t ts => simp [segAiValues_true]
        · have hf' : s.entry.fnc1 = false := by simpa using hf
          rw [hf']
          simp

/-- C5: for a sorted table of AIs (digit strings) with one AI length per two-digit
prefix, whose entries without the FNC1 flag have a fixed value length, and with unknown AIs not permitted:
when `gs1_parseAIdata` accepts an input, `gs1_processAIdata` with extraction, started
from no extracted AIs on the buffer that the parser wrote, succeeds, and the AIs that the
parser added are exactly the ones that it extracts, entry by entry. -/
theorem parse_process_parity (env : Env) (ctx : Ctx) (x : List Char)
    (hai : ∀ e ∈ ctx.aiTable, IsAI e.ai)
    (hsorted : TableSorted ctx.aiTable) (hI1 : SameLengthPerPrefix ctx.aiTable)
    (hfixed : ∀ e ∈ ctx.aiTable, e.fnc1 = false → aiEntryMinLength e = aiEntryMaxLength e)
    (hperm : ctx.permitUnknownAIs = false)
    (hok : (gs1_parseAIdata env ctx x).1 = true) :
    (gs1_processAIdata env { ctx with aiData := [] }
        (gs1_parseAIdata env ctx x).2.dataStr 0 true).1 = true ∧
    (gs1_parseAIdata env ctx x).2.aiData =
      ctx.aiData ++ (gs1_processAIdata env { ctx with aiData := [] }
        (gs1_parseAIdata env ctx x).2.dataStr 0 true).2.aiData := by
  unfold gs1_parseAIdata at hok ⊢
  simp only [] at hok ⊢
  cases hloop : parseLoop env (x.length + 1) x true
      { ctx with dataStr := [], errMsg := [], errFlag := false, linterErr := 0,
                 linterErrMarkup := [] } with
  | mk b ctx1 =>
    rw [hloop] at hok
    cases b with
    | false => simp at hok
    | true =>
      simp only [] at hok ⊢
      obtain ⟨segs, s1, s2, s3, s4⟩ := parseLoop_spec env _ _ _ _ _ hloop
      have hd : ctx1.dataStr = renderSegments true segs := by rw [s4]; simp
      have ha : ctx1.aiData = ctx.aiData ++ segAiValues env 0 true segs := by rw [s4]; simp
      have hcfg1 : SameConfig ctx1 ctx := by rw [s4]; exact ⟨rfl, rfl, rfl⟩
      rw [(processAIdata_frame env ctx1 ctx1.dataStr 0 false).2.1,
        processAIdata_false_aiData, ha, hd]
      rw [hd] at hok
      have hne : segs ≠ [] := by
        intro hnil
        rw [hnil] at hok
        simp [gs1_processAIdata, renderSegments] at hok
      have hcount : segs.length ≤ env.MAX_AIS := by
        rcases s3 with h | h
        · exact absurd h hne
        · omega
      have hcfg0 : SameConfig
          { ctx with dataStr := [], errMsg := [], errFlag := false, linterErr := 0,
                     linterErrMarkup := [] } ctx := ⟨rfl, rfl, rfl⟩
      have hsegs : ∀ s ∈ segs, SegOk ctx s :=
        segOk_of_parsed ctx hai hsorted hI1 hperm segs x
          (parsedAs_congr hcfg0 segs x s1) s2
      rw [renderSegments_true segs hne] at hok ⊢
      have hne2 : renderSegments false segs ≠ [] := by
        intro hnil
        rw [hnil] at hok
        simp [gs1_processAIdata, charAt] at hok
      unfold gs1_processAIdata at hok ⊢
      simp only [charAt, List.getD_cons_zero, ne_eq, not_true_eq_false, or_false,
        List.drop_succ_cons, List.drop_zero, hne2, if_false, reduceCtorEq,
        List.cons_ne_nil] at hok ⊢
      cases hF : processLoop env false (('^' :: renderSegments false segs).length + 1)
          (renderSegments false segs) (0 + 1)
          { ctx1 with errMsg := [], errFlag := false, linterErr := 0,
                      linterErrMarkup := [] } with
      | mk bF cF' =>
        rw [hF] at hok
        simp only [] at hok
        subst hok
        have hT := processLoop_render env ctx hai hsorted hI1 hfixed hperm segs hsegs
          (('^' :: renderSegments false segs).length + 1) (0 + 1)
          { ctx1 with errMsg := [], errFlag := false, linterErr := 0,
                      linterErrMarkup := [] }
          { ctx with aiData := [], errMsg := [], errFlag := false, linterErr := 0,
                     linterErrMarkup := [] }
          cF' hcfg1 ⟨rfl, rfl, rfl⟩ hF (by simpa using hcount)
        refine ⟨hT.1, ?_⟩
        rw [hT.2, segAiValues_true]
        simp

/-- Witness for C5: on the example table, `(01)12345678901231(10)12345` is accepted, and
processing the buffer that the parser wrote extracts the two AIs that the parser
stored. -/
theorem parse_process_parity_witness :
    (gs1_parseAIdata demoEnv demoCtx "(01)12345678901231(10)12345".toList).1 = true ∧
    (gs1_processAIdata demoEnv { demoCtx with aiData := [] }
        (gs1_parseAIdata demoEnv demoCtx "(01)12345678901231(10)12345".toList).2.dataStr
        0 true).1 = true ∧
    (gs1_parseAIdata demoEnv demoCtx "(01)12345678901231(10)12345".toList).2.aiData =
      demoCtx.aiData ++ (gs1_processAIdata demoEnv { demoCtx with aiData := [] }
        (gs1_parseAIdata demoEnv demoCtx "(01)12345678901231(10)12345".toList).2.dataStr
        0 true).2.aiData :=
  ⟨by decide, parse_process_parity demoEnv demoCtx "(01)12345678901231(10)12345".toList
    (by decide) (by decide) (by decide) (by decide) (by decide) (by decide)⟩

/-! ## Round trip of scan data -/

theorem allDigitsLoop_all : ∀ s : List Char, allDigitsLoop s s.length = true →
    ∀ c ∈ s, isDigit c = true := by
  intro s
  induction s with
  | nil => intro _ c hc; simp at hc
  | cons a as ih =>
    intro h c hc
    simp only [List.length_cons, allDigitsLoop] at h
    by_cases ha : isDigit a = true
    · rw [if_pos ha] at h
      rcases List.mem_cons.1 hc with rfl | hin
      · exact ha
      · exact ih h c hin
    · rw [if_neg ha] at h
      exact absurd h (by simp)

theorem allDigits_all (s : List Char) (h : gs1_allDigits s 0 = true) :
    ∀ c ∈ s, isDigit c = true := by
  unfold gs1_allDigits at h
  rw [if_pos rfl] at h
  exact allDigitsLoop_all s h

theorem gs1_validateParity_true (s : List Char) (h : (gs1_validateParity s).1 = true) :
    gs1_validateParity s = (true, s) := by
  unfold gs1_validateParity at h ⊢
  simp only [] at h ⊢
  split_ifs at h ⊢ <;> rfl

/-- Appending a string of digits to scan data copies it as it is. -/
theorem scancat_digits (out x : List Char) (hx : ∀ c ∈ x, isDigit c = true) :
    scancat out x = out ++ x := by
  cases x with
  | nil => simp [scancat, charAt]
  | cons a as =>
    have ha := hx a (List.mem_cons_self _ _)
    have h1 : a ≠ '^' := by intro he; rw [he] at ha; exact absurd ha (by decide)
    have h2 : a ≠ '\\' := by intro he; rw [he] at ha; exact absurd ha (by decide)
    simp [scancat, charAt, h1, h2, List.dropWhile]

/-- What a successful normalisation of the primary data, without the check digit
tolerance, says about the data after the AI prefix has been stripped. -/
theorem normalisePrimary_ok (ctx : Ctx) (d pfx : List Char) (skip digits : Nat)
    (lead m1 m2 : List Char) (hacd : ctx.addCheckDigit = false)
    (h : (normalisePrimary ctx d pfx skip digits lead m1 m2).2.1 ≠ []) :
    (if d.length ≥ skip ∧ strncmp d pfx skip = 0 then d.drop skip else d).length = digits ∧
    gs1_allDigits (if d.length ≥ skip ∧ strncmp d pfx skip = 0 then d.drop skip else d) 0 = true ∧
    gs1_validateParity
      (lead ++ (if d.length ≥ skip ∧ strncmp d pfx skip = 0 then d.drop skip else d)) =
      (true, lead ++ (if d.length ≥ skip ∧ strncmp d pfx skip = 0 then d.drop skip else d)) ∧
    normalisePrimary ctx d pfx skip digits lead m1 m2 =
      (true, lead ++ (if d.length ≥ skip ∧ strncmp d pfx skip = 0 then d.drop skip else d),
        ctx) := by
  unfold normalisePrimary at h ⊢
  simp only [hacd, Bool.false_eq_true, false_and, if_false, true_and, List.append_nil,
    and_true] at h ⊢
  generalize (if d.length ≥ skip ∧ strncmp d pfx skip = 0 then d.drop skip else d) = d1 at h ⊢
  by_cases hlen : d1.length ≠ digits
  · rw [if_pos hlen] at h; exact absurd rfl h
  · rw [if_neg hlen] at h ⊢
    by_cases hdig : gs1_allDigits d1 0 = false
    · rw [if_pos hdig] at h; exact absurd rfl h
    · rw [if_neg hdig] at h ⊢
      cases hpar : gs1_validateParity (lead ++ d1) with
      | mk ok p =>
        rw [hpar] at h
        simp only [] at h ⊢
        cases ok with
        | false => simp at h
        | true =>
          have := gs1_validateParity_true (lead ++ d1) (by rw [hpar])
          rw [hpar] at this
          refine ⟨by simpa using hlen, by simpa using hdig, this, ?_⟩
          simp only [Bool.true_eq_false, if_false]
          rw [(Prod.mk.inj this).2]

theorem generate_noComposite (ctx : Ctx) (hbar : '|' ∉ ctx.dataStr) :
    (gs1_generateScanData ctx).1 =
      if (generateSwitch { ctx with outStr := [] } ctx.dataStr none).1 = true
      then some (generateSwitch { ctx with outStr := [] } ctx.dataStr none).2.1.outStr
      else none := by
  unfold gs1_generateScanData
  rw [(strchr_none _ _).2 hbar]
  simp only []
  cases generateSwitch { ctx with outStr := [] } ctx.dataStr none with
  | mk b r =>
    cases b <;> simp

/-- The primary data that the DataBar symbologies encode: when the normalisation
succeeds without the check digit tolerance, it is the data after the prefix `^01`. -/
theorem normaliseRSS_ok (ctx : Ctx) (lin : List Char) (hacd : ctx.addCheckDigit = false)
    (h : (if ctx.sym = Sym.sDataBarLimited then gs1_normaliseRSSLim ctx lin
          else gs1_normaliseRSS14 ctx lin).2.1 ≠ []) :
    (if lin.length ≥ 3 ∧ strncmp lin "^01".toList 3 = 0 then lin.drop 3 else lin).length = 14 ∧
    gs1_allDigits (if lin.length ≥ 3 ∧ strncmp lin "^01".toList 3 = 0 then lin.drop 3 else lin)
      0 = true ∧
    (if ctx.sym = Sym.sDataBarLimited then gs1_normaliseRSSLim ctx lin
     else gs1_normaliseRSS14 ctx lin) =
      (true, (if lin.length ≥ 3 ∧ strncmp lin "^01".toList 3 = 0 then lin.drop 3 else lin),
        ctx) := by
  by_cases hl : ctx.sym = Sym.sDataBarLimited
  · rw [if_pos hl] at h ⊢
    unfold gs1_normaliseRSSLim at h ⊢
    cases hn : normalisePrimary ctx lin "^01".toList 3 14 []
        "Primary data must be 14 digits".toList
        "Primary data must be 13 digits without check digit".toList with
    | mk b r =>
      obtain ⟨p, c⟩ := r
      rw [hn] at h
      cases b with
      | false =>
        simp only [] at h
        have hok := normalisePrimary_ok ctx lin "^01".toList 3 14 [] _ _ hacd (by rw [hn]; exact h)
        rw [hn] at hok
        exact absurd (congrArg Prod.fst hok.2.2.2) (by simp)
      | true =>
        simp only [] at h ⊢
        by_cases hat : atofDigits p > 19999999999999
        · rw [if_pos hat] at h; exact absurd rfl h
        · rw [if_neg hat] at h ⊢
          have hok := normalisePrimary_ok ctx lin "^01".toList 3 14 [] _ _ hacd (by rw [hn]; exact h)
          rw [hn] at hok
          exact ⟨hok.1, hok.2.1, by simpa using hok.2.2.2⟩
  · rw [if_neg hl] at h ⊢
    unfold gs1_normaliseRSS14 at h ⊢
    have hok := normalisePrimary_ok ctx lin "^01".toList 3 14 [] _ _ hacd h
    exact ⟨hok.1, hok.2.1, by simpa using hok.2.2.2⟩

theorem generateSwitch_dataBar (ctx : Ctx) (lin : List Char) (hsym : ctx.sym ∈ dataBarSyms)
    (hacd : ctx.addCheckDigit = false)
    (h : (generateSwitch ctx lin none).1 = true) :
    (if lin.length ≥ 3 ∧ strncmp lin "^01".toList 3 = 0 then lin.drop 3 else lin).length = 14 ∧
    gs1_allDigits (if lin.length ≥ 3 ∧ strncmp lin "^01".toList 3 = 0 then lin.drop 3 else lin)
      0 = true ∧
    (generateSwitch ctx lin none).2.1.outStr =
      "]e001".toList ++
        (if lin.length ≥ 3 ∧ strncmp lin "^01".toList 3 = 0 then lin.drop 3 else lin) := by
  have hnorm := normaliseRSS_ok ctx lin hacd
  have hgs : generateSwitch ctx lin none =
      (if (if ctx.sym = Sym.sDataBarLimited then gs1_normaliseRSSLim ctx lin
           else gs1_normaliseRSS14 ctx lin).2.1 = [] then
        (false, (if ctx.sym = Sym.sDataBarLimited then gs1_normaliseRSSLim ctx lin
           else gs1_normaliseRSS14 ctx lin).2.2, false)
       else (true,
        { (if ctx.sym = Sym.sDataBarLimited then gs1_normaliseRSSLim ctx lin
           else gs1_normaliseRSS14 ctx lin).2.2 with
          outStr := scancat "]e001".toList
            (if ctx.sym = Sym.sDataBarLimited then gs1_normaliseRSSLim ctx lin
             else gs1_normaliseRSS14 ctx lin).2.1 }, false)) := by
    simp only [dataBarSyms, List.mem_cons, List.mem_singleton, List.not_mem_nil, or_false] at hsym
    unfold generateSwitch
    rcases hsym with hq | hq | hq | hq | hq <;> simp only [hq] <;> rfl
  rw [hgs] at h ⊢
  by_cases hp : (if ctx.sym = Sym.sDataBarLimited then gs1_normaliseRSSLim ctx lin
      else gs1_normaliseRSS14 ctx lin).2.1 = []
  · rw [if_pos hp] at h; simp at h
  · rw [if_neg hp]
    obtain ⟨h1, h2, h3⟩ := hnorm hp
    refine ⟨h1, h2, ?_⟩
    rw [h3]
    simp only []
    exact scancat_digits _ _ (allDigits_all _ h2)

theorem map_caret_digits (l : List Char) (h : ∀ c ∈ l, isDigit c = true) :
    l.map (fun c => if c = '^' then GS else c) = l := by
  induction l with
  | nil => rfl
  | cons a as ih =>
    have ha := h a (List.mem_cons_self _ _)
    have h1 : a ≠ '^' := by intro he; rw [he] at ha; exact absurd ha (by decide)
    rw [List.map_cons, if_neg h1, ih (fun c hc => h c (List.mem_cons_of_mem _ hc))]

/-- The scan data generated for AI data without a composite component is an AI-mode
symbology identifier and the data after its first `^`, with GS for every other `^`. -/
theorem generate_aiForm (ctx : Ctx) (s : List Char) (hsym : ctx.sym ∈ aiSyms)
    (hc : charAt ctx.dataStr 0 = '^') (hbar : '|' ∉ ctx.dataStr)
    (hlast : ctx.dataStr.getLast? ≠ some '^') (hacd : ctx.addCheckDigit = false)
    (hgen : (gs1_generateScanData ctx).1 = some s) :
    ∃ id sym, (id, sym) ∈ aiModeIds ∧
      s = id ++ (ctx.dataStr.drop 1).map (fun c => if c = '^' then GS else c) := by
  rw [generate_noComposite ctx hbar] at hgen
  by_cases hok : (generateSwitch { ctx with outStr := [] } ctx.dataStr none).1 = true
  · rw [if_pos hok] at hgen
    simp only [Option.some.injEq] at hgen
    subst hgen
    by_cases hdb : ctx.sym ∈ dataBarSyms
    · obtain ⟨h1, h2, h3⟩ :=
        generateSwitch_dataBar { ctx with outStr := [] } ctx.dataStr hdb hacd hok
      rw [h3]
      by_cases hpre : ctx.dataStr.length ≥ 3 ∧ strncmp ctx.dataStr "^01".toList 3 = 0
      · rw [if_pos hpre] at h2 ⊢
        have hp : "^01".toList <+: ctx.dataStr :=
          (strncmp_right_prefix_iff "^01".toList ctx.dataStr (by decide)).1 hpre.2
        obtain ⟨t, ht⟩ := hp
        refine ⟨"]e0".toList, Sym.sDataBarExpanded, by decide, ?_⟩
        rw [← ht] at h2 ⊢
        have hd3 : ("^01".toList ++ t).drop 3 = t := rfl
        have hd1 : ("^01".toList ++ t).drop 1 = '0' :: '1' :: t := rfl
        rw [hd3] at h2 ⊢
        rw [hd1]
        simp only [List.map_cons, map_caret_digits t (allDigits_all t h2)]
        rfl
      · rw [if_neg hpre] at h2
        exfalso
        have hall := allDigits_all _ h2
        cases hd : ctx.dataStr with
        | nil => rw [hd] at hc; simp [charAt] at hc
        | cons a as =>
          rw [hd] at hc hall
          have ha := hall a (List.mem_cons_self _ _)
          simp only [charAt, List.getD_cons_zero] at hc
          rw [hc] at ha
          exact absurd ha (by decide)
    · have hcases : ctx.sym = Sym.sQR ∨ ctx.sym = Sym.sDM ∨ ctx.sym = Sym.sGS1_128_CCA ∨
          ctx.sym = Sym.sGS1_128_CCC ∨ ctx.sym = Sym.sDataBarExpanded := by
        simp only [aiSyms, List.mem_append, List.mem_cons, List.mem_singleton,
          List.not_mem_nil, or_false] at hsym
        rcases hsym with (h | h | h | h | h) | h
        · exact Or.inl h
        · exact Or.inr (Or.inl h)
        · exact Or.inr (Or.inr (Or.inl h))
        · exact Or.inr (Or.inr (Or.inr (Or.inl h)))
        · exact Or.inr (Or.inr (Or.inr (Or.inr h)))
        · exact absurd h hdb
      rcases hcases with hq | hq | hq | hq | hq
      · refine ⟨"]Q3".toList, Sym.sQR, by decide, ?_⟩
        rw [← scancat_ai _ _ hc hlast]
        simp [generateSwitch, hq, hc]
      · refine ⟨"]d2".toList, Sym.sDM, by decide, ?_⟩
        rw [← scancat_ai _ _ hc hlast]
        simp [generateSwitch, hq, hc]
      · refine ⟨"]C1".toList, Sym.sGS1_128_CCA, by decide, ?_⟩
        rw [← scancat_ai _ _ hc hlast]
        simp [generateSwitch, hq, hc]
      · refine ⟨"]C1".toList, Sym.sGS1_128_CCA, by decide, ?_⟩
        rw [← scancat_ai _ _ hc hlast]
        simp [generateSwitch, hq, hc]
      · refine ⟨"]e0".toList, Sym.sDataBarExpanded, by decide, ?_⟩
        rw [← scancat_ai _ _ hc hlast]
        simp [generateSwitch, hq, hc]
  · rw [if_neg hok] at hgen
    exact absurd hgen (by simp)

/-- Decoding the scan data of AI data runs `gs1_processAIdata` on that data. -/
theorem processScan_aiForm (env : Env) (ctx ctx' : Ctx) (id : List Char) (sym : Sym)
    (hid : (id, sym) ∈ aiModeIds) (hcfg : SameConfig ctx ctx')
    (hc : charAt ctx.dataStr 0 = '^') (hgs : GS ∉ ctx.dataStr)
    (hacc : (gs1_processAIdata env { ctx with aiData := [] } ctx.dataStr 0 true).1 = true) :
    (gs1_processScanData env ctx'
      (id ++ (ctx.dataStr.drop 1).map (fun c => if c = '^' then GS else c))).1 = true ∧
    (gs1_processScanData env ctx'
      (id ++ (ctx.dataStr.drop 1).map (fun c => if c = '^' then GS else c))).2.dataStr =
        ctx.dataStr ∧
    (gs1_processScanData env ctx'
      (id ++ (ctx.dataStr.drop 1).map (fun c => if c = '^' then GS else c))).2.aiData =
        (gs1_processAIdata env { ctx with aiData := [] } ctx.dataStr 0 true).2.aiData := by
  rw [processScan_aiMode env ctx' _ sym hid]
  obtain ⟨s1, s2⟩ := processScanAI_spec env
    { ctx' with sym := sym, dataStr := [], aiData := [], errMsg := [], errFlag := false,
                linterErr := 0, linterErrMarkup := [] }
    ((ctx.dataStr.drop 1).map (fun c => if c = '^' then GS else c)) (caret_not_mem_map _)
  rw [scanBodyToData_restore _ hc hgs] at s1 s2
  have hcg := processAIdata_congr env
    { ctx' with sym := sym, dataStr := ctx.dataStr, aiData := [], errMsg := [],
                errFlag := false, linterErr := 0, linterErrMarkup := [] }
    { ctx with aiData := [] } ctx.dataStr 0 true
    ⟨⟨hcfg.1.symm, hcfg.2.1.symm, hcfg.2.2.symm⟩, rfl⟩
  have hf := processAIdata_frame env
    { ctx' with sym := sym, dataStr := ctx.dataStr, aiData := [], errMsg := [],
                errFlag := false, linterErr := 0, linterErrMarkup := [] }
    ctx.dataStr 0 true
  have hok := s1.trans (hcg.1.trans hacc)
  refine ⟨hok, ?_⟩
  rw [s2 hok]
  exact ⟨hf.2.1, hcg.2⟩

theorem strncmp_caret_ne (d t : List Char) (n : Nat) (h : charAt d 0 ≠ '^') :
    strncmp d ('^' :: t) (n + 1) ≠ 0 := by
  cases d with
  | nil => simp [strncmp]
  | cons a as =>
    have ha : a ≠ '^' := by simpa [charAt] using h
    simp only [strncmp, if_neg ha]
    exact char_toNat_sub_ne ha

/-- The scan data generated for EAN-13 or EAN-8 primary digits without a composite
component: the symbology identifier and the digits, which have the length of the
symbology and a correct check digit. -/
theorem generate_primary (ctx : Ctx) (s : List Char)
    (hsym : ctx.sym = Sym.sEAN13 ∨ ctx.sym = Sym.sEAN8)
    (hc : charAt ctx.dataStr 0 ≠ '^') (hbar : '|' ∉ ctx.dataStr)
    (hacd : ctx.addCheckDigit = false)
    (hgen : (gs1_generateScanData ctx).1 = some s) :
    s = (if ctx.sym = Sym.sEAN13 then "]E0".toList else "]E4".toList) ++ ctx.dataStr ∧
    ctx.dataStr.length = (if ctx.sym = Sym.sEAN13 then 13 else 8) ∧
    gs1_allDigits ctx.dataStr 0 = true ∧
    gs1_validateParity ctx.dataStr = (true, ctx.dataStr) := by
  rw [generate_noComposite ctx hbar] at hgen
  by_cases hok : (generateSwitch { ctx with outStr := [] } ctx.dataStr none).1 = true
  · rw [if_pos hok] at hgen
    simp only [Option.some.injEq] at hgen
    subst hgen
    rcases hsym with hq | hq
    · have hgs : generateSwitch { ctx with outStr := [] } ctx.dataStr none =
          (if (normalisePrimary { ctx with outStr := [] } ctx.dataStr "^0100".toList 4 13 []
                "Primary data must be 13 digits".toList
                "Primary data must be 12 digits without check digit".toList).2.1 = [] then
            (false, (normalisePrimary { ctx with outStr := [] } ctx.dataStr "^0100".toList 4 13 []
                "Primary data must be 13 digits".toList
                "Primary data must be 12 digits without check digit".toList).2.2, false)
           else (true,
            { (normalisePrimary { ctx with outStr := [] } ctx.dataStr "^0100".toList 4 13 []
                "Primary data must be 13 digits".toList
                "Primary data must be 12 digits without check digit".toList).2.2 with
              outStr := scancat "]E0".toList
                (normalisePrimary { ctx with outStr := [] } ctx.dataStr "^0100".toList 4 13 []
                  "Primary data must be 13 digits".toList
                  "Primary data must be 12 digits without check digit".toList).2.1 },
              false)) := by
        unfold generateSwitch gs1_normaliseEAN13
        simp only [hq]
        rfl
      rw [hgs] at hok ⊢
      by_cases hp : (normalisePrimary { ctx with outStr := [] } ctx.dataStr "^0100".toList 4 13 []
                "Primary data must be 13 digits".toList
                "Primary data must be 12 digits without check digit".toList).2.1 = []
      · rw [if_pos hp] at hok; simp at hok
      · rw [if_neg hp]
        obtain ⟨h1, h2, h3, h4⟩ := normalisePrimary_ok { ctx with outStr := [] } _ _ _ _ _ _ _ hacd hp
        rw [h4]
        rw [if_neg (fun hh => strncmp_caret_ne _ _ 3 hc hh.2)] at h1 h2 h3 ⊢
        simp only [List.nil_append] at h3 ⊢
        rw [hq, scancat_digits _ _ (allDigits_all _ h2)]
        exact ⟨rfl, h1, h2, h3⟩
    · have hgs : generateSwitch { ctx with outStr := [] } ctx.dataStr none =
          (if (normalisePrimary { ctx with outStr := [] } ctx.dataStr "^01000000".toList 9 8 []
                "Primary data must be 8 digits".toList
                "Primary data must be 7 digits without check digit".toList).2.1 = [] then
            (false, (normalisePrimary { ctx with outStr := [] } ctx.dataStr "^01000000".toList 9 8
                [] "Primary data must be 8 digits".toList
                "Primary data must be 7 digits without check digit".toList).2.2, false)
           else (true,
            { (normalisePrimary { ctx with outStr := [] } ctx.dataStr "^01000000".toList 9 8 []
                "Primary data must be 8 digits".toList
                "Primary data must be 7 digits without check digit".toList).2.2 with
              outStr := scancat "]E4".toList
                (normalisePrimary { ctx with outStr := [] } ctx.dataStr "^01000000".toList 9 8 []
                  "Primary data must be 8 digits".toList
                  "Primary data must be 7 digits without check digit".toList).2.1 },
              false)) := by
        unfold generateSwitch gs1_normaliseEAN8
        simp only [hq]
        rfl
      rw [hgs] at hok ⊢
      by_cases hp : (normalisePrimary { ctx with outStr := [] } ctx.dataStr "^01000000".toList 9 8
                [] "Primary data must be 8 digits".toList
                "Primary data must be 7 digits without check digit".toList).2.1 = []
      · rw [if_pos hp] at hok; simp at hok
      · rw [if_neg hp]
        obtain ⟨h1, h2, h3, h4⟩ := normalisePrimary_ok { ctx with outStr := [] } _ _ _ _ _ _ _ hacd hp
        rw [h4]
        rw [if_neg (fun hh => strncmp_caret_ne _ _ 8 hc hh.2)] at h1 h2 h3 ⊢
        simp only [List.nil_append] at h3 ⊢
        rw [hq, scancat_digits _ _ (allDigits_all _ h2)]
        exact ⟨rfl, h1, h2, h3⟩
  · rw [if_neg hok] at hgen
    exact absurd hgen (by simp)

/-- Decoding the scan data of a primary without composite component: 13 digits after
`]E0`, or 8 digits after `]E4`, with a correct check digit. -/
theorem processScan_primary (env : Env) (ctx : Ctx) (d : List Char) (sym : Sym)
    (hsym : sym = Sym.sEAN13 ∨ sym = Sym.sEAN8)
    (hlen : d.length = (if sym = Sym.sEAN13 then 13 else 8))
    (hdig : gs1_allDigits d 0 = true) (hpar : gs1_validateParity d = (true, d)) :
    gs1_processScanData env ctx
        ((if sym = Sym.sEAN13 then "]E0".toList else "]E4".toList) ++ d) =
      (true, { ctx with sym := sym, dataStr := d, aiData := [], errMsg := [],
                        errFlag := false, linterErr := 0, linterErrMarkup := [] }) := by
  rcases hsym with hq | hq
  · subst hq
    simp only [if_true] at hlen ⊢
    have h : "]E0".toList ++ d = ']' :: 'E' :: '0' :: d := rfl
    rw [h]
    have htake : d.take 13 = d := List.take_of_length_le (by omega)
    simp [gs1_processScanData, findSymId, symIdTable, strncmp, charAt, hlen, htake, hdig, hpar]
  · subst hq
    simp only [if_neg (show Sym.sEAN8 ≠ Sym.sEAN13 by decide)] at hlen ⊢
    have h : "]E4".toList ++ d = ']' :: 'E' :: '4' :: d := rfl
    rw [h]
    have htake : d.take 8 = d := List.take_of_length_le (by omega)
    simp [gs1_processScanData, findSymId, symIdTable, strncmp, charAt, hlen, htake, hdig, hpar]

/-- C6, as stated, fails: for QR the encoder accepts `data_str = ^2421234567` without
validating it and returns `]Q32421234567`, and the decoder rejects that scan data,
because the value of AI (242) is too long. -/
theorem scan_round_trip_counterexample :
    (gs1_generateScanData { demoCtx with sym := Sym.sQR, dataStr := "^2421234567".toList }).1 =
      some "]Q32421234567".toList ∧
    (gs1_processScanData demoEnv demoCtx "]Q32421234567".toList).1 = false := by
  decide

/-- C6, amended: with `add_check_digit` disabled and no composite component, let the
context hold either AI data that `gs1_processAIdata` accepts, with the AIs it extracts
(for QR, Data Matrix, GS1-128, DataBar Expanded and the DataBar symbologies), or plain
data for QR or Data Matrix or the primary digits for EAN-13 or EAN-8, with no AIs. When
`gs1_generateScanData` succeeds, `gs1_processScanData` on the generated scan data, in a
context with the same AI table and lookup configuration, succeeds and restores exactly
that `data_str` and that `ai_data` list. -/
theorem scan_round_trip (env : Env) (ctx ctx' : Ctx) (scanData : List Char)
    (hcfg : SameConfig ctx ctx') (hbar : '|' ∉ ctx.dataStr)
    (hacd : ctx.addCheckDigit = false)
    (hstate : AiDataState env ctx ∨ PlainDataState ctx)
    (hgen : (gs1_generateScanData ctx).1 = some scanData) :
    (gs1_processScanData env ctx' scanData).1 = true ∧
    (gs1_processScanData env ctx' scanData).2.dataStr = ctx.dataStr ∧
    (gs1_processScanData env ctx' scanData).2.aiData = ctx.aiData := by
  rcases hstate with ⟨hsym, hc, hgs, hlast, hacc, hai⟩ | ⟨hsym, hc, hhttp, hhttps, hai⟩
  · obtain ⟨id, sym, hid, hs⟩ := generate_aiForm ctx scanData hsym hc hbar hlast hacd hgen
    rw [hs, ← hai]
    exact processScan_aiForm env ctx ctx' id sym hid hcfg hc hgs hacc
  · simp only [List.mem_cons, List.mem_singleton, List.not_mem_nil, or_false] at hsym
    have h2d : ∀ (hq : ctx.sym = Sym.sQR ∨ ctx.sym = Sym.sDM),
        (gs1_processScanData env ctx' scanData).1 = true ∧
        (gs1_processScanData env ctx' scanData).2.dataStr = ctx.dataStr ∧
        (gs1_processScanData env ctx' scanData).2.aiData = ctx.aiData := by
      intro hq
      have hg := generate_plain ctx hq hc
      rw [hgen, scancat_plain _ _ hc] at hg
      simp only [Option.some.injEq] at hg
      rw [hg, hai]
      rcases hq with hq | hq
      · simp only [hq, if_true]
        rw [processScan_plain_QR, processScanPlain_restore env _ _ hc hhttp hhttps]
        exact ⟨rfl, rfl, rfl⟩
      · simp only [hq]
        rw [if_neg (by decide), processScan_plain_DM,
          processScanPlain_restore env _ _ hc hhttp hhttps]
        exact ⟨rfl, rfl, rfl⟩
    have hprim : ∀ (hq : ctx.sym = Sym.sEAN13 ∨ ctx.sym = Sym.sEAN8),
        (gs1_processScanData env ctx' scanData).1 = true ∧
        (gs1_processScanData env ctx' scanData).2.dataStr = ctx.dataStr ∧
        (gs1_processScanData env ctx' scanData).2.aiData = ctx.aiData := by
      intro hq
      obtain ⟨h1, h2, h3, h4⟩ := generate_primary ctx scanData hq hc hbar hacd hgen
      rw [h1, processScan_primary env ctx' ctx.dataStr ctx.sym hq h2 h3 h4, hai]
      exact ⟨rfl, rfl, rfl⟩
    rcases hsym with hq | hq | hq | hq
    · exact h2d (Or.inl hq)
    · exact h2d (Or.inr hq)
    · exact hprim (Or.inl hq)
    · exact hprim (Or.inr hq)

/-- Witness for C6: the DataBar Omnidirectional data `^0124012345678905` with its AI (01)
is encoded as `]e00124012345678905`, and the decoder restores the data and the AI. -/
theorem scan_round_trip_witness :
    (gs1_generateScanData
      { demoCtx with sym := Sym.sDataBarOmni, dataStr := "^0124012345678905".toList,
                     aiData := [mkAiValue demoEnv e01 1 2 3 14] }).1 =
      some "]e00124012345678905".toList ∧
    (gs1_processScanData demoEnv demoCtx "]e00124012345678905".toList).1 = true ∧
    (gs1_processScanData demoEnv demoCtx "]e00124012345678905".toList).2.dataStr =
      "^0124012345678905".toList ∧
    (gs1_processScanData demoEnv demoCtx "]e00124012345678905".toList).2.aiData =
      [mkAiValue demoEnv e01 1 2 3 14] :=
  ⟨by decide,
   scan_round_trip demoEnv
     { demoCtx with sym := Sym.sDataBarOmni, dataStr := "^0124012345678905".toList,
                    aiData := [mkAiValue demoEnv e01 1 2 3 14] }
     demoCtx "]e00124012345678905".toList (by decide) (by decide) (by decide)
     (Or.inl (by decide)) (by decide)⟩

/-! ## Requisites pass -/

theorem reqPatternLoop_true (ctx : Ctx) (a : AiValue) :
    ∀ pats : List (List Char), reqPatternLoop ctx a pats = true ↔
      ∃ b ∈ pats, (aiExists ctx b (some a.ai)).isSome = true := by
  intro pats
  induction pats with
  | nil => simp [reqPatternLoop]
  | cons b bs ih =>
    unfold reqPatternLoop
    cases h : aiExists ctx b (some a.ai) with
    | some m =>
      simp only [true_iff]
      exact ⟨b, List.mem_cons_self _ _, by rw [h]; rfl⟩
    | none =>
      simp only [ih]
      constructor
      · rintro ⟨c, hc, h1⟩; exact ⟨c, List.mem_cons_of_mem _ hc, h1⟩
      · rintro ⟨c, hc, h1⟩
        rcases List.mem_cons.1 hc with rfl | hc
        · rw [h] at h1; exact absurd h1 (by simp)
        · exact ⟨c, hc, h1⟩

theorem reqTokenLoop_none (ctx : Ctx) (a : AiValue) :
    ∀ tokens : List (List Char), reqTokenLoop ctx a tokens = none ↔
      ∀ token ∈ tokens.filter (fun token => decide (strncmp token "req=".toList 4 = 0)),
        reqPatternLoop ctx a (reqPatterns token) = true := by
  intro tokens
  induction tokens with
  | nil => simp [reqTokenLoop]
  | cons t ts ih =>
    unfold reqTokenLoop
    by_cases hreq : strncmp t "req=".toList 4 = 0
    · rw [if_pos hreq, List.filter_cons_of_pos (by simpa using hreq)]
      by_cases hp : reqPatternLoop ctx a (strtokAll (t.drop 4) ',') = true
      · rw [if_pos hp, ih]
        constructor
        · intro h token ht
          rcases List.mem_cons.1 ht with rfl | ht
          · exact hp
          · exact h token ht
        · intro h token ht
          exact h token (List.mem_cons_of_mem _ ht)
      · rw [if_neg hp]
        simp only [reduceCtorEq, false_iff]
        intro h
        exact hp (h t (List.mem_cons_self _ _))
    · rw [if_neg hreq, List.filter_cons_of_neg (by simpa using hreq), ih]

theorem requisitesLoop_true (env : Env) (ctx : Ctx) :
    ∀ l : List AiValue, (requisitesLoop env ctx l).1 = true ↔
      ∀ a ∈ l, a.kind = AiValueKind.aiValue_aival → ∀ entry, a.aiEntry = some entry →
        ∀ token ∈ reqTokens env entry, reqPatternLoop ctx a (reqPatterns token) = true := by
  intro l
  induction l with
  | nil => simp [requisitesLoop]
  | cons y ys ih =>
    unfold requisitesLoop
    by_cases hk : y.kind = AiValueKind.aiValue_aival
    · rw [if_neg (not_not.2 hk)]
      cases he : y.aiEntry with
      | none =>
        simp only [ih]
        constructor
        · intro h a ha
          rcases List.mem_cons.1 ha with rfl | ha
          · intro _ entry h2; rw [he] at h2; exact absurd h2 (by simp)
          · exact h a ha
        · intro h a ha; exact h a (List.mem_cons_of_mem _ ha)
      | some entry =>
        simp only []
        cases ht : reqTokenLoop ctx y (strtokAll (attrsCopy env entry) ' ') with
        | some r =>
          simp only [Bool.false_eq_true, false_iff]
          intro h
          have h1 := h y (List.mem_cons_self _ _) hk entry he
          have h2 := (reqTokenLoop_none ctx y _).2 h1
          rw [ht] at h2
          exact absurd h2 (by simp)
        | none =>
          simp only [ih]
          have h0 := (reqTokenLoop_none ctx y _).1 ht
          constructor
          · intro h a ha
            rcases List.mem_cons.1 ha with rfl | ha
            · intro _ entry2 h2
              rw [he] at h2
              cases h2
              exact h0
            · exact h a ha
          · intro h a ha; exact h a (List.mem_cons_of_mem _ ha)
    · rw [if_pos hk, ih]
      constructor
      · intro h a ha
        rcases List.mem_cons.1 ha with rfl | ha
        · intro h1; exact absurd h1 hk
        · exact h a ha
      · intro h a ha; exact h a (List.mem_cons_of_mem _ ha)

theorem reqPatterns_noNul (env : Env) (entry : AiEntry) (h : NoNul entry.attrs) :
    ∀ token ∈ reqTokens env entry, ∀ b ∈ reqPatterns token, NoNul b := by
  intro token htok b hb c hc
  have h1 : c ∈ token.drop 4 := strtokAll_subset ',' _ b hb c hc
  have h2 : c ∈ token := List.mem_of_mem_drop h1
  have h3 : c ∈ attrsCopy env entry :=
    strtokAll_subset ' ' _ token (List.mem_of_mem_filter htok) c h2
  exact h c (List.mem_of_mem_take h3)

/-- The test of the requisites pass on the bytes of the buffer: for C strings, the pass
succeeds exactly when, for every
extracted AI `a` and every `req=` token in the copied attributes of its entry, there are
a pattern `b` of the token and an extracted AI `x` such that the digit run of `b` equals
the bytes of the same length at the AI of `x`, and the first `len(b)` bytes at the AI of
`x` differ from those at the AI of `a`. Tokens are conjoined, the patterns of one token are
alternatives, and an AI without `req=` tokens imposes nothing. -/
theorem req_bytes_iff (env : Env) (ctx : Ctx) (hwf : WellFormedStrings ctx) :
    (validateAIrequisites env ctx).1 = true ↔ ReqBytes env ctx := by
  unfold validateAIrequisites ReqBytes
  rw [requisitesLoop_true]
  constructor
  · intro h a ha hk entry he token htok
    obtain ⟨b, hb, hex⟩ := (reqPatternLoop_true ctx a _).1 (h a ha hk entry he token htok)
    have hbn := reqPatterns_noNul env entry (hwf.2 a ha entry he) token htok b hb
    exact ⟨b, hb, (aiExists_isSome ctx hwf.1 b hbn a).1 hex⟩
  · intro h a ha hk entry he token htok
    obtain ⟨b, hb, hex⟩ := h a ha hk entry he token htok
    have hbn := reqPatterns_noNul env entry (hwf.2 a ha entry he) token htok b hb
    exact (reqPatternLoop_true ctx a _).2 ⟨b, hb, (aiExists_isSome ctx hwf.1 b hbn a).2 hex⟩

/-- The byte test on the example table: `(21)ABC123` alone fails the requisites pass,
because neither pattern of `req=01,8006` is found, and `ReqBytes` does not hold; an AI
without `req=` tokens, as in `(10)12345`, passes. -/
theorem req_bytes_iff_witness :
    (validateAIrequisites demoEnv reqDemoCtx).1 = false ∧ ¬ ReqBytes demoEnv reqDemoCtx ∧
    ReqBytes demoEnv
      { demoCtx with dataStr := "^1012345".toList, aiData := [mkAiValue demoEnv e10 1 2 3 5] } :=
  ⟨by decide,
   fun h => absurd ((req_bytes_iff demoEnv reqDemoCtx (by decide)).2 h) (by decide),
   (req_bytes_iff demoEnv
      { demoCtx with dataStr := "^1012345".toList, aiData := [mkAiValue demoEnv e10 1 2 3 5] }
      (by decide)).1 (by decide)⟩

/-! ## Repeats pass -/

/-- The test of the inner loop of `validateAIrepeats`, for C strings: the two AIs have
identical digits and their values differ. -/
theorem repeats_test_iff (ctx : Ctx) (hdata : NoNul ctx.dataStr) (x y : AiValue) :
    (x.ailen = y.ailen ∧ strncmp (strAt ctx x.ai) (strAt ctx y.ai) x.ailen = 0 ∧
      (x.vallen ≠ y.vallen ∨ strncmp (strAt ctx x.value) (strAt ctx y.value) x.vallen ≠ 0)) ↔
    (SameAIDigits ctx x y ∧ ¬ SameValueBytes ctx x y) := by
  have hstr : ∀ off, NoNul (strAt ctx off) := fun off c hc => hdata c (List.mem_of_mem_drop hc)
  unfold SameAIDigits SameValueBytes aiDigits aiValueBytes
  rw [strncmp_eq_zero_iff_take _ _ _ (hstr _) (hstr _), Ne, Ne,
    strncmp_eq_zero_iff_take _ _ _ (hstr _) (hstr _)]
  constructor
  · rintro ⟨h1, h2, h3⟩
    refine ⟨⟨h1, by rw [← h1]; exact h2⟩, ?_⟩
    rintro ⟨h4, h5⟩
    rcases h3 with h3 | h3
    · exact h3 h4
    · rw [← h4] at h5; exact h3 h5
  · rintro ⟨⟨h1, h2⟩, h3⟩
    refine ⟨h1, by rw [← h1] at h2; exact h2, ?_⟩
    by_cases h4 : x.vallen = y.vallen
    · right
      intro h5
      exact h3 ⟨h4, by rw [← h4]; exact h5⟩
    · left; exact h4

theorem repeatsInner_true (ctx : Ctx) (hdata : NoNul ctx.dataStr) (x : AiValue) :
    ∀ l : List AiValue, repeatsInner ctx x l = true ↔
      ∃ y ∈ l, y.kind = AiValueKind.aiValue_aival ∧
        SameAIDigits ctx x y ∧ ¬ SameValueBytes ctx x y := by
  intro l
  induction l with
  | nil => simp [repeatsInner]
  | cons z zs ih =>
    unfold repeatsInner
    by_cases hk : z.kind = AiValueKind.aiValue_aival
    · rw [if_neg (not_not.2 hk)]
      by_cases ht : x.ailen = z.ailen ∧ strncmp (strAt ctx x.ai) (strAt ctx z.ai) x.ailen = 0 ∧
          (x.vallen ≠ z.vallen ∨
            strncmp (strAt ctx x.value) (strAt ctx z.value) x.vallen ≠ 0)
      · rw [if_pos ht]
        simp only [true_iff]
        exact ⟨z, List.mem_cons_self _ _, hk, (repeats_test_iff ctx hdata x z).1 ht⟩
      · rw [if_neg ht, ih]
        constructor
        · rintro ⟨y, hy, h⟩; exact ⟨y, List.mem_cons_of_mem _ hy, h⟩
        · rintro ⟨y, hy, h1, h2⟩
          rcases List.mem_cons.1 hy with rfl | hy
          · exact absurd ((repeats_test_iff ctx hdata x y).2 h2) ht
          · exact ⟨y, hy, h1, h2⟩
    · rw [if_pos hk, ih]
      constructor
      · rintro ⟨y, hy, h⟩; exact ⟨y, List.mem_cons_of_mem _ hy, h⟩
      · rintro ⟨y, hy, h1, h2⟩
        rcases List.mem_cons.1 hy with rfl | hy
        · exact absurd h1 hk
        · exact ⟨y, hy, h1, h2⟩

theorem repeatsLoop_true (ctx : Ctx) (hdata : NoNul ctx.dataStr) :
    ∀ l : List AiValue, (repeatsLoop ctx l).1 = true ↔
      l.Pairwise (fun x y => x.kind = AiValueKind.aiValue_aival →
        y.kind = AiValueKind.aiValue_aival → SameAIDigits ctx x y → SameValueBytes ctx x y) := by
  intro l
  induction l with
  | nil => simp [repeatsLoop]
  | cons z zs ih =>
    unfold repeatsLoop
    rw [List.pairwise_cons]
    by_cases hk : z.kind = AiValueKind.aiValue_aival
    · rw [if_neg (not_not.2 hk)]
      by_cases hr : repeatsInner ctx z zs = true
      · rw [if_pos hr]
        simp only [Bool.false_eq_true, false_iff]
        rintro ⟨h, _⟩
        obtain ⟨y, hy, h1, h2, h3⟩ := (repeatsInner_true ctx hdata z zs).1 hr
        exact h3 (h y hy hk h1 h2)
      · rw [if_neg hr, ih]
        refine ⟨fun h => ⟨?_, h⟩, fun h => h.2⟩
        intro y hy _ h1 h2
        by_contra h3
        exact hr ((repeatsInner_true ctx hdata z zs).2 ⟨y, hy, h1, h2, h3⟩)
    · rw [if_pos hk, ih]
      exact ⟨fun h => ⟨fun y _ h1 => absurd h1 hk, h⟩, fun h => h.2⟩

/-- C12: for a C string in the data buffer, the repeats pass succeeds exactly when every
two extracted AIs with identical AI digits have byte-identical values, wherever the two
stand in the list. -/
theorem repeats_iff (ctx : Ctx) (hdata : NoNul ctx.dataStr) :
    (validateAIrepeats ctx).1 = true ↔ RepeatsAgree ctx := by
  unfold validateAIrepeats RepeatsAgree
  rw [repeatsLoop_true ctx hdata]
  constructor
  · intro h
    refine List.Pairwise.forall_of_forall ?_ ?_ h
    · intro x y hxy hy hx hd
      have := hxy hx hy ⟨hd.1.symm, hd.2.symm⟩
      exact ⟨this.1.symm, this.2.symm⟩
    · intro x _ _ _ _
      exact ⟨rfl, rfl⟩
  · intro h
    exact List.pairwise_of_forall_mem_list h

/-- Witness for C12: AI 10 with the values `ABC` and `XYZ` fails the pass although AI 99
stands between the two instances, and AI 10 twice with `ABC` passes. -/
theorem repeats_iff_witness :
    (validateAIrepeats repeatsDemoCtx).1 = false ∧ ¬ RepeatsAgree repeatsDemoCtx ∧
    (validateAIrepeats repeatsEqualCtx).1 = true ∧ RepeatsAgree repeatsEqualCtx :=
  ⟨by decide,
   fun h => absurd ((repeats_iff repeatsDemoCtx (by decide)).2 h) (by decide),
   by decide,
   (repeats_iff repeatsEqualCtx (by decide)).1 (by decide)⟩

/-! ## Length and content gate -/

theorem aiEntryMinLength_eq (entry : AiEntry) :
    aiEntryMinLength entry =
      ((entry.parts.filter (fun part => part.opt = false)).map (fun part => part.min)).sum := by
  unfold aiEntryMinLength
  induction entry.parts with
  | nil => rfl
  | cons p ps ih =>
    by_cases hp : p.opt = false
    · rw [List.filter_cons_of_pos (by simpa using hp)]
      simp only [List.map_cons, List.sum_cons, if_pos hp, ih]
    · rw [List.filter_cons_of_neg (by simpa using hp)]
      simp only [List.map_cons, List.sum_cons, if_neg hp, ih, Nat.zero_add]

/-- C13: `gs1_aiValLengthContentCheck` accepts the `vallen` bytes at `aiVal` exactly when
`vallen` is at least the sum of `min` over the mandatory components of the entry, at most
the sum of `max` over all its components, and none of the bytes is `^`. It changes nothing
of the context but the message: the linter error and its markup stay as they were, and an
accepted value leaves the whole context unchanged. -/
theorem length_content_gate (ctx : Ctx) (ai : List Char) (entry : AiEntry)
    (aiVal : List Char) (vallen : Nat) :
    ((gs1_aiValLengthContentCheck ctx ai entry aiVal vallen).1 = true ↔
      (((entry.parts.filter (fun part => part.opt = false)).map (fun part => part.min)).sum
          ≤ vallen ∧
        vallen ≤ (entry.parts.map (fun part => part.max)).sum ∧
        '^' ∉ aiVal.take vallen)) ∧
    (gs1_aiValLengthContentCheck ctx ai entry aiVal vallen).2.linterErr = ctx.linterErr ∧
    (gs1_aiValLengthContentCheck ctx ai entry aiVal vallen).2.linterErrMarkup =
      ctx.linterErrMarkup ∧
    (gs1_aiValLengthContentCheck ctx ai entry aiVal vallen).2.errFlag = ctx.errFlag ∧
    ((gs1_aiValLengthContentCheck ctx ai entry aiVal vallen).1 = true →
      (gs1_aiValLengthContentCheck ctx ai entry aiVal vallen).2 = ctx) := by
  rw [← aiEntryMinLength_eq]
  unfold gs1_aiValLengthContentCheck
  have hmax : aiEntryMaxLength entry = (entry.parts.map (fun part => part.max)).sum := rfl
  rw [← hmax]
  by_cases h1 : vallen < aiEntryMinLength entry
  · rw [if_pos h1]
    refine ⟨⟨fun h => absurd h (by simp), fun h => ?_⟩, rfl, rfl, rfl, fun h => absurd h (by simp)⟩
    omega
  · rw [if_neg h1]
    by_cases h2 : vallen > aiEntryMaxLength entry
    · rw [if_pos h2]
      refine ⟨⟨fun h => absurd h (by simp), fun h => ?_⟩, rfl, rfl, rfl,
        fun h => absurd h (by simp)⟩
      omega
    · rw [if_neg h2]
      by_cases h3 : '^' ∈ aiVal.take vallen
      · rw [if_pos h3]
        exact ⟨⟨fun h => absurd h (by simp), fun h => absurd h3 h.2.2⟩, rfl, rfl, rfl,
          fun h => absurd h (by simp)⟩
      · rw [if_neg h3]
        exact ⟨⟨fun _ => ⟨by omega, by omega, h3⟩, fun _ => rfl⟩, rfl, rfl, rfl, fun _ => rfl⟩

/-! ## Values that run past their maximum length -/

theorem caretIndex_spec (s : List Char) (i : Nat) (h : i < caretIndex s) :
    i < s.length ∧ charAt s i ≠ '^' := by
  unfold caretIndex at h
  cases hs : strchr s '^' with
  | none =>
    rw [hs] at h
    simp only [] at h
    refine ⟨h, ?_⟩
    have hmem := (strchr_none s '^').1 hs
    intro hc
    apply hmem
    unfold charAt at hc
    rw [List.getD_eq_getElem _ _ h] at hc
    rw [← hc]
    exact List.getElem_mem h
  | some k =>
    rw [hs] at h
    simp only [] at h
    obtain ⟨pre, post, h1, h2, h3⟩ := strchr_some_split s '^' k hs
    subst h1
    have hi : i < pre.length := by omega
    refine ⟨by simp; omega, ?_⟩
    intro hc
    apply h2
    unfold charAt at hc
    rw [List.getD_eq_getElem _ _ (by simp; omega), List.getElem_append_left hi] at hc
    rw [← hc]
    exact List.getElem_mem hi

theorem charAt_drop (s : List Char) (n : Nat) : charAt (s.drop n) 0 = charAt s n := by
  unfold charAt
  simp [List.getD_eq_getElem?_getD, List.getElem?_drop]

/-- At an AI that requires FNC1 and whose bytes up to the next `^` are more than the
maximum length of its entry, a value that passes validation is followed by a byte other
than `^`. -/
theorem processValue_too_long (env : Env) (ex : Bool) (p : List Char) (off : Nat)
    (entry : AiEntry) (c : Ctx) (hf : entry.fnc1 = true)
    (hlong : aiEntryMaxLength entry < caretIndex (p.drop entry.ai.length)) :
    (∃ c', processValue env ex p off entry (p.drop entry.ai.length)
      (validate_ai_val env c p entry (p.drop entry.ai.length)
        (caretIndex (p.drop entry.ai.length))) = Step.ret (false, c')) ∧
    (∀ n, validateAiVal env entry (p.drop entry.ai.length)
        (caretIndex (p.drop entry.ai.length)) = Except.ok n → n ≠ 0 →
      ¬ (ex = true ∧ c.aiData.length ≥ env.MAX_AIS) →
      ∃ c' : Ctx, processValue env ex p off entry (p.drop entry.ai.length)
        (validate_ai_val env c p entry (p.drop entry.ai.length)
          (caretIndex (p.drop entry.ai.length))) =
        Step.ret (false, { c' with
          errMsg := "AI (".toList ++ fmtPrec entry.ai.length p ++ ") data is too long".toList,
          errFlag := true })) := by
  have hfst := validate_ai_val_fst env c p entry (p.drop entry.ai.length)
    (caretIndex (p.drop entry.ai.length))
  have hsnd := (validate_ai_val_snd env c p entry (p.drop entry.ai.length)
    (caretIndex (p.drop entry.ai.length))).2
  generalize validate_ai_val env c p entry (p.drop entry.ai.length)
    (caretIndex (p.drop entry.ai.length)) = res at hfst hsnd
  have hgen : ∀ n, validateAiVal env entry (p.drop entry.ai.length)
      (caretIndex (p.drop entry.ai.length)) = Except.ok n → n ≠ 0 →
      res.1 = aiEntryMaxLength entry ∧
      (entry.fnc1 = true ∧ charAt ((p.drop entry.ai.length).drop res.1) 0 ≠ '^' ∧
        (p.drop entry.ai.length).drop res.1 ≠ []) := by
    intro n hv _
    have hn := validateAiVal_ok_len env entry _ _ n (caretIndex_le _) hv
    rw [hv] at hfst
    simp only [] at hfst
    have hres : res.1 = aiEntryMaxLength entry := by
      rw [hfst, hn]; exact Nat.min_eq_right (Nat.le_of_lt hlong)
    have hsp := caretIndex_spec _ _ hlong
    refine ⟨hres, hf, ?_, ?_⟩
    · rw [hres, charAt_drop]; exact hsp.2
    · rw [hres]
      intro hnil
      have := congrArg List.length hnil
      simp only [List.length_drop, List.length_nil] at this
      have := hsp.1
      simp only [List.length_drop] at this
      omega
  constructor
  · unfold processValue
    by_cases h0 : res.1 = 0
    · rw [if_pos h0]; exact ⟨_, rfl⟩
    · rw [if_neg h0]
      by_cases hmax : ex = true ∧ res.2.aiData.length ≥ env.MAX_AIS
      · rw [if_pos hmax]; exact ⟨_, rfl⟩
      · rw [if_neg hmax]
        simp only []
        cases hv : validateAiVal env entry (p.drop entry.ai.length)
            (caretIndex (p.drop entry.ai.length)) with
        | error e => rw [hv] at hfst; exact absurd hfst h0
        | ok n =>
          have hn0 : n ≠ 0 := by
            intro hz; rw [hv, hz] at hfst; exact h0 hfst
          rw [if_pos (hgen n hv hn0).2]
          exact ⟨_, rfl⟩
  · intro n hv hn0 hroom
    unfold processValue
    have h0 : res.1 ≠ 0 := by rw [hfst, hv]; exact hn0
    rw [if_neg h0, if_neg (by rw [hsnd]; exact hroom)]
    simp only []
    rw [if_pos (hgen n hv hn0).2]
    exact ⟨_, rfl⟩

theorem processStep_too_long (env : Env) (ex : Bool) (p : List Char) (off : Nat)
    (entry : AiEntry) (c : Ctx) (hl : gs1_lookupAIentry c p 0 = some entry)
    (hf : entry.fnc1 = true)
    (hlong : aiEntryMaxLength entry < caretIndex (p.drop entry.ai.length)) :
    (∃ c', processStep env ex p off c = Step.ret (false, c')) ∧
    (∀ n, validateAiVal env entry (p.drop entry.ai.length)
        (caretIndex (p.drop entry.ai.length)) = Except.ok n → n ≠ 0 →
      ¬ (ex = true ∧ (entry = unknownAI ∨ c.aiData.length ≥ env.MAX_AIS)) →
      ∃ c' : Ctx, processStep env ex p off c =
        Step.ret (false, { c' with
          errMsg := "AI (".toList ++ fmtPrec entry.ai.length p ++ ") data is too long".toList,
          errFlag := true })) := by
  have hv := processValue_too_long env ex p off entry c hf hlong
  have hstep : ¬ (ex = true ∧ entry = unknownAI) →
      processStep env ex p off c =
        processValue env ex p off entry (p.drop entry.ai.length)
          (validate_ai_val env c p entry (p.drop entry.ai.length)
            (caretIndex (p.drop entry.ai.length))) := by
    intro hne
    unfold processStep
    rw [hl]
    simp only [hne, if_false]
    rfl
  constructor
  · by_cases hne : ex = true ∧ entry = unknownAI
    · unfold processStep
      rw [hl]
      simp only [hne, and_self, if_true]
      exact ⟨_, rfl⟩
    · rw [hstep hne]
      exact hv.1
  · intro n hok hn0 hcond
    rw [hstep (fun h => hcond ⟨h.1, Or.inl h.2⟩)]
    exact hv.2 n hok hn0 (fun h => hcond ⟨h.1, Or.inr h.2⟩)

theorem processAIdata_cons (env : Env) (ctx : Ctx) (p : List Char) (base : Nat) (ex : Bool)
    (hp : p ≠ []) :
    gs1_processAIdata env ctx ('^' :: p) base ex =
      match processStep env ex p (base + 1)
          { ctx with errMsg := [], errFlag := false, linterErr := 0, linterErrMarkup := [] } with
      | Step.ret r => r
      | Step.next p' off' ctx' => processLoop env ex (p.length + 1) p' off' ctx' := by
  unfold gs1_processAIdata
  simp only [charAt, List.getD_cons_zero, ne_eq, not_true_eq_false, or_false, List.cons_ne_nil,
    if_false, List.drop_succ_cons, List.drop_zero, hp, List.length_cons]
  rw [processLoop, if_neg hp]

/-- C14 as stated fails: the entry of AI 242 requires FNC1 and takes at most 6 digits, and
in `^242ABCDEFG` seven bytes follow the AI, but the failure is not the "too long" one:
the first six bytes are validated first, and the numeric character set linter rejects
them. -/
theorem too_long_counterexample :
    gs1_lookupAIentry tooLongDemoCtx "242ABCDEFG".toList 0 = some e242 ∧
    e242.fnc1 = true ∧
    aiEntryMaxLength e242 < caretIndex ("242ABCDEFG".toList.drop e242.ai.length) ∧
    (gs1_processAIdata demoEnv tooLongDemoCtx "^242ABCDEFG".toList 0 true).1 = false ∧
    (gs1_processAIdata demoEnv tooLongDemoCtx "^242ABCDEFG".toList 0 true).2.errMsg ≠
      "AI (242) data is too long".toList ∧
    (gs1_processAIdata demoEnv tooLongDemoCtx "^242ABCDEFG".toList 0 true).2.linterErr = 1 := by
  decide

/-- C14, amended: at an AI whose entry requires FNC1 and whose bytes up to the next `^` (or
the end of the data) are more than the sum of the component maximum lengths,
`gs1_processAIdata` fails, wherever in the data the loop stands. The failure is the one
with the message "AI (..) data is too long" when the validation of the first bytes of
the value succeeds and, with extraction, the entry is not the pseudo-entry for an AI of
unknown length and the AI list is not full; otherwise an earlier check has failed. -/
theorem too_long_fails (env : Env) (ex : Bool) (ctx : Ctx) (p : List Char) (entry : AiEntry)
    (hl : gs1_lookupAIentry ctx p 0 = some entry) (hf : entry.fnc1 = true)
    (hlong : aiEntryMaxLength entry < caretIndex (p.drop entry.ai.length)) :
    (∀ fuel off, (processLoop env ex fuel p off ctx).1 = false) ∧
    (∀ base, (gs1_processAIdata env ctx ('^' :: p) base ex).1 = false) ∧
    (∀ n, validateAiVal env entry (p.drop entry.ai.length)
        (caretIndex (p.drop entry.ai.length)) = Except.ok n → n ≠ 0 →
      ¬ (ex = true ∧ (entry = unknownAI ∨ ctx.aiData.length ≥ env.MAX_AIS)) →
      ∀ base, (gs1_processAIdata env ctx ('^' :: p) base ex).2.errMsg =
          "AI (".toList ++ fmtPrec entry.ai.length p ++ ") data is too long".toList ∧
        (gs1_processAIdata env ctx ('^' :: p) base ex).2.errFlag = true) := by
  have hp : p ≠ [] := by
    intro hnil
    rw [hnil] at hlong
    simp [caretIndex, strchr] at hlong
  have hl0 : gs1_lookupAIentry
      { ctx with errMsg := [], errFlag := false, linterErr := 0, linterErrMarkup := [] } p 0 =
      some entry := by
    rw [← hl]
    exact lookup_congr ⟨rfl, rfl, rfl⟩ p 0
  refine ⟨?_, ?_, ?_⟩
  · intro fuel off
    cases fuel with
    | zero => rfl
    | succ k =>
      obtain ⟨c', hc⟩ := (processStep_too_long env ex p off entry ctx hl hf hlong).1
      rw [processLoop, if_neg hp, hc]
  · intro base
    obtain ⟨c', hc⟩ := (processStep_too_long env ex p (base + 1) entry _ hl0 hf hlong).1
    rw [processAIdata_cons env ctx p base ex hp, hc]
  · intro n hok hn0 hcond base
    obtain ⟨c', hc⟩ := (processStep_too_long env ex p (base + 1) entry _ hl0 hf hlong).2
      n hok hn0 hcond
    rw [processAIdata_cons env ctx p base ex hp, hc]
    exact ⟨rfl, rfl⟩

/-- Witness for C14 amended: `^2421234567` fails with the message for AI 242, whose value
has at most 6 digits. -/
theorem too_long_fails_witness :
    (gs1_processAIdata demoEnv demoCtx "^2421234567".toList 0 true).1 = false ∧
    (gs1_processAIdata demoEnv demoCtx "^2421234567".toList 0 true).2.errMsg =
      "AI (242) data is too long".toList :=
  ⟨(too_long_fails demoEnv true demoCtx "2421234567".toList e242 (by decide) (by decide)
      (by decide)).2.1 0,
   ((too_long_fails demoEnv true demoCtx "2421234567".toList e242 (by decide) (by decide)
      (by decide)).2.2 6 (by rfl) (by decide) (by decide) 0).1⟩

/-! ## Unknown AIs in the unbracketed processor -/

theorem lookup_nil (ctx : Ctx) : gs1_lookupAIentry ctx [] 0 = none := by
  simp [gs1_lookupAIentry, gs1_allDigits, allDigitsLoop]

theorem processValue_noUnknownLength (env : Env) (ex : Bool) (ai : List Char) (off : Nat)
    (entry : AiEntry) (p1 : List Char) (res : Nat × Ctx)
    (hne : ¬ (ex = true ∧ entry = unknownAI)) (h : NoUnknownLength res.2) :
    NoUnknownLength (processValue env ex ai off entry p1 res).ctxOf := by
  have happ : ex = true → NoUnknownLength
      { res.2 with aiData := res.2.aiData ++
          [mkAiValue env entry off entry.ai.length (off + entry.ai.length) res.1] } := by
    intro hex v hv
    simp only [List.mem_append, List.mem_singleton] at hv
    rcases hv with hv | rfl
    · exact h v hv
    · simp only [mkAiValue, ne_eq, Option.some.injEq]
      exact fun he => hne ⟨hex, he⟩
  unfold processValue
  cases ex with
  | true =>
    have ha := happ rfl
    simp only [true_and, if_true]
    split_ifs
    · exact h
    · exact h
    · exact ha
    · exact ha
    · exact ha
  | false =>
    simp only [Bool.false_eq_true, false_and, if_false]
    split_ifs <;> exact h

theorem processStep_noUnknownLength (env : Env) (ex : Bool) (p : List Char) (off : Nat)
    (c : Ctx) (h : NoUnknownLength c) :
    NoUnknownLength (processStep env ex p off c).ctxOf := by
  unfold processStep
  cases hl : gs1_lookupAIentry c p 0 with
  | none => exact h
  | some entry =>
    simp only []
    by_cases hne : ex = true ∧ entry = unknownAI
    · rw [if_pos hne]; exact h
    · rw [if_neg hne]
      apply processValue_noUnknownLength env ex p off entry _ _ hne
      intro v hv
      rw [(validate_ai_val_snd env c p entry _ _).2] at hv
      exact h v hv

theorem processLoop_noUnknownLength (env : Env) (ex : Bool) :
    ∀ (fuel : Nat) (p : List Char) (off : Nat) (c : Ctx), NoUnknownLength c →
      NoUnknownLength (processLoop env ex fuel p off c).2 := by
  intro fuel
  induction fuel with
  | zero => intro p off c h; exact h
  | succ k ih =>
    intro p off c h
    unfold processLoop
    by_cases hp : p = []
    · rw [if_pos hp]; exact h
    · rw [if_neg hp]
      have hs := processStep_noUnknownLength env ex p off c h
      cases hstep : processStep env ex p off c with
      | ret r => rw [hstep] at hs; exact hs
      | next p' off' c' => rw [hstep] at hs; exact ih p' off' c' hs

/-- C15 as stated fails: with unknown AIs permitted, `^2361234` is resolved by vivifying
the generic three-digit entry with a variable-length value, the processor succeeds with
extraction, and that synthetic entry is in `aiData`. -/
theorem vivify_counterexample :
    (∀ e ∈ vivifyDemoCtx.aiTable, ¬ e.ai <+: "2361234".toList) ∧
    gs1_lookupAIentry vivifyDemoCtx "2361234".toList 0 = some unknownAI3 ∧
    aiEntryMinLength unknownAI3 < aiEntryMaxLength unknownAI3 ∧
    gs1_processAIdata demoEnv vivifyDemoCtx "^2361234".toList 0 true =
      (true, { vivifyDemoCtx with aiData := [mkAiValue demoEnv unknownAI3 1 3 4 4] }) := by
  decide

/-- C15, amended: with extraction, `gs1_processAIdata` fails wherever the lookup at the
read position gives the pseudo-entry for an AI of unknown length, so that entry never
enters `aiData`: when it is not among the extracted AIs before the call, it is not
among them afterwards. The generic entries with a known AI length of 2, 3 or 4 digits are
not refused. -/
theorem unknown_length_refused (env : Env) (ctx : Ctx) :
    (∀ p, gs1_lookupAIentry ctx p 0 = some unknownAI →
      (∀ fuel off, (processLoop env true fuel p off ctx).1 = false) ∧
      ∀ base, (gs1_processAIdata env ctx ('^' :: p) base true).1 = false) ∧
    (∀ d base ex, NoUnknownLength ctx →
      NoUnknownLength (gs1_processAIdata env ctx d base ex).2) := by
  constructor
  · intro p hl
    have hp : p ≠ [] := by
      intro hnil
      rw [hnil, lookup_nil] at hl
      exact absurd hl (by simp)
    have hstep : ∀ (off : Nat) (c : Ctx), SameConfig c ctx → ∃ c',
        processStep env true p off c = Step.ret (false, c') := by
      intro off c hc
      unfold processStep
      rw [lookup_congr hc, hl]
      simp only [and_self, if_true]
      exact ⟨_, rfl⟩
    constructor
    · intro fuel off
      cases fuel with
      | zero => rfl
      | succ k =>
        obtain ⟨c', hc⟩ := hstep off ctx ⟨rfl, rfl, rfl⟩
        rw [processLoop, if_neg hp, hc]
    · intro base
      obtain ⟨c', hc⟩ := hstep (base + 1)
        { ctx with errMsg := [], errFlag := false, linterErr := 0, linterErrMarkup := [] }
        ⟨rfl, rfl, rfl⟩
      rw [processAIdata_cons env ctx p base true hp, hc]
  · intro d base ex h
    unfold gs1_processAIdata
    simp only []
    split_ifs
    · exact h
    · exact h
    · exact processLoop_noUnknownLength env ex _ _ _ _ h

/-- Witness for C15 amended: with unknown AIs permitted, no AI of the example table begins
with 89, the lookup of `891234` gives the pseudo-entry of unknown length, and `^891234`
is refused. -/
theorem unknown_length_refused_witness :
    gs1_lookupAIentry { demoCtx with permitUnknownAIs := true } "891234".toList 0 =
      some unknownAI ∧
    (gs1_processAIdata demoEnv { demoCtx with permitUnknownAIs := true } "^891234".toList
      0 true).1 = false :=
  ⟨by decide,
   ((unknown_length_refused demoEnv { demoCtx with permitUnknownAIs := true }).1
      "891234".toList (by decide)).2 0⟩

/-! ## The processor reads only the string at its read pointer -/

theorem extractedView_congr (c c' : Ctx) (h1 : c'.dataStr = c.dataStr)
    (h2 : c'.aiData = c.aiData) : extractedView c' = extractedView c := by
  unfold extractedView aiDigits aiValueBytes strAt
  rw [h1, h2]

theorem extractedView_append (c c' : Ctx) (v : AiValue) (h1 : c'.dataStr = c.dataStr)
    (h2 : c'.aiData = c.aiData ++ [v]) :
    extractedView c' = extractedView c ++
      [(v.kind, v.aiEntry, (c.dataStr.drop v.ai).take v.ailen,
        (c.dataStr.drop v.value).take v.vallen)] := by
  unfold extractedView aiDigits aiValueBytes strAt
  rw [h1, h2, List.map_append]
  rfl

theorem atPointer_drop (c : Ctx) (off k : Nat) (p : List Char) (h : AtPointer c off p) :
    c.dataStr.drop (off + k) = p.drop k := by
  unfold AtPointer at h
  rw [← h, List.drop_drop, Nat.add_comm]

theorem viewRel_of_same (c1 c2 d1 d2 : Ctx) (h : ViewRel c1 c2)
    (h1 : SameButAIs c1 d1) (a1 : d1.aiData = c1.aiData)
    (h2 : SameButAIs c2 d2) (a2 : d2.aiData = c2.aiData) : ViewRel d1 d2 := by
  refine ⟨sameConfig_trans (sameConfig_symm (sameConfig_of_sameButAIs h1))
    (sameConfig_trans h.1 (sameConfig_of_sameButAIs h2)), ?_⟩
  rw [extractedView_congr c1 d1 h1.2.1 a1, extractedView_congr c2 d2 h2.2.1 a2]
  exact h.2

theorem processValue_view (env : Env) (ex : Bool) (ai1 ai2 : List Char) (off1 off2 : Nat)
    (entry : AiEntry) (p : List Char) (res1 res2 : Nat × Ctx) (hp : p ≠ [])
    (h1 : res1.1 = res2.1) (hv : ViewRel res1.2 res2.2)
    (hp1 : AtPointer res1.2 off1 p) (hp2 : AtPointer res2.2 off2 p) :
    StepView p (processValue env ex ai1 off1 entry (p.drop entry.ai.length) res1)
      (processValue env ex ai2 off2 entry (p.drop entry.ai.length) res2) := by
  obtain ⟨n1, c1⟩ := res1
  obtain ⟨n2, c2⟩ := res2
  simp only at h1 hv hp1 hp2
  subst h1
  obtain ⟨hcfg, hview⟩ := hv
  have hlen : c1.aiData.length = c2.aiData.length := by
    have := congrArg List.length hview
    simpa [extractedView] using this
  have happ : ViewRel
      { c1 with aiData := c1.aiData ++
          [mkAiValue env entry off1 entry.ai.length (off1 + entry.ai.length) n1] }
      { c2 with aiData := c2.aiData ++
          [mkAiValue env entry off2 entry.ai.length (off2 + entry.ai.length) n1] } := by
    refine ⟨hcfg, ?_⟩
    have e1 : c1.dataStr.drop off1 = p := hp1
    have e2 : c2.dataStr.drop off2 = p := hp2
    rw [extractedView_append c1
        { c1 with aiData := c1.aiData ++
            [mkAiValue env entry off1 entry.ai.length (off1 + entry.ai.length) n1] }
        (mkAiValue env entry off1 entry.ai.length (off1 + entry.ai.length) n1) rfl rfl,
      extractedView_append c2
        { c2 with aiData := c2.aiData ++
            [mkAiValue env entry off2 entry.ai.length (off2 + entry.ai.length) n1] }
        (mkAiValue env entry off2 entry.ai.length (off2 + entry.ai.length) n1) rfl rfl, hview]
    simp only [mkAiValue]
    rw [e1, e2, atPointer_drop c1 off1 _ p hp1, atPointer_drop c2 off2 _ p hp2]
  have hshort : ∀ k, n1 ≠ 0 →
      (((p.drop entry.ai.length).drop n1).drop k).length < p.length := by
    intro k hn
    have : 0 < p.length := List.length_pos.2 hp
    simp only [List.length_drop]
    omega
  have hat : ∀ (c : Ctx) (off : Nat), AtPointer c off p → ∀ k,
      c.dataStr.drop (off + entry.ai.length + n1 + k) =
        ((p.drop entry.ai.length).drop n1).drop k := by
    intro c off h k
    rw [Nat.add_assoc, Nat.add_assoc, atPointer_drop c off _ p h, List.drop_drop, List.drop_drop]
  unfold processValue
  simp only [hlen]
  by_cases h0 : n1 = 0
  · simp only [h0, if_true]
    exact ⟨rfl, hcfg, hview⟩
  · simp only [h0, if_false]
    by_cases hmax : ex = true ∧ c2.aiData.length ≥ env.MAX_AIS
    · simp only [hmax, and_self, if_true]
      exact ⟨rfl, hcfg, hview⟩
    · rw [if_neg hmax, if_neg hmax]
      have hctx2 : ViewRel
          (if ex = true then
            { c1 with aiData := c1.aiData ++
                [mkAiValue env entry off1 entry.ai.length (off1 + entry.ai.length) n1] }
           else c1)
          (if ex = true then
            { c2 with aiData := c2.aiData ++
                [mkAiValue env entry off2 entry.ai.length (off2 + entry.ai.length) n1] }
           else c2) := by
        by_cases hex : ex = true
        · rw [if_pos hex, if_pos hex]; exact happ
        · rw [if_neg hex, if_neg hex]; exact ⟨hcfg, hview⟩
      have hd1 : (if ex = true then
            { c1 with aiData := c1.aiData ++
                [mkAiValue env entry off1 entry.ai.length (off1 + entry.ai.length) n1] }
           else c1).dataStr = c1.dataStr := by split_ifs <;> rfl
      have hd2 : (if ex = true then
            { c2 with aiData := c2.aiData ++
                [mkAiValue env entry off2 entry.ai.length (off2 + entry.ai.length) n1] }
           else c2).dataStr = c2.dataStr := by split_ifs <;> rfl
      by_cases hlong : entry.fnc1 = true ∧
          charAt ((p.drop entry.ai.length).drop n1) 0 ≠ '^' ∧
          (p.drop entry.ai.length).drop n1 ≠ []
      · rw [if_pos hlong, if_pos hlong]
        exact ⟨rfl, viewRel_of_same _ _ _ _ hctx2 ⟨rfl, rfl, rfl, rfl, rfl, rfl, rfl, rfl, rfl⟩ rfl
          ⟨rfl, rfl, rfl, rfl, rfl, rfl, rfl, rfl, rfl⟩ rfl⟩
      · rw [if_neg hlong, if_neg hlong]
        by_cases hc : charAt ((p.drop entry.ai.length).drop n1) 0 = '^'
        · rw [if_pos hc, if_pos hc]
          refine ⟨rfl, hshort 1 h0, ?_, ?_, hctx2⟩
          · unfold AtPointer; rw [hd1]; exact hat c1 off1 hp1 1
          · unfold AtPointer; rw [hd2]; exact hat c2 off2 hp2 1
        · rw [if_neg hc, if_neg hc]
          refine ⟨rfl, hshort 0 h0, ?_, ?_, hctx2⟩
          · unfold AtPointer; rw [hd1]; exact hat c1 off1 hp1 0
          · unfold AtPointer; rw [hd2]; exact hat c2 off2 hp2 0

theorem processStep_view (env : Env) (ex : Bool) (p : List Char) (off1 off2 : Nat)
    (c1 c2 : Ctx) (hp : p ≠ []) (hv : ViewRel c1 c2)
    (hp1 : AtPointer c1 off1 p) (hp2 : AtPointer c2 off2 p) :
    StepView p (processStep env ex p off1 c1) (processStep env ex p off2 c2) := by
  unfold processStep
  rw [lookup_congr hv.1]
  cases hl : gs1_lookupAIentry c2 p 0 with
  | none =>
    exact ⟨rfl, viewRel_of_same c1 c2 _ _ hv ⟨rfl, rfl, rfl, rfl, rfl, rfl, rfl, rfl, rfl⟩ rfl
      ⟨rfl, rfl, rfl, rfl, rfl, rfl, rfl, rfl, rfl⟩ rfl⟩
  | some entry =>
    simp only []
    by_cases hne : ex = true ∧ entry = unknownAI
    · rw [if_pos hne, if_pos hne]
      exact ⟨rfl, viewRel_of_same c1 c2 _ _ hv ⟨rfl, rfl, rfl, rfl, rfl, rfl, rfl, rfl, rfl⟩ rfl
        ⟨rfl, rfl, rfl, rfl, rfl, rfl, rfl, rfl, rfl⟩ rfl⟩
    · rw [if_neg hne, if_neg hne]
      have v1 := validate_ai_val_snd env c1 p entry (p.drop entry.ai.length)
        (match strchr (p.drop entry.ai.length) '^' with
          | some i => i
          | none => (p.drop entry.ai.length).length)
      have v2 := validate_ai_val_snd env c2 p entry (p.drop entry.ai.length)
        (match strchr (p.drop entry.ai.length) '^' with
          | some i => i
          | none => (p.drop entry.ai.length).length)
      apply processValue_view env ex p p off1 off2 entry p _ _ hp
      · rw [validate_ai_val_fst, validate_ai_val_fst]
      · exact viewRel_of_same c1 c2 _ _ hv v1.1 v1.2 v2.1 v2.2
      · unfold AtPointer; rw [v1.1.2.1]; exact hp1
      · unfold AtPointer; rw [v2.1.2.1]; exact hp2

/-- With enough fuel, the result of the processor loop depends on the context only through
the configuration, the string at the read pointer and what has been extracted; the
offsets and the amounts of fuel may differ. -/
theorem processLoop_view (env : Env) (ex : Bool) :
    ∀ (k : Nat) (p : List Char), p.length ≤ k →
      ∀ (fuel1 fuel2 off1 off2 : Nat) (c1 c2 : Ctx), p.length < fuel1 → p.length < fuel2 →
        ViewRel c1 c2 → AtPointer c1 off1 p → AtPointer c2 off2 p →
        (processLoop env ex fuel1 p off1 c1).1 = (processLoop env ex fuel2 p off2 c2).1 ∧
        ViewRel (processLoop env ex fuel1 p off1 c1).2 (processLoop env ex fuel2 p off2 c2).2 := by
  intro k
  induction k with
  | zero =>
    intro p hk fuel1 fuel2 off1 off2 c1 c2 hf1 hf2 hv _ _
    have hp : p = [] := List.length_eq_zero.1 (Nat.le_zero.1 hk)
    subst hp
    cases fuel1 with
    | zero => simp at hf1
    | succ f1 =>
      cases fuel2 with
      | zero => simp at hf2
      | succ f2 =>
        rw [processLoop, processLoop, if_pos rfl, if_pos rfl]
        exact ⟨rfl, hv⟩
  | succ k ih =>
    intro p hk fuel1 fuel2 off1 off2 c1 c2 hf1 hf2 hv hp1 hp2
    cases fuel1 with
    | zero => simp at hf1
    | succ f1 =>
      cases fuel2 with
      | zero => simp at hf2
      | succ f2 =>
        unfold processLoop
        by_cases hp : p = []
        · rw [if_pos hp, if_pos hp]; exact ⟨rfl, hv⟩
        · rw [if_neg hp, if_neg hp]
          have hs := processStep_view env ex p off1 off2 c1 c2 hp hv hp1 hp2
          cases hs1 : processStep env ex p off1 c1 with
          | ret r1 =>
            cases hs2 : processStep env ex p off2 c2 with
            | ret r2 => rw [hs1, hs2] at hs; exact hs
            | next p2 o2 k2 => rw [hs1, hs2] at hs; exact absurd hs (by simp [StepView])
          | next p1 o1 k1 =>
            cases hs2 : processStep env ex p off2 c2 with
            | ret r2 => rw [hs1, hs2] at hs; exact absurd hs (by simp [StepView])
            | next p2 o2 k2 =>
              rw [hs1, hs2] at hs
              obtain ⟨e1, e2, e3, e4, e5⟩ := hs
              subst e1
              exact ih p1 (by omega) f1 f2 o1 o2 k1 k2 (by omega) (by omega) e5 e3 e4

/-- When the components can all take their maximum length inside the value `V`, the walk
over them does not depend on what follows `V` nor on how far the end pointer lies
beyond it. -/
theorem validateParts_stable (env : Env) (V t : List Char) (r : Nat) (hr : V.length ≤ r) :
    ∀ (parts : List AiComponent) (p : Nat),
      p + (parts.map (fun part => part.max)).sum ≤ V.length →
      validateParts env (V ++ t) r parts p = validateParts env V V.length parts p := by
  intro parts
  induction parts with
  | nil => intro p _; rfl
  | cons part parts ih =>
    intro p hp
    simp only [List.map_cons, List.sum_cons] at hp
    have hc1 : (if part.max < r - p then part.max else r - p) = part.max := by
      split <;> omega
    have hc2 : (if part.max < V.length - p then part.max else V.length - p) = part.max := by
      split <;> omega
    have hval : ((V ++ t).drop p).take part.max = (V.drop p).take part.max := by
      rw [List.drop_append_of_le_length (by omega),
        List.take_append_of_le_length (by simp only [List.length_drop]; omega)]
    rw [validateParts_cons, validateParts_cons, hc1, hc2, hval, ih p (by omega),
      ih (p + part.max) (by omega)]

theorem validateAiVal_stable (env : Env) (entry : AiEntry) (V t : List Char) (r : Nat)
    (hV : V ≠ []) (hr : V.length ≤ r) (hmax : aiEntryMaxLength entry ≤ V.length) :
    validateAiVal env entry (V ++ t) r = validateAiVal env entry V V.length := by
  have h0 : V.length ≠ 0 := fun h => hV (List.length_eq_zero.1 h)
  unfold validateAiVal
  rw [if_neg (by omega), if_neg h0]
  exact validateParts_stable env V t r hr entry.parts 0 (by simpa [aiEntryMaxLength] using hmax)

theorem take_mod_append (A t1 t2 : List Char) (n : Nat) (h : n ≤ A.length) :
    (A ++ t1).take n = (A ++ t2).take n := by
  rw [List.take_append_of_le_length h, List.take_append_of_le_length h]

theorem processStep_known (env : Env) (ex : Bool) (p : List Char) (off : Nat) (c : Ctx)
    (entry : AiEntry) (hl : gs1_lookupAIentry c p 0 = some entry)
    (hne : ¬ (ex = true ∧ entry = unknownAI)) :
    processStep env ex p off c =
      processValue env ex p off entry (p.drop entry.ai.length)
        (validate_ai_val env c p entry (p.drop entry.ai.length)
          (caretIndex (p.drop entry.ai.length))) := by
  unfold processStep
  rw [hl]
  simp only [hne, if_false]
  rfl

/-- One step of the processor loop at a fixed-length AI with a full value, once followed
by a separator and once not: both steps fail, or both go on with what follows, at
offsets one apart. -/
theorem separator_step (env : Env) (ex : Bool) (c1 c2 : Ctx) (off1 off2 : Nat)
    (V R : List Char) (entry : AiEntry) (hv : ViewRel c1 c2)
    (hl1 : gs1_lookupAIentry c1 (entry.ai ++ V ++ '^' :: R) 0 = some entry)
    (hl2 : gs1_lookupAIentry c2 (entry.ai ++ V ++ R) 0 = some entry)
    (hf : entry.fnc1 = false) (hV : V.length = aiEntryMaxLength entry) (hcaret : '^' ∉ V)
    (hR : charAt R 0 ≠ '^')
    (hp1 : AtPointer c1 off1 (entry.ai ++ V ++ '^' :: R))
    (hp2 : AtPointer c2 off2 (entry.ai ++ V ++ R)) :
    (∃ d1 d2, processStep env ex (entry.ai ++ V ++ '^' :: R) off1 c1 = Step.ret (false, d1) ∧
      processStep env ex (entry.ai ++ V ++ R) off2 c2 = Step.ret (false, d2) ∧ ViewRel d1 d2) ∨
    (∃ o1 o2 d1 d2, processStep env ex (entry.ai ++ V ++ '^' :: R) off1 c1 = Step.next R o1 d1 ∧
      processStep env ex (entry.ai ++ V ++ R) off2 c2 = Step.next R o2 d2 ∧ ViewRel d1 d2 ∧
      AtPointer d1 o1 R ∧ AtPointer d2 o2 R ∧ V ≠ []) := by
  have hnoAI : ∀ (c : Ctx) (m : List Char), SameButAIs c { c with errMsg := m, errFlag := true } :=
    fun c m => ⟨rfl, rfl, rfl, rfl, rfl, rfl, rfl, rfl, rfl⟩
  by_cases hne : ex = true ∧ entry = unknownAI
  · left
    have s1 : ∃ m, processStep env ex (entry.ai ++ V ++ '^' :: R) off1 c1 =
        Step.ret (false, { c1 with errMsg := m, errFlag := true }) := by
      refine ⟨"No known AI is a prefix of: ".toList ++
        fmtPrec 4 (entry.ai ++ V ++ '^' :: R) ++ "...".toList, ?_⟩
      unfold processStep; rw [hl1]; simp only [hne, and_self, if_true]
    have s2 : ∃ m, processStep env ex (entry.ai ++ V ++ R) off2 c2 =
        Step.ret (false, { c2 with errMsg := m, errFlag := true }) := by
      refine ⟨"No known AI is a prefix of: ".toList ++
        fmtPrec 4 (entry.ai ++ V ++ R) ++ "...".toList, ?_⟩
      unfold processStep; rw [hl2]; simp only [hne, and_self, if_true]
    obtain ⟨m1, s1⟩ := s1
    obtain ⟨m2, s2⟩ := s2
    exact ⟨_, _, s1, s2, viewRel_of_same c1 c2 _ _ hv (hnoAI c1 m1) rfl (hnoAI c2 m2) rfl⟩
  · rw [processStep_known env ex _ off1 c1 entry hl1 hne,
      processStep_known env ex _ off2 c2 entry hl2 hne]
    have hd1 : (entry.ai ++ V ++ '^' :: R).drop entry.ai.length = V ++ '^' :: R := by
      rw [List.append_assoc]; exact List.drop_left' rfl
    have hd2 : (entry.ai ++ V ++ R).drop entry.ai.length = V ++ R := by
      rw [List.append_assoc]; exact List.drop_left' rfl
    have hr1 : caretIndex (V ++ '^' :: R) = V.length := by
      rw [caretIndex_append _ _ hcaret]
      simp [caretIndex, strchr]
    have hr2 : V.length ≤ caretIndex (V ++ R) := by
      rw [caretIndex_append _ _ hcaret]; omega
    rw [hd1, hd2, hr1]
    have hfst1 := validate_ai_val_fst env c1 (entry.ai ++ V ++ '^' :: R) entry (V ++ '^' :: R)
      V.length
    have hfst2 := validate_ai_val_fst env c2 (entry.ai ++ V ++ R) entry (V ++ R)
      (caretIndex (V ++ R))
    have hsnd1 := validate_ai_val_snd env c1 (entry.ai ++ V ++ '^' :: R) entry (V ++ '^' :: R)
      V.length
    have hsnd2 := validate_ai_val_snd env c2 (entry.ai ++ V ++ R) entry (V ++ R)
      (caretIndex (V ++ R))
    have hok1 := validate_ai_val_ok env c1 (entry.ai ++ V ++ '^' :: R) entry (V ++ '^' :: R)
      V.length
    have hok2 := validate_ai_val_ok env c2 (entry.ai ++ V ++ R) entry (V ++ R)
      (caretIndex (V ++ R))
    generalize validate_ai_val env c1 (entry.ai ++ V ++ '^' :: R) entry (V ++ '^' :: R)
      V.length = res1 at hfst1 hsnd1 hok1
    generalize validate_ai_val env c2 (entry.ai ++ V ++ R) entry (V ++ R)
      (caretIndex (V ++ R)) = res2 at hfst2 hsnd2 hok2
    have hfail : res1.1 = 0 → res2.1 = 0 →
        (∃ d1 d2, processValue env ex (entry.ai ++ V ++ '^' :: R) off1 entry (V ++ '^' :: R)
            res1 = Step.ret (false, d1) ∧
          processValue env ex (entry.ai ++ V ++ R) off2 entry (V ++ R) res2 =
            Step.ret (false, d2) ∧ ViewRel d1 d2) := by
      intro z1 z2
      refine ⟨res1.2, res2.2, ?_, ?_, viewRel_of_same c1 c2 _ _ hv hsnd1.1 hsnd1.2 hsnd2.1 hsnd2.2⟩
      · unfold processValue; rw [if_pos z1]
      · unfold processValue; rw [if_pos z2]
    by_cases hVnil : V = []
    · left
      apply hfail
      · rw [hfst1, hVnil]; rfl
      · rw [hfst2]
        cases hval : validateAiVal env entry (V ++ R) (caretIndex (V ++ R)) with
        | error e => rfl
        | ok n =>
          have := validateAiVal_ok_len env entry _ _ n (caretIndex_le _) hval
          simp only []
          rw [this, ← hV, hVnil]
          simp
    · rw [validateAiVal_stable env entry V _ V.length hVnil (Nat.le_refl _) (by omega)] at hfst1
      rw [validateAiVal_stable env entry V _ _ hVnil hr2 (by omega)] at hfst2
      cases hval : validateAiVal env entry V V.length with
      | error e =>
        left
        rw [hval] at hfst1 hfst2
        exact hfail hfst1 hfst2
      | ok n =>
        have hn : n = V.length := by
          have := validateAiVal_ok_len env entry V V.length n (Nat.le_refl _) hval
          rw [this]; omega
        rw [hval] at hfst1 hfst2
        simp only [] at hfst1 hfst2
        have hn0 : V.length ≠ 0 := fun h => hVnil (List.length_eq_zero.1 h)
        have e1 : res1 = (V.length, c1) :=
          Prod.ext (by rw [hfst1, hn]) (hok1 (by rw [hfst1, hn]; exact hn0))
        have e2 : res2 = (V.length, c2) :=
          Prod.ext (by rw [hfst2, hn]) (hok2 (by rw [hfst2, hn]; exact hn0))
        rw [e1, e2]
        have hlen : c1.aiData.length = c2.aiData.length := by
          have := congrArg List.length hv.2
          simpa [extractedView] using this
        unfold processValue
        simp only [hn0, if_false, hlen, hf, Bool.false_eq_true, false_and, List.drop_left]
        by_cases hmax : ex = true ∧ c2.aiData.length ≥ env.MAX_AIS
        · left
          rw [if_pos hmax, if_pos hmax]
          exact ⟨_, _, rfl, rfl, viewRel_of_same c1 c2 _ _ hv (hnoAI c1 "Too many AIs".toList) rfl
            (hnoAI c2 "Too many AIs".toList) rfl⟩
        · right
          rw [if_neg hmax, if_neg hmax]
          simp only [charAt, List.getD_cons_zero, if_true, List.drop_succ_cons, List.drop_zero]
          have hR' : ¬ R.getD 0 '\x00' = '^' := hR
          rw [if_neg hR']
          refine ⟨_, _, _, _, rfl, rfl, ?_, ?_, ?_, hVnil⟩
          · by_cases hex : ex = true
            · rw [if_pos hex, if_pos hex]
              refine ⟨hv.1, ?_⟩
              rw [extractedView_append c1
                  { c1 with aiData := c1.aiData ++
                      [mkAiValue env entry off1 entry.ai.length (off1 + entry.ai.length)
                        V.length] }
                  (mkAiValue env entry off1 entry.ai.length (off1 + entry.ai.length) V.length)
                  rfl rfl,
                extractedView_append c2
                  { c2 with aiData := c2.aiData ++
                      [mkAiValue env entry off2 entry.ai.length (off2 + entry.ai.length)
                        V.length] }
                  (mkAiValue env entry off2 entry.ai.length (off2 + entry.ai.length) V.length)
                  rfl rfl, hv.2]
              simp only [mkAiValue]
              have b1 : c1.dataStr.drop off1 = entry.ai ++ V ++ '^' :: R := hp1
              have b2 : c2.dataStr.drop off2 = entry.ai ++ V ++ R := hp2
              rw [b1, b2, atPointer_drop c1 off1 _ _ hp1, atPointer_drop c2 off2 _ _ hp2, hd1, hd2]
              rw [List.append_assoc, List.append_assoc,
                take_mod_append entry.ai (V ++ '^' :: R) (V ++ R) _ (Nat.mod_le _ _),
                take_mod_append V ('^' :: R) R _ (Nat.mod_le _ _)]
            · rw [if_neg hex, if_neg hex]; exact hv
          · have hdat : (if ex = true then
                  { c1 with aiData := c1.aiData ++
                      [mkAiValue env entry off1 entry.ai.length (off1 + entry.ai.length)
                        V.length] }
                else c1).dataStr = c1.dataStr := by split_ifs <;> rfl
            unfold AtPointer
            rw [hdat, Nat.add_assoc, Nat.add_assoc, atPointer_drop c1 off1 _ _ hp1]
            simp
          · have hdat : (if ex = true then
                  { c2 with aiData := c2.aiData ++
                      [mkAiValue env entry off2 entry.ai.length (off2 + entry.ai.length)
                        V.length] }
                else c2).dataStr = c2.dataStr := by split_ifs <;> rfl
            unfold AtPointer
            rw [hdat, Nat.add_assoc, atPointer_drop c2 off2 _ _ hp2]
            simp

theorem processAIdata_cons_loop (env : Env) (ctx : Ctx) (p : List Char) (base : Nat) (ex : Bool)
    (hp : p ≠ []) :
    gs1_processAIdata env ctx ('^' :: p) base ex =
      processLoop env ex (p.length + 2) p (base + 1)
        { ctx with errMsg := [], errFlag := false, linterErr := 0, linterErrMarkup := [] } := by
  unfold gs1_processAIdata
  simp only [charAt, List.getD_cons_zero, ne_eq, not_true_eq_false, or_false, List.cons_ne_nil,
    if_false, List.drop_succ_cons, List.drop_zero, hp, List.length_cons]

/-- C16 as stated fails, for a remainder and for a prefix. With `A = 01`,
`V = 12345678901231` and the remainder `R = ^`, the data `^ + A + V + R` is accepted
(one separator is tolerated) and `^ + A + V + ^ + R` is rejected. With the prefix
`P = ^10AB`, after which the processor does not stand at `A`, and `R = 99X`, the data
`P + A + V + ^ + R` is accepted and `P + A + V + R` is rejected. -/
theorem separator_counterexample :
    e01.fnc1 = false ∧ "12345678901231".toList.length = aiEntryMaxLength e01 ∧
    (gs1_processAIdata demoEnv separatorDemoCtx1 "^0112345678901231^^".toList 0 true).1 = false ∧
    (gs1_processAIdata demoEnv separatorDemoCtx2 "^0112345678901231^".toList 0 true).1 = true ∧
    (gs1_processAIdata demoEnv separatorDemoCtx3 "^10AB0112345678901231^99X".toList 0 true).1
      = true ∧
    (gs1_processAIdata demoEnv separatorDemoCtx4 "^10AB011234567890123199X".toList 0 true).1
      = false := by
  decide

/-- C16, amended: let the lookup give the entry of the AI `A` for `A + V` whatever follows,
let the entry not require FNC1, let `V` have the total maximum length of the entry and
hold no `^`, and let the remainder `R` not begin with `^`. Then wherever the processor
loop stands at `A + V + ^ + R` in one buffer and at `A + V + R` in another, having
extracted the same AIs and values so far, both runs have the same outcome and extract the
same AI entries, AI digits and values; in particular `gs1_processAIdata` does so for the
data `^ + A + V + ^ + R` and `^ + A + V + R`. -/
theorem separator_tolerated (env : Env) (ex : Bool) (ctx : Ctx) (V R : List Char)
    (entry : AiEntry)
    (hl1 : gs1_lookupAIentry ctx (entry.ai ++ V ++ '^' :: R) 0 = some entry)
    (hl2 : gs1_lookupAIentry ctx (entry.ai ++ V ++ R) 0 = some entry)
    (hf : entry.fnc1 = false) (hV : V.length = aiEntryMaxLength entry) (hcaret : '^' ∉ V)
    (hR : charAt R 0 ≠ '^') :
    (∀ (c1 c2 : Ctx) (off1 off2 fuel1 fuel2 : Nat), SameConfig ctx c1 → ViewRel c1 c2 →
      AtPointer c1 off1 (entry.ai ++ V ++ '^' :: R) → AtPointer c2 off2 (entry.ai ++ V ++ R) →
      (entry.ai ++ V ++ '^' :: R).length < fuel1 → (entry.ai ++ V ++ R).length < fuel2 →
      (processLoop env ex fuel1 (entry.ai ++ V ++ '^' :: R) off1 c1).1 =
        (processLoop env ex fuel2 (entry.ai ++ V ++ R) off2 c2).1 ∧
      extractedView (processLoop env ex fuel1 (entry.ai ++ V ++ '^' :: R) off1 c1).2 =
        extractedView (processLoop env ex fuel2 (entry.ai ++ V ++ R) off2 c2).2) ∧
    ((gs1_processAIdata env
        { ctx with dataStr := '^' :: (entry.ai ++ V ++ '^' :: R), aiData := [] }
        ('^' :: (entry.ai ++ V ++ '^' :: R)) 0 ex).1 =
      (gs1_processAIdata env
        { ctx with dataStr := '^' :: (entry.ai ++ V ++ R), aiData := [] }
        ('^' :: (entry.ai ++ V ++ R)) 0 ex).1 ∧
     extractedView (gs1_processAIdata env
        { ctx with dataStr := '^' :: (entry.ai ++ V ++ '^' :: R), aiData := [] }
        ('^' :: (entry.ai ++ V ++ '^' :: R)) 0 ex).2 =
      extractedView (gs1_processAIdata env
        { ctx with dataStr := '^' :: (entry.ai ++ V ++ R), aiData := [] }
        ('^' :: (entry.ai ++ V ++ R)) 0 ex).2) := by
  have hX1 : entry.ai ++ V ++ '^' :: R ≠ [] := by simp
  have hX2 : entry.ai ++ V ++ R ≠ [] := by
    intro hnil
    rw [hnil, lookup_nil] at hl2
    exact absurd hl2 (by simp)
  have hloop : ∀ (c1 c2 : Ctx) (off1 off2 fuel1 fuel2 : Nat), SameConfig ctx c1 → ViewRel c1 c2 →
      AtPointer c1 off1 (entry.ai ++ V ++ '^' :: R) → AtPointer c2 off2 (entry.ai ++ V ++ R) →
      (entry.ai ++ V ++ '^' :: R).length < fuel1 → (entry.ai ++ V ++ R).length < fuel2 →
      (processLoop env ex fuel1 (entry.ai ++ V ++ '^' :: R) off1 c1).1 =
        (processLoop env ex fuel2 (entry.ai ++ V ++ R) off2 c2).1 ∧
      ViewRel (processLoop env ex fuel1 (entry.ai ++ V ++ '^' :: R) off1 c1).2
        (processLoop env ex fuel2 (entry.ai ++ V ++ R) off2 c2).2 := by
    intro c1 c2 off1 off2 fuel1 fuel2 hc hv hp1 hp2 hf1 hf2
    cases fuel1 with
    | zero => simp at hf1
    | succ f1 =>
      cases fuel2 with
      | zero => simp at hf2
      | succ f2 =>
        have hl1' : gs1_lookupAIentry c1 (entry.ai ++ V ++ '^' :: R) 0 = some entry := by
          rw [← hl1]; exact (lookup_congr hc _ _).symm
        have hl2' : gs1_lookupAIentry c2 (entry.ai ++ V ++ R) 0 = some entry := by
          rw [← hl2]; exact (lookup_congr (sameConfig_trans hc hv.1) _ _).symm
        rw [processLoop, processLoop, if_neg hX1, if_neg hX2]
        rcases separator_step env ex c1 c2 off1 off2 V R entry hv hl1' hl2' hf hV hcaret hR
          hp1 hp2 with ⟨d1, d2, s1, s2, hd⟩ | ⟨o1, o2, d1, d2, s1, s2, hd, a1, a2, hVn⟩
        · rw [s1, s2]; exact ⟨rfl, hd⟩
        · rw [s1, s2]
          have hVpos : 0 < V.length := List.length_pos.2 hVn
          simp only [List.length_append, List.length_cons] at hf1 hf2
          exact processLoop_view env ex R.length R (Nat.le_refl _) f1 f2 o1 o2 d1 d2
            (by omega) (by omega) hd a1 a2
  refine ⟨fun c1 c2 off1 off2 fuel1 fuel2 hc hv hp1 hp2 hf1 hf2 =>
    ⟨(hloop c1 c2 off1 off2 fuel1 fuel2 hc hv hp1 hp2 hf1 hf2).1,
     (hloop c1 c2 off1 off2 fuel1 fuel2 hc hv hp1 hp2 hf1 hf2).2.2⟩, ?_⟩
  rw [processAIdata_cons_loop env _ _ 0 ex hX1, processAIdata_cons_loop env _ _ 0 ex hX2]
  have h := hloop
    { ctx with dataStr := '^' :: (entry.ai ++ V ++ '^' :: R), aiData := [], errMsg := [],
               errFlag := false, linterErr := 0, linterErrMarkup := [] }
    { ctx with dataStr := '^' :: (entry.ai ++ V ++ R), aiData := [], errMsg := [],
               errFlag := false, linterErr := 0, linterErrMarkup := [] }
    (0 + 1) (0 + 1) ((entry.ai ++ V ++ '^' :: R).length + 2) ((entry.ai ++ V ++ R).length + 2)
    ⟨rfl, rfl, rfl⟩ ⟨⟨rfl, rfl, rfl⟩, rfl⟩ rfl rfl (by omega) (by omega)
  exact ⟨h.1, h.2.2⟩

/-- Witness for C16 amended: `^0112345678901231^991234` and `^0112345678901231991234` are
both accepted, and the same two AIs with the same values are extracted. -/
theorem separator_tolerated_witness :
    (gs1_processAIdata demoEnv
      { demoCtx with dataStr := "^0112345678901231^991234".toList, aiData := [] }
      "^0112345678901231^991234".toList 0 true).1 = true ∧
    (gs1_processAIdata demoEnv
      { demoCtx with dataStr := "^0112345678901231^991234".toList, aiData := [] }
      "^0112345678901231^991234".toList 0 true).1 =
    (gs1_processAIdata demoEnv
      { demoCtx with dataStr := "^0112345678901231991234".toList, aiData := [] }
      "^0112345678901231991234".toList 0 true).1 ∧
    extractedView (gs1_processAIdata demoEnv
      { demoCtx with dataStr := "^0112345678901231^991234".toList, aiData := [] }
      "^0112345678901231^991234".toList 0 true).2 =
    extractedView (gs1_processAIdata demoEnv
      { demoCtx with dataStr := "^0112345678901231991234".toList, aiData := [] }
      "^0112345678901231991234".toList 0 true).2 :=
  ⟨by decide,
   (separator_tolerated demoEnv true demoCtx "12345678901231".toList "991234".toList e01
      (by decide) (by decide) (by decide) (by decide) (by decide) (by decide)).2⟩

/-! ## Inputs that the bracketed parser rejects -/

set_option maxHeartbeats 1000000 in
theorem vivify_minLength (ctx : Ctx) (p : List Char) (n : Nat) (e : AiEntry)
    (h : vivify ctx p n = some e) : 1 ≤ aiEntryMinLength e := by
  unfold vivify at h
  generalize aiLengthByPrefix ctx p = a at h
  generalize valLengthByPrefix p = v at h
  dsimp only at h
  split at h
  · cases h
  split at h
  · cases h
  iterate 9
    split at h
    · rw [← Option.some.inj h]; decide
  rw [← Option.some.inj h]; decide

theorem lookup_minLength (ctx : Ctx) (hmin : ∀ e ∈ ctx.aiTable, 1 ≤ aiEntryMinLength e)
    (p : List Char) (n : Nat) (e : AiEntry) (h : gs1_lookupAIentry ctx p n = some e) :
    1 ≤ aiEntryMinLength e := by
  unfold gs1_lookupAIentry at h
  by_cases h1 : n = 1 ∨ n > 4
  · rw [if_pos h1] at h; cases h
  · rw [if_neg h1] at h
    by_cases h2 : (!gs1_allDigits p (if n ≠ 0 then n else 2)) = true
    · rw [if_pos h2] at h; cases h
    · rw [if_neg h2] at h
      cases hl : lookupLoop ctx.aiTable p n ctx.aiTable.length 0 ctx.aiTable.length with
      | some r =>
        rw [hl] at h
        simp only [] at h
        subst h
        exact hmin e (lookupLoop_sound _ _ _ _ _ _ _ hl).1
      | none =>
        rw [hl] at h
        simp only [] at h
        by_cases hp : (!ctx.permitUnknownAIs) = true
        · rw [if_pos hp] at h; cases h
        · rw [if_neg hp] at h
          exact vivify_minLength ctx p n e h

theorem allDigitsLoop_append : ∀ (a b : List Char), allDigitsLoop (a ++ b) a.length = true →
    ∀ c ∈ a, isDigit c = true := by
  intro a
  induction a with
  | nil => intro b _ c hc; simp at hc
  | cons x xs ih =>
    intro b h c hc
    simp only [List.cons_append, List.length_cons, allDigitsLoop] at h
    by_cases hx : isDigit x = true
    · rw [if_pos hx] at h
      rcases List.mem_cons.1 hc with rfl | hin
      · exact hx
      · exact ih b h c hin
    · rw [if_neg hx] at h
      exact absurd h (by simp)

/-- A lookup with the AI length taken from the brackets succeeds only for 2 to 4 digits. -/
theorem lookup_ai_digits (ctx : Ctx) (ai tail : List Char) (e : AiEntry)
    (h : gs1_lookupAIentry ctx (ai ++ ')' :: tail) ai.length = some e) :
    2 ≤ ai.length ∧ ai.length ≤ 4 ∧ ∀ c ∈ ai, isDigit c = true := by
  unfold gs1_lookupAIentry at h
  by_cases h1 : ai.length = 1 ∨ ai.length > 4
  · rw [if_pos h1] at h; cases h
  · rw [if_neg h1] at h
    by_cases h2 : (!gs1_allDigits (ai ++ ')' :: tail) (if ai.length ≠ 0 then ai.length else 2))
        = true
    · rw [if_pos h2] at h; cases h
    · by_cases h0 : ai.length = 0
      · exfalso
        have hnil : ai = [] := List.length_eq_zero.1 h0
        rw [hnil] at h2
        apply h2
        simp [gs1_allDigits, allDigitsLoop, isDigit]
      · refine ⟨by omega, by omega, ?_⟩
        rw [if_pos h0] at h2
        have h3 : gs1_allDigits (ai ++ ')' :: tail) ai.length = true := by simpa using h2
        unfold gs1_allDigits at h3
        rw [if_neg h0] at h3
        exact allDigitsLoop_append ai _ h3

theorem mem_unescape : ∀ (l : List Char) (c : Char), c ∈ l → c ≠ '\\' → c ∈ unescape l := by
  intro l
  induction l using unescape.induct with
  | case1 => intro c h; simp at h
  | case2 x => intro c h _; simpa [unescape] using h
  | case3 x d rest hcd ih =>
    intro c h hc
    rw [unescape_cons_cons, if_pos hcd]
    simp only [List.mem_cons] at h ⊢
    rcases h with h | h | h
    · rw [hcd.1] at h; exact absurd h hc
    · left; rw [h, hcd.2]
    · right; exact ih c h hc
  | case4 x d rest hcd ih =>
    intro c h hc
    rw [unescape_cons_cons, if_neg hcd]
    simp only [List.mem_cons] at h ⊢
    rcases h with h | h
    · left; exact h
    · right; exact ih c (by simpa using h) hc

theorem splitsAs_of_parsedAs (ctx : Ctx) (hmin : ∀ e ∈ ctx.aiTable, 1 ≤ aiEntryMinLength e) :
    ∀ (segs : List Segment) (input : List Char), ParsedAs ctx input segs →
      (∀ s ∈ segs, GateOk s) →
      SplitsAs input segs ∧ ∀ s ∈ segs, SegmentWellFormed s := by
  intro segs
  induction segs with
  | nil => intro input h _; exact ⟨h, fun s hs => absurd hs (List.not_mem_nil s)⟩
  | cons t rest ih =>
    intro input hp hg
    obtain ⟨input', h1, h2, hl, h3, h4, hrest⟩ := hp
    have ihr := ih input' hrest (fun u hu => hg u (List.mem_cons_of_mem _ hu))
    refine ⟨⟨input', h1, h2, h3, h4, ihr.1⟩, ?_⟩
    intro s hs
    rcases List.mem_cons.1 hs with rfl | hin
    · have hl' : gs1_lookupAIentry ctx (s.ai ++ ')' :: (s.raw ++ input')) s.ai.length =
          some s.entry := by
        simpa using hl
      obtain ⟨d1, d2, d3⟩ := lookup_ai_digits ctx _ _ _ hl'
      have hgate := hg s (List.mem_cons_self _ _)
      have hm := lookup_minLength ctx hmin _ _ _ hl'
      refine ⟨d1, d2, d3, ?_, ?_⟩
      · intro hnil
        have := hgate.1
        rw [hnil] at this
        simp [unescape] at this
        omega
      · intro hc
        exact hgate.2.2 (mem_unescape _ _ hc (by decide))
    · exact ihr.2 s hin

/-- C17: for a table whose entries have a positive minimum length, `gs1_parseAIdata`
fails on every input that is not a sequence of segments each of which starts with `(`,
has a closing `)`, has an AI made of 2 to 4 digits and has a value that is not empty and
holds no `^`. -/
theorem parse_rejects_malformed (env : Env) (ctx : Ctx) (input : List Char)
    (hmin : ∀ e ∈ ctx.aiTable, 1 ≤ aiEntryMinLength e)
    (hbad : ¬ ∃ segs, SplitsAs input segs ∧ ∀ s ∈ segs, SegmentWellFormed s) :
    (gs1_parseAIdata env ctx input).1 = false := by
  by_contra hne
  have h : (gs1_parseAIdata env ctx input).1 = true := by simpa using hne
  apply hbad
  unfold gs1_parseAIdata at h
  simp only [] at h
  cases hloop : parseLoop env (input.length + 1) input true
      { ctx with dataStr := [], errMsg := [], errFlag := false, linterErr := 0,
                 linterErrMarkup := [] } with
  | mk b ctx1 =>
    rw [hloop] at h
    cases b with
    | false => simp at h
    | true =>
      obtain ⟨segs, s1, s2, _, _⟩ := parseLoop_spec env _ _ _ _ _ hloop
      exact ⟨segs, splitsAs_of_parsedAs
        { ctx with dataStr := [], errMsg := [], errFlag := false, linterErr := 0,
                   linterErrMarkup := [] } hmin segs input s1 s2⟩

/-- Witness for C17: `12345` does not start with `(`, and `gs1_parseAIdata` rejects it; it
also rejects `(10)12345(11)`, `(15`, `(1A)12345`, `(12345)12345`, `(10)(11)98765` and
`(10)12345^`. -/
theorem parse_rejects_malformed_witness :
    (gs1_parseAIdata demoEnv demoCtx "12345".toList).1 = false ∧
    (gs1_parseAIdata demoEnv demoCtx "(10)12345(11)".toList).1 = false ∧
    (gs1_parseAIdata demoEnv demoCtx "(15".toList).1 = false ∧
    (gs1_parseAIdata demoEnv demoCtx "(1A)12345".toList).1 = false ∧
    (gs1_parseAIdata demoEnv demoCtx "(12345)12345".toList).1 = false ∧
    (gs1_parseAIdata demoEnv demoCtx "(10)(11)98765".toList).1 = false ∧
    (gs1_parseAIdata demoEnv demoCtx "(10)12345^".toList).1 = false :=
  ⟨parse_rejects_malformed demoEnv demoCtx "12345".toList (by decide)
      (by
        rintro ⟨segs, h, _⟩
        cases segs with
        | nil => simp [SplitsAs] at h
        | cons s rest =>
          obtain ⟨input', h1, _⟩ := h
          exact absurd h1 (by simp)),
   by decide, by decide, by decide, by decide, by decide, by decide⟩

/-! ## State after a failure -/

/-- C18 at the failing inputs: `(00)123456789012345670`, with a wrong check digit, and
`(7007)2112252`, whose optional component is too short, pass the parse loop and are
rejected by the final `gs1_processAIdata`, whose result `gs1_parseAIdata` returns as it
is: the return value is `false` and the output buffer still holds the normalized data. An
input that fails inside the loop, such as `(10)12345(11)`, leaves the buffer empty. -/
theorem parse_failure_keeps_data :
    (gs1_parseAIdata demoEnv demoCtx "(00)123456789012345670".toList).1 = false ∧
    (gs1_parseAIdata demoEnv demoCtx "(00)123456789012345670".toList).2.dataStr =
      "^00123456789012345670".toList ∧
    (gs1_parseAIdata demoEnv demoCtx "(7007)2112252".toList).1 = false ∧
    (gs1_parseAIdata demoEnv demoCtx "(7007)2112252".toList).2.dataStr =
      "^70072112252".toList ∧
    (gs1_parseAIdata demoEnv demoCtx "(10)12345(11)".toList).1 = false ∧
    (gs1_parseAIdata demoEnv demoCtx "(10)12345(11)".toList).2.dataStr = [] := by
  decide

theorem onFailure_scanFail (P : Ctx → Prop) (ctx : Ctx)
    (h : P { ctx with dataStr := [], sym := Sym.sNONE, errFlag := true }) :
    OnFailure P (scanFail ctx) := fun _ => h

theorem onFailure_true (P : Ctx → Prop) (ctx : Ctx) : OnFailure P (true, ctx) :=
  fun h => absurd h (by simp)

theorem onFailure_processScanAI (P : Ctx → Prop) (env : Env) (ctx : Ctx)
    (pre scanData : List Char)
    (h : ∀ c : Ctx, (c.aiData = ctx.aiData ∨ ∃ q, '^' ∉ scanData ∧
        (gs1_processAIdata env { ctx with dataStr := pre ++ q } q pre.length true).1 = false ∧
        c.aiData =
          (gs1_processAIdata env { ctx with dataStr := pre ++ q } q pre.length true).2.aiData) →
      P { c with dataStr := [], sym := Sym.sNONE, errFlag := true }) :
    OnFailure P (processScanAI env ctx pre scanData) := by
  unfold processScanAI
  by_cases hc : '^' ∈ scanData
  · rw [if_pos hc]
    exact onFailure_scanFail P _ (h _ (Or.inl rfl))
  · rw [if_neg hc]
    simp only []
    cases hr : gs1_processAIdata env
        { ctx with dataStr := pre ++ '^' :: scanData.map (fun c => if c = GS then '^' else c) }
        ('^' :: scanData.map (fun c => if c = GS then '^' else c)) pre.length true with
    | mk b c2 =>
      cases b with
      | false =>
        exact onFailure_scanFail P _ (h c2 (Or.inr ⟨_, hc, by rw [hr], by rw [hr]⟩))
      | true => exact onFailure_true P _

theorem onFailure_processScanPlain (P : Ctx → Prop) (env : Env) (ctx : Ctx)
    (scanData : List Char)
    (h : ∀ c : Ctx, (∃ c0 : Ctx, c = (env.gs1_parseDLuri c0).2) →
      P { c with dataStr := [], sym := Sym.sNONE, errFlag := true }) :
    OnFailure P (processScanPlain env ctx scanData) := by
  unfold processScanPlain
  simp only []
  generalize (if charAt (scanData.dropWhile (· = '\\')) 0 = '^' then '\\' :: scanData
    else scanData) = d
  by_cases hu : (d.length ≥ 8 ∧ strncmp d "https://".toList 8 = 0) ∨
      (d.length ≥ 7 ∧ strncmp d "http://".toList 7 = 0)
  · rw [if_pos hu]
    cases hr : env.gs1_parseDLuri { ctx with dataStr := d } with
    | mk b c2 =>
      cases b with
      | false => exact onFailure_scanFail P _ (h c2 ⟨_, by rw [hr]⟩)
      | true => exact onFailure_true P _
  · rw [if_neg hu]
    exact onFailure_true P _

theorem onFailure_processScanData (P : Ctx → Prop) (env : Env) (ctx : Ctx)
    (scanData : List Char)
    (h : ∀ c : Ctx, (c.aiData = [] ∨
        (∃ (c1 : Ctx) (q : List Char) (off : Nat), c1.aiData = [] ∧
          (gs1_processAIdata env c1 q off true).1 = false ∧
          c.aiData = (gs1_processAIdata env c1 q off true).2.aiData) ∨
        ∃ c0 : Ctx, c = (env.gs1_parseDLuri c0).2) →
      P { c with dataStr := [], sym := Sym.sNONE, errFlag := true }) :
    OnFailure P (gs1_processScanData env ctx scanData) := by
  have hAI : ∀ (c1 : Ctx) (pre sd : List Char), c1.aiData = [] →
      OnFailure P (processScanAI env c1 pre sd) := by
    intro c1 pre sd h1
    apply onFailure_processScanAI
    intro c hc
    apply h
    rcases hc with hc | ⟨q, _, hq1, hq2⟩
    · exact Or.inl (hc.trans h1)
    · exact Or.inr (Or.inl ⟨{ c1 with dataStr := pre ++ q }, q, pre.length, h1, hq1, hq2⟩)
  have hPl : ∀ (c1 : Ctx) (sd : List Char), OnFailure P (processScanPlain env c1 sd) := by
    intro c1 sd
    apply onFailure_processScanPlain
    intro c hc
    exact h c (Or.inr (Or.inr hc))
  unfold gs1_processScanData
  simp only []
  repeat' split
  all_goals first
    | exact onFailure_true P _
    | exact hPl _ _
    | (refine onFailure_scanFail P _ ?_; exact h _ (Or.inl rfl))
    | (refine hAI _ _ _ ?_; rfl)

/-- C19: whenever `gs1_processScanData` fails, `data_str` is empty and the symbology is
`NONE`. -/
theorem scan_failure_state (env : Env) (ctx : Ctx) (scanData : List Char)
    (h : (gs1_processScanData env ctx scanData).1 = false) :
    (gs1_processScanData env ctx scanData).2.dataStr = [] ∧
    (gs1_processScanData env ctx scanData).2.sym = Sym.sNONE :=
  onFailure_processScanData (fun c => c.dataStr = [] ∧ c.sym = Sym.sNONE) env ctx scanData
    (fun _ _ => ⟨rfl, rfl⟩) h

theorem scan_failure_state_witness :
    (gs1_processScanData demoEnv demoCtx "]Q31012345\x1d99".toList).1 = false ∧
    (gs1_processScanData demoEnv demoCtx "]Q31012345\x1d99".toList).2.dataStr = [] ∧
    (gs1_processScanData demoEnv demoCtx "]Q31012345\x1d99".toList).2.sym = Sym.sNONE :=
  ⟨by decide, scan_failure_state demoEnv demoCtx "]Q31012345\x1d99".toList (by decide)⟩

/-- C20 (counterexample): the scan `]Q31012345<GS>99` fails on its second, empty AI, and
the first AI, extracted before the error was found, is still counted. -/
theorem scan_failure_keeps_ais :
    (gs1_processScanData demoEnv demoCtx "]Q31012345\x1d99".toList).1 = false ∧
    (gs1_processScanData demoEnv demoCtx "]Q31012345\x1d99".toList).2.aiData.length = 1 ∧
    (gs1_processScanData demoEnv demoCtx "]Q31012345\x1d99".toList).2.aiData.map
      (fun a => (a.ai, a.ailen, a.value, a.vallen)) = [(1, 2, 3, 5)] := by
  decide

theorem parityLoop_append : ∀ (ds : List Char) (l : Char) (w acc : Int),
    parityLoop (ds ++ [l]) w acc = (acc + altSumL ds w, l)
  | [], l, w, acc => by simp [parityLoop, altSumL]
  | [c], l, w, acc => by simp [parityLoop, altSumL]
  | c :: d :: ds, l, w, acc => by
    have ih := parityLoop_append (d :: ds) l (4 - w) (acc + w * ((c.toNat : Int) - 48))
    simp only [List.cons_append] at ih ⊢
    rw [parityLoop, ih]
    simp only [altSumL]
    congr 1
    ring

theorem weightedFrom_append (w : Nat) (hw : w = 3 ∨ w = 1) : ∀ (xs : List Char) (c : Char),
    weightedFrom w (xs ++ [c]) =
      weightedFrom w xs + (if xs.length % 2 = 0 then w else 4 - w) * digitVal c := by
  intro xs
  induction xs generalizing w with
  | nil => intro c; simp [weightedFrom]
  | cons x xs ih =>
    intro c
    have h4 : 4 - w = 3 ∨ 4 - w = 1 := by rcases hw with h | h <;> subst h <;> simp
    have h44 : 4 - (4 - w) = w := by rcases hw with h | h <;> subst h <;> rfl
    simp only [List.cons_append, weightedFrom, List.length_cons, List.append_eq]
    rw [ih (4 - w) h4 c, h44]
    have : (xs.length + 1) % 2 = 0 ↔ ¬ xs.length % 2 = 0 := by omega
    by_cases hx : xs.length % 2 = 0
    · rw [if_pos hx, if_neg (this.not.mpr (not_not.mpr hx))]; ring
    · rw [if_neg hx, if_pos (this.mpr hx)]; ring

theorem digit_toNat (c : Char) (h : isDigit c = true) : 48 ≤ c.toNat ∧ c.toNat ≤ 57 := by
  simp only [isDigit, Bool.and_eq_true, decide_eq_true_eq] at h
  exact ⟨h.1, h.2⟩

theorem altSumL_spec : ∀ (ds : List Char), (∀ c ∈ ds, isDigit c = true) →
    altSumL ds 3 = ((weightedFrom (if ds.length % 2 = 1 then 3 else 1) ds.reverse : Nat) : Int) ∧
    altSumL ds 1 = ((weightedFrom (if ds.length % 2 = 1 then 1 else 3) ds.reverse : Nat) : Int) := by
  intro ds
  induction ds with
  | nil => intro _; simp [altSumL, weightedFrom]
  | cons c cs ih =>
    intro h
    have hc := digit_toNat c (h c (List.mem_cons_self _ _))
    obtain ⟨i3, i1⟩ := ih (fun x hx => h x (List.mem_cons_of_mem _ hx))
    have hd : ((digitVal c : Nat) : Int) = (c.toNat : Int) - 48 := by
      unfold digitVal; omega
    simp only [altSumL, List.reverse_cons, List.length_cons, List.length_reverse]
    have e1 : (4 : Int) - 3 = 1 := rfl
    have e3 : (4 : Int) - 1 = 3 := rfl
    rw [e1, e3, i1, i3]
    by_cases hx : cs.length % 2 = 0
    · have h1 : (cs.length + 1) % 2 = 1 := by omega
      have h0 : ¬ cs.length % 2 = 1 := by omega
      rw [if_pos h1, if_pos h1, if_neg h0, if_neg h0,
        weightedFrom_append 3 (Or.inl rfl), weightedFrom_append 1 (Or.inr rfl)]
      simp only [List.length_reverse, if_pos hx]
      push_cast
      rw [hd]
      constructor <;> ring
    · have h1 : ¬ (cs.length + 1) % 2 = 1 := by omega
      have h0 : cs.length % 2 = 1 := by omega
      rw [if_neg h1, if_neg h1, if_pos h0, if_pos h0,
        weightedFrom_append 3 (Or.inl rfl), weightedFrom_append 1 (Or.inr rfl)]
      simp only [List.length_reverse, if_neg hx]
      push_cast
      rw [hd]
      constructor <;> ring

theorem checkChar_toNat (d : Nat) (h : d < 10) : (Char.ofNat (48 + d)).toNat = 48 + d := by
  interval_cases d <;> rfl

theorem specCheckDigit_lt (ds : List Char) : specCheckDigit ds < 10 :=
  Nat.mod_lt _ (by decide)

theorem specCheckChar_toNat (ds : List Char) :
    (specCheckChar ds).toNat = 48 + specCheckDigit ds :=
  checkChar_toNat _ (specCheckDigit_lt ds)

theorem specCheckChar_isDigit (ds : List Char) : isDigit (specCheckChar ds) = true := by
  have h := specCheckDigit_lt ds
  unfold specCheckChar
  generalize specCheckDigit ds = d at h
  interval_cases d <;> rfl

/-- What `gs1_validateParity` does on a string whose bytes before the last are digits. -/
theorem validateParity_spec (ds : List Char) (l : Char) (hd : ∀ c ∈ ds, isDigit c = true) :
    gs1_validateParity (ds ++ [l]) =
      if l = specCheckChar ds then (true, ds ++ [l]) else (false, ds ++ [specCheckChar ds]) := by
  have hsum : (parityLoop (ds ++ [l]) (if (ds ++ [l]).length % 2 = 0 then 3 else 1) 0) =
      (((specWeightedSum ds : Nat) : Int), l) := by
    rw [parityLoop_append]
    obtain ⟨i3, i1⟩ := altSumL_spec ds hd
    simp only [List.length_append, List.length_singleton, zero_add]
    by_cases hx : (ds.length + 1) % 2 = 0
    · have h1 : ds.length % 2 = 1 := by omega
      rw [if_pos hx, i3, if_pos h1]; rfl
    · have h1 : ¬ ds.length % 2 = 1 := by omega
      rw [if_neg hx, i1, if_neg h1]; rfl
  have hpar : Int.tmod (10 - Int.tmod ((specWeightedSum ds : Nat) : Int) 10) 10 =
      ((specCheckDigit ds : Nat) : Int) := by
    unfold specCheckDigit
    have h10 : specWeightedSum ds % 10 < 10 := Nat.mod_lt _ (by decide)
    have hin : Int.tmod ((specWeightedSum ds : Nat) : Int) 10 =
        ((specWeightedSum ds % 10 : Nat) : Int) := (Int.ofNat_tmod _ 10).symm
    have hout : (10 : Int) - ((specWeightedSum ds % 10 : Nat) : Int) =
        ((10 - specWeightedSum ds % 10 : Nat) : Int) := by omega
    rw [hin, hout]
    exact (Int.ofNat_tmod _ 10).symm
  unfold gs1_validateParity
  simp only []
  rw [hsum]
  simp only [hpar]
  have hl : ((specCheckDigit ds : Nat) : Int) + 48 = (l.toNat : Int) ↔ l = specCheckChar ds := by
    constructor
    · intro h
      have : l.toNat = 48 + specCheckDigit ds := by omega
      unfold specCheckChar
      rw [← this, Char.ofNat_toNat]
    · intro h
      rw [h, specCheckChar_toNat]; push_cast; ring
  by_cases hc : l = specCheckChar ds
  · rw [if_pos (hl.mpr hc), if_pos hc]
  · rw [if_neg (fun h => hc (hl.mp h)), if_neg hc]
    congr 1
    rw [List.dropLast_concat]
    congr 2
    unfold specCheckChar
    have h := specCheckDigit_lt ds
    congr 1
    omega

/-! ## The check digit -/

/-- C28: on a non-empty string whose bytes before the last are digits,
`gs1_validateParity` returns true exactly when the last byte is the digit
`(10 - (S mod 10)) mod 10`, with `S` the sum of the preceding digits weighted alternately
3 and 1 from the right; then the string is left as it is. When it returns false, the
last byte and only that byte is overwritten with this check digit, and a second call on
the result returns true. -/
theorem validate_parity_check_digit (ds : List Char) (l : Char)
    (hd : ∀ c ∈ ds, isDigit c = true) :
    ((gs1_validateParity (ds ++ [l])).1 = true ↔
      l = Char.ofNat (48 + (10 - specWeightedSum ds % 10) % 10)) ∧
    ((gs1_validateParity (ds ++ [l])).1 = true →
      (gs1_validateParity (ds ++ [l])).2 = ds ++ [l]) ∧
    ((gs1_validateParity (ds ++ [l])).1 = false →
      (gs1_validateParity (ds ++ [l])).2 =
        ds ++ [Char.ofNat (48 + (10 - specWeightedSum ds % 10) % 10)]) ∧
    (gs1_validateParity (gs1_validateParity (ds ++ [l])).2).1 = true := by
  have hs := validateParity_spec ds l hd
  have hs2 := validateParity_spec ds (specCheckChar ds) hd
  rw [if_pos rfl] at hs2
  change _ = if l = specCheckChar ds then _ else _ at hs
  show (_ ↔ l = specCheckChar ds) ∧ _ ∧ (_ → _ = ds ++ [specCheckChar ds]) ∧ _
  by_cases hc : l = specCheckChar ds
  · rw [if_pos hc] at hs
    rw [hs]
    refine ⟨⟨fun _ => hc, fun _ => rfl⟩, fun _ => rfl, fun h => absurd h (by simp), ?_⟩
    show (gs1_validateParity (ds ++ [l])).1 = true
    rw [hs]
  · rw [if_neg hc] at hs
    rw [hs]
    refine ⟨⟨fun h => absurd h (by simp), fun h => absurd h hc⟩, fun h => absurd h (by simp),
      fun _ => rfl, ?_⟩
    show (gs1_validateParity (ds ++ [specCheckChar ds])).1 = true
    rw [hs2]

theorem validate_parity_check_digit_witness :
    (∀ c ∈ "2401234567890".toList, isDigit c = true) ∧
    (gs1_validateParity ("2401234567890".toList ++ ['9'])).1 = false ∧
    (gs1_validateParity ("2401234567890".toList ++ ['9'])).2 = "24012345678905".toList ∧
    (((gs1_validateParity ("2401234567890".toList ++ ['9'])).1 = true ↔
      '9' = Char.ofNat (48 + (10 - specWeightedSum "2401234567890".toList % 10) % 10)) ∧
    ((gs1_validateParity ("2401234567890".toList ++ ['9'])).1 = true →
      (gs1_validateParity ("2401234567890".toList ++ ['9'])).2 =
        "2401234567890".toList ++ ['9']) ∧
    ((gs1_validateParity ("2401234567890".toList ++ ['9'])).1 = false →
      (gs1_validateParity ("2401234567890".toList ++ ['9'])).2 =
        "2401234567890".toList ++
          [Char.ofNat (48 + (10 - specWeightedSum "2401234567890".toList % 10) % 10)]) ∧
    (gs1_validateParity (gs1_validateParity ("2401234567890".toList ++ ['9'])).2).1 = true) :=
  ⟨by decide, by decide, by decide,
    validate_parity_check_digit "2401234567890".toList '9' (by decide)⟩

theorem dropWhile_backslash_caret : ∀ body : List Char,
    charAt (body.dropWhile (· = '\\')) 0 = '^' ↔ BackslashesThenCaret body
  | [] => by
    simp only [List.dropWhile_nil, charAt, List.getD_nil]
    constructor
    · intro h; exact absurd h (by decide)
    · rintro ⟨k, rest, h⟩
      cases k <;> simp [List.replicate] at h
  | c :: cs => by
    by_cases hc : c = '\\'
    · subst hc
      have ih := dropWhile_backslash_caret cs
      simp only [List.dropWhile_cons, decide_True, if_true]
      rw [ih]
      constructor
      · rintro ⟨k, rest, h⟩
        exact ⟨k + 1, rest, by rw [h]; rfl⟩
      · rintro ⟨k, rest, h⟩
        cases k with
        | zero => simp at h
        | succ k =>
          simp only [List.replicate_succ, List.cons_append, List.cons.injEq, true_and] at h
          exact ⟨k, rest, h⟩
    · simp only [List.dropWhile_cons, hc, decide_False, Bool.false_eq_true, if_false]
      constructor
      · intro h
        have : c = '^' := by simpa [charAt] using h
        exact ⟨0, cs, by rw [this]; rfl⟩
      · rintro ⟨k, rest, h⟩
        cases k with
        | zero =>
          simp only [List.replicate_zero, List.nil_append, List.cons.injEq] at h
          simp [charAt, h.1]
        | succ k =>
          simp only [List.replicate_succ, List.cons_append, List.cons.injEq] at h
          exact absurd h.1 hc

/-- Plain data that is not a URI is stored as it is, after one more backslash when it
begins with backslashes and a `^`. -/
theorem processScanPlain_noURI (env : Env) (ctx : Ctx) (body : List Char)
    (hhttp : ¬ "http://".toList <+: body) (hhttps : ¬ "https://".toList <+: body) :
    processScanPlain env ctx body =
      (true, { ctx with
        dataStr := (if charAt (body.dropWhile (· = '\\')) 0 = '^' then '\\' :: body
                    else body) }) := by
  unfold processScanPlain
  simp only []
  have key : ∀ t : List Char, NoNul t → charAt t 0 = 'h' → ¬ t <+: body →
      ¬ (strncmp (if charAt (body.dropWhile (· = '\\')) 0 = '^' then '\\' :: body else body)
        t t.length = 0) := by
    intro t ht h0 hnp h
    rw [strncmp_right_prefix_iff t _ ht] at h
    by_cases hc : charAt (body.dropWhile (· = '\\')) 0 = '^'
    · rw [if_pos hc] at h
      obtain ⟨r, hr⟩ := h
      cases t with
      | nil => simp [charAt] at h0
      | cons a t =>
        simp only [charAt, List.getD_cons_zero] at h0
        simp only [List.cons_append, List.cons.injEq] at hr
        rw [h0] at hr
        exact absurd hr.1 (by decide)
    · rw [if_neg hc] at h
      exact hnp h
  have h8 := key "https://".toList (by decide) rfl hhttps
  have h7 := key "http://".toList (by decide) rfl hhttp
  rw [if_neg]
  rintro (⟨_, h⟩ | ⟨_, h⟩)
  · exact h8 h
  · exact h7 h

/-! ## Plain-mode and primary scan data -/

/-- C22: for a plain-mode identifier (`]Q1` or `]d1`) and every body that does not
begin with `http://` or `https://`, `gs1_processScanData` succeeds, extracts no AI, and
sets `data_str` to the body after one more backslash when the body is zero or more
backslashes followed by `^` and anything after, and to the body unchanged otherwise. -/
theorem plain_scan_data (env : Env) (ctx : Ctx) (id : List Char) (sym : Sym)
    (body : List Char) (hid : (id, sym) ∈ plainModeIds)
    (hhttp : ¬ "http://".toList <+: body) (hhttps : ¬ "https://".toList <+: body) :
    (gs1_processScanData env ctx (id ++ body)).1 = true ∧
    (gs1_processScanData env ctx (id ++ body)).2.aiData = [] ∧
    (BackslashesThenCaret body →
      (gs1_processScanData env ctx (id ++ body)).2.dataStr = '\\' :: body) ∧
    (¬ BackslashesThenCaret body →
      (gs1_processScanData env ctx (id ++ body)).2.dataStr = body) := by
  have hres : ∃ c : Ctx, c.aiData = [] ∧
      gs1_processScanData env ctx (id ++ body) = processScanPlain env c body := by
    simp only [plainModeIds, List.mem_cons, Prod.mk.injEq, List.mem_singleton,
      List.not_mem_nil, or_false] at hid
    rcases hid with ⟨h, _⟩ | ⟨h, _⟩
    · rw [h]; exact ⟨_, rfl, processScan_plain_DM env ctx body⟩
    · rw [h]; exact ⟨_, rfl, processScan_plain_QR env ctx body⟩
  obtain ⟨c, hc, hres⟩ := hres
  rw [hres, processScanPlain_noURI env c body hhttp hhttps]
  refine ⟨rfl, hc, ?_, ?_⟩
  · intro h
    simp only [if_pos ((dropWhile_backslash_caret body).mpr h)]
  · intro h
    simp only [if_neg (fun h2 => h ((dropWhile_backslash_caret body).mp h2))]

theorem plain_scan_data_witness :
    ("]Q1".toList, Sym.sQR) ∈ plainModeIds ∧ ¬ "http://".toList <+: "\\^X".toList ∧
    ¬ "https://".toList <+: "\\^X".toList ∧ BackslashesThenCaret "\\^X".toList ∧
    (gs1_processScanData demoEnv demoCtx ("]Q1".toList ++ "\\^X".toList)).2.dataStr =
      "\\\\^X".toList ∧
    ((gs1_processScanData demoEnv demoCtx ("]Q1".toList ++ "\\^X".toList)).1 = true ∧
    (gs1_processScanData demoEnv demoCtx ("]Q1".toList ++ "\\^X".toList)).2.aiData = [] ∧
    (BackslashesThenCaret "\\^X".toList →
      (gs1_processScanData demoEnv demoCtx ("]Q1".toList ++ "\\^X".toList)).2.dataStr =
        '\\' :: "\\^X".toList) ∧
    (¬ BackslashesThenCaret "\\^X".toList →
      (gs1_processScanData demoEnv demoCtx ("]Q1".toList ++ "\\^X".toList)).2.dataStr =
        "\\^X".toList)) :=
  ⟨by decide, by decide, by decide, ⟨1, ['X'], rfl⟩, by decide,
    plain_scan_data demoEnv demoCtx "]Q1".toList Sym.sQR "\\^X".toList (by decide)
      (by decide) (by decide)⟩

theorem findSymId_some (s : List Char) : ∀ (t : List SymIdEntry) (e : SymIdEntry),
    findSymId s t = some e → e ∈ t ∧ strncmp s e.identifier 3 = 0
  | [], e, h => by simp [findSymId] at h
  | a :: t, e, h => by
    unfold findSymId at h
    by_cases hc : strncmp s a.identifier 3 ≠ 0
    · rw [if_pos hc] at h
      obtain ⟨h1, h2⟩ := findSymId_some s t e h
      exact ⟨List.mem_cons_of_mem _ h1, h2⟩
    · rw [if_neg hc] at h
      rw [← Option.some.inj h]
      exact ⟨List.mem_cons_self _ _, not_not.mp hc⟩

theorem findSymId_none (s : List Char) : ∀ (t : List SymIdEntry),
    findSymId s t = none → ∀ e ∈ t, strncmp s e.identifier 3 ≠ 0
  | [], _, e, he => by simp at he
  | a :: t, h, e, he => by
    unfold findSymId at h
    by_cases hc : strncmp s a.identifier 3 ≠ 0
    · rw [if_pos hc] at h
      rcases List.mem_cons.mp he with rfl | he
      · exact hc
      · exact findSymId_none s t h e he
    · rw [if_neg hc] at h; exact absurd h (by simp)

/-- For an identifier of `symIdTable`, the comparison of `gs1_processScanData` succeeds
exactly when the identifier is the first three bytes of the scan data. -/
theorem symId_strncmp (s : List Char) (e : SymIdEntry) (he : e ∈ symIdTable) :
    strncmp s e.identifier 3 = 0 ↔ s.take 3 = e.identifier := by
  have hlen : e.identifier.length = 3 ∧ NoNul e.identifier := by
    revert e; decide
  have h := strncmp_right_prefix_iff e.identifier s hlen.2
  rw [hlen.1] at h
  rw [h]
  constructor
  · rintro ⟨r, hr⟩
    rw [← hr, List.take_left' hlen.1]
  · intro h3
    exact ⟨s.drop 3, by rw [← h3, List.take_append_drop]⟩

theorem processScanAI_sym (env : Env) (ctx : Ctx) (pre sd : List Char)
    (h : (processScanAI env ctx pre sd).1 = true) :
    (processScanAI env ctx pre sd).2.sym = ctx.sym := by
  unfold processScanAI at h ⊢
  by_cases hc : '^' ∈ sd
  · rw [if_pos hc] at h; exact absurd h (by simp [scanFail])
  · rw [if_neg hc] at h ⊢
    simp only [] at h ⊢
    have hf := processAIdata_frame env
      { ctx with dataStr := pre ++ '^' :: sd.map (fun c => if c = GS then '^' else c) }
      ('^' :: sd.map (fun c => if c = GS then '^' else c)) pre.length true
    generalize gs1_processAIdata env
      { ctx with dataStr := pre ++ '^' :: sd.map (fun c => if c = GS then '^' else c) }
      ('^' :: sd.map (fun c => if c = GS then '^' else c)) pre.length true = res at h hf ⊢
    obtain ⟨b, c2⟩ := res
    cases b with
    | false => exact absurd h (by simp [scanFail])
    | true => exact hf.1

theorem processScanPlain_sym (env : Env) (ctx : Ctx) (sd : List Char)
    (hdl : ∀ c : Ctx, (env.gs1_parseDLuri c).1 = true → (env.gs1_parseDLuri c).2.sym = c.sym)
    (h : (processScanPlain env ctx sd).1 = true) :
    (processScanPlain env ctx sd).2.sym = ctx.sym := by
  unfold processScanPlain at h ⊢
  simp only [] at h ⊢
  generalize (if charAt (sd.dropWhile (· = '\\')) 0 = '^' then '\\' :: sd else sd) = d at h ⊢
  by_cases hu : (d.length ≥ 8 ∧ strncmp d "https://".toList 8 = 0) ∨
      (d.length ≥ 7 ∧ strncmp d "http://".toList 7 = 0)
  · rw [if_pos hu] at h ⊢
    have hd := hdl { ctx with dataStr := d }
    generalize env.gs1_parseDLuri { ctx with dataStr := d } = res at h hd ⊢
    obtain ⟨b, c2⟩ := res
    cases b with
    | false => exact absurd h (by simp [scanFail])
    | true => exact hd rfl
  · rw [if_neg hu]

/-- A successful `gs1_processScanData` has found the identifier in `symIdTable` and
leaves the default symbology of that entry in the context. -/
theorem processScanData_sym (env : Env) (ctx : Ctx) (s : List Char)
    (hdl : ∀ c : Ctx, (env.gs1_parseDLuri c).1 = true → (env.gs1_parseDLuri c).2.sym = c.sym)
    (h : (gs1_processScanData env ctx s).1 = true) :
    ∃ e, findSymId s symIdTable = some e ∧
      (gs1_processScanData env ctx s).2.sym = e.defaultSym := by
  revert h
  unfold gs1_processScanData
  simp only []
  by_cases h1 : charAt s 0 ≠ ']' ∨ s.length < 3
  · rw [if_pos h1]; intro h; exact absurd h Bool.false_ne_true
  rw [if_neg h1]
  cases hf : findSymId s symIdTable with
  | none => intro h; exact absurd h Bool.false_ne_true
  | some e =>
    simp only []
    repeat' split
    all_goals first
      | (intro h; exact absurd h Bool.false_ne_true)
      | (intro _; exact ⟨e, rfl, rfl⟩)
      | (intro h; exact ⟨e, rfl, processScanAI_sym env _ _ _ h⟩)
      | (intro h; exact ⟨e, rfl, processScanPlain_sym env _ _ hdl h⟩)

/-- C23: `gs1_processScanData` fails with "Missing symbology identifier" when the input
does not start with `]` or is shorter than three bytes, fails with "Unsupported symbology
identifier" when its first three bytes are none of the eight identifiers, and on every
success leaves the table's default symbology of the identifier in the context. The
Digital Link parser, which is external, is taken to leave the symbology alone when it
succeeds. -/
theorem symbology_identifier (env : Env) (ctx : Ctx) (s : List Char)
    (hdl : ∀ c : Ctx, (env.gs1_parseDLuri c).1 = true → (env.gs1_parseDLuri c).2.sym = c.sym) :
    (charAt s 0 ≠ ']' ∨ s.length < 3 →
      (gs1_processScanData env ctx s).1 = false ∧
      (gs1_processScanData env ctx s).2.errMsg = "Missing symbology identifier".toList) ∧
    (¬ (charAt s 0 ≠ ']' ∨ s.length < 3) →
      s.take 3 ∉ ["]C1".toList, "]E0".toList, "]E4".toList, "]e0".toList, "]d1".toList,
        "]d2".toList, "]Q1".toList, "]Q3".toList] →
      (gs1_processScanData env ctx s).1 = false ∧
      (gs1_processScanData env ctx s).2.errMsg = "Unsupported symbology identifier".toList) ∧
    ((gs1_processScanData env ctx s).1 = true →
      (s.take 3, (gs1_processScanData env ctx s).2.sym) ∈
        [("]C1".toList, Sym.sGS1_128_CCA), ("]E0".toList, Sym.sEAN13),
         ("]E4".toList, Sym.sEAN8), ("]e0".toList, Sym.sDataBarExpanded),
         ("]d1".toList, Sym.sDM), ("]d2".toList, Sym.sDM),
         ("]Q1".toList, Sym.sQR), ("]Q3".toList, Sym.sQR)]) := by
  refine ⟨?_, ?_, ?_⟩
  · intro h1
    unfold gs1_processScanData
    simp only []
    rw [if_pos h1]
    exact ⟨rfl, rfl⟩
  · intro h1 hid
    have hf : findSymId s symIdTable = none := by
      cases hf : findSymId s symIdTable with
      | none => rfl
      | some e =>
        exfalso
        obtain ⟨he, hcmp⟩ := findSymId_some s symIdTable e hf
        rw [symId_strncmp s e he] at hcmp
        apply hid
        rw [hcmp]
        have hall : ∀ e ∈ symIdTable, e.identifier ∈ ["]C1".toList, "]E0".toList,
            "]E4".toList, "]e0".toList, "]d1".toList, "]d2".toList, "]Q1".toList,
            "]Q3".toList] := by decide
        exact hall e he
    unfold gs1_processScanData
    simp only []
    rw [if_neg h1, hf]
    exact ⟨rfl, rfl⟩
  · intro h
    obtain ⟨e, hf, hsym⟩ := processScanData_sym env ctx s hdl h
    obtain ⟨he, hcmp⟩ := findSymId_some s symIdTable e hf
    rw [symId_strncmp s e he] at hcmp
    rw [hsym, hcmp]
    have hall : ∀ e ∈ symIdTable, (e.identifier, e.defaultSym) ∈
        [("]C1".toList, Sym.sGS1_128_CCA), ("]E0".toList, Sym.sEAN13),
         ("]E4".toList, Sym.sEAN8), ("]e0".toList, Sym.sDataBarExpanded),
         ("]d1".toList, Sym.sDM), ("]d2".toList, Sym.sDM),
         ("]Q1".toList, Sym.sQR), ("]Q3".toList, Sym.sQR)] := by decide
    exact hall e he

theorem symbology_identifier_witness :
    (∀ c : Ctx, (demoEnv.gs1_parseDLuri c).1 = true → (demoEnv.gs1_parseDLuri c).2.sym = c.sym) ∧
    (gs1_processScanData demoEnv demoCtx "]C10112345678901231".toList).1 = true ∧
    (gs1_processScanData demoEnv demoCtx "]C10112345678901231".toList).2.sym =
      Sym.sGS1_128_CCA ∧
    ((charAt "]C10112345678901231".toList 0 ≠ ']' ∨ "]C10112345678901231".toList.length < 3 →
      (gs1_processScanData demoEnv demoCtx "]C10112345678901231".toList).1 = false ∧
      (gs1_processScanData demoEnv demoCtx "]C10112345678901231".toList).2.errMsg =
        "Missing symbology identifier".toList) ∧
    (¬ (charAt "]C10112345678901231".toList 0 ≠ ']' ∨
        "]C10112345678901231".toList.length < 3) →
      "]C10112345678901231".toList.take 3 ∉ ["]C1".toList, "]E0".toList, "]E4".toList,
        "]e0".toList, "]d1".toList, "]d2".toList, "]Q1".toList, "]Q3".toList] →
      (gs1_processScanData demoEnv demoCtx "]C10112345678901231".toList).1 = false ∧
      (gs1_processScanData demoEnv demoCtx "]C10112345678901231".toList).2.errMsg =
        "Unsupported symbology identifier".toList) ∧
    ((gs1_processScanData demoEnv demoCtx "]C10112345678901231".toList).1 = true →
      ("]C10112345678901231".toList.take 3,
        (gs1_processScanData demoEnv demoCtx "]C10112345678901231".toList).2.sym) ∈
        [("]C1".toList, Sym.sGS1_128_CCA), ("]E0".toList, Sym.sEAN13),
         ("]E4".toList, Sym.sEAN8), ("]e0".toList, Sym.sDataBarExpanded),
         ("]d1".toList, Sym.sDM), ("]d2".toList, Sym.sDM),
         ("]Q1".toList, Sym.sQR), ("]Q3".toList, Sym.sQR)])) :=
  ⟨fun _ _ => rfl, by decide, by decide,
    symbology_identifier demoEnv demoCtx "]C10112345678901231".toList (fun _ _ => rfl)⟩

/-- The result of `gs1_processAIdata` does not depend on where in the data buffer the
string stands: two runs on the same string, from contexts of the same configuration
holding the same extracted AIs, succeed or fail together and extract the same. -/
theorem processAIdata_view (env : Env) (c1 c2 : Ctx) (q : List Char) (b1 b2 : Nat) (ex : Bool)
    (hv : ViewRel c1 c2) (h1 : AtPointer c1 b1 q) (h2 : AtPointer c2 b2 q) :
    (gs1_processAIdata env c1 q b1 ex).1 = (gs1_processAIdata env c2 q b2 ex).1 ∧
    ViewRel (gs1_processAIdata env c1 q b1 ex).2 (gs1_processAIdata env c2 q b2 ex).2 := by
  have hv0 : ∀ (m : List Char) (f : Bool),
      ViewRel { c1 with errMsg := m, errFlag := f, linterErr := 0, linterErrMarkup := [] }
        { c2 with errMsg := m, errFlag := f, linterErr := 0, linterErrMarkup := [] } :=
    fun m f => viewRel_of_same c1 c2 _ _ hv ⟨rfl, rfl, rfl, rfl, rfl, rfl, rfl, rfl, rfl⟩ rfl
      ⟨rfl, rfl, rfl, rfl, rfl, rfl, rfl, rfl, rfl⟩ rfl
  unfold gs1_processAIdata
  simp only []
  by_cases hq : q = [] ∨ charAt q 0 ≠ '^'
  · rw [if_pos hq, if_pos hq]
    exact ⟨rfl, hv0 _ _⟩
  · rw [if_neg hq, if_neg hq]
    by_cases hd : q.drop 1 = []
    · rw [if_pos hd, if_pos hd]
      exact ⟨rfl, hv0 _ _⟩
    · rw [if_neg hd, if_neg hd]
      have hl : (q.drop 1).length < q.length + 1 := by
        rw [List.length_drop]; omega
      exact processLoop_view env ex (q.drop 1).length (q.drop 1) (Nat.le_refl _) _ _ _ _ _ _
        hl hl (hv0 _ _) (atPointer_drop c1 b1 1 q h1) (atPointer_drop c2 b2 1 q h2)

/-- The AI-mode part of `gs1_processScanData` succeeds or fails whatever stands before
the AI data in the buffer, and on success the buffer holds the AI data after it. -/
theorem processScanAI_offset (env : Env) (c1 c2 : Ctx) (pre sd : List Char)
    (hcfg : SameConfig c1 c2) (ha1 : c1.aiData = []) (ha2 : c2.aiData = []) :
    (processScanAI env c1 pre sd).1 = (processScanAI env c2 [] sd).1 ∧
    ((processScanAI env c1 pre sd).1 = true →
      (processScanAI env c1 pre sd).2.dataStr = pre ++ scanBodyToData sd ∧
      (processScanAI env c1 pre sd).2.sym = c1.sym) := by
  unfold processScanAI
  by_cases hc : '^' ∈ sd
  · rw [if_pos hc, if_pos hc]
    exact ⟨rfl, fun h => absurd h Bool.false_ne_true⟩
  · rw [if_neg hc, if_neg hc]
    simp only [List.nil_append, List.length_nil]
    have hview := processAIdata_view env
      { c1 with dataStr := pre ++ '^' :: sd.map (fun c => if c = GS then '^' else c) }
      { c2 with dataStr := '^' :: sd.map (fun c => if c = GS then '^' else c) }
      ('^' :: sd.map (fun c => if c = GS then '^' else c)) pre.length 0 true
      ⟨hcfg, by simp [extractedView, ha1, ha2]⟩
      (by simp [AtPointer]) (by simp [AtPointer])
    have hf := processAIdata_frame env
      { c1 with dataStr := pre ++ '^' :: sd.map (fun c => if c = GS then '^' else c) }
      ('^' :: sd.map (fun c => if c = GS then '^' else c)) pre.length true
    generalize gs1_processAIdata env
      { c1 with dataStr := pre ++ '^' :: sd.map (fun c => if c = GS then '^' else c) }
      ('^' :: sd.map (fun c => if c = GS then '^' else c)) pre.length true = r1 at hview hf ⊢
    generalize gs1_processAIdata env
      { c2 with dataStr := '^' :: sd.map (fun c => if c = GS then '^' else c) }
      ('^' :: sd.map (fun c => if c = GS then '^' else c)) 0 true = r2 at hview ⊢
    obtain ⟨b1, d1⟩ := r1
    obtain ⟨b2, d2⟩ := r2
    have hb : b1 = b2 := hview.1
    subst hb
    cases b1 with
    | false => exact ⟨rfl, fun h => absurd h Bool.false_ne_true⟩
    | true => exact ⟨rfl, fun _ => ⟨hf.2.1, hf.1⟩⟩

/-- The test of `gs1_processScanData` for a composite component after `n` primary bytes. -/
theorem hasCC_iff (body : List Char) (n : Nat) :
    (body.length ≥ n + 4 ∧ strncmp (body.drop n) "|]e0".toList 4 = 0) ↔
      "|]e0".toList <+: body.drop n := by
  have h := strncmp_right_prefix_iff "|]e0".toList (body.drop n) (by decide)
  have h4 : "|]e0".toList.length = 4 := rfl
  rw [h4] at h
  constructor
  · intro hh; exact h.mp hh.2
  · intro hp
    refine ⟨?_, h.mpr hp⟩
    have := hp.length_le
    rw [List.length_drop, h4] at this
    omega

/-- What `gs1_processScanData` does after it has found the identifier of a primary
symbology (EAN-13 or EAN-8): `body` is the scan data after the identifier and `n` the
number of primary digits. -/
theorem processScan_primary_iff (env : Env) (ctx : Ctx) (s : List Char) (e : SymIdEntry)
    (h1 : ¬ (charAt s 0 ≠ ']' ∨ s.length < 3)) (hf : findSymId s symIdTable = some e)
    (hs : e.defaultSym = Sym.sEAN13 ∨ e.defaultSym = Sym.sEAN8) (n : Nat)
    (hn : (if e.defaultSym = Sym.sEAN13 then 13 else 8) = n) (body : List Char)
    (hb : s.drop 3 = body) :
    ∃ c1 : Ctx, SameConfig c1 ctx ∧ c1.aiData = [] ∧
      ((gs1_processScanData env ctx s).1 = true ↔
        n ≤ body.length ∧ gs1_allDigits (body.take n) 0 = true ∧
        (gs1_validateParity (body.take n)).1 = true ∧
        (body.length = n ∨ ("|]e0".toList <+: body.drop n ∧
          (processScanAI env c1 (body.take n ++ ['|']) (body.drop (n + 4))).1 = true))) ∧
      ((gs1_processScanData env ctx s).1 = true → body.length = n →
        (gs1_processScanData env ctx s).2.dataStr = body) ∧
      ((gs1_processScanData env ctx s).1 = true → "|]e0".toList <+: body.drop n →
        (gs1_processScanData env ctx s).2.dataStr =
          (processScanAI env c1 (body.take n ++ ['|']) (body.drop (n + 4))).2.dataStr) := by
  refine ⟨{ ctx with sym := e.defaultSym, dataStr := [], aiData := [], errMsg := [],
                     errFlag := false, linterErr := 0, linterErrMarkup := [] },
    ⟨rfl, rfl, rfl⟩, rfl, ?_⟩
  unfold gs1_processScanData
  simp only []
  rw [if_neg h1, hf]
  simp only []
  rw [if_pos hs, hb, hn]
  by_cases hlen : body.length < n
  · rw [if_pos hlen]
    refine ⟨⟨fun h => absurd h Bool.false_ne_true, fun h => absurd h.1 (by omega)⟩,
      fun h => absurd h Bool.false_ne_true, fun h => absurd h Bool.false_ne_true⟩
  rw [if_neg hlen]
  have hcc := hasCC_iff body n
  by_cases hp : "|]e0".toList <+: body.drop n
  · have hd : decide (body.length ≥ n + 4 ∧ strncmp (body.drop n) "|]e0".toList 4 = 0) = true :=
      decide_eq_true (hcc.mpr hp)
    have hne : body.length ≠ n := by have := (hcc.mpr hp).1; omega
    rw [hd, if_neg (by simp)]
    by_cases hdig : gs1_allDigits (body.take n) 0 = false
    · rw [if_pos hdig]
      refine ⟨⟨fun h => absurd h Bool.false_ne_true, fun h => ?_⟩,
        fun h => absurd h Bool.false_ne_true, fun h => absurd h Bool.false_ne_true⟩
      rw [hdig] at h; exact absurd h.2.1 Bool.false_ne_true
    rw [if_neg hdig]
    have hdig2 : gs1_allDigits (body.take n) 0 = true := by
      cases h : gs1_allDigits (body.take n) 0
      · exact absurd h hdig
      · rfl
    cases hv : gs1_validateParity (body.take n) with
    | mk b p' =>
      cases b with
      | false =>
        refine ⟨⟨fun h => absurd h Bool.false_ne_true, fun h => absurd h.2.2.1 Bool.false_ne_true⟩,
          fun h => absurd h Bool.false_ne_true, fun h => absurd h Bool.false_ne_true⟩
      | true =>
        have hp' : p' = body.take n := by
          have := gs1_validateParity_true (body.take n) (by rw [hv])
          rw [hv] at this
          exact (Prod.mk.inj this).2
        subst hp'
        simp only [Bool.true_eq_false, if_false]
        refine ⟨⟨fun h => ⟨by omega, hdig2, by trivial, Or.inr ⟨hp, h⟩⟩, fun h => ?_⟩,
          fun _ h => absurd h hne, fun _ _ => by trivial⟩
        rcases h.2.2.2 with h | h
        · exact absurd h hne
        · exact h.2
  · have hd : decide (body.length ≥ n + 4 ∧ strncmp (body.drop n) "|]e0".toList 4 = 0) = false :=
      decide_eq_false (fun h => hp (hcc.mp h))
    rw [hd]
    by_cases hlong : body.length > n
    · rw [if_pos ⟨rfl, hlong⟩]
      refine ⟨⟨fun h => absurd h Bool.false_ne_true, fun h => ?_⟩,
        fun h => absurd h Bool.false_ne_true, fun h => absurd h Bool.false_ne_true⟩
      rcases h.2.2.2 with h | h
      · omega
      · exact absurd h.1 hp
    rw [if_neg (fun h => hlong h.2)]
    have hbl : body.length = n := by omega
    have htake : body.take n = body := List.take_of_length_le (by omega)
    rw [htake]
    by_cases hdig : gs1_allDigits body 0 = false
    · rw [if_pos hdig]
      refine ⟨⟨fun h => absurd h Bool.false_ne_true, fun h => ?_⟩,
        fun h => absurd h Bool.false_ne_true, fun h => absurd h Bool.false_ne_true⟩
      rw [hdig] at h; exact absurd h.2.1 Bool.false_ne_true
    rw [if_neg hdig]
    have hdig2 : gs1_allDigits body 0 = true := by
      cases h : gs1_allDigits body 0
      · exact absurd h hdig
      · rfl
    cases hv : gs1_validateParity body with
    | mk b p' =>
      cases b with
      | false =>
        refine ⟨⟨fun h => absurd h Bool.false_ne_true, fun h => absurd h.2.2.1 Bool.false_ne_true⟩,
          fun h => absurd h Bool.false_ne_true, fun h => absurd h Bool.false_ne_true⟩
      | true =>
        have hp' : p' = body := by
          have := gs1_validateParity_true body (by rw [hv])
          rw [hv] at this
          exact (Prod.mk.inj this).2
        subst hp'
        simp only [if_true]
        exact ⟨⟨fun _ => ⟨by omega, hdig2, by trivial, Or.inl hbl⟩, fun _ => by trivial⟩,
          fun _ _ => by trivial, fun _ h => absurd h hp⟩

theorem allDigits_iff (P : List Char) :
    gs1_allDigits P 0 = true ↔ ∀ c ∈ P, isDigit c = true := by
  constructor
  · exact allDigits_all P
  · intro h
    unfold gs1_allDigits
    rw [if_pos rfl]
    exact allDigitsLoop_prefix_ok P P P.length (List.prefix_refl _) (Nat.le_refl _) h

theorem validateParity_hasCheckDigit (P : List Char) (hne : P ≠ [])
    (hd : ∀ c ∈ P, isDigit c = true) :
    (gs1_validateParity P).1 = true ↔ HasCheckDigit P := by
  obtain ⟨ds, l, rfl⟩ : ∃ ds l, P = ds ++ [l] :=
    ⟨P.dropLast, P.getLast hne, (List.dropLast_append_getLast hne).symm⟩
  rw [validateParity_spec ds l (fun c hc => hd c (List.mem_append_left _ hc))]
  unfold HasCheckDigit
  rw [List.getLast?_concat, List.dropLast_concat]
  by_cases hc : l = specCheckChar ds
  · rw [if_pos hc, hc]; simp
  · rw [if_neg hc]
    simp only [Bool.false_eq_true, Option.some.injEq, false_iff]
    exact hc

theorem processScan_ean (env : Env) (ctx : Ctx) (id : List Char) (sym : Sym) (n : Nat)
    (body : List Char) (hid : (id, sym, n) ∈ eanIds) :
    ∃ c1 : Ctx, SameConfig c1 ctx ∧ c1.aiData = [] ∧
      ((gs1_processScanData env ctx (id ++ body)).1 = true ↔
        n ≤ body.length ∧ gs1_allDigits (body.take n) 0 = true ∧
        (gs1_validateParity (body.take n)).1 = true ∧
        (body.length = n ∨ ("|]e0".toList <+: body.drop n ∧
          (processScanAI env c1 (body.take n ++ ['|']) (body.drop (n + 4))).1 = true))) ∧
      ((gs1_processScanData env ctx (id ++ body)).1 = true → body.length = n →
        (gs1_processScanData env ctx (id ++ body)).2.dataStr = body) ∧
      ((gs1_processScanData env ctx (id ++ body)).1 = true → "|]e0".toList <+: body.drop n →
        (gs1_processScanData env ctx (id ++ body)).2.dataStr =
          (processScanAI env c1 (body.take n ++ ['|']) (body.drop (n + 4))).2.dataStr) := by
  simp only [eanIds, List.mem_cons, Prod.mk.injEq, List.mem_singleton, List.not_mem_nil,
    or_false] at hid
  rcases hid with ⟨h1, -, h3⟩ | ⟨h1, -, h3⟩
  · subst h1 h3
    exact processScan_primary_iff env ctx _
      { identifier := "]E0".toList, aiMode := false, defaultSym := Sym.sEAN13 }
      (by simp [charAt]) (by simp [findSymId, symIdTable, strncmp]) (Or.inl rfl) 13 rfl body
      (by simp)
  · subst h1 h3
    exact processScan_primary_iff env ctx _
      { identifier := "]E4".toList, aiMode := false, defaultSym := Sym.sEAN8 }
      (by simp [charAt]) (by simp [findSymId, symIdTable, strncmp]) (Or.inr rfl) 8 rfl body
      (by simp)

theorem compositeAccepted_iff (env : Env) (ctx c1 : Ctx) (pre C : List Char)
    (hcfg : SameConfig c1 ctx) (ha : c1.aiData = []) :
    CompositeAccepted env ctx C ↔ (processScanAI env c1 pre C).1 = true := by
  unfold CompositeAccepted
  rw [processScan_aiMode env ctx "]e0".toList Sym.sDataBarExpanded (by decide) C,
    (processScanAI_offset env c1
      { ctx with sym := Sym.sDataBarExpanded, dataStr := [], aiData := [], errMsg := [],
                 errFlag := false, linterErr := 0, linterErrMarkup := [] }
      pre C hcfg ha rfl).1]

/-- The success condition of `gs1_processScanData` for a primary symbology, and the data
it leaves, independent of the context but for the AI table and lookup configuration. -/
theorem processScan_ean_spec (env : Env) (ctx : Ctx) (id : List Char) (sym : Sym) (n : Nat)
    (body : List Char) (hid : (id, sym, n) ∈ eanIds) :
    ((gs1_processScanData env ctx (id ++ body)).1 = true ↔
      ∃ P, P.length = n ∧ (∀ c ∈ P, isDigit c = true) ∧ HasCheckDigit P ∧
        (body = P ∨ ∃ C, body = P ++ "|]e0".toList ++ C ∧ CompositeAccepted env ctx C)) ∧
    ((gs1_processScanData env ctx (id ++ body)).1 = true → body.length = n →
      (gs1_processScanData env ctx (id ++ body)).2.dataStr = body) ∧
    ((gs1_processScanData env ctx (id ++ body)).1 = true → ∀ P C, P.length = n →
      body = P ++ "|]e0".toList ++ C →
      (gs1_processScanData env ctx (id ++ body)).2.dataStr =
        P ++ "|^".toList ++ C.map (fun c => if c = GS then '^' else c)) := by
  have hn : 0 < n := by
    simp only [eanIds, List.mem_cons, Prod.mk.injEq, List.mem_singleton, List.not_mem_nil,
      or_false] at hid
    rcases hid with ⟨-, -, h⟩ | ⟨-, -, h⟩ <;> omega
  obtain ⟨c1, hcfg, ha, hiff, hd1, hd2⟩ := processScan_ean env ctx id sym n body hid
  have hform : ∀ P C : List Char, P.length = n → body = P ++ "|]e0".toList ++ C →
      body.take n = P ∧ body.drop n = "|]e0".toList ++ C ∧ body.drop (n + 4) = C ∧
      body.length ≠ n := by
    intro P C hP hb
    subst hb
    refine ⟨?_, ?_, ?_, ?_⟩
    · rw [List.append_assoc, List.take_left' hP]
    · rw [List.append_assoc, List.drop_left' hP]
    · have h4 : (P ++ "|]e0".toList).length = n + 4 := by
        rw [List.length_append, hP]; rfl
      rw [List.drop_left' h4]
    · simp only [List.length_append, hP]
      have : "|]e0".toList.length = 4 := rfl
      omega
  refine ⟨?_, hd1, ?_⟩
  · rw [hiff]
    constructor
    · rintro ⟨hlen, hdig, hpar, hrest⟩
      have hPl : (body.take n).length = n := by rw [List.length_take]; omega
      have hPne : body.take n ≠ [] := by
        intro h; rw [h] at hPl; simp at hPl; omega
      have hdig2 := (allDigits_iff _).mp hdig
      refine ⟨body.take n, hPl, hdig2,
        (validateParity_hasCheckDigit _ hPne hdig2).mp hpar, ?_⟩
      rcases hrest with h | ⟨⟨r, hr⟩, hacc⟩
      · exact Or.inl (List.take_of_length_le (by omega)).symm
      · refine Or.inr ⟨r, ?_, ?_⟩
        · rw [List.append_assoc, hr, List.take_append_drop]
        · have hbody : body = body.take n ++ "|]e0".toList ++ r := by
            rw [List.append_assoc, hr, List.take_append_drop]
          have h3 := (hform _ r hPl hbody).2.2.1
          rw [h3] at hacc
          exact (compositeAccepted_iff env ctx c1 _ r hcfg ha).mpr hacc
    · rintro ⟨P, hP, hdig, hchk, hrest⟩
      have hPne : P ≠ [] := by
        intro h; rw [h] at hP; simp at hP; omega
      rcases hrest with h | ⟨C, hb, hacc⟩
      · subst h
        have ht : body.take n = body := List.take_of_length_le (by omega)
        rw [ht]
        exact ⟨by omega, (allDigits_iff _).mpr hdig,
          (validateParity_hasCheckDigit _ hPne hdig).mpr hchk, Or.inl hP⟩
      · obtain ⟨h1, h2, h3, -⟩ := hform P C hP hb
        rw [h1, h2, h3]
        refine ⟨?_, (allDigits_iff _).mpr hdig,
          (validateParity_hasCheckDigit _ hPne hdig).mpr hchk,
          Or.inr ⟨⟨C, rfl⟩, (compositeAccepted_iff env ctx c1 _ C hcfg ha).mp hacc⟩⟩
        rw [hb]; simp only [List.length_append, hP]; omega
  · intro hok P C hP hb
    obtain ⟨h1, h2, h3, hne⟩ := hform P C hP hb
    have hpre : "|]e0".toList <+: body.drop n := ⟨C, h2.symm⟩
    rw [hd2 hok hpre]
    rcases (hiff.mp hok).2.2.2 with h | ⟨-, hacc⟩
    · exact absurd h hne
    · rw [((processScanAI_offset env c1 c1 _ _ (⟨rfl, rfl, rfl⟩) ha ha).2 hacc).1, h1, h3]
      simp [scanBodyToData]

/-- C21: for the identifier `]E0` (respectively `]E4`), `gs1_processScanData` succeeds
exactly when the body is 13 (respectively 8) digits whose last digit is the GS1 check
digit of the others, alone or followed by `|]e0` and a composite body that is valid
AI-mode scan data. On success `data_str` is the primary digits alone, or the primary
digits followed by `|^` and the composite body with every GS replaced by `^`. The
`add_check_digit` setting changes neither the result nor the data. -/
theorem primary_scan_data (env : Env) (ctx : Ctx) (id : List Char) (sym : Sym) (n : Nat)
    (body : List Char) (hid : (id, sym, n) ∈ eanIds) :
    ((gs1_processScanData env ctx (id ++ body)).1 = true ↔
      ∃ P, P.length = n ∧ (∀ c ∈ P, isDigit c = true) ∧ HasCheckDigit P ∧
        (body = P ∨ ∃ C, body = P ++ "|]e0".toList ++ C ∧ CompositeAccepted env ctx C)) ∧
    ((gs1_processScanData env ctx (id ++ body)).1 = true → body.length = n →
      (gs1_processScanData env ctx (id ++ body)).2.dataStr = body) ∧
    ((gs1_processScanData env ctx (id ++ body)).1 = true → ∀ P C, P.length = n →
      body = P ++ "|]e0".toList ++ C →
      (gs1_processScanData env ctx (id ++ body)).2.dataStr =
        P ++ "|^".toList ++ C.map (fun c => if c = GS then '^' else c)) ∧
    (∀ b : Bool,
      (gs1_processScanData env { ctx with addCheckDigit := b } (id ++ body)).1 =
        (gs1_processScanData env ctx (id ++ body)).1 ∧
      (gs1_processScanData env { ctx with addCheckDigit := b } (id ++ body)).2.dataStr =
        (gs1_processScanData env ctx (id ++ body)).2.dataStr) := by
  obtain ⟨hiff, hd1, hd2⟩ := processScan_ean_spec env ctx id sym n body hid
  refine ⟨hiff, hd1, hd2, ?_⟩
  intro b
  obtain ⟨hiff', hd1', hd2'⟩ :=
    processScan_ean_spec env { ctx with addCheckDigit := b } id sym n body hid
  have hacc : ∀ C, CompositeAccepted env { ctx with addCheckDigit := b } C ↔
      CompositeAccepted env ctx C := by
    intro C
    rw [compositeAccepted_iff env { ctx with addCheckDigit := b } { ctx with aiData := [] } []
        C ⟨rfl, rfl, rfl⟩ rfl,
      compositeAccepted_iff env ctx { ctx with aiData := [] } [] C ⟨rfl, rfl, rfl⟩ rfl]
  have h1 : (gs1_processScanData env { ctx with addCheckDigit := b } (id ++ body)).1 = true ↔
      (gs1_processScanData env ctx (id ++ body)).1 = true := by
    rw [hiff, hiff']
    simp only [hacc]
  have hb1 : (gs1_processScanData env { ctx with addCheckDigit := b } (id ++ body)).1 =
      (gs1_processScanData env ctx (id ++ body)).1 := Bool.eq_iff_iff.mpr h1
  refine ⟨hb1, ?_⟩
  cases hr : (gs1_processScanData env ctx (id ++ body)).1 with
  | false =>
    rw [onFailure_processScanData (fun c => c.dataStr = []) env ctx (id ++ body)
        (fun _ _ => rfl) hr,
      onFailure_processScanData (fun c => c.dataStr = []) env { ctx with addCheckDigit := b }
        (id ++ body) (fun _ _ => rfl) (hb1.trans hr)]
  | true =>
    obtain ⟨P, hP, -, -, hrest⟩ := hiff.mp hr
    rcases hrest with h | ⟨C, hC, -⟩
    · have hl : body.length = n := by rw [h]; exact hP
      rw [hd1 hr hl, hd1' (hb1.trans hr) hl]
    · rw [hd2 hr P C hP hC, hd2' (hb1.trans hr) P C hP hC]

theorem primary_scan_data_witness :
    ("]E0".toList, Sym.sEAN13, 13) ∈ eanIds ∧
    (gs1_processScanData demoEnv demoCtx
      ("]E0".toList ++ "2112345678900|]e099COMPOSITE".toList)).1 = true ∧
    (gs1_processScanData demoEnv demoCtx
      ("]E0".toList ++ "2112345678900|]e099COMPOSITE".toList)).2.dataStr =
        "2112345678900|^99COMPOSITE".toList ∧
    (((gs1_processScanData demoEnv demoCtx
        ("]E0".toList ++ "2112345678900|]e099COMPOSITE".toList)).1 = true ↔
      ∃ P, P.length = 13 ∧ (∀ c ∈ P, isDigit c = true) ∧ HasCheckDigit P ∧
        ("2112345678900|]e099COMPOSITE".toList = P ∨
          ∃ C, "2112345678900|]e099COMPOSITE".toList = P ++ "|]e0".toList ++ C ∧
            CompositeAccepted demoEnv demoCtx C)) ∧
    ((gs1_processScanData demoEnv demoCtx
        ("]E0".toList ++ "2112345678900|]e099COMPOSITE".toList)).1 = true →
      "2112345678900|]e099COMPOSITE".toList.length = 13 →
      (gs1_processScanData demoEnv demoCtx
        ("]E0".toList ++ "2112345678900|]e099COMPOSITE".toList)).2.dataStr =
          "2112345678900|]e099COMPOSITE".toList) ∧
    ((gs1_processScanData demoEnv demoCtx
        ("]E0".toList ++ "2112345678900|]e099COMPOSITE".toList)).1 = true →
      ∀ P C, P.length = 13 → "2112345678900|]e099COMPOSITE".toList = P ++ "|]e0".toList ++ C →
      (gs1_processScanData demoEnv demoCtx
        ("]E0".toList ++ "2112345678900|]e099COMPOSITE".toList)).2.dataStr =
          P ++ "|^".toList ++ C.map (fun c => if c = GS then '^' else c)) ∧
    (∀ b : Bool,
      (gs1_processScanData demoEnv { demoCtx with addCheckDigit := b }
        ("]E0".toList ++ "2112345678900|]e099COMPOSITE".toList)).1 =
        (gs1_processScanData demoEnv demoCtx
          ("]E0".toList ++ "2112345678900|]e099COMPOSITE".toList)).1 ∧
      (gs1_processScanData demoEnv { demoCtx with addCheckDigit := b }
        ("]E0".toList ++ "2112345678900|]e099COMPOSITE".toList)).2.dataStr =
        (gs1_processScanData demoEnv demoCtx
          ("]E0".toList ++ "2112345678900|]e099COMPOSITE".toList)).2.dataStr)) :=
  ⟨by decide, by decide, by decide,
    primary_scan_data demoEnv demoCtx "]E0".toList Sym.sEAN13 13
      "2112345678900|]e099COMPOSITE".toList (by decide)⟩

/-- Appending AI data of at least one byte after its `^` to scan data. -/
theorem scancat_body (out C : List Char) (hC : C ≠ []) :
    scancat out ('^' :: C) = out ++ stripBody C := by
  unfold scancat stripBody
  have h0 : charAt ('^' :: C) 0 = '^' := rfl
  rw [if_pos h0]
  simp only [List.drop_succ_cons, List.drop_zero]
  have hl : ('^' :: C).getLast? = C.getLast? := by
    cases C with
    | nil => exact absurd rfl hC
    | cons a as => rfl
  rw [hl]
  by_cases h : C.getLast? = some '^'
  · rw [if_pos h, if_pos h]
    exact List.dropLast_append_of_ne_nil _ (by simpa using hC)
  · rw [if_neg h, if_neg h]

/-- Appending the lone `^` to scan data removes the last byte written before. -/
theorem scancat_lone (out : List Char) : scancat out ['^'] = out.dropLast := by
  simp [scancat, charAt]

/-- The result of `gs1_generateScanData` is the output of the `switch`, run on the linear
part of the data with the composite part set aside. -/
theorem generate_split (ctx : Ctx) (L : List Char) (cc : Option (List Char))
    (hL : '|' ∉ L) (hd : ctx.dataStr = joinComposite L cc) :
    (gs1_generateScanData ctx).1 =
      if (generateSwitch { ctx with outStr := [], dataStr := L } L cc).1 = true
      then some (generateSwitch { ctx with outStr := [], dataStr := L } L cc).2.1.outStr
      else none := by
  cases cc with
  | none =>
    have hd' : ctx.dataStr = L := hd
    have hctx : ({ ctx with outStr := [], dataStr := L } : Ctx) = { ctx with outStr := [] } := by
      rw [← hd']
    rw [hctx, ← hd']
    exact generate_noComposite ctx (by rw [hd']; exact hL)
  | some c =>
    have hd' : ctx.dataStr = L ++ '|' :: c := hd
    have hs : strchr ctx.dataStr '|' = some L.length := by
      rw [hd']
      clear hd hd'
      induction L with
      | nil => simp [strchr]
      | cons a as ih =>
        have ha : a ≠ '|' := fun h => hL (by rw [h]; exact List.mem_cons_self _ _)
        have := ih (fun h => hL (List.mem_cons_of_mem _ h))
        simp only [List.cons_append, strchr, if_neg ha, List.append_eq, this, Option.map_some',
          List.length_cons]
    unfold gs1_generateScanData
    rw [hs]
    simp only []
    have ht : ctx.dataStr.take L.length = L := by rw [hd', List.take_left' rfl]
    have hdr : ctx.dataStr.drop (L.length + 1) = c := by
      rw [hd']
      have : L ++ '|' :: c = (L ++ ['|']) ++ c := by simp
      rw [this, List.drop_left' (by simp)]
    rw [ht, hdr]
    cases generateSwitch { ctx with outStr := [], dataStr := L } L (some c) with
    | mk b r =>
      obtain ⟨c1, m⟩ := r
      cases b <;> simp

/-- For QR, Data Matrix and DataBar Expanded and AI data without a composite part, the
scan data is what `scancat` appends to the identifier. -/
theorem generate_ai_scancat (ctx : Ctx) (id : List Char) (hsym : (ctx.sym, id) ∈ ai2dIds)
    (hc : charAt ctx.dataStr 0 = '^') (hbar : '|' ∉ ctx.dataStr) :
    (gs1_generateScanData ctx).1 = some (scancat id ctx.dataStr) := by
  rw [generate_noComposite ctx hbar]
  simp only [ai2dIds, List.mem_cons, Prod.mk.injEq, List.mem_singleton, List.not_mem_nil,
    or_false] at hsym
  rcases hsym with ⟨hs, rfl⟩ | ⟨hs, rfl⟩ | ⟨hs, rfl⟩ <;>
    simp [generateSwitch, hs, hc]

/-- The scan data of AI data of at least one byte after its `^`, without a composite
part: the identifier, then the data without its leading `^`, with GS for every other `^`
and without a trailing separator. -/
theorem generate_ai_body (ctx : Ctx) (id C : List Char) (hsym : (ctx.sym, id) ∈ ai2dIds)
    (hd : ctx.dataStr = '^' :: C) (hC : C ≠ []) (hbar : '|' ∉ C) :
    (gs1_generateScanData ctx).1 = some (id ++ stripBody C) := by
  rw [generate_ai_scancat ctx id hsym (by rw [hd]; rfl)
    (by rw [hd]; simpa using hbar), hd, scancat_body id C hC]

/-! ## Generated scan data -/

/-- C24 (failing input): for the data `^` alone, `gs1_generateScanData` returns the
identifier without its last byte, `]Q`, `]d` or `]e`, where the claim has the full
identifier followed by nothing. -/
theorem generate_lone_caret :
    (gs1_generateScanData { demoCtx with sym := Sym.sQR, dataStr := "^".toList }).1 =
      some "]Q".toList ∧
    (gs1_generateScanData { demoCtx with sym := Sym.sDM, dataStr := "^".toList }).1 =
      some "]d".toList ∧
    (gs1_generateScanData
      { demoCtx with sym := Sym.sDataBarExpanded, dataStr := "^".toList }).1 =
      some "]e".toList ∧
    (gs1_generateScanData { demoCtx with sym := Sym.sQR, dataStr := "^10AB^".toList }).1 =
      some "]Q310AB".toList := by
  decide

theorem lastAIfnc1Loop_spec : ∀ (vs : List AiValue) (acc : Bool),
    lastAIfnc1Loop vs acc =
      match (vs.takeWhile (fun v => v.aiEntry.isSome)).getLast? with
      | some v => (v.aiEntry.map (fun e => e.fnc1)).getD false
      | none => acc
  | [], acc => rfl
  | v :: vs, acc => by
    unfold lastAIfnc1Loop
    cases he : v.aiEntry with
    | none => simp [List.takeWhile, he]
    | some e =>
      simp only []
      rw [lastAIfnc1Loop_spec vs e.fnc1]
      simp only [List.takeWhile, he, Option.isSome_some]
      cases ht : (vs.takeWhile (fun v => v.aiEntry.isSome)) with
      | nil => simp [he]
      | cons a as =>
        rw [List.getLast?_cons_cons]
        cases hl : (a :: as).getLast? with
        | none => simp at hl
        | some w => rfl

theorem lastAIfnc1Loop_linear (ctx : Ctx) :
    lastAIfnc1Loop ctx.aiData false = lastLinearVariable ctx := by
  rw [lastAIfnc1Loop_spec]
  unfold lastLinearVariable linearAIs
  cases (ctx.aiData.takeWhile (fun v => v.aiEntry.isSome)).getLast? <;> rfl

/-- The `switch` of `gs1_generateScanData` for a linear and a composite part that are
sent as one `]e0` message. -/
theorem generateSwitch_expanded (ctx : Ctx) (L c : List Char) (hsym : ctx.sym ∈ expandedSyms) :
    generateSwitch ctx L (some c) =
      if charAt L 0 ≠ '^' then (false, ctx, false)
      else if charAt c 0 ≠ '^' then
        (false, { ctx with outStr := scancat "]e0".toList L }, false)
      else (true, { ctx with outStr := scancat (scancat "]e0".toList L ++
          (if lastLinearVariable ctx = true then [GS] else [])) c }, false) := by
  rw [← lastAIfnc1Loop_linear]
  simp only [expandedSyms, List.mem_cons, List.mem_singleton, List.not_mem_nil, or_false] at hsym
  unfold generateSwitch
  by_cases h1 : charAt L 0 ≠ '^'
  · rcases hsym with hs | hs | hs <;> simp [hs, h1]
  · by_cases h2 : charAt c 0 ≠ '^'
    · rcases hsym with hs | hs | hs <;> simp [hs, h1, h2]
    · rcases hsym with hs | hs | hs <;> simp [hs, h1, h2]

/-- C25 (counterexample): DataBar Expanded with the linear part `^10ABC^`, whose last AI
(10) is variable-length, and the composite part `^99X`. The scan data is `]e010ABC`, one
GS and `99X`: the trailing `^` of the linear part is removed, where the claim has it
replaced by a GS before the GS that joins the two parts. -/
theorem composite_expanded_counterexample :
    compositeDemoCtx.dataStr = "^10ABC^".toList ++ '|' :: "^99X".toList ∧
    compositeDemoCtx.sym = Sym.sDataBarExpanded ∧
    lastLinearVariable compositeDemoCtx = true ∧
    (gs1_generateScanData compositeDemoCtx).1 = some "]e010ABC\x1d99X".toList ∧
    (gs1_generateScanData compositeDemoCtx).1 ≠
      some ("]e0".toList ++ ("^10ABC^".toList.drop 1).map (fun c => if c = '^' then GS else c) ++
        [GS] ++ ("^99X".toList.drop 1).map (fun c => if c = '^' then GS else c)) := by
  decide

/-- C25 (amended): for GS1-128 with a composite component or DataBar Expanded and the data
`^L|^C` with `L` and `C` not empty and no `|` in `L`, `gs1_generateScanData` returns `]e0`,
the body of the linear part, a GS when the last AI of the linear part recorded in
`ai_data` is variable-length, and the body of the composite part; a body is the part
without its leading `^`, with GS for every other `^` and without a trailing separator. -/
theorem composite_expanded (ctx : Ctx) (L C : List Char) (hsym : ctx.sym ∈ expandedSyms)
    (hd : ctx.dataStr = ('^' :: L) ++ '|' :: '^' :: C) (hbar : '|' ∉ L) (hL : L ≠ [])
    (hC : C ≠ []) :
    (gs1_generateScanData ctx).1 =
      some ("]e0".toList ++ stripBody L ++
        (if lastLinearVariable ctx = true then [GS] else []) ++ stripBody C) := by
  have hbar' : '|' ∉ '^' :: L := by
    intro h
    rcases List.mem_cons.mp h with h | h
    · exact absurd h (by decide)
    · exact hbar h
  rw [generate_split ctx ('^' :: L) (some ('^' :: C)) hbar' hd,
    generateSwitch_expanded { ctx with outStr := [], dataStr := '^' :: L } _ _ hsym]
  have h0 : ∀ X : List Char, ¬ charAt ('^' :: X) 0 ≠ '^' := fun X h => h rfl
  rw [if_neg (h0 L), if_neg (h0 C)]
  simp only [if_true]
  rw [scancat_body _ L hL, scancat_body _ C hC]
  rfl

theorem composite_expanded_witness :
    compositeDemoCtx.sym ∈ expandedSyms ∧
    compositeDemoCtx.dataStr = ('^' :: "10ABC^".toList) ++ '|' :: '^' :: "99X".toList ∧
    '|' ∉ "10ABC^".toList ∧ "10ABC^".toList ≠ [] ∧ "99X".toList ≠ [] ∧
    (gs1_generateScanData compositeDemoCtx).1 =
      some ("]e0".toList ++ stripBody "10ABC^".toList ++
        (if lastLinearVariable compositeDemoCtx = true then [GS] else []) ++
        stripBody "99X".toList) :=
  ⟨by decide, by decide, by decide, by decide, by decide,
    composite_expanded compositeDemoCtx "10ABC^".toList "99X".toList (by decide) (by decide)
      (by decide) (by decide) (by decide)⟩

/-- The normalisation of primary data without the check digit tolerance: it succeeds
exactly when the stripped data has the length of the symbology, is all digits and ends
with its check digit, and then gives the data with the leading digits of the symbology. -/
theorem normalisePrimary_check (ctx : Ctx) (d pfx : List Char) (skip digits : Nat)
    (lead m1 m2 : List Char) (hlead : ∀ c ∈ lead, isDigit c = true) (hdig : 1 ≤ digits)
    (hacd : ctx.addCheckDigit = false) :
    ((stripPrimary d pfx skip).length = digits ∧
      (∀ c ∈ stripPrimary d pfx skip, isDigit c = true) ∧
      HasCheckDigit (lead ++ stripPrimary d pfx skip) →
      normalisePrimary ctx d pfx skip digits lead m1 m2 =
        (true, lead ++ stripPrimary d pfx skip, ctx)) ∧
    (¬ ((stripPrimary d pfx skip).length = digits ∧
      (∀ c ∈ stripPrimary d pfx skip, isDigit c = true) ∧
      HasCheckDigit (lead ++ stripPrimary d pfx skip)) →
      (normalisePrimary ctx d pfx skip digits lead m1 m2).2.1 = []) := by
  unfold normalisePrimary stripPrimary
  simp only []
  generalize (if d.length ≥ skip ∧ strncmp d pfx skip = 0 then d.drop skip else d) = d'
  simp only [hacd, Bool.false_eq_true, false_and, if_false, true_and, and_true,
    List.append_nil]
  by_cases hlen : d'.length ≠ digits
  · rw [if_pos hlen]
    exact ⟨fun h => absurd h.1 hlen, fun _ => rfl⟩
  rw [if_neg hlen]
  have hlen' : d'.length = digits := not_not.mp hlen
  by_cases hd : gs1_allDigits d' 0 = false
  · rw [if_pos hd]
    refine ⟨fun h => ?_, fun _ => rfl⟩
    rw [(allDigits_iff d').mpr h.2.1] at hd
    exact absurd hd (by decide)
  rw [if_neg hd]
  have hd' : ∀ c ∈ d', isDigit c = true := by
    apply (allDigits_iff d').mp
    cases h : gs1_allDigits d' 0
    · exact absurd h hd
    · rfl
  have hne : lead ++ d' ≠ [] := by
    intro h
    have : d' = [] := (List.append_eq_nil.mp h).2
    rw [this] at hlen'; simp at hlen'; omega
  have hall : ∀ c ∈ lead ++ d', isDigit c = true := by
    intro c hc
    rcases List.mem_append.mp hc with h | h
    · exact hlead c h
    · exact hd' c h
  have hv := validateParity_hasCheckDigit (lead ++ d') hne hall
  cases hr : gs1_validateParity (lead ++ d') with
  | mk b p' =>
    rw [hr] at hv
    cases b with
    | true =>
      have hp' : p' = lead ++ d' := by
        have := gs1_validateParity_true (lead ++ d') (by rw [hr])
        rw [hr] at this
        exact (Prod.mk.inj this).2
      subst hp'
      simp only [Bool.true_eq_false, if_false]
      exact ⟨fun _ => by trivial, fun h => absurd ⟨hlen', hd', hv.mp rfl⟩ h⟩
    | false =>
      simp only [if_true]
      refine ⟨fun h => ?_, fun _ => by trivial⟩
      exact absurd (hv.mpr h.2.2) (by simp)

/-- The normalisation of primary data with the check digit tolerance: it succeeds exactly
when the stripped data is all digits and one digit shorter than the symbology has, and
then appends the computed check digit. -/
theorem normalisePrimary_add (ctx : Ctx) (d pfx : List Char) (skip digits : Nat)
    (lead m1 m2 : List Char) (hlead : ∀ c ∈ lead, isDigit c = true)
    (hacd : ctx.addCheckDigit = true) :
    ((stripPrimary d pfx skip).length = digits - 1 ∧
      (∀ c ∈ stripPrimary d pfx skip, isDigit c = true) →
      normalisePrimary ctx d pfx skip digits lead m1 m2 =
        (true, lead ++ stripPrimary d pfx skip ++
          [specCheckChar (lead ++ stripPrimary d pfx skip)], ctx)) ∧
    (¬ ((stripPrimary d pfx skip).length = digits - 1 ∧
      (∀ c ∈ stripPrimary d pfx skip, isDigit c = true)) →
      (normalisePrimary ctx d pfx skip digits lead m1 m2).2.1 = []) := by
  unfold normalisePrimary stripPrimary
  simp only []
  generalize (if d.length ≥ skip ∧ strncmp d pfx skip = 0 then d.drop skip else d) = d'
  simp only [hacd, Bool.true_eq_false, false_and, if_false, true_and, and_false, if_true]
  by_cases hlen : d'.length ≠ digits - 1
  · rw [if_pos hlen]
    exact ⟨fun h => absurd h.1 hlen, fun _ => rfl⟩
  rw [if_neg hlen]
  have hlen' : d'.length = digits - 1 := not_not.mp hlen
  by_cases hd : gs1_allDigits d' 0 = false
  · rw [if_pos hd]
    refine ⟨fun h => ?_, fun _ => rfl⟩
    rw [(allDigits_iff d').mpr h.2] at hd
    exact absurd hd (by decide)
  rw [if_neg hd]
  have hd' : ∀ c ∈ d', isDigit c = true := by
    apply (allDigits_iff d').mp
    cases h : gs1_allDigits d' 0
    · exact absurd h hd
    · rfl
  have hall : ∀ c ∈ lead ++ d', isDigit c = true := by
    intro c hc
    rcases List.mem_append.mp hc with h | h
    · exact hlead c h
    · exact hd' c h
  have hv := validateParity_spec (lead ++ d') '-' hall
  have hminus : ¬ '-' = specCheckChar (lead ++ d') := by
    intro h
    have := specCheckChar_isDigit (lead ++ d')
    rw [← h] at this
    exact absurd this (by decide)
  rw [if_neg hminus] at hv
  have he : "-".toList = ['-'] := rfl
  rw [he, hv]
  exact ⟨fun _ => rfl, fun h => absurd ⟨hlen', hd'⟩ h⟩

/-- The outcome of a normalisation, read off the primary string it leaves. -/
theorem normalisePrimary_cases (ctx : Ctx) (d pfx : List Char) (skip digits : Nat)
    (lead m1 m2 : List Char) (hlead : ∀ c ∈ lead, isDigit c = true) (hdig : 2 ≤ digits) :
    (normalisePrimary ctx d pfx skip digits lead m1 m2).2.1 =
      if ctx.addCheckDigit = false then
        if (stripPrimary d pfx skip).length = digits ∧
            (∀ c ∈ stripPrimary d pfx skip, isDigit c = true) ∧
            HasCheckDigit (lead ++ stripPrimary d pfx skip) then lead ++ stripPrimary d pfx skip
        else []
      else
        if (stripPrimary d pfx skip).length + 1 = digits ∧
            (∀ c ∈ stripPrimary d pfx skip, isDigit c = true) then
          lead ++ stripPrimary d pfx skip ++ [specCheckChar (lead ++ stripPrimary d pfx skip)]
        else [] := by
  cases hacd : ctx.addCheckDigit with
  | false =>
    obtain ⟨h1, h2⟩ := normalisePrimary_check ctx d pfx skip digits lead m1 m2 hlead
      (by omega) hacd
    rw [if_pos rfl]
    by_cases hc : (stripPrimary d pfx skip).length = digits ∧
        (∀ c ∈ stripPrimary d pfx skip, isDigit c = true) ∧
        HasCheckDigit (lead ++ stripPrimary d pfx skip)
    · rw [if_pos hc, h1 hc]
    · rw [if_neg hc, h2 hc]
  | true =>
    obtain ⟨h1, h2⟩ := normalisePrimary_add ctx d pfx skip digits lead m1 m2 hlead hacd
    rw [if_neg (by simp)]
    have he : (stripPrimary d pfx skip).length + 1 = digits ↔
        (stripPrimary d pfx skip).length = digits - 1 := by omega
    by_cases hc : (stripPrimary d pfx skip).length = digits - 1 ∧
        (∀ c ∈ stripPrimary d pfx skip, isDigit c = true)
    · rw [if_pos ⟨he.mpr hc.1, hc.2⟩, h1 hc]
    · rw [if_neg (fun h => hc ⟨he.mp h.1, h.2⟩), h2 hc]

/-- The `switch` of `gs1_generateScanData` for the symbologies with a primary number, in
terms of the normalised primary string and the identifier that is written. -/
theorem generateSwitch_primary_shape (ctx : Ctx) (L : List Char) (cc : Option (List Char))
    (hsym : ctx.sym ∈ primarySyms) :
    generateSwitch ctx L cc =
      (if (if ctx.sym = Sym.sEAN8 then gs1_normaliseEAN8 ctx L
           else if ctx.sym = Sym.sUPCE then gs1_normaliseUPCE ctx L
           else gs1_normaliseEAN13 ctx L).2.1 = [] then
        (false, (if ctx.sym = Sym.sEAN8 then gs1_normaliseEAN8 ctx L
           else if ctx.sym = Sym.sUPCE then gs1_normaliseUPCE ctx L
           else gs1_normaliseEAN13 ctx L).2.2, false)
       else if (match cc with
          | none => true
          | some c => decide (charAt c 0 = '^')) = false then
        (false,
          { (if ctx.sym = Sym.sEAN8 then gs1_normaliseEAN8 ctx L
             else if ctx.sym = Sym.sUPCE then gs1_normaliseUPCE ctx L
             else gs1_normaliseEAN13 ctx L).2.2 with
            outStr := scancat
              (if ctx.sym = Sym.sEAN8 then "]E4".toList
               else if ctx.sym = Sym.sUPCE then "]E00".toList else "]E0".toList)
              (if ctx.sym = Sym.sEAN8 then gs1_normaliseEAN8 ctx L
               else if ctx.sym = Sym.sUPCE then gs1_normaliseUPCE ctx L
               else gs1_normaliseEAN13 ctx L).2.1 }, false)
       else (true,
          { (if ctx.sym = Sym.sEAN8 then gs1_normaliseEAN8 ctx L
             else if ctx.sym = Sym.sUPCE then gs1_normaliseUPCE ctx L
             else gs1_normaliseEAN13 ctx L).2.2 with
            outStr := match cc with
              | none => scancat
                  (if ctx.sym = Sym.sEAN8 then "]E4".toList
                   else if ctx.sym = Sym.sUPCE then "]E00".toList else "]E0".toList)
                  (if ctx.sym = Sym.sEAN8 then gs1_normaliseEAN8 ctx L
                   else if ctx.sym = Sym.sUPCE then gs1_normaliseUPCE ctx L
                   else gs1_normaliseEAN13 ctx L).2.1
              | some c => scancat (scancat
                  (if ctx.sym = Sym.sEAN8 then "]E4".toList
                   else if ctx.sym = Sym.sUPCE then "]E00".toList else "]E0".toList)
                  (if ctx.sym = Sym.sEAN8 then gs1_normaliseEAN8 ctx L
                   else if ctx.sym = Sym.sUPCE then gs1_normaliseUPCE ctx L
                   else gs1_normaliseEAN13 ctx L).2.1 ++ "|]e0".toList) c }, false)) := by
  simp only [primarySyms, List.mem_cons, List.mem_singleton, List.not_mem_nil, or_false] at hsym
  unfold generateSwitch
  rcases hsym with hq | hq | hq | hq <;> simp only [hq] <;> rfl

theorem specCheckChar_zero_cons (ds : List Char) :
    specCheckChar ('0' :: ds) = specCheckChar ds := by
  unfold specCheckChar specCheckDigit specWeightedSum
  rw [List.reverse_cons, weightedFrom_append 3 (Or.inl rfl)]
  have : digitVal '0' = 0 := rfl
  rw [this, Nat.mul_zero, Nat.add_zero]

theorem hasCheckDigit_zero_cons (g : List Char) (hg : g ≠ []) :
    HasCheckDigit ('0' :: g) ↔ HasCheckDigit g := by
  unfold HasCheckDigit
  cases g with
  | nil => exact absurd rfl hg
  | cons a as =>
    rw [List.getLast?_cons_cons, List.dropLast_cons₂, specCheckChar_zero_cons]

theorem hasCheckDigit_concat (ds : List Char) : HasCheckDigit (ds ++ [specCheckChar ds]) := by
  unfold HasCheckDigit
  rw [List.getLast?_concat, List.dropLast_concat]

/-- The primary digits of the scan data are as many as the symbology has, all digits, and
end with their check digit. -/
theorem primaryNormal_some (ctx : Ctx) (L P : List Char)
    (h : primaryNormal ctx L = some P) :
    P.length = primaryDigits ctx.sym ∧ (∀ c ∈ P, isDigit c = true) ∧ HasCheckDigit P := by
  have hlead : ∀ c ∈ primaryLead ctx.sym, isDigit c = true := by
    unfold primaryLead
    split
    · intro c hc; rw [List.mem_singleton.mp hc]; rfl
    · intro c hc; exact absurd hc (List.not_mem_nil _)
  unfold primaryNormal at h
  simp only [] at h
  by_cases hacd : ctx.addCheckDigit = false
  · rw [if_pos hacd] at h
    split at h
    · rename_i hc
      rw [← Option.some.inj h]
      refine ⟨hc.1, ?_, hc.2.2⟩
      intro c hm
      rcases List.mem_append.mp hm with h1 | h1
      · exact hlead c h1
      · exact hc.2.1 c h1
    · exact absurd h (by simp)
  · rw [if_neg hacd] at h
    split at h
    · rename_i hc
      rw [← Option.some.inj h]
      have hall : ∀ c ∈ primaryLead ctx.sym ++ primaryGiven ctx.sym L, isDigit c = true := by
        intro c hm
        rcases List.mem_append.mp hm with h1 | h1
        · exact hlead c h1
        · exact hc.2 c h1
      refine ⟨?_, ?_, hasCheckDigit_concat _⟩
      · rw [List.length_append, List.length_singleton]; exact hc.1
      · intro c hm
        rcases List.mem_append.mp hm with h1 | h1
        · exact hall c h1
        · rw [List.mem_singleton.mp h1]; exact specCheckChar_isDigit _
    · exact absurd h (by simp)

/-- One normalisation against the primary digits of the scan data: `leadN` is the zero the
normalisation prepends and `lead` the zero of the scan data, which for UPC-E is written
with the identifier. -/
theorem normalise_link (ctx : Ctx) (L pfx : List Char) (skip digits : Nat)
    (leadN m1 m2 lead w id : List Char) (n : Nat)
    (hleadN : ∀ c ∈ leadN, isDigit c = true) (hdig : 2 ≤ digits)
    (hlen : ∀ g : List Char, (lead ++ g).length = n ↔ g.length = digits)
    (hlen1 : ∀ g : List Char, (lead ++ g).length + 1 = n ↔ g.length + 1 = digits)
    (hchk : ∀ g : List Char, g ≠ [] → (HasCheckDigit (lead ++ g) ↔ HasCheckDigit (leadN ++ g)))
    (hchar : ∀ g : List Char, specCheckChar (lead ++ g) = specCheckChar (leadN ++ g))
    (hw : ∀ t : List Char, w ++ (leadN ++ t) = id ++ (lead ++ t)) :
    ((if ctx.addCheckDigit = false then
        if (lead ++ stripPrimary L pfx skip).length = n ∧
            (∀ c ∈ stripPrimary L pfx skip, isDigit c = true) ∧
            HasCheckDigit (lead ++ stripPrimary L pfx skip)
        then some (lead ++ stripPrimary L pfx skip) else none
      else
        if (lead ++ stripPrimary L pfx skip).length + 1 = n ∧
            (∀ c ∈ stripPrimary L pfx skip, isDigit c = true)
        then some (lead ++ stripPrimary L pfx skip ++
          [specCheckChar (lead ++ stripPrimary L pfx skip)]) else none) = none →
      (normalisePrimary ctx L pfx skip digits leadN m1 m2).2.1 = []) ∧
    (∀ P, (if ctx.addCheckDigit = false then
        if (lead ++ stripPrimary L pfx skip).length = n ∧
            (∀ c ∈ stripPrimary L pfx skip, isDigit c = true) ∧
            HasCheckDigit (lead ++ stripPrimary L pfx skip)
        then some (lead ++ stripPrimary L pfx skip) else none
      else
        if (lead ++ stripPrimary L pfx skip).length + 1 = n ∧
            (∀ c ∈ stripPrimary L pfx skip, isDigit c = true)
        then some (lead ++ stripPrimary L pfx skip ++
          [specCheckChar (lead ++ stripPrimary L pfx skip)]) else none) = some P →
      (normalisePrimary ctx L pfx skip digits leadN m1 m2).2.1 ≠ [] ∧
      (∀ c ∈ (normalisePrimary ctx L pfx skip digits leadN m1 m2).2.1, isDigit c = true) ∧
      w ++ (normalisePrimary ctx L pfx skip digits leadN m1 m2).2.1 = id ++ P) := by
  rw [normalisePrimary_cases ctx L pfx skip digits leadN m1 m2 hleadN hdig]
  generalize stripPrimary L pfx skip = g
  by_cases hacd : ctx.addCheckDigit = false
  · simp only [if_pos hacd]
    by_cases hA : g.length = digits ∧ (∀ c ∈ g, isDigit c = true) ∧ HasCheckDigit (leadN ++ g)
    · have hg : g ≠ [] := by
        intro h; rw [h] at hA; simp at hA; omega
      have hA' : (lead ++ g).length = n ∧ (∀ c ∈ g, isDigit c = true) ∧
          HasCheckDigit (lead ++ g) :=
        ⟨(hlen g).mpr hA.1, hA.2.1, (hchk g hg).mpr hA.2.2⟩
      rw [if_pos hA, if_pos hA']
      refine ⟨fun h => absurd h (by simp), fun P hP => ?_⟩
      rw [← Option.some.inj hP]
      refine ⟨fun h => hg (List.append_eq_nil.mp h).2, ?_, hw g⟩
      intro c hc
      rcases List.mem_append.mp hc with h1 | h1
      · exact hleadN c h1
      · exact hA.2.1 c h1
    · have hA' : ¬ ((lead ++ g).length = n ∧ (∀ c ∈ g, isDigit c = true) ∧
          HasCheckDigit (lead ++ g)) := by
        intro h
        have hg : g ≠ [] := by
          intro h0
          have := (hlen g).mp h.1
          rw [h0] at this; simp at this; omega
        exact hA ⟨(hlen g).mp h.1, h.2.1, (hchk g hg).mp h.2.2⟩
      rw [if_neg hA, if_neg hA']
      exact ⟨fun _ => rfl, fun P hP => absurd hP (by simp)⟩
  · simp only [if_neg hacd]
    by_cases hB : g.length + 1 = digits ∧ (∀ c ∈ g, isDigit c = true)
    · have hB' : (lead ++ g).length + 1 = n ∧ (∀ c ∈ g, isDigit c = true) :=
        ⟨(hlen1 g).mpr hB.1, hB.2⟩
      rw [if_pos hB, if_pos hB']
      refine ⟨fun h => absurd h (by simp), fun P hP => ?_⟩
      rw [← Option.some.inj hP]
      refine ⟨by simp, ?_, ?_⟩
      · intro c hc
        rcases List.mem_append.mp hc with h1 | h1
        · rcases List.mem_append.mp h1 with h2 | h2
          · exact hleadN c h2
          · exact hB.2 c h2
        · rw [List.mem_singleton.mp h1]; exact specCheckChar_isDigit _
      · rw [hchar g, List.append_assoc leadN, hw, List.append_assoc lead]
    · have hB' : ¬ ((lead ++ g).length + 1 = n ∧ (∀ c ∈ g, isDigit c = true)) :=
        fun h => hB ⟨(hlen1 g).mp h.1, h.2⟩
      rw [if_neg hB, if_neg hB']
      exact ⟨fun _ => rfl, fun P hP => absurd hP (by simp)⟩

/-- The normalised primary string of the `switch` and the written identifier, against the
primary digits of the scan data. -/
theorem primaryNorm_spec (ctx : Ctx) (L : List Char) (hsym : ctx.sym ∈ primarySyms) :
    (primaryNormal ctx L = none →
      (if ctx.sym = Sym.sEAN8 then gs1_normaliseEAN8 ctx L
       else if ctx.sym = Sym.sUPCE then gs1_normaliseUPCE ctx L
       else gs1_normaliseEAN13 ctx L).2.1 = []) ∧
    (∀ P, primaryNormal ctx L = some P →
      (if ctx.sym = Sym.sEAN8 then gs1_normaliseEAN8 ctx L
       else if ctx.sym = Sym.sUPCE then gs1_normaliseUPCE ctx L
       else gs1_normaliseEAN13 ctx L).2.1 ≠ [] ∧
      (∀ c ∈ (if ctx.sym = Sym.sEAN8 then gs1_normaliseEAN8 ctx L
         else if ctx.sym = Sym.sUPCE then gs1_normaliseUPCE ctx L
         else gs1_normaliseEAN13 ctx L).2.1, isDigit c = true) ∧
      (if ctx.sym = Sym.sEAN8 then "]E4".toList
       else if ctx.sym = Sym.sUPCE then "]E00".toList else "]E0".toList) ++
        (if ctx.sym = Sym.sEAN8 then gs1_normaliseEAN8 ctx L
         else if ctx.sym = Sym.sUPCE then gs1_normaliseUPCE ctx L
         else gs1_normaliseEAN13 ctx L).2.1 = primaryId ctx.sym ++ P) := by
  simp only [primarySyms, List.mem_cons, List.mem_singleton, List.not_mem_nil, or_false] at hsym
  rcases hsym with hq | hq | hq | hq
  · -- EAN-13
    have h := normalise_link ctx L "^0100".toList 4 13 []
      ("Primary data must be ".toList ++ Nat.toDigits 10 13 ++ " digits".toList)
      ("Primary data must be ".toList ++ Nat.toDigits 10 (13 - 1) ++
        " digits without check digit".toList) [] "]E0".toList "]E0".toList 13
      (by simp) (by decide) (fun g => Iff.rfl) (fun g => Iff.rfl) (fun g _ => Iff.rfl)
      (fun g => rfl) (fun t => rfl)
    have hnorm : gs1_normaliseEAN13 ctx L = normalisePrimary ctx L "^0100".toList 4 13 []
      ("Primary data must be ".toList ++ Nat.toDigits 10 13 ++ " digits".toList)
      ("Primary data must be ".toList ++ Nat.toDigits 10 (13 - 1) ++
        " digits without check digit".toList) := by
      unfold gs1_normaliseEAN13; simp only [hq, if_true]
    unfold primaryNormal primaryGiven primaryLead primaryDigits primaryId
    simp only [hq, reduceCtorEq, if_false, if_true, or_self, hnorm]
    exact h
  · -- UPC-A
    have h := normalise_link ctx L "^0100".toList 5 12 ['0']
      ("Primary data must be ".toList ++ Nat.toDigits 10 12 ++ " digits".toList)
      ("Primary data must be ".toList ++ Nat.toDigits 10 (12 - 1) ++
        " digits without check digit".toList) ['0'] "]E0".toList "]E0".toList 13
      (by simp [isDigit]) (by decide)
      (fun g => by simp) (fun g => by simp) (fun g _ => Iff.rfl)
      (fun g => rfl) (fun t => rfl)
    have hnorm : gs1_normaliseEAN13 ctx L = normalisePrimary ctx L "^0100".toList 5 12 ['0']
      ("Primary data must be ".toList ++ Nat.toDigits 10 12 ++ " digits".toList)
      ("Primary data must be ".toList ++ Nat.toDigits 10 (12 - 1) ++
        " digits without check digit".toList) := by
      unfold gs1_normaliseEAN13; simp only [hq, reduceCtorEq, if_false]
    unfold primaryNormal primaryGiven primaryLead primaryDigits primaryId
    simp only [hq, reduceCtorEq, if_false, if_true, or_false, true_or, hnorm]
    exact h
  · -- UPC-E
    have h := normalise_link ctx L "^0100".toList 5 12 []
      "Primary data must be 12 digits".toList
      "Primary data must be 11 digits without check digit".toList
      ['0'] "]E00".toList "]E0".toList 13
      (by simp) (by decide)
      (fun g => by simp) (fun g => by simp)
      (fun g hg => hasCheckDigit_zero_cons g hg)
      (fun g => specCheckChar_zero_cons g) (fun t => rfl)
    unfold primaryNormal primaryGiven primaryLead primaryDigits primaryId
    simp only [hq, reduceCtorEq, if_false, if_true, or_true, gs1_normaliseUPCE]
    exact h
  · -- EAN-8
    have h := normalise_link ctx L "^01000000".toList 9 8 []
      "Primary data must be 8 digits".toList
      "Primary data must be 7 digits without check digit".toList
      [] "]E4".toList "]E4".toList 8
      (by simp) (by decide) (fun g => Iff.rfl) (fun g => Iff.rfl) (fun g _ => Iff.rfl)
      (fun g => rfl) (fun t => rfl)
    unfold primaryNormal primaryGiven primaryLead primaryDigits primaryId
    simp only [hq, reduceCtorEq, if_false, if_true, or_self, gs1_normaliseEAN8]
    exact h

/-- The `switch` of `gs1_generateScanData` for the symbologies with a primary number: it
fails when there are no primary digits or when the composite part does not begin with
`^`, and otherwise writes the identifier, the primary digits and, behind `|]e0`, what
`scancat` makes of the composite part. -/
theorem generateSwitch_primary (ctx : Ctx) (L : List Char) (cc : Option (List Char))
    (hsym : ctx.sym ∈ primarySyms) :
    (primaryNormal ctx L = none → (generateSwitch ctx L cc).1 = false) ∧
    (∀ P, primaryNormal ctx L = some P →
      (generateSwitch ctx L cc).1 =
        (match cc with
          | none => true
          | some c => decide (charAt c 0 = '^')) ∧
      ((generateSwitch ctx L cc).1 = true →
        (generateSwitch ctx L cc).2.1.outStr =
          match cc with
          | none => primaryId ctx.sym ++ P
          | some c => scancat (primaryId ctx.sym ++ P ++ "|]e0".toList) c)) := by
  obtain ⟨hnone, hsome⟩ := primaryNorm_spec ctx L hsym
  rw [generateSwitch_primary_shape ctx L cc hsym]
  generalize (if ctx.sym = Sym.sEAN8 then gs1_normaliseEAN8 ctx L
      else if ctx.sym = Sym.sUPCE then gs1_normaliseUPCE ctx L
      else gs1_normaliseEAN13 ctx L) = r at hnone hsome ⊢
  generalize (if ctx.sym = Sym.sEAN8 then "]E4".toList
      else if ctx.sym = Sym.sUPCE then "]E00".toList else "]E0".toList) = w at hsome ⊢
  constructor
  · intro h
    rw [if_pos (hnone h)]
  · intro P hP
    obtain ⟨hne, hdig, hw⟩ := hsome P hP
    rw [if_neg hne, scancat_digits w r.2.1 hdig, hw]
    cases cc with
    | none => exact ⟨rfl, fun _ => rfl⟩
    | some c =>
      simp only []
      by_cases hc : charAt c 0 = '^'
      · rw [decide_eq_true hc]
        exact ⟨rfl, fun _ => rfl⟩
      · rw [decide_eq_false hc]
        exact ⟨rfl, fun h => absurd h Bool.false_ne_true⟩

/-- C26 (counterexample): EAN-13 with the primary `2112345678900` and the composite part
`^99ABC^`. The scan data ends with `|]e099ABC`: the trailing `^` of the composite part is
removed, where the claim has it replaced by a GS. -/
theorem primary_generate_counterexample :
    (gs1_generateScanData
      { demoCtx with sym := Sym.sEAN13, dataStr := "2112345678900|^99ABC^".toList }).1 =
      some "]E02112345678900|]e099ABC".toList ∧
    (gs1_generateScanData
      { demoCtx with sym := Sym.sEAN13, dataStr := "2112345678900|^99ABC^".toList }).1 ≠
      some ("]E0".toList ++ "2112345678900".toList ++ "|]e0".toList ++
        "99ABC^".toList.map (fun c => if c = '^' then GS else c)) := by
  decide

/-- Every successful output of `gs1_generateScanData` for a symbology with a primary
number: the identifier and the primary digits, alone or followed by `|]e0` and what
`scancat` makes of the composite part, which begins with `^`. -/
theorem generate_primary_out (ctx : Ctx) (L : List Char) (cc : Option (List Char))
    (hsym : ctx.sym ∈ primarySyms) (hL : '|' ∉ L) (hd : ctx.dataStr = joinComposite L cc)
    (out : List Char) (ho : (gs1_generateScanData ctx).1 = some out) :
    ∃ P, primaryNormal ctx L = some P ∧
      ((cc = none ∧ out = primaryId ctx.sym ++ P) ∨
       ∃ C, cc = some ('^' :: C) ∧
         out = scancat (primaryId ctx.sym ++ P ++ "|]e0".toList) ('^' :: C)) := by
  rw [generate_split ctx L cc hL hd] at ho
  obtain ⟨hnone, hsome⟩ :=
    generateSwitch_primary { ctx with outStr := [], dataStr := L } L cc hsym
  have hpn : primaryNormal { ctx with outStr := [], dataStr := L } L = primaryNormal ctx L := rfl
  rw [hpn] at hnone hsome
  by_cases hok : (generateSwitch { ctx with outStr := [], dataStr := L } L cc).1 = true
  · rw [if_pos hok] at ho
    cases hp : primaryNormal ctx L with
    | none => rw [hnone hp] at hok; exact absurd hok Bool.false_ne_true
    | some P =>
      obtain ⟨h1, h2⟩ := hsome P hp
      refine ⟨P, rfl, ?_⟩
      rw [← Option.some.inj ho, h2 hok]
      cases cc with
      | none => exact Or.inl ⟨rfl, rfl⟩
      | some c =>
        right
        rw [hok] at h1
        have hc : charAt c 0 = '^' := of_decide_eq_true h1.symm
        cases c with
        | nil => exact absurd hc (by decide)
        | cons a C =>
          have ha : a = '^' := hc
          subst ha
          exact ⟨C, rfl, rfl⟩
  · rw [if_neg hok] at ho
    exact absurd ho (by simp)

theorem prefix_scancat_composite (X C : List Char) :
    X <+: scancat (X ++ "|]e0".toList) ('^' :: C) := by
  cases C with
  | nil =>
    rw [scancat_lone]
    have : (X ++ "|]e0".toList).dropLast = X ++ "|]e".toList := by
      rw [List.dropLast_append_of_ne_nil _ (by decide)]; rfl
    rw [this]
    exact List.prefix_append _ _
  | cons a as =>
    rw [scancat_body _ (a :: as) (by simp), List.append_assoc]
    exact List.prefix_append _ _

/-- C26 (amended): for EAN-13, UPC-A, UPC-E and EAN-8, with `L` the linear part of the
data, every successful output of `gs1_generateScanData` is the identifier (`]E4` for
EAN-8, else `]E0`) and the primary digits, 8 for EAN-8 and else 13, whose last is the
check digit of the others; a composite part `^C` with `C` not empty adds `|]e0` and `C`
with GS for every `^` and without a trailing separator. With `add_check_digit` disabled
the call fails when the given primary does not end with its check digit; with it enabled
the primary is given without check digit and the output holds the computed one. -/
theorem primary_generate (ctx : Ctx) (L : List Char) (cc : Option (List Char))
    (hsym : ctx.sym ∈ primarySyms) (hL : '|' ∉ L) (hd : ctx.dataStr = joinComposite L cc) :
    (∀ out, (gs1_generateScanData ctx).1 = some out →
      ∃ P, P.length = primaryDigits ctx.sym ∧ (∀ c ∈ P, isDigit c = true) ∧ HasCheckDigit P ∧
        (cc = none → out = primaryId ctx.sym ++ P) ∧
        (∀ C, cc = some ('^' :: C) → C ≠ [] →
          out = primaryId ctx.sym ++ P ++ "|]e0".toList ++ stripBody C)) ∧
    (ctx.addCheckDigit = false →
      ¬ HasCheckDigit (primaryLead ctx.sym ++ primaryGiven ctx.sym L) →
      (gs1_generateScanData ctx).1 = none) ∧
    (ctx.addCheckDigit = true → ∀ out, (gs1_generateScanData ctx).1 = some out →
      (primaryLead ctx.sym ++ primaryGiven ctx.sym L).length + 1 = primaryDigits ctx.sym ∧
      primaryId ctx.sym ++ (primaryLead ctx.sym ++ primaryGiven ctx.sym L ++
        [specCheckChar (primaryLead ctx.sym ++ primaryGiven ctx.sym L)]) <+: out) := by
  refine ⟨?_, ?_, ?_⟩
  · intro out ho
    obtain ⟨P, hp, hP⟩ := generate_primary_out ctx L cc hsym hL hd out ho
    obtain ⟨h1, h2, h3⟩ := primaryNormal_some ctx L P hp
    refine ⟨P, h1, h2, h3, ?_, ?_⟩
    · intro hc
      rcases hP with ⟨-, hP⟩ | ⟨C, hC, -⟩
      · exact hP
      · rw [hc] at hC; exact absurd hC (by simp)
    · intro C hc hC
      rcases hP with ⟨hn, -⟩ | ⟨C', hC', hP⟩
      · rw [hc] at hn; exact absurd hn (by simp)
      · rw [hc] at hC'
        have : C = C' := (List.cons.inj (Option.some.inj hC')).2
        subst this
        rw [hP, scancat_body _ C hC]
  · intro hacd hbad
    cases hg : (gs1_generateScanData ctx).1 with
    | none => rfl
    | some out =>
      exfalso
      obtain ⟨P, hp, -⟩ := generate_primary_out ctx L cc hsym hL hd out hg
      unfold primaryNormal at hp
      simp only [] at hp
      rw [if_pos hacd] at hp
      split at hp
      · rename_i hc; exact hbad hc.2.2
      · exact absurd hp (by simp)
  · intro hacd out ho
    obtain ⟨P, hp, hP⟩ := generate_primary_out ctx L cc hsym hL hd out ho
    unfold primaryNormal at hp
    simp only [] at hp
    rw [if_neg (by rw [hacd]; simp)] at hp
    split at hp
    · rename_i hc
      refine ⟨hc.1, ?_⟩
      rw [Option.some.inj hp]
      rcases hP with ⟨-, hP⟩ | ⟨C, -, hP⟩
      · rw [hP]
      · rw [hP]
        exact prefix_scancat_composite _ C
    · exact absurd hp (by simp)

theorem primary_generate_witness :
    primaryDemoCtx.sym ∈ primarySyms ∧ '|' ∉ "2112345678900".toList ∧
    primaryDemoCtx.dataStr =
      joinComposite "2112345678900".toList (some "^99COMPOSITE^98XYZ".toList) ∧
    (gs1_generateScanData primaryDemoCtx).1 =
      some "]E02112345678900|]e099COMPOSITE\x1d98XYZ".toList ∧
    ((∀ out, (gs1_generateScanData primaryDemoCtx).1 = some out →
      ∃ P, P.length = primaryDigits primaryDemoCtx.sym ∧ (∀ c ∈ P, isDigit c = true) ∧
        HasCheckDigit P ∧
        ((some "^99COMPOSITE^98XYZ".toList : Option (List Char)) = none →
          out = primaryId primaryDemoCtx.sym ++ P) ∧
        (∀ C, some "^99COMPOSITE^98XYZ".toList = some ('^' :: C) → C ≠ [] →
          out = primaryId primaryDemoCtx.sym ++ P ++ "|]e0".toList ++ stripBody C)) ∧
    (primaryDemoCtx.addCheckDigit = false →
      ¬ HasCheckDigit (primaryLead primaryDemoCtx.sym ++
        primaryGiven primaryDemoCtx.sym "2112345678900".toList) →
      (gs1_generateScanData primaryDemoCtx).1 = none) ∧
    (primaryDemoCtx.addCheckDigit = true →
      ∀ out, (gs1_generateScanData primaryDemoCtx).1 = some out →
      (primaryLead primaryDemoCtx.sym ++
        primaryGiven primaryDemoCtx.sym "2112345678900".toList).length + 1 =
        primaryDigits primaryDemoCtx.sym ∧
      primaryId primaryDemoCtx.sym ++ (primaryLead primaryDemoCtx.sym ++
        primaryGiven primaryDemoCtx.sym "2112345678900".toList ++
        [specCheckChar (primaryLead primaryDemoCtx.sym ++
          primaryGiven primaryDemoCtx.sym "2112345678900".toList)]) <+: out)) :=
  ⟨by decide, by decide, by decide, by decide,
    primary_generate primaryDemoCtx "2112345678900".toList (some "^99COMPOSITE^98XYZ".toList)
      (by decide) (by decide) (by decide)⟩

theorem atofDigits_digits (P : List Char) (h : ∀ c ∈ P, isDigit c = true) :
    atofDigits P = decimalValue P := by
  unfold atofDigits decimalValue
  have : P.takeWhile isDigit = P := by
    rw [List.takeWhile_eq_self_iff]
    exact h
  rw [this]
  rfl

/-- The primary data after an optional AI prefix: the data itself, or the data behind the
whole prefix. -/
theorem stripPrimary_cases (L pfx : List Char) (hp : NoNul pfx) :
    L = stripPrimary L pfx pfx.length ∨ L = pfx ++ stripPrimary L pfx pfx.length := by
  unfold stripPrimary
  by_cases h : L.length ≥ pfx.length ∧ strncmp L pfx pfx.length = 0
  · rw [if_pos h]
    right
    obtain ⟨r, hr⟩ := (strncmp_right_prefix_iff pfx L hp).mp h.2
    rw [← hr, List.drop_left' rfl]
  · rw [if_neg h]
    exact Or.inl rfl

/-- Primary data that is all digits has no AI prefix to strip. -/
theorem stripPrimary_digits (P pfx : List Char) (skip : Nat) (hs : 0 < skip)
    (hP : ∀ c ∈ P, isDigit c = true) (hpfx : charAt pfx 0 = '^') :
    stripPrimary P pfx skip = P := by
  unfold stripPrimary
  rw [if_neg]
  rintro ⟨-, h⟩
  cases pfx with
  | nil => exact absurd hpfx (by decide)
  | cons a t =>
    have ha : a = '^' := hpfx
    subst ha
    obtain ⟨n, rfl⟩ : ∃ n, skip = n + 1 := ⟨skip - 1, by omega⟩
    refine strncmp_caret_ne P t n ?_ h
    cases P with
    | nil => decide
    | cons b bs =>
      intro hb
      have hb' : b = '^' := hb
      have := hP b (List.mem_cons_self _ _)
      rw [hb'] at this
      exact absurd this (by decide)

/-- Primary data behind the whole AI prefix: the prefix is stripped. -/
theorem stripPrimary_prefixed (P pfx : List Char) (hp : NoNul pfx) :
    stripPrimary (pfx ++ P) pfx pfx.length = P := by
  unfold stripPrimary
  rw [if_pos ⟨by simp, (strncmp_right_prefix_iff pfx _ hp).mpr (List.prefix_append _ _)⟩,
    List.drop_left' rfl]

/-- The `switch` of `gs1_generateScanData` for the DataBar linear symbologies, in terms of
the normalised primary string. -/
theorem generateSwitch_dataBar_shape (ctx : Ctx) (L : List Char) (cc : Option (List Char))
    (hsym : ctx.sym ∈ dataBarSyms) :
    generateSwitch ctx L cc =
      (if (if ctx.sym = Sym.sDataBarLimited then gs1_normaliseRSSLim ctx L
           else gs1_normaliseRSS14 ctx L).2.1 = [] then
        (false, (if ctx.sym = Sym.sDataBarLimited then gs1_normaliseRSSLim ctx L
           else gs1_normaliseRSS14 ctx L).2.2, false)
       else if (match cc with
          | none => true
          | some c => decide (charAt c 0 = '^')) = false then
        (false,
          { (if ctx.sym = Sym.sDataBarLimited then gs1_normaliseRSSLim ctx L
             else gs1_normaliseRSS14 ctx L).2.2 with
            outStr := scancat "]e001".toList
              (if ctx.sym = Sym.sDataBarLimited then gs1_normaliseRSSLim ctx L
               else gs1_normaliseRSS14 ctx L).2.1 }, false)
       else (true,
          { (if ctx.sym = Sym.sDataBarLimited then gs1_normaliseRSSLim ctx L
             else gs1_normaliseRSS14 ctx L).2.2 with
            outStr := match cc with
              | none => scancat "]e001".toList
                  (if ctx.sym = Sym.sDataBarLimited then gs1_normaliseRSSLim ctx L
                   else gs1_normaliseRSS14 ctx L).2.1
              | some c => scancat (scancat "]e001".toList
                  (if ctx.sym = Sym.sDataBarLimited then gs1_normaliseRSSLim ctx L
                   else gs1_normaliseRSS14 ctx L).2.1 ++ []) c }, false)) := by
  simp only [dataBarSyms, List.mem_cons, List.mem_singleton, List.not_mem_nil, or_false] at hsym
  unfold generateSwitch
  rcases hsym with hq | hq | hq | hq | hq <;> simp only [hq]

/-- The normalised primary string of the DataBar linear symbologies without the check
digit tolerance: the given 14 digits when they end with their check digit and, for
DataBar Limited, are a number up to 19,999,999,999,999; else the empty string. -/
theorem dataBarNorm_spec (ctx : Ctx) (L : List Char) (hacd : ctx.addCheckDigit = false) :
    (if ctx.sym = Sym.sDataBarLimited then gs1_normaliseRSSLim ctx L
     else gs1_normaliseRSS14 ctx L).2.1 =
      if (stripPrimary L "^01".toList 3).length = 14 ∧
          (∀ c ∈ stripPrimary L "^01".toList 3, isDigit c = true) ∧
          HasCheckDigit (stripPrimary L "^01".toList 3) ∧
          (ctx.sym = Sym.sDataBarLimited →
            decimalValue (stripPrimary L "^01".toList 3) ≤ 19999999999999)
      then stripPrimary L "^01".toList 3 else [] := by
  have hck : ∀ m1 m2 : List Char, _ :=
    fun m1 m2 => normalisePrimary_check ctx L "^01".toList 3 14 [] m1 m2 (by simp) (by decide) hacd
  by_cases hc : (stripPrimary L "^01".toList 3).length = 14 ∧
      (∀ c ∈ stripPrimary L "^01".toList 3, isDigit c = true) ∧
      HasCheckDigit ([] ++ stripPrimary L "^01".toList 3)
  · have hc' : (stripPrimary L "^01".toList 3).length = 14 ∧
        (∀ c ∈ stripPrimary L "^01".toList 3, isDigit c = true) ∧
        HasCheckDigit (stripPrimary L "^01".toList 3) := hc
    by_cases hl : ctx.sym = Sym.sDataBarLimited
    · rw [if_pos hl]
      unfold gs1_normaliseRSSLim
      rw [(hck _ _).1 hc]
      simp only [List.nil_append]
      rw [atofDigits_digits _ hc.2.1]
      by_cases hv : decimalValue (stripPrimary L "^01".toList 3) > 19999999999999
      · rw [if_pos hv, if_neg (fun h => absurd (h.2.2.2 hl) (by omega))]
      · rw [if_neg hv, if_pos ⟨hc'.1, hc'.2.1, hc'.2.2, fun _ => by omega⟩]
    · rw [if_neg hl]
      unfold gs1_normaliseRSS14
      rw [(hck _ _).1 hc, if_pos ⟨hc'.1, hc'.2.1, hc'.2.2, fun h => absurd h hl⟩]
      rfl
  · have hc' : ¬ ((stripPrimary L "^01".toList 3).length = 14 ∧
        (∀ c ∈ stripPrimary L "^01".toList 3, isDigit c = true) ∧
        HasCheckDigit (stripPrimary L "^01".toList 3) ∧
        (ctx.sym = Sym.sDataBarLimited →
          decimalValue (stripPrimary L "^01".toList 3) ≤ 19999999999999)) :=
      fun h => hc ⟨h.1, h.2.1, h.2.2.1⟩
    rw [if_neg hc']
    by_cases hl : ctx.sym = Sym.sDataBarLimited
    · rw [if_pos hl]
      unfold gs1_normaliseRSSLim
      have h2 := (hck "Primary data must be 14 digits".toList
        "Primary data must be 13 digits without check digit".toList).2 hc
      generalize normalisePrimary ctx L "^01".toList 3 14 []
        "Primary data must be 14 digits".toList
        "Primary data must be 13 digits without check digit".toList = r at h2 ⊢
      obtain ⟨b, p, c1⟩ := r
      simp only [] at h2
      subst h2
      cases b
      · rfl
      · simp [atofDigits]
    · rw [if_neg hl]
      unfold gs1_normaliseRSS14
      exact (hck _ _).2 hc

/-- Every successful output of `gs1_generateScanData` for a DataBar linear symbology
without the check digit tolerance: `]e001` and the given 14 digits, alone or followed by
what `scancat` makes of the composite part, which begins with `^`. -/
theorem generate_dataBar_out (ctx : Ctx) (L : List Char) (cc : Option (List Char))
    (hsym : ctx.sym ∈ dataBarSyms) (hacd : ctx.addCheckDigit = false) (hL : '|' ∉ L)
    (hd : ctx.dataStr = joinComposite L cc)
    (out : List Char) (ho : (gs1_generateScanData ctx).1 = some out) :
    ((stripPrimary L "^01".toList 3).length = 14 ∧
      (∀ c ∈ stripPrimary L "^01".toList 3, isDigit c = true) ∧
      HasCheckDigit (stripPrimary L "^01".toList 3) ∧
      (ctx.sym = Sym.sDataBarLimited →
        decimalValue (stripPrimary L "^01".toList 3) ≤ 19999999999999)) ∧
    ((cc = none ∧ out = "]e001".toList ++ stripPrimary L "^01".toList 3) ∨
     ∃ C, cc = some ('^' :: C) ∧
       out = scancat ("]e001".toList ++ stripPrimary L "^01".toList 3) ('^' :: C)) := by
  rw [generate_split ctx L cc hL hd,
    generateSwitch_dataBar_shape { ctx with outStr := [], dataStr := L } L cc hsym,
    dataBarNorm_spec { ctx with outStr := [], dataStr := L } L hacd] at ho
  by_cases hc : (stripPrimary L "^01".toList 3).length = 14 ∧
      (∀ c ∈ stripPrimary L "^01".toList 3, isDigit c = true) ∧
      HasCheckDigit (stripPrimary L "^01".toList 3) ∧
      (ctx.sym = Sym.sDataBarLimited →
        decimalValue (stripPrimary L "^01".toList 3) ≤ 19999999999999)
  · refine ⟨hc, ?_⟩
    have hne : stripPrimary L "^01".toList 3 ≠ [] := by
      intro h; rw [h] at hc; simp at hc
    rw [if_pos hc, if_neg hne, scancat_digits _ _ hc.2.1] at ho
    cases cc with
    | none =>
      simp only [Bool.true_eq_false, if_false, if_true] at ho
      exact Or.inl ⟨rfl, (Option.some.inj ho).symm⟩
    | some c =>
      right
      simp only [List.append_nil] at ho
      by_cases h1 : charAt c 0 = '^'
      · rw [decide_eq_true h1] at ho
        simp only [Bool.true_eq_false, if_false, if_true] at ho
        cases c with
        | nil => exact absurd h1 (by decide)
        | cons a C =>
          have ha : a = '^' := h1
          subst ha
          exact ⟨C, rfl, (Option.some.inj ho).symm⟩
      · rw [decide_eq_false h1] at ho
        simp at ho
  · rw [if_neg hc] at ho
    simp at ho

/-- C27 (counterexample): DataBar Omnidirectional with the primary `24012345678905` and
the composite part `^99ABC^`. The scan data ends with `99ABC`: the trailing `^` of the
composite part is removed, where the claim has it replaced by a GS. -/
theorem databar_generate_counterexample :
    (gs1_generateScanData
      { demoCtx with sym := Sym.sDataBarOmni, dataStr := "24012345678905|^99ABC^".toList }).1 =
      some "]e0012401234567890599ABC".toList ∧
    (gs1_generateScanData
      { demoCtx with sym := Sym.sDataBarOmni, dataStr := "24012345678905|^99ABC^".toList }).1 ≠
      some ("]e001".toList ++ "24012345678905".toList ++
        "99ABC^".toList.map (fun c => if c = '^' then GS else c)) := by
  decide

/-- C27 (amended): for the DataBar linear symbologies with `add_check_digit` disabled and
`L` the linear part of the data, `gs1_generateScanData` succeeds only when the primary is
14 digits that end with their check digit, given bare or behind `^01`; the output is
`]e001` and the 14 digits, and a composite part `^C` with `C` not empty adds `C` with GS
for every `^` and without a trailing separator. For DataBar Limited the call fails
whenever the 14-digit number is greater than 19,999,999,999,999. -/
theorem databar_generate (ctx : Ctx) (L : List Char) (cc : Option (List Char))
    (hsym : ctx.sym ∈ dataBarSyms) (hacd : ctx.addCheckDigit = false) (hL : '|' ∉ L)
    (hd : ctx.dataStr = joinComposite L cc) :
    (∀ out, (gs1_generateScanData ctx).1 = some out →
      ∃ P, P.length = 14 ∧ (∀ c ∈ P, isDigit c = true) ∧ HasCheckDigit P ∧
        (L = P ∨ L = "^01".toList ++ P) ∧
        (cc = none → out = "]e001".toList ++ P) ∧
        (∀ C, cc = some ('^' :: C) → C ≠ [] → out = "]e001".toList ++ P ++ stripBody C)) ∧
    (ctx.sym = Sym.sDataBarLimited → ∀ P, (L = P ∨ L = "^01".toList ++ P) →
      (∀ c ∈ P, isDigit c = true) → decimalValue P > 19999999999999 →
      (gs1_generateScanData ctx).1 = none) := by
  constructor
  · intro out ho
    obtain ⟨hc, hP⟩ := generate_dataBar_out ctx L cc hsym hacd hL hd out ho
    refine ⟨stripPrimary L "^01".toList 3, hc.1, hc.2.1, hc.2.2.1,
      stripPrimary_cases L "^01".toList (by decide), ?_, ?_⟩
    · intro hn
      rcases hP with ⟨-, hP⟩ | ⟨C, hC, -⟩
      · exact hP
      · rw [hn] at hC; exact absurd hC (by simp)
    · intro C hcc hC
      rcases hP with ⟨hn, -⟩ | ⟨C', hC', hP⟩
      · rw [hcc] at hn; exact absurd hn (by simp)
      · rw [hcc] at hC'
        have : C = C' := (List.cons.inj (Option.some.inj hC')).2
        subst this
        rw [hP, scancat_body _ C hC]
  · intro hlim P hLP hdig hbig
    have hs : stripPrimary L "^01".toList 3 = P := by
      rcases hLP with h | h
      · rw [h]; exact stripPrimary_digits P _ 3 (by decide) hdig rfl
      · rw [h]; exact stripPrimary_prefixed P "^01".toList (by decide)
    cases hg : (gs1_generateScanData ctx).1 with
    | none => rfl
    | some out =>
      exfalso
      obtain ⟨hc, -⟩ := generate_dataBar_out ctx L cc hsym hacd hL hd out hg
      have := hc.2.2.2 hlim
      rw [hs] at this
      omega

theorem databar_generate_witness :
    dataBarDemoCtx.sym ∈ dataBarSyms ∧ dataBarDemoCtx.addCheckDigit = false ∧
    '|' ∉ "^0124012345678905".toList ∧
    dataBarDemoCtx.dataStr =
      joinComposite "^0124012345678905".toList (some "^99COMPOSITE^98XYZ".toList) ∧
    (gs1_generateScanData dataBarDemoCtx).1 =
      some "]e0012401234567890599COMPOSITE\x1d98XYZ".toList ∧
    (gs1_generateScanData
      { demoCtx with sym := Sym.sDataBarLimited, dataStr := "20000000000004".toList }).1 =
      none ∧
    ((∀ out, (gs1_generateScanData dataBarDemoCtx).1 = some out →
      ∃ P, P.length = 14 ∧ (∀ c ∈ P, isDigit c = true) ∧ HasCheckDigit P ∧
        ("^0124012345678905".toList = P ∨ "^0124012345678905".toList = "^01".toList ++ P) ∧
        ((some "^99COMPOSITE^98XYZ".toList : Option (List Char)) = none →
          out = "]e001".toList ++ P) ∧
        (∀ C, some "^99COMPOSITE^98XYZ".toList = some ('^' :: C) → C ≠ [] →
          out = "]e001".toList ++ P ++ stripBody C)) ∧
    (dataBarDemoCtx.sym = Sym.sDataBarLimited → ∀ P,
      ("^0124012345678905".toList = P ∨ "^0124012345678905".toList = "^01".toList ++ P) →
      (∀ c ∈ P, isDigit c = true) → decimalValue P > 19999999999999 →
      (gs1_generateScanData dataBarDemoCtx).1 = none)) :=
  ⟨by decide, by decide, by decide, by decide, by decide, by decide,
    databar_generate dataBarDemoCtx "^0124012345678905".toList
      (some "^99COMPOSITE^98XYZ".toList) (by decide) (by decide) (by decide) (by decide)⟩

theorem prefixIndex_take (x y : List Char) (h : x.take 2 = y.take 2) :
    prefixIndex x = prefixIndex y := by
  unfold prefixIndex charAt
  rcases x with _ | ⟨a, _ | ⟨b, xs⟩⟩ <;> rcases y with _ | ⟨c, _ | ⟨d, ys⟩⟩ <;>
    simp at h <;> simp [h]

/-- The index that `populateAIlengthByPrefix` computes for an AI is the index of its
two-digit prefix, below 100. -/
theorem populate_index (ai : List Char) (h : IsAI ai) :
    (((((charAt ai 0).toNat : Int) - 48) * 10 + (((charAt ai 1).toNat : Int) - 48)).emod
      256).toNat = prefixIndex ai ∧ prefixIndex ai < 100 := by
  obtain ⟨hl, hd⟩ := h
  rcases ai with _ | ⟨a, _ | ⟨b, xs⟩⟩
  · simp at hl
  · simp at hl
  · have ha := digit_toNat a (hd a (by simp))
    have hb := digit_toNat b (hd b (by simp))
    simp only [charAt, List.getD_cons_zero, List.getD_cons_succ, prefixIndex]
    constructor
    · have : (((a.toNat : Int) - 48) * 10 + ((b.toNat : Int) - 48)).emod 256 =
          ((((a.toNat - 48) * 10 + (b.toNat - 48) : Nat)) : Int) := by
        have e : ((a.toNat : Int) - 48) * 10 + ((b.toNat : Int) - 48) =
            ((((a.toNat - 48) * 10 + (b.toNat - 48) : Nat)) : Int) := by omega
        rw [e]
        apply Int.emod_eq_of_lt <;> omega
      rw [this]
      exact Int.toNat_ofNat _
    · omega

/-- When `populateAIlengthByPrefix` succeeds, the array holds for the prefix of every
table entry the length of its AI, and keeps the lengths it held before. -/
theorem populateLoop_spec : ∀ (es : List AiEntry) (arr arr' : List Nat),
    populateLoop es arr = Except.ok arr' → arr.length = 100 →
    (∀ e ∈ es, IsAI e.ai ∧ e.ai.length ≤ 4) →
    arr'.length = 100 ∧ (∀ i, arr.getD i 0 ≠ 0 → arr'.getD i 0 = arr.getD i 0) ∧
    (∀ e ∈ es, arr'.getD (prefixIndex e.ai) 0 = e.ai.length)
  | [], arr, arr', h, hl, _ => by
    simp only [populateLoop, Except.ok.injEq] at h
    subst h
    exact ⟨hl, fun _ _ => rfl, fun e he => absurd he (List.not_mem_nil _)⟩
  | e :: es, arr, arr', h, hl, hes => by
    obtain ⟨hai, h4⟩ := hes e (List.mem_cons_self _ _)
    obtain ⟨hidx, hlt⟩ := populate_index e.ai hai
    have hmod : e.ai.length % 256 = e.ai.length := Nat.mod_eq_of_lt (by omega)
    unfold populateLoop at h
    simp only [] at h
    rw [hidx, hmod] at h
    by_cases hc : arr.getD (prefixIndex e.ai) 0 ≠ 0 ∧ arr.getD (prefixIndex e.ai) 0 ≠ e.ai.length
    · rw [if_pos hc] at h
      exact absurd h (by simp)
    · rw [if_neg hc] at h
      obtain ⟨ih1, ih2, ih3⟩ := populateLoop_spec es _ arr' h (by simp [hl])
        (fun x hx => hes x (List.mem_cons_of_mem _ hx))
      have hset : (arr.set (prefixIndex e.ai) e.ai.length).getD (prefixIndex e.ai) 0 =
          e.ai.length := by
        rw [List.getD_eq_getElem _ _ (by simp [hl, hlt])]
        simp
      have hother : ∀ i, i ≠ prefixIndex e.ai →
          (arr.set (prefixIndex e.ai) e.ai.length).getD i 0 = arr.getD i 0 := by
        intro i hi
        simp only [List.getD_eq_getElem?_getD]
        rw [List.getElem?_set_ne (Ne.symm hi)]
      have hne0 : e.ai.length ≠ 0 := by have := hai.1; omega
      refine ⟨ih1, ?_, ?_⟩
      · intro i hi
        by_cases hip : i = prefixIndex e.ai
        · subst hip
          have hv : arr.getD (prefixIndex e.ai) 0 = e.ai.length := by
            by_contra hx
            exact hc ⟨hi, hx⟩
          rw [hv, ← hset]
          exact ih2 _ (by rw [hset]; exact hne0) |>.trans (by rw [hset])
        · rw [← hother i hip]
          exact ih2 i (by rw [hother i hip]; exact hi)
      · intro x hx
        rcases List.mem_cons.mp hx with rfl | hx
        · rw [ih2 _ (by rw [hset]; exact hne0), hset]
        · exact ih3 x hx

/-- With the derived array, the AI length by prefix of a table AI is its length. -/
theorem lengthsDerived_spec (ctx : Ctx) (hder : LengthsDerived ctx)
    (hai : ∀ e ∈ ctx.aiTable, IsAI e.ai) (h4 : ∀ e ∈ ctx.aiTable, e.ai.length ≤ 4) :
    ∀ e ∈ ctx.aiTable, aiLengthByPrefix ctx e.ai = e.ai.length := by
  unfold LengthsDerived populateAIlengthByPrefix at hder
  cases hp : populateLoop ctx.aiTable (List.replicate 100 0) with
  | error x =>
    rw [hp] at hder
    exact absurd (congrArg Prod.fst hder) (by simp)
  | ok arr =>
    rw [hp] at hder
    have harr : arr = ctx.aiLengthByPrefix := by
      have := congrArg (fun r : Bool × Ctx => r.2.aiLengthByPrefix) hder
      simpa using this
    obtain ⟨-, -, h3⟩ := populateLoop_spec ctx.aiTable _ arr hp (by simp)
      (fun e he => ⟨hai e he, h4 e he⟩)
    intro e he
    unfold aiLengthByPrefix
    rw [← harr]
    exact h3 e he

/-! ## Lookup with a given AI length -/

/-- C29: for a table of AIs of two to four digits with `aiLengthByPrefix` derived from it,
and either setting of `permitUnknownAIs`, `gs1_lookupAIentry ctx data k` with `k > 0`
returns `NULL` when `k` is 1 or greater than 4, and returns `NULL` when the table holds an
AI with the two-digit prefix of the data whose length differs from `k`, whether that AI is
a prefix of the data or the looked-up AI would otherwise be vivified. -/
theorem lookup_length_mismatch (ctx : Ctx) (data : List Char) (k : Nat)
    (hai : ∀ e ∈ ctx.aiTable, IsAI e.ai) (h4 : ∀ e ∈ ctx.aiTable, e.ai.length ≤ 4)
    (hder : LengthsDerived ctx) (hk : 0 < k) :
    ((k = 1 ∨ 4 < k) → gs1_lookupAIentry ctx data k = none) ∧
    (∀ e ∈ ctx.aiTable, e.ai.take 2 = data.take 2 → e.ai.length ≠ k →
      gs1_lookupAIentry ctx data k = none) := by
  have hlen := lengthsDerived_spec ctx hder hai h4
  constructor
  · intro h
    unfold gs1_lookupAIentry
    rw [if_pos h]
  · intro e he hpre hne
    have hdata : aiLengthByPrefix ctx data = e.ai.length := by
      rw [← hlen e he]
      unfold aiLengthByPrefix
      rw [prefixIndex_take data e.ai hpre.symm]
    unfold gs1_lookupAIentry
    by_cases h1 : k = 1 ∨ k > 4
    · rw [if_pos h1]
    rw [if_neg h1]
    by_cases h2 : (!gs1_allDigits data (if k ≠ 0 then k else 2)) = true
    · rw [if_pos h2]
    rw [if_neg h2]
    cases hl : lookupLoop ctx.aiTable data k ctx.aiTable.length 0 ctx.aiTable.length with
    | some r =>
      cases r with
      | none => rfl
      | some entry =>
        exfalso
        obtain ⟨hm, hcmp, hk'⟩ := lookupLoop_sound _ _ _ _ _ _ _ hl
        have hp := (strncmp_prefix_iff _ (hai _ hm).2 data).1 hcmp
        have h2l := (hai _ hm).1
        have ht : entry.ai.take 2 = data.take 2 := by
          rw [List.prefix_iff_eq_take] at hp
          conv_lhs => rw [hp]
          rw [List.take_take, Nat.min_eq_left h2l]
        have e1 : aiLengthByPrefix ctx data = entry.ai.length := by
          rw [← hlen entry hm]
          unfold aiLengthByPrefix
          rw [prefixIndex_take data entry.ai ht.symm]
        have := hk' (by omega)
        rw [hdata] at e1
        omega
    | none =>
      simp only []
      by_cases hperm : (!ctx.permitUnknownAIs) = true
      · rw [if_pos hperm]
      · rw [if_neg hperm]
        unfold vivify
        simp only []
        rw [hdata, if_pos ⟨by omega, by have := (hai e he).1; omega, hne⟩]

theorem lookup_length_mismatch_witness :
    (∀ e ∈ ({ demoCtx with permitUnknownAIs := true } : Ctx).aiTable, IsAI e.ai) ∧
    (∀ e ∈ ({ demoCtx with permitUnknownAIs := true } : Ctx).aiTable, e.ai.length ≤ 4) ∧
    LengthsDerived { demoCtx with permitUnknownAIs := true } ∧
    e3940 ∈ ({ demoCtx with permitUnknownAIs := true } : Ctx).aiTable ∧
    gs1_lookupAIentry { demoCtx with permitUnknownAIs := true } "399".toList 3 = none ∧
    gs1_lookupAIentry { demoCtx with permitUnknownAIs := true } "3999".toList 4 =
      some unknownAI4 ∧
    (((3 = 1 ∨ 4 < 3) →
      gs1_lookupAIentry { demoCtx with permitUnknownAIs := true } "399".toList 3 = none) ∧
    (∀ e ∈ ({ demoCtx with permitUnknownAIs := true } : Ctx).aiTable,
      e.ai.take 2 = "399".toList.take 2 → e.ai.length ≠ 3 →
      gs1_lookupAIentry { demoCtx with permitUnknownAIs := true } "399".toList 3 = none)) :=
  ⟨by decide, by decide, by decide, by decide, by decide, by decide,
    lookup_length_mismatch { demoCtx with permitUnknownAIs := true } "399".toList 3
      (by decide) (by decide) (by decide) (by decide)⟩

/-- The data agrees with an AI on their common beginning `a`: comparing that many bytes
finds no difference. -/
theorem strncmp_common : ∀ (a ea p : List Char), a <+: ea → a <+: p →
    strncmp p ea a.length = 0
  | [], _, _, _, _ => by simp [strncmp]
  | x :: a, ea, p, h1, h2 => by
    cases ea with
    | nil => simp at h1
    | cons y ys =>
      cases p with
      | nil => simp at h2
      | cons z ps =>
        rw [List.cons_prefix_cons] at h1 h2
        obtain ⟨rfl, h1⟩ := h1
        obtain ⟨rfl, h2⟩ := h2
        simp only [List.length_cons, strncmp, if_true]
        exact strncmp_common a ys ps h1 h2

/-- An AI `b` that sorts after an AI beginning like the data, and differs from the data
within that beginning, compares greater than the data. -/
theorem strncmp_pos_of_common : ∀ (a ea b p : List Char), a <+: ea → a <+: p →
    aiLt ea b = true → strncmp p b a.length ≠ 0 → 0 < strncmp b p b.length
  | [], _, _, _, _, _, _, h => by simp [strncmp] at h
  | x :: a, ea, b, p, h1, h2, hlt, hne => by
    cases ea with
    | nil => simp at h1
    | cons y ys =>
      cases p with
      | nil => simp at h2
      | cons z ps =>
        rw [List.cons_prefix_cons] at h1 h2
        obtain ⟨rfl, h1⟩ := h1
        obtain ⟨rfl, h2⟩ := h2
        cases b with
        | nil => simp [aiLt] at hlt
        | cons w ws =>
          simp only [aiLt] at hlt
          simp only [List.length_cons, strncmp] at hne ⊢
          by_cases hxw : x = w
          · subst hxw
            simp only [if_true] at hlt hne ⊢
            exact strncmp_pos_of_common a ys ws ps h1 h2 hlt hne
          · have hwx : ¬ w = x := fun h => hxw h.symm
            simp only [hxw, if_false, decide_eq_true_eq] at hlt
            simp only [hwx, if_false]
            omega

/-- An AI `b` that sorts before an AI beginning like the data, and is no prefix of the
data, compares less than the data. -/
theorem strncmp_neg_of_common : ∀ (a ea b p : List Char), a <+: ea → a <+: p →
    aiLt b ea = true → strncmp p b a.length ≠ 0 → strncmp b p b.length ≠ 0 →
    strncmp b p b.length < 0
  | [], _, _, _, _, _, _, h, _ => by simp [strncmp] at h
  | x :: a, ea, b, p, h1, h2, hlt, hne, hcmp => by
    cases ea with
    | nil => simp at h1
    | cons y ys =>
      cases p with
      | nil => simp at h2
      | cons z ps =>
        rw [List.cons_prefix_cons] at h1 h2
        obtain ⟨rfl, h1⟩ := h1
        obtain ⟨rfl, h2⟩ := h2
        cases b with
        | nil => simp [strncmp] at hcmp
        | cons w ws =>
          simp only [aiLt] at hlt
          simp only [List.length_cons, strncmp] at hne hcmp ⊢
          by_cases hwx : w = x
          · subst hwx
            simp only [if_true] at hlt hne hcmp ⊢
            exact strncmp_neg_of_common a ys ws ps h1 h2 hlt hne hcmp
          · simp only [hwx, if_false, decide_eq_true_eq] at hlt
            simp only [hwx, if_false]
            omega

/-- When the first `k` bytes of the data are a proper prefix of a table AI, the binary
search with the AI length `k` returns `NULL` from inside the loop, whichever entries it
probes. -/
theorem lookupLoop_collision (t : List AiEntry) (p : List Char)
    (hs : TableSorted t) (hI1 : SameLengthPerPrefix t) (hai : ∀ e ∈ t, IsAI e.ai)
    (k : Nat) (hk0 : k ≠ 0) (hkp : k ≤ p.length)
    (j : Nat) (hj : j < t.length) (hpre : p.take k <+: (t[j]).ai) (hlt : k < (t[j]).ai.length) :
    ∀ (fuel s e : Nat), s ≤ j → j < e → e ≤ t.length → e - s ≤ fuel →
      lookupLoop t p k fuel s e = some none := by
  have hsorted := List.pairwise_iff_getElem.1 hs
  have hal : (p.take k).length = k := by rw [List.length_take]; omega
  have hap : p.take k <+: p := List.take_prefix _ _
  have hjmem : t[j] ∈ t := List.getElem_mem hj
  have hzero : strncmp p (t[j]).ai k = 0 := by
    have := strncmp_common (p.take k) (t[j]).ai p hpre hap
    rwa [hal] at this
  intro fuel
  induction fuel with
  | zero => intro s e h1 h2 _ h4; omega
  | succ n ih =>
    intro s e h1 h2 h3 h4
    have hse : s < e := by omega
    have hm : s + (e - s) / 2 < t.length := by omega
    have hmem : t[s + (e - s) / 2] ∈ t := List.getElem_mem _
    simp only [lookupLoop, hse, if_true, List.getElem?_eq_getElem hm]
    by_cases hcmp : strncmp (t[s + (e - s) / 2]).ai p (t[s + (e - s) / 2]).ai.length = 0
    · rw [if_pos hcmp]
      by_cases hlen : (t[s + (e - s) / 2]).ai.length ≠ k
      · rw [if_pos ⟨hk0, hlen⟩]
      · exfalso
        have hlen' : (t[s + (e - s) / 2]).ai.length = k := not_not.mp hlen
        have hmp := (strncmp_prefix_iff _ (hai _ hmem).2 p).1 hcmp
        have hmk : (t[s + (e - s) / 2]).ai = p.take k := by
          rw [List.prefix_iff_eq_take] at hmp
          rw [hmp, hlen']
        have hne : (t[s + (e - s) / 2]).ai ≠ (t[j]).ai := by
          intro h; rw [h] at hlen'; omega
        exact not_prefix_of_lt hI1 hai hmem hjmem hne (by rw [hmk]; exact hpre)
    · rw [if_neg hcmp]
      by_cases hcol : strncmp p (t[s + (e - s) / 2]).ai k = 0
      · rw [if_pos ⟨hk0, hcol⟩]
      · rw [if_neg (fun h => hcol h.2)]
        have hnej : s + (e - s) / 2 ≠ j := by
          intro h
          apply hcol
          have : t[s + (e - s) / 2] = t[j] := by simp [h]
          rw [this]
          exact hzero
        have hcol' : strncmp p (t[s + (e - s) / 2]).ai (p.take k).length ≠ 0 := by
          rw [hal]; exact hcol
        by_cases hneg : strncmp (t[s + (e - s) / 2]).ai p (t[s + (e - s) / 2]).ai.length < 0
        · rw [if_pos hneg]
          apply ih
          · by_contra hlt'
            have hlt'' : j < s + (e - s) / 2 := by omega
            have hlt2 := hsorted _ _ hj hm hlt''
            have := strncmp_pos_of_common (p.take k) _ _ p hpre hap hlt2 hcol'
            omega
          · exact h2
          · exact h3
          · omega
        · rw [if_neg hneg]
          apply ih
          · exact h1
          · by_contra hge
            have hlt'' : s + (e - s) / 2 < j := by omega
            have hlt2 := hsorted _ _ hm hj hlt''
            exact hneg (strncmp_neg_of_common (p.take k) _ _ p hpre hap hlt2 hcol' hcmp)
          · omega
          · omega

/-- C30: for a sorted table obeying the same-length-per-prefix rule, if `k > 0` and the
first `k` bytes of the data are a proper prefix of the AI of some table entry,
`gs1_lookupAIentry ctx data k` returns `NULL`, with unknown AIs permitted or not: the
binary search itself returns `NULL`, so no entry is vivified. -/
theorem lookup_proper_prefix_refused (ctx : Ctx) (data : List Char) (k : Nat)
    (hai : ∀ e ∈ ctx.aiTable, IsAI e.ai) (hsorted : TableSorted ctx.aiTable)
    (hI1 : SameLengthPerPrefix ctx.aiTable) (hk : 0 < k) (hkl : k ≤ data.length)
    (e : AiEntry) (he : e ∈ ctx.aiTable) (hpre : data.take k <+: e.ai)
    (hlt : k < e.ai.length) :
    gs1_lookupAIentry ctx data k = none ∧
    lookupLoop ctx.aiTable data k ctx.aiTable.length 0 ctx.aiTable.length = some none := by
  obtain ⟨j, hj, hje⟩ := List.getElem_of_mem he
  subst hje
  have hloop := lookupLoop_collision ctx.aiTable data hsorted hI1 hai k (by omega) hkl j hj
    hpre hlt ctx.aiTable.length 0 ctx.aiTable.length (by omega) hj (Nat.le_refl _) (by omega)
  refine ⟨?_, hloop⟩
  unfold gs1_lookupAIentry
  by_cases h1 : k = 1 ∨ k > 4
  · rw [if_pos h1]
  · rw [if_neg h1]
    have hal : (data.take k).length = k := by rw [List.length_take]; omega
    have hdig : gs1_allDigits data (if k ≠ 0 then k else 2) = true := by
      rw [if_pos (by omega)]
      unfold gs1_allDigits
      rw [if_neg (by omega)]
      refine allDigitsLoop_prefix_ok (data.take k) data k (List.take_prefix _ _) (by omega) ?_
      intro c hc
      exact (hai _ (List.getElem_mem hj)).2 c (hpre.subset hc)
    rw [hdig, hloop]
    simp

theorem lookup_proper_prefix_refused_witness :
    ({ demoCtx with permitUnknownAIs := true } : Ctx).permitUnknownAIs = true ∧
    e8111 ∈ ({ demoCtx with permitUnknownAIs := true } : Ctx).aiTable ∧
    "811".toList.take 3 <+: e8111.ai ∧ 3 < e8111.ai.length ∧
    gs1_lookupAIentry { demoCtx with permitUnknownAIs := true } "811".toList 3 = none ∧
    lookupLoop demoTable "811".toList 3 demoTable.length 0 demoTable.length = some none :=
  ⟨rfl, by decide, by decide, by decide,
    lookup_proper_prefix_refused { demoCtx with permitUnknownAIs := true } "811".toList 3
      (by decide) (by decide) (by decide) (by decide) (by decide) e8111 (by decide)
      (by decide) (by decide)⟩

/-- Every catalog entry has the AI length of its key, one component of exactly the fixed
value length (1 to 90 bytes when the length is variable), and requires FNC1 exactly when
the length is variable. -/
theorem catalogEntry_spec (L V : Nat) (c : AiEntry) (h : catalogEntry L V = some c) :
    c ∈ unknownCatalog ∧ c.ai.length = L ∧
    c.parts = [unknownPart (if V = 0 then 1 else V) (if V = 0 then 90 else V)] ∧
    (c.fnc1 = true ↔ V = 0) := by
  unfold catalogEntry at h
  iterate 9
    split at h
    · rename_i hc
      obtain ⟨h1, h2⟩ := hc
      subst h1 h2
      rw [← Option.some.inj h]
      decide
  exact absurd h (by simp)

set_option maxHeartbeats 1000000 in
/-- The vivification step returns the catalog entry for the AI length and the fixed value
length of the prefix when there is one, and else the entry for an AI of unknown length. -/
theorem vivify_catalog_entry (ctx : Ctx) (p : List Char) (k : Nat) (e : AiEntry)
    (h : vivify ctx p k = some e) :
    catalogEntry (aiLengthByPrefix ctx p) (valLengthByPrefix p) = some e ∨
    (catalogEntry (aiLengthByPrefix ctx p) (valLengthByPrefix p) = none ∧ e = unknownAI) := by
  unfold vivify at h
  unfold catalogEntry
  generalize aiLengthByPrefix ctx p = a at h ⊢
  generalize valLengthByPrefix p = v at h ⊢
  dsimp only at h
  split at h
  · cases h
  split at h
  · cases h
  iterate 9
    split at h
    · rename_i hc
      rw [if_pos hc]
      exact Or.inl h
    rename_i hc
    rw [if_neg hc]
  exact Or.inr ⟨rfl, (Option.some.inj h).symm⟩

/-! ## The entry of a vivified AI -/

/-- C31, as found: with unknown AIs permitted, the lookup of AI 89 in the example table,
which defines no AI length for the prefix 89, finds no table entry and returns the entry
for an AI of unknown length, which is none of the nine catalog entries. -/
theorem vivified_unknown_length_counterexample :
    lookupLoop demoTable "89".toList 2 demoTable.length 0 demoTable.length = none ∧
    gs1_lookupAIentry { demoCtx with permitUnknownAIs := true } "89".toList 2
      = some unknownAI ∧
    unknownAI ∉ unknownCatalog ∧
    catalogEntry (aiLengthByPrefix { demoCtx with permitUnknownAIs := true } "89".toList)
      (valLengthByPrefix "89".toList) = none := by
  decide

/-- C31, amended: when the search of the table finds nothing and the lookup returns an
entry, that entry is the entry for an AI of unknown length when the catalog has no entry
for the AI length and the fixed value length of the prefix, and else it is that catalog
entry, one of the nine: its AI has the length defined for the prefix, its single
component has exactly the fixed value length (1 to 90 bytes when the length is variable),
and it requires FNC1 exactly when the value length is variable. -/
theorem vivified_entry (ctx : Ctx) (p : List Char) (k : Nat) (e : AiEntry)
    (hloop : lookupLoop ctx.aiTable p k ctx.aiTable.length 0 ctx.aiTable.length = none)
    (h : gs1_lookupAIentry ctx p k = some e) :
    (e = unknownAI ∧
      catalogEntry (aiLengthByPrefix ctx p) (valLengthByPrefix p) = none) ∨
    (catalogEntry (aiLengthByPrefix ctx p) (valLengthByPrefix p) = some e ∧
      e ∈ unknownCatalog ∧ e.ai.length = aiLengthByPrefix ctx p ∧
      e.parts = [unknownPart (if valLengthByPrefix p = 0 then 1 else valLengthByPrefix p)
        (if valLengthByPrefix p = 0 then 90 else valLengthByPrefix p)] ∧
      (e.fnc1 = true ↔ valLengthByPrefix p = 0)) := by
  unfold gs1_lookupAIentry at h
  rw [hloop] at h
  by_cases h1 : k = 1 ∨ k > 4
  · rw [if_pos h1] at h; cases h
  rw [if_neg h1] at h
  by_cases h2 : (!gs1_allDigits p (if k ≠ 0 then k else 2)) = true
  · rw [if_pos h2] at h; cases h
  rw [if_neg h2] at h
  simp only [] at h
  by_cases hp : (!ctx.permitUnknownAIs) = true
  · rw [if_pos hp] at h; cases h
  rw [if_neg hp] at h
  rcases vivify_catalog_entry ctx p k e h with hc | ⟨hc, he⟩
  · exact Or.inr ⟨hc, catalogEntry_spec _ _ e hc⟩
  · exact Or.inl ⟨he, hc⟩

theorem vivified_entry_witness :
    lookupLoop vivifyDemoCtx.aiTable "236".toList 3 vivifyDemoCtx.aiTable.length 0
      vivifyDemoCtx.aiTable.length = none ∧
    gs1_lookupAIentry vivifyDemoCtx "236".toList 3 = some unknownAI3 ∧
    ((unknownAI3 = unknownAI ∧
      catalogEntry (aiLengthByPrefix vivifyDemoCtx "236".toList)
        (valLengthByPrefix "236".toList) = none) ∨
    (catalogEntry (aiLengthByPrefix vivifyDemoCtx "236".toList)
        (valLengthByPrefix "236".toList) = some unknownAI3 ∧
      unknownAI3 ∈ unknownCatalog ∧
      unknownAI3.ai.length = aiLengthByPrefix vivifyDemoCtx "236".toList ∧
      unknownAI3.parts =
        [unknownPart (if valLengthByPrefix "236".toList = 0 then 1
            else valLengthByPrefix "236".toList)
          (if valLengthByPrefix "236".toList = 0 then 90
            else valLengthByPrefix "236".toList)] ∧
      (unknownAI3.fnc1 = true ↔ valLengthByPrefix "236".toList = 0))) :=
  ⟨by decide, by decide,
    vivified_entry vivifyDemoCtx "236".toList 3 unknownAI3 (by decide) (by decide)⟩

theorem prefixIndex_inj (x y : List Char) (hx : IsAI x) (hy : IsAI y)
    (h : prefixIndex x = prefixIndex y) : x.take 2 = y.take 2 := by
  obtain ⟨hlx, hdx⟩ := hx
  obtain ⟨hly, hdy⟩ := hy
  rcases x with _ | ⟨a, _ | ⟨b, xs⟩⟩
  · simp at hlx
  · simp at hlx
  rcases y with _ | ⟨c, _ | ⟨d, ys⟩⟩
  · simp at hly
  · simp at hly
  have ha := digit_toNat a (hdx a (by simp))
  have hb := digit_toNat b (hdx b (by simp))
  have hc := digit_toNat c (hdy c (by simp))
  have hd := digit_toNat d (hdy d (by simp))
  simp only [prefixIndex, charAt, List.getD_cons_zero, List.getD_cons_succ] at h
  have e1 : a.toNat = c.toNat := by omega
  have e2 : b.toNat = d.toNat := by omega
  have hac : a = c := Char.ext (UInt32.ext (by simpa [Char.toNat, UInt32.toNat] using e1))
  have hbd : b = d := Char.ext (UInt32.ext (by simpa [Char.toNat, UInt32.toNat] using e2))
  simp [hac, hbd]

/-- The derivation of the array succeeds when the lengths already in the array and the
lengths of the entries agree for every prefix. -/
theorem populateLoop_ok : ∀ (es : List AiEntry) (arr : List Nat), arr.length = 100 →
    (∀ e ∈ es, IsAI e.ai ∧ e.ai.length ≤ 4) →
    (∀ e ∈ es, arr.getD (prefixIndex e.ai) 0 ≠ 0 →
      arr.getD (prefixIndex e.ai) 0 = e.ai.length) →
    (∀ e1 ∈ es, ∀ e2 ∈ es, prefixIndex e1.ai = prefixIndex e2.ai →
      e1.ai.length = e2.ai.length) →
    ∃ arr', populateLoop es arr = Except.ok arr'
  | [], arr, _, _, _, _ => ⟨arr, rfl⟩
  | e :: es, arr, hl, hes, hinv, hI => by
    obtain ⟨hai, h4⟩ := hes e (List.mem_cons_self _ _)
    obtain ⟨hidx, hlt⟩ := populate_index e.ai hai
    have hmod : e.ai.length % 256 = e.ai.length := Nat.mod_eq_of_lt (by omega)
    unfold populateLoop
    simp only []
    rw [hidx, hmod]
    have hc : ¬ (arr.getD (prefixIndex e.ai) 0 ≠ 0 ∧
        arr.getD (prefixIndex e.ai) 0 ≠ e.ai.length) :=
      fun h => h.2 (hinv e (List.mem_cons_self _ _) h.1)
    rw [if_neg hc]
    apply populateLoop_ok es _ (by simp [hl]) (fun x hx => hes x (List.mem_cons_of_mem _ hx))
    · intro x hx hne
      by_cases hp : prefixIndex x.ai = prefixIndex e.ai
      · rw [hp, List.getD_eq_getElem _ _ (by simp [hl, hlt])]
        simp only [List.getElem_set_self]
        exact hI e (List.mem_cons_self _ _) x (List.mem_cons_of_mem _ hx) hp.symm
      · have hget : (arr.set (prefixIndex e.ai) e.ai.length).getD (prefixIndex x.ai) 0 =
            arr.getD (prefixIndex x.ai) 0 := by
          simp only [List.getD_eq_getElem?_getD]
          rw [List.getElem?_set_ne (Ne.symm hp)]
        rw [hget] at hne ⊢
        exact hinv x (List.mem_cons_of_mem _ hx) hne
    · intro e1 h1 e2 h2
      exact hI e1 (List.mem_cons_of_mem _ h1) e2 (List.mem_cons_of_mem _ h2)

/-- A slot that is 0 and is the prefix of no entry is still 0 after the derivation. -/
theorem populateLoop_zero : ∀ (es : List AiEntry) (arr arr' : List Nat),
    populateLoop es arr = Except.ok arr' → (∀ e ∈ es, IsAI e.ai ∧ e.ai.length ≤ 4) →
    ∀ i, arr.getD i 0 = 0 → (∀ e ∈ es, prefixIndex e.ai ≠ i) → arr'.getD i 0 = 0
  | [], arr, arr', h, _, i, h0, _ => by
    simp only [populateLoop, Except.ok.injEq] at h
    rw [← h]; exact h0
  | e :: es, arr, arr', h, hes, i, h0, hno => by
    obtain ⟨hai, h4⟩ := hes e (List.mem_cons_self _ _)
    obtain ⟨hidx, -⟩ := populate_index e.ai hai
    unfold populateLoop at h
    simp only [] at h
    rw [hidx] at h
    split at h
    · exact absurd h (by simp)
    · refine populateLoop_zero es _ arr' h (fun x hx => hes x (List.mem_cons_of_mem _ hx)) i ?_
        (fun x hx => hno x (List.mem_cons_of_mem _ hx))
      simp only [List.getD_eq_getElem?_getD] at h0 ⊢
      rw [List.getElem?_set_ne (hno e (List.mem_cons_self _ _))]
      exact h0

theorem replicate_getD_zero : ∀ (n i : Nat), (List.replicate n 0).getD i 0 = 0
  | 0, _ => rfl
  | n + 1, 0 => rfl
  | n + 1, i + 1 => by
    rw [List.replicate_succ, List.getD_cons_succ]
    exact replicate_getD_zero n i

/-! ## Derivation of the AI lengths by prefix -/

/-- C32: for a table of AIs of two to four digits, `populateAIlengthByPrefix` succeeds
exactly when all AIs of the table that share a two-digit prefix have the same length. On
success the slot of the two-digit prefix of every table entry holds the length of its AI,
and the slot of every prefix that no table entry has is 0. -/
theorem populate_iff (ctx : Ctx) (hai : ∀ e ∈ ctx.aiTable, IsAI e.ai)
    (h4 : ∀ e ∈ ctx.aiTable, e.ai.length ≤ 4) :
    ((populateAIlengthByPrefix ctx).1 = true ↔ SameLengthPerPrefix ctx.aiTable) ∧
    ((populateAIlengthByPrefix ctx).1 = true →
      (∀ e ∈ ctx.aiTable,
        (populateAIlengthByPrefix ctx).2.aiLengthByPrefix.getD (prefixIndex e.ai) 0 =
          e.ai.length) ∧
      (∀ i, (∀ e ∈ ctx.aiTable, prefixIndex e.ai ≠ i) →
        (populateAIlengthByPrefix ctx).2.aiLengthByPrefix.getD i 0 = 0)) := by
  have hes : ∀ e ∈ ctx.aiTable, IsAI e.ai ∧ e.ai.length ≤ 4 := fun e he => ⟨hai e he, h4 e he⟩
  unfold populateAIlengthByPrefix
  cases hp : populateLoop ctx.aiTable (List.replicate 100 0) with
  | error x =>
    obtain ⟨c0, c1, arr⟩ := x
    simp only []
    refine ⟨⟨fun h => absurd h Bool.false_ne_true, fun hI => ?_⟩,
      fun h => absurd h Bool.false_ne_true⟩
    exfalso
    obtain ⟨arr', h'⟩ := populateLoop_ok ctx.aiTable (List.replicate 100 0) (by simp) hes
      (fun e _ hne => absurd (replicate_getD_zero 100 _) hne)
      (fun e1 h1 e2 h2 hpi =>
        hI e1 h1 e2 h2 (prefixIndex_inj _ _ (hai e1 h1) (hai e2 h2) hpi))
    rw [hp] at h'
    exact absurd h' (by simp)
  | ok arr =>
    simp only []
    obtain ⟨-, -, h3⟩ := populateLoop_spec ctx.aiTable _ arr hp (by simp) hes
    refine ⟨⟨fun _ => ?_, fun _ => by trivial⟩, fun _ => ⟨h3, ?_⟩⟩
    · intro e1 h1 e2 h2 ht
      rw [← h3 e1 h1, ← h3 e2 h2, prefixIndex_take _ _ ht]
    · intro i hno
      exact populateLoop_zero ctx.aiTable _ arr hp hes i
        (replicate_getD_zero 100 i) hno

theorem populate_iff_witness :
    (∀ e ∈ demoCtx.aiTable, IsAI e.ai) ∧ (∀ e ∈ demoCtx.aiTable, e.ai.length ≤ 4) ∧
    (populateAIlengthByPrefix demoCtx).1 = true ∧
    (populateAIlengthByPrefix { demoCtx with aiTable := [e3940, mkEntry "399" true [] ""] }).1 =
      false ∧
    (((populateAIlengthByPrefix demoCtx).1 = true ↔ SameLengthPerPrefix demoCtx.aiTable) ∧
    ((populateAIlengthByPrefix demoCtx).1 = true →
      (∀ e ∈ demoCtx.aiTable,
        (populateAIlengthByPrefix demoCtx).2.aiLengthByPrefix.getD (prefixIndex e.ai) 0 =
          e.ai.length) ∧
      (∀ i, (∀ e ∈ demoCtx.aiTable, prefixIndex e.ai ≠ i) →
        (populateAIlengthByPrefix demoCtx).2.aiLengthByPrefix.getD i 0 = 0))) :=
  ⟨by decide, by decide, by decide, by decide, populate_iff demoCtx (by decide) (by decide)⟩

/-! ## The markup of a linter error -/

/-- C33 (failing input): AI 7007 has two components of six digits. For the value
`2112252X1231` followed by `^99ABC`, the error is at offset 1 of the second component:
validate_ai_val returns 0 with the linter error 1 and the markup
`(7007)2112252|X|1231^99ABC`, whose last piece runs past the end of the value. For the
value `2X1225211231`, with the error in the first component, the markup is
`(7007)2|X|1225`, whose last piece stops at the end of the first component. For the one
component of AI 10 the three pieces make up the value. -/
theorem linter_markup_suffix :
    validate_ai_val demoEnv demoCtx "70072112252X1231^99ABC".toList e7007
        "2112252X1231^99ABC".toList 12 =
      (0, { demoCtx with
        errMsg := "AI (7007): linter error 1".toList, errFlag := true, linterErr := 1,
        linterErrMarkup := "(7007)2112252|X|1231^99ABC".toList }) ∧
    (gs1_processAIdata demoEnv demoCtx "^70072112252X1231^99ABC".toList 0 false).2.linterErrMarkup
      = "(7007)2112252|X|1231^99ABC".toList ∧
    (gs1_processAIdata demoEnv demoCtx "^70072X1225211231".toList 0 false).2.linterErrMarkup
      = "(7007)2|X|1225".toList ∧
    (gs1_processAIdata demoEnv demoCtx "^10AB~D^99X".toList 0 false).2.linterErrMarkup
      = "(10)AB|~|D".toList := by
  refine ⟨by decide, by decide, by decide, by decide⟩

/-- A pass through the loop body that does not return moves the read pointer forward by at
least one byte, inside the string. -/
theorem processValue_advance (env : Env) (ex : Bool) (ai : List Char) (off : Nat)
    (entry : AiEntry) (p : List Char) (res : Nat × Ctx)
    (hres : res.1 ≤ (p.drop entry.ai.length).length)
    (p' : List Char) (off' : Nat) (ctx' : Ctx)
    (h : processValue env ex ai off entry (p.drop entry.ai.length) res = Step.next p' off' ctx') :
    ∃ k, 1 ≤ k ∧ k ≤ p.length ∧ p' = p.drop k ∧ off' = off + k := by
  unfold processValue at h
  by_cases h0 : res.1 = 0
  · rw [if_pos h0] at h; exact absurd h (by simp)
  rw [if_neg h0] at h
  split at h
  · exact absurd h (by simp)
  simp only [] at h
  rw [List.length_drop] at hres
  split at h
  · exact absurd h (by simp)
  split at h
  · rename_i hc
    simp only [Step.next.injEq] at h
    have hne : (List.drop res.1 (List.drop entry.ai.length p)) ≠ [] := by
      intro he; rw [he] at hc; exact absurd hc (by decide)
    have hl : 0 < (List.drop res.1 (List.drop entry.ai.length p)).length :=
      List.length_pos.mpr hne
    simp only [List.length_drop] at hl
    refine ⟨entry.ai.length + res.1 + 1, by omega, by omega, ?_, by omega⟩
    rw [← h.1, List.drop_drop, List.drop_drop, Nat.add_assoc]
  · simp only [Step.next.injEq] at h
    refine ⟨entry.ai.length + res.1, by omega, by omega, ?_, by omega⟩
    rw [← h.1, List.drop_drop]

theorem validate_ai_val_le (env : Env) (ctx : Ctx) (ai : List Char) (entry : AiEntry)
    (start : List Char) (r : Nat) (hr : r ≤ start.length) :
    (validate_ai_val env ctx ai entry start r).1 ≤ start.length := by
  rw [validate_ai_val_fst]
  cases h : validateAiVal env entry start r with
  | ok n =>
    simp only []
    have := validateAiVal_ok_len env entry start r n hr h
    omega
  | error e => simp

theorem processStep_advance (env : Env) (ex : Bool) (p : List Char) (off : Nat) (ctx : Ctx)
    (p' : List Char) (off' : Nat) (ctx' : Ctx)
    (h : processStep env ex p off ctx = Step.next p' off' ctx') :
    ∃ k, 1 ≤ k ∧ k ≤ p.length ∧ p' = p.drop k ∧ off' = off + k := by
  unfold processStep at h
  simp only [] at h
  split at h
  · exact absurd h (by simp)
  · rename_i entry hl
    split at h
    · exact absurd h (by simp)
    · refine processValue_advance env ex p off entry p _ ?_ p' off' ctx' h
      apply validate_ai_val_le
      cases hs : strchr (p.drop entry.ai.length) '^' with
      | none => exact Nat.le_refl _
      | some i =>
        have := caretIndex_le (p.drop entry.ai.length)
        unfold caretIndex at this
        rw [hs] at this
        exact this

/-- From every state the loop of `gs1_processAIdata` returns, after at most as many passes
as the read string has bytes; the fuel of the embedding is not used up when it is more
than that length. -/
theorem runs_exists (env : Env) (ex : Bool) : ∀ (k : Nat) (p : List Char), p.length ≤ k →
    ∀ (off : Nat) (ctx : Ctx), ∃ n r, Runs env ex p off ctx n r ∧ n ≤ p.length ∧
      ∀ fuel, p.length < fuel → processLoop env ex fuel p off ctx = r := by
  intro k
  induction k with
  | zero =>
    intro p hp off ctx
    have : p = [] := List.length_eq_zero.mp (by omega)
    subst this
    refine ⟨0, (true, ctx), Runs.done off ctx, Nat.le_refl _, ?_⟩
    intro fuel hf
    obtain ⟨f, rfl⟩ : ∃ f, fuel = f + 1 := ⟨fuel - 1, by omega⟩
    simp [processLoop]
  | succ k ih =>
    intro p hp off ctx
    by_cases hnil : p = []
    · subst hnil
      refine ⟨0, (true, ctx), Runs.done off ctx, Nat.le_refl _, ?_⟩
      intro fuel hf
      obtain ⟨f, rfl⟩ : ∃ f, fuel = f + 1 := ⟨fuel - 1, by omega⟩
      simp [processLoop]
    · have hpos : 0 < p.length := List.length_pos.mpr hnil
      cases hs : processStep env ex p off ctx with
      | ret r =>
        refine ⟨1, r, Runs.ret p off ctx r hnil hs, by omega, ?_⟩
        intro fuel hf
        obtain ⟨f, rfl⟩ : ∃ f, fuel = f + 1 := ⟨fuel - 1, by omega⟩
        rw [processLoop, if_neg hnil, hs]
      | next p' off' ctx' =>
        obtain ⟨j, hj1, hj2, hp', -⟩ := processStep_advance env ex p off ctx p' off' ctx' hs
        have hlen : p'.length < p.length := by rw [hp', List.length_drop]; omega
        obtain ⟨n, r, hrun, hn, hfuel⟩ := ih p' (by omega) off' ctx'
        refine ⟨n + 1, r, Runs.next p off ctx p' off' ctx' n r hnil hs hrun, by omega, ?_⟩
        intro fuel hf
        obtain ⟨f, rfl⟩ : ∃ f, fuel = f + 1 := ⟨fuel - 1, by omega⟩
        rw [processLoop, if_neg hnil, hs]
        exact hfuel f (by omega)

/-! ## Termination of the unbracketed processor -/

/-- C40: `gs1_processAIdata` terminates on every input. A pass through the body of its
loop that does not return moves the read pointer forward by at least one byte, the AI
length plus a consumed value length of at least 1; so from the string after the leading
`^` the loop returns after at most as many passes as that string has bytes, and the
function returns what that run returns. -/
theorem process_terminates (env : Env) (ex : Bool) (ctx : Ctx) (d : List Char) (base : Nat) :
    (∀ (p : List Char) (off : Nat) (c : Ctx) (p' : List Char) (off' : Nat) (c' : Ctx),
      processStep env ex p off c = Step.next p' off' c' →
      ∃ k, 1 ≤ k ∧ k ≤ p.length ∧ p' = p.drop k ∧ off' = off + k) ∧
    ((d = [] ∨ charAt d 0 ≠ '^' ∨ d.drop 1 = []) ∨
      ∃ n r, Runs env ex (d.drop 1) (base + 1)
          { ctx with errMsg := [], errFlag := false, linterErr := 0, linterErrMarkup := [] }
          n r ∧
        n ≤ (d.drop 1).length ∧ gs1_processAIdata env ctx d base ex = r) := by
  refine ⟨processStep_advance env ex, ?_⟩
  by_cases h1 : d = [] ∨ charAt d 0 ≠ '^'
  · rcases h1 with h | h
    · exact Or.inl (Or.inl h)
    · exact Or.inl (Or.inr (Or.inl h))
  by_cases h2 : d.drop 1 = []
  · exact Or.inl (Or.inr (Or.inr h2))
  right
  obtain ⟨n, r, hrun, hn, hfuel⟩ := runs_exists env ex (d.drop 1).length (d.drop 1)
    (Nat.le_refl _) (base + 1)
    { ctx with errMsg := [], errFlag := false, linterErr := 0, linterErrMarkup := [] }
  refine ⟨n, r, hrun, hn, ?_⟩
  unfold gs1_processAIdata
  simp only []
  rw [if_neg h1, if_neg h2]
  exact hfuel _ (by rw [List.length_drop]; omega)

set_option maxHeartbeats 1000000 in
theorem vivify_bounds (ctx : Ctx) (p : List Char) (n : Nat) (e : AiEntry)
    (h : vivify ctx p n = some e) : e.ai.length ≤ 4 ∧ aiEntryMaxLength e ≤ 255 := by
  unfold vivify at h
  generalize aiLengthByPrefix ctx p = a at h
  generalize valLengthByPrefix p = v at h
  dsimp only at h
  split at h
  · cases h
  split at h
  · cases h
  iterate 9
    split at h
    · rw [← Option.some.inj h]; decide
  rw [← Option.some.inj h]; decide

/-- The entry that the lookup returns has an AI of at most four bytes and a value of at
most 255 bytes, when the table entries have. -/
theorem lookup_bounds (ctx : Ctx)
    (hT : ∀ e ∈ ctx.aiTable, e.ai.length ≤ 4 ∧ aiEntryMaxLength e ≤ 255)
    (p : List Char) (n : Nat) (e : AiEntry) (h : gs1_lookupAIentry ctx p n = some e) :
    e.ai.length ≤ 4 ∧ aiEntryMaxLength e ≤ 255 := by
  unfold gs1_lookupAIentry at h
  by_cases h1 : n = 1 ∨ n > 4
  · rw [if_pos h1] at h; cases h
  · rw [if_neg h1] at h
    by_cases h2 : (!gs1_allDigits p (if n ≠ 0 then n else 2)) = true
    · rw [if_pos h2] at h; cases h
    · rw [if_neg h2] at h
      cases hl : lookupLoop ctx.aiTable p n ctx.aiTable.length 0 ctx.aiTable.length with
      | some r =>
        rw [hl] at h
        simp only [] at h
        subst h
        exact hT e (lookupLoop_sound _ _ _ _ _ _ _ hl).1
      | none =>
        rw [hl] at h
        simp only [] at h
        by_cases hp : (!ctx.permitUnknownAIs) = true
        · rw [if_pos hp] at h; cases h
        · rw [if_neg hp] at h
          exact vivify_bounds ctx p n e h

theorem caret_not_mem_take (s : List Char) (n : Nat) (h : n ≤ caretIndex s) :
    '^' ∉ s.take n := by
  have hfull : '^' ∉ s.take (caretIndex s) := by
    unfold caretIndex
    cases hs : strchr s '^' with
    | none =>
      simp only [List.take_length]
      exact (strchr_none s '^').1 hs
    | some i =>
      obtain ⟨pre, post, h1, h2, h3⟩ := strchr_some_split s '^' i hs
      simp only []
      rw [h1, ← h3, List.take_left' rfl]
      exact h2
  intro hmem
  apply hfull
  have : s.take n = (s.take (caretIndex s)).take n := by
    rw [List.take_take, Nat.min_eq_left h]
  rw [this] at hmem
  exact List.mem_of_mem_take hmem

/-- An extracting pass through the loop body that goes on has appended one entry: its AI
slice starts at the read pointer, its value slice follows the AI slice, is not empty,
holds no `^` and ends at or before the new read pointer, which lies inside the string. -/
theorem processStep_slice (env : Env) (p : List Char) (off : Nat) (ctx : Ctx)
    (hT : ∀ e ∈ ctx.aiTable, e.ai.length ≤ 4 ∧ aiEntryMaxLength e ≤ 255)
    (p' : List Char) (off' : Nat) (ctx' : Ctx)
    (h : processStep env true p off ctx = Step.next p' off' ctx') :
    ∃ v k, ctx'.aiData = ctx.aiData ++ [v] ∧ v.ai = off ∧ v.value = v.ai + v.ailen ∧
      1 ≤ v.vallen ∧ v.value + v.vallen ≤ off + k ∧
      '^' ∉ (p.drop v.ailen).take v.vallen ∧
      k ≤ p.length ∧ p' = p.drop k ∧ off' = off + k := by
  obtain ⟨k, _, hk2, hk3, hk4⟩ := processStep_advance env true p off ctx p' off' ctx' h
  cases hl : gs1_lookupAIentry ctx p 0 with
  | none =>
    unfold processStep at h
    rw [hl] at h
    exact absurd h (by simp)
  | some entry =>
    obtain ⟨hb1, hb2⟩ := lookup_bounds ctx hT p 0 entry hl
    by_cases hu : entry = unknownAI
    · unfold processStep at h
      rw [hl] at h
      simp only [hu, and_self, if_true] at h
      exact absurd h (by simp)
    have hne : ¬ (true = true ∧ entry = unknownAI) := fun h => hu h.2
    rw [processStep_known _ _ _ _ _ entry hl hne] at h
    have hres := (validate_ai_val_snd env ctx p entry (p.drop entry.ai.length)
      (caretIndex (p.drop entry.ai.length))).2
    have hfst := validate_ai_val_fst env ctx p entry (p.drop entry.ai.length)
      (caretIndex (p.drop entry.ai.length))
    have hle : (validate_ai_val env ctx p entry (p.drop entry.ai.length)
        (caretIndex (p.drop entry.ai.length))).1 ≤
        min (caretIndex (p.drop entry.ai.length)) (aiEntryMaxLength entry) := by
      rw [hfst]
      cases hv : validateAiVal env entry (p.drop entry.ai.length)
          (caretIndex (p.drop entry.ai.length)) with
      | ok n =>
        simp only []
        exact Nat.le_of_eq (validateAiVal_ok_len env entry _ _ n (caretIndex_le _) hv)
      | error e => simp
    generalize validate_ai_val env ctx p entry (p.drop entry.ai.length)
      (caretIndex (p.drop entry.ai.length)) = res at h hres hle
    have hr1 : res.1 ≤ caretIndex (p.drop entry.ai.length) :=
      Nat.le_trans hle (Nat.min_le_left _ _)
    have hr2 : res.1 ≤ 255 := Nat.le_trans (Nat.le_trans hle (Nat.min_le_right _ _)) hb2
    have hm1 : entry.ai.length % 256 = entry.ai.length := Nat.mod_eq_of_lt (by omega)
    have hm2 : res.1 % 256 = res.1 := Nat.mod_eq_of_lt (by omega)
    unfold processValue at h
    by_cases h0 : res.1 = 0
    · rw [if_pos h0] at h; exact absurd h (by simp)
    rw [if_neg h0] at h
    split at h
    · exact absurd h (by simp)
    simp only [if_true] at h
    have hv : ∀ (q : List Char) (o : Nat), o = off + k → off + entry.ai.length + res.1 ≤ o →
        Step.next q o { res.2 with aiData := res.2.aiData ++
          [mkAiValue env entry off entry.ai.length (off + entry.ai.length) res.1] }
          = Step.next p' off' ctx' →
        ∃ v k, ctx'.aiData = ctx.aiData ++ [v] ∧ v.ai = off ∧ v.value = v.ai + v.ailen ∧
          1 ≤ v.vallen ∧ v.value + v.vallen ≤ off + k ∧
          '^' ∉ (p.drop v.ailen).take v.vallen ∧
          k ≤ p.length ∧ p' = p.drop k ∧ off' = off + k := by
      intro q o ho hle2 heq
      simp only [Step.next.injEq] at heq
      obtain ⟨_, ho', hc⟩ := heq
      refine ⟨mkAiValue env entry off entry.ai.length (off + entry.ai.length) res.1, k,
        ?_, rfl, ?_, ?_, ?_, ?_, hk2, hk3, hk4⟩
      · rw [← hc, ← hres]
      · show off + entry.ai.length = off + entry.ai.length % 256
        rw [hm1]
      · show 1 ≤ res.1 % 256
        rw [hm2]; omega
      · show off + entry.ai.length + res.1 % 256 ≤ off + k
        rw [hm2]; omega
      · show '^' ∉ (p.drop (entry.ai.length % 256)).take (res.1 % 256)
        rw [hm1, hm2]
        exact caret_not_mem_take _ _ hr1
    split at h
    · exact absurd h (by simp)
    split at h
    · refine hv _ _ ?_ ?_ h
      · have := (Step.next.inj h).2.1
        omega
      · omega
    · refine hv _ _ ?_ ?_ h
      · have := (Step.next.inj h).2.1
        omega
      · omega

theorem processStep_ret_false (env : Env) (ex : Bool) (p : List Char) (off : Nat) (ctx : Ctx)
    (r : Bool × Ctx) (h : processStep env ex p off ctx = Step.ret r) : r.1 = false := by
  unfold processStep processValue at h
  simp only [] at h
  repeat' split at h
  all_goals first
    | (cases h; rfl)
    | cases h

/-- The slices of the entries that a successful extracting run of the loop leaves. -/
theorem processLoop_slices (env : Env) (d : List Char) (base : Nat) :
    ∀ (fuel k : Nat) (ctx c' : Ctx),
      (∀ e ∈ ctx.aiTable, e.ai.length ≤ 4 ∧ aiEntryMaxLength e ≤ 255) →
      k ≤ d.length →
      (∀ v ∈ ctx.aiData, ValueSlice d base v ∧ v.value + v.vallen ≤ base + k) →
      InInputOrder ctx.aiData →
      processLoop env true fuel (d.drop k) (base + k) ctx = (true, c') →
      (∀ v ∈ c'.aiData, ValueSlice d base v) ∧ InInputOrder c'.aiData := by
  intro fuel
  induction fuel with
  | zero =>
    intro k ctx c' _ _ _ _ h
    simp [processLoop] at h
  | succ n ih =>
    intro k ctx c' hT hk hinv hord h
    unfold processLoop at h
    by_cases hp : d.drop k = []
    · rw [if_pos hp] at h
      simp only [Prod.mk.injEq, true_and] at h
      subst h
      exact ⟨fun v hv => (hinv v hv).1, hord⟩
    rw [if_neg hp] at h
    cases hs : processStep env true (d.drop k) (base + k) ctx with
    | ret r =>
      rw [hs] at h
      simp only [] at h
      have := processStep_ret_false env true _ _ _ r hs
      rw [h] at this
      exact absurd this (by simp)
    | next p' off' ctx' =>
      rw [hs] at h
      simp only [] at h
      obtain ⟨v, j, hv1, hv2, hv3, hv4, hv5, hv6, hj1, hj2, hj3⟩ :=
        processStep_slice env (d.drop k) (base + k) ctx hT p' off' ctx' hs
      have hfr := processStep_frame env true (d.drop k) (base + k) ctx
      rw [hs] at hfr
      have htab : ctx'.aiTable = ctx.aiTable := hfr.2.2.2.2.2.2.1
      rw [List.length_drop] at hj1
      have hp' : p' = d.drop (k + j) := by
        rw [hj2, List.drop_drop, Nat.add_comm]
      have hoff : off' = base + (k + j) := by omega
      rw [hp', hoff] at h
      refine ih (k + j) ctx' c' (by rw [htab]; exact hT) (by omega) ?_ ?_ h
      · intro w hw
        rw [hv1] at hw
        rcases List.mem_append.mp hw with hw | hw
        · exact ⟨(hinv w hw).1, by have := (hinv w hw).2; omega⟩
        · rw [List.mem_singleton] at hw
          subst hw
          refine ⟨⟨by omega, hv3, hv4, by omega, ?_⟩, by omega⟩
          have : w.value - base = k + w.ailen := by omega
          rw [this, ← List.drop_drop]
          exact hv6
      · unfold InInputOrder
        rw [hv1, List.pairwise_append]
        refine ⟨hord, List.pairwise_singleton _ _, ?_⟩
        intro a ha b hb
        rw [List.mem_singleton] at hb
        subst hb
        have := (hinv a ha).2
        omega

/-! ## The slices of the extracted AIs -/

/-- C34: after a successful extracting run of gs1_processAIdata on the data `d` that
starts from an empty list of extracted AIs, over a table whose AIs have at most four
bytes and whose values have at most 255, every extracted entry has its AI slice and its
value slice inside `d`, the value slice begins where the AI slice ends, is not empty and
holds no `^`, and the entries are in input order: the AI slice of each entry starts at or
after the end of the value slice of every entry before it. -/
theorem extracted_slices (env : Env) (ctx : Ctx) (d : List Char) (base : Nat)
    (hT : ∀ e ∈ ctx.aiTable, e.ai.length ≤ 4 ∧ aiEntryMaxLength e ≤ 255)
    (hempty : ctx.aiData = [])
    (hok : (gs1_processAIdata env ctx d base true).1 = true) :
    (∀ v ∈ (gs1_processAIdata env ctx d base true).2.aiData, ValueSlice d base v) ∧
    InInputOrder (gs1_processAIdata env ctx d base true).2.aiData := by
  unfold gs1_processAIdata at hok ⊢
  simp only [] at hok ⊢
  by_cases h1 : d = [] ∨ charAt d 0 ≠ '^'
  · rw [if_pos h1] at hok; exact absurd hok (by simp)
  rw [if_neg h1] at hok ⊢
  by_cases h2 : d.drop 1 = []
  · rw [if_pos h2] at hok; exact absurd hok (by simp)
  rw [if_neg h2] at hok ⊢
  have hlen : 1 ≤ d.length := by
    cases d with
    | nil => exact absurd (Or.inl rfl) h1
    | cons a as => simp
  generalize hres : processLoop env true (d.length + 1) (d.drop 1) (base + 1)
    { ctx with errMsg := [], errFlag := false, linterErr := 0, linterErrMarkup := [] }
    = res at hok ⊢
  obtain ⟨b, c'⟩ := res
  simp only at hok
  subst hok
  refine processLoop_slices env d base (d.length + 1) 1
    { ctx with errMsg := [], errFlag := false, linterErr := 0, linterErrMarkup := [] }
    c' hT hlen ?_ ?_ hres
  · intro v hv
    change v ∈ ctx.aiData at hv
    rw [hempty] at hv
    exact absurd hv (List.not_mem_nil v)
  · show InInputOrder ctx.aiData
    rw [hempty]
    exact List.Pairwise.nil

theorem extracted_slices_witness :
    (∀ e ∈ demoCtx.aiTable, e.ai.length ≤ 4 ∧ aiEntryMaxLength e ≤ 255) ∧
    demoCtx.aiData = [] ∧
    (gs1_processAIdata demoEnv demoCtx "^011231231231233310ABC123^99TESTING".toList 0
      true).1 = true ∧
    (gs1_processAIdata demoEnv demoCtx "^011231231231233310ABC123^99TESTING".toList 0
      true).2.aiData.map (fun v => (v.ai, v.ailen, v.value, v.vallen))
        = [(1, 2, 3, 14), (17, 2, 19, 6), (26, 2, 28, 7)] ∧
    ((∀ v ∈ (gs1_processAIdata demoEnv demoCtx "^011231231231233310ABC123^99TESTING".toList
        0 true).2.aiData,
        ValueSlice "^011231231231233310ABC123^99TESTING".toList 0 v) ∧
      InInputOrder (gs1_processAIdata demoEnv demoCtx
        "^011231231231233310ABC123^99TESTING".toList 0 true).2.aiData) :=
  ⟨by decide, rfl, by decide, by decide,
    extracted_slices demoEnv demoCtx "^011231231231233310ABC123^99TESTING".toList 0
      (by decide) rfl (by decide)⟩

theorem validateParts_limit (env : Env) (m : Nat) (start : List Char) (r : Nat) :
    ∀ (parts : List AiComponent) (p : Nat),
      validateParts (withMaxAIs env m) start r parts p = validateParts env start r parts p := by
  intro parts
  induction parts with
  | nil => intro p; rfl
  | cons part parts ih =>
    intro p
    rw [validateParts_cons, validateParts_cons, ih, ih]
    rfl

theorem validate_ai_val_limit (env : Env) (m : Nat) (ctx : Ctx) (ai : List Char)
    (entry : AiEntry) (start : List Char) (r : Nat) :
    validate_ai_val (withMaxAIs env m) ctx ai entry start r =
      validate_ai_val env ctx ai entry start r := by
  unfold validate_ai_val validateAiVal
  rw [validateParts_limit]
  split
  · rfl
  · rename_i e _
    cases e <;> rfl

/-- What the second half of a processor step does to the extracted AIs: it returns false
and leaves them, or it does not extract and leaves them, or there is room and it appends
one entry. -/
theorem processValue_aiData (env : Env) (ex : Bool) (ai : List Char) (off : Nat)
    (entry : AiEntry) (p1 : List Char) (res : Nat × Ctx) :
    (∃ c, processValue env ex ai off entry p1 res = Step.ret (false, c) ∧
      c.aiData = res.2.aiData) ∨
    (ex = false ∧ (processValue env ex ai off entry p1 res).ctxOf.aiData = res.2.aiData) ∨
    (ex = true ∧ res.1 ≠ 0 ∧ res.2.aiData.length < env.MAX_AIS ∧
      ∃ v, (processValue env ex ai off entry p1 res).ctxOf.aiData = res.2.aiData ++ [v]) := by
  unfold processValue
  by_cases h0 : res.1 = 0
  · rw [if_pos h0]; exact Or.inl ⟨_, rfl, rfl⟩
  rw [if_neg h0]
  by_cases hm : ex = true ∧ res.2.aiData.length ≥ env.MAX_AIS
  · rw [if_pos hm]; exact Or.inl ⟨_, rfl, rfl⟩
  rw [if_neg hm]
  cases ex with
  | false =>
    refine Or.inr (Or.inl ⟨rfl, ?_⟩)
    simp only [Bool.false_eq_true, if_false]
    split_ifs <;> rfl
  | true =>
    refine Or.inr (Or.inr ⟨rfl, h0, by
      have : ¬ res.2.aiData.length ≥ env.MAX_AIS := fun h => hm ⟨rfl, h⟩
      omega, mkAiValue env entry off entry.ai.length (off + entry.ai.length) res.1, ?_⟩)
    simp only [if_true]
    split_ifs <;> rfl

/-- What a processor step does to the extracted AIs. -/
theorem processStep_aiData (env : Env) (ex : Bool) (p : List Char) (off : Nat) (ctx : Ctx) :
    (∃ c, processStep env ex p off ctx = Step.ret (false, c) ∧ c.aiData = ctx.aiData) ∨
    (ex = false ∧ (processStep env ex p off ctx).ctxOf.aiData = ctx.aiData) ∨
    (ex = true ∧ ctx.aiData.length < env.MAX_AIS ∧
      ∃ v, (processStep env ex p off ctx).ctxOf.aiData = ctx.aiData ++ [v]) := by
  unfold processStep
  cases hl : gs1_lookupAIentry ctx p 0 with
  | none => exact Or.inl ⟨_, rfl, rfl⟩
  | some entry =>
    simp only []
    by_cases hu : ex = true ∧ entry = unknownAI
    · rw [if_pos hu]; exact Or.inl ⟨_, rfl, rfl⟩
    rw [if_neg hu]
    have hv := (validate_ai_val_snd env ctx p entry (p.drop entry.ai.length)
      (match strchr (p.drop entry.ai.length) '^' with
        | some i => i
        | none => (p.drop entry.ai.length).length)).2
    rcases processValue_aiData env ex p off entry (p.drop entry.ai.length)
      (validate_ai_val env ctx p entry (p.drop entry.ai.length)
        (match strchr (p.drop entry.ai.length) '^' with
          | some i => i
          | none => (p.drop entry.ai.length).length)) with
      ⟨c, h1, h2⟩ | ⟨h1, h2⟩ | ⟨h1, _, h2, v, h3⟩
    · exact Or.inl ⟨c, h1, h2.trans hv⟩
    · exact Or.inr (Or.inl ⟨h1, h2.trans hv⟩)
    · exact Or.inr (Or.inr ⟨h1, hv ▸ h2, v, hv ▸ h3⟩)

/-- The number of extracted AIs stays within the limit through the processor loop. -/
theorem processLoop_count (env : Env) (ex : Bool) :
    ∀ (fuel : Nat) (p : List Char) (off : Nat) (ctx : Ctx),
      ctx.aiData.length ≤ env.MAX_AIS →
      (processLoop env ex fuel p off ctx).2.aiData.length ≤ env.MAX_AIS := by
  intro fuel
  induction fuel with
  | zero => intro p off ctx h; exact h
  | succ n ih =>
    intro p off ctx h
    unfold processLoop
    by_cases hp : p = []
    · rw [if_pos hp]; exact h
    rw [if_neg hp]
    have hs : (processStep env ex p off ctx).ctxOf.aiData.length ≤ env.MAX_AIS := by
      rcases processStep_aiData env ex p off ctx with ⟨c, h1, h2⟩ | ⟨_, h2⟩ | ⟨_, h2, v, h3⟩
      · rw [h1]; show c.aiData.length ≤ _; rw [h2]; exact h
      · rw [h2]; exact h
      · rw [h3, List.length_append]; simpa using h2
    cases hstep : processStep env ex p off ctx with
    | ret r => rw [hstep] at hs; exact hs
    | next p' off' ctx' => rw [hstep] at hs; exact ih p' off' ctx' hs

theorem processAIdata_count (env : Env) (ctx : Ctx) (d : List Char) (base : Nat) (ex : Bool)
    (h : ctx.aiData.length ≤ env.MAX_AIS) :
    (gs1_processAIdata env ctx d base ex).2.aiData.length ≤ env.MAX_AIS := by
  unfold gs1_processAIdata
  simp only []
  split_ifs
  · exact h
  · exact h
  · exact processLoop_count env ex _ _ _ _ h

/-- With no room left, an extracting step that would append an AI if there were room
returns false with the message "Too many AIs" and leaves the extracted AIs. -/
theorem processStep_full (env : Env) (m : Nat) (p : List Char) (off : Nat) (ctx : Ctx)
    (hfull : env.MAX_AIS ≤ ctx.aiData.length)
    (happ : (processStep (withMaxAIs env m) true p off ctx).ctxOf.aiData ≠ ctx.aiData) :
    ∃ c, processStep env true p off ctx = Step.ret (false, c) ∧
      c.errMsg = "Too many AIs".toList ∧ c.aiData = ctx.aiData := by
  cases hl : gs1_lookupAIentry ctx p 0 with
  | none =>
    unfold processStep at happ
    rw [hl] at happ
    exact absurd rfl happ
  | some entry =>
    by_cases hu : entry = unknownAI
    · unfold processStep at happ
      rw [hl] at happ
      simp only [hu, and_self, if_true] at happ
      exact absurd rfl happ
    have hne : ¬ (true = true ∧ entry = unknownAI) := fun h => hu h.2
    rw [processStep_known _ _ _ _ _ entry hl hne] at happ ⊢
    rw [validate_ai_val_limit] at happ
    have hres := (validate_ai_val_snd env ctx p entry (p.drop entry.ai.length)
      (caretIndex (p.drop entry.ai.length))).2
    generalize validate_ai_val env ctx p entry (p.drop entry.ai.length)
      (caretIndex (p.drop entry.ai.length)) = res at happ hres ⊢
    unfold processValue at happ ⊢
    by_cases h0 : res.1 = 0
    · rw [if_pos h0] at happ; exact absurd hres happ
    rw [if_neg h0, if_pos ⟨rfl, by rw [hres]; exact hfull⟩]
    exact ⟨_, rfl, rfl, hres⟩

theorem processAIdata_full_fail (env : Env) (ctx : Ctx) (d : List Char) (base : Nat)
    (hfull : env.MAX_AIS ≤ ctx.aiData.length) :
    (gs1_processAIdata env ctx d base true).1 = false ∧
    (gs1_processAIdata env ctx d base true).2.aiData = ctx.aiData := by
  unfold gs1_processAIdata
  simp only []
  by_cases h1 : d = [] ∨ charAt d 0 ≠ '^'
  · rw [if_pos h1]; exact ⟨rfl, rfl⟩
  rw [if_neg h1]
  by_cases h2 : d.drop 1 = []
  · rw [if_pos h2]; exact ⟨rfl, rfl⟩
  rw [if_neg h2, processLoop, if_neg h2]
  rcases processStep_aiData env true (d.drop 1) (base + 1)
    { ctx with errMsg := [], errFlag := false, linterErr := 0, linterErrMarkup := [] } with
    ⟨c, h3, h4⟩ | ⟨h, _⟩ | ⟨_, h3, _⟩
  · rw [h3]; exact ⟨rfl, h4⟩
  · cases h
  · exact absurd hfull (by
      have : ctx.aiData.length < env.MAX_AIS := h3
      omega)

/-- With no room left, extracting input that would append an AI if there were room
fails with the message "Too many AIs" and leaves the extracted AIs. -/
theorem processAIdata_full (env : Env) (m : Nat) (ctx : Ctx) (d : List Char) (base : Nat)
    (hfull : env.MAX_AIS ≤ ctx.aiData.length)
    (happ : (gs1_processAIdata (withMaxAIs env m) ctx d base true).2.aiData ≠ ctx.aiData) :
    ∃ c, gs1_processAIdata env ctx d base true = (false, c) ∧
      c.errMsg = "Too many AIs".toList ∧ c.aiData = ctx.aiData := by
  unfold gs1_processAIdata at happ ⊢
  simp only [] at happ ⊢
  by_cases h1 : d = [] ∨ charAt d 0 ≠ '^'
  · rw [if_pos h1] at happ; exact absurd rfl happ
  rw [if_neg h1] at happ ⊢
  by_cases h2 : d.drop 1 = []
  · rw [if_pos h2] at happ; exact absurd rfl happ
  rw [if_neg h2, processLoop, if_neg h2] at happ
  rw [if_neg h2, processLoop, if_neg h2]
  have hstep : (processStep (withMaxAIs env m) true (d.drop 1) (base + 1)
      { ctx with errMsg := [], errFlag := false, linterErr := 0,
                 linterErrMarkup := [] }).ctxOf.aiData ≠ ctx.aiData := by
    rcases processStep_aiData (withMaxAIs env m) true (d.drop 1) (base + 1)
      { ctx with errMsg := [], errFlag := false, linterErr := 0, linterErrMarkup := [] } with
      ⟨c, h3, h4⟩ | ⟨h, _⟩ | ⟨_, _, v, h3⟩
    · rw [h3] at happ; exact absurd h4 happ
    · cases h
    · rw [h3]
      intro h
      have := congrArg List.length h
      simp at this
  obtain ⟨c, hc, hm, ha⟩ := processStep_full env m (d.drop 1) (base + 1)
    { ctx with errMsg := [], errFlag := false, linterErr := 0, linterErrMarkup := [] }
    hfull hstep
  rw [hc]
  exact ⟨c, rfl, hm, ha⟩

theorem lengthCheck_aiData (ctx : Ctx) (ai : List Char) (entry : AiEntry) (v : List Char)
    (n : Nat) : (gs1_aiValLengthContentCheck ctx ai entry v n).2.aiData = ctx.aiData := by
  unfold gs1_aiValLengthContentCheck
  split_ifs <;> rfl

theorem copyValue_limit (env : Env) (m : Nat) :
    ∀ (fuel : Nat) (r : List Char) (prev : Char) (d : List Char),
      copyValue (withMaxAIs env m) fuel r prev d = copyValue env fuel r prev d := by
  intro fuel
  induction fuel with
  | zero => intro r prev d; rfl
  | succ n ih =>
    intro r prev d
    unfold copyValue
    simp only [ih]
    rfl

/-- A failing step of the parser loop leaves the extracted AIs; and with no room left, a
step that would append an AI if there were room fails with the message "Too many AIs". -/
theorem parseStep_limit (env : Env) (m : Nat) (c : Char) (p : List Char) (f : Bool)
    (ctx : Ctx) :
    (∀ c', parseStep env c p f ctx = ParseStep.fail c' → c'.aiData = ctx.aiData) ∧
    (∀ p' f' ctx', parseStep (withMaxAIs env m) c p f ctx = ParseStep.next p' f' ctx' →
      env.MAX_AIS ≤ ctx.aiData.length →
      ∃ c', parseStep env c p f ctx = ParseStep.fail c' ∧
        c'.errMsg = "Too many AIs".toList ∧ c'.aiData = ctx.aiData) := by
  have e1 : writeDataStr (withMaxAIs env m) = writeDataStr env := rfl
  have e2 : nwriteDataStr (withMaxAIs env m) = nwriteDataStr env := rfl
  have e3 : mkAiValue (withMaxAIs env m) = mkAiValue env := rfl
  unfold parseStep
  simp only [e1, e2, e3, copyValue_limit]
  by_cases hc : c ≠ '('
  · simp only [if_pos hc]
    exact ⟨fun c' h => by cases h; rfl, fun _ _ _ h => by cases h⟩
  simp only [if_neg hc]
  cases hs : strchr p ')' with
  | none => exact ⟨fun c' h => by cases h; rfl, fun _ _ _ h => by cases h⟩
  | some ailen =>
    simp only []
    cases hl : gs1_lookupAIentry ctx p ailen with
    | none => exact ⟨fun c' h => by cases h; rfl, fun _ _ _ h => by cases h⟩
    | some entry =>
      simp only []
      cases hw1 : (if f = true then writeDataStr env ctx.dataStr "^".toList
          else some ctx.dataStr) with
      | none => exact ⟨fun c' h => by cases h; rfl, fun _ _ _ h => by cases h⟩
      | some d1 =>
        simp only []
        cases hw2 : nwriteDataStr env d1 p ailen with
        | none => exact ⟨fun c' h => by cases h; rfl, fun _ _ _ h => by cases h⟩
        | some d2 =>
          simp only []
          by_cases hr : p.drop (ailen + 1) = []
          · simp only [if_pos hr]
            exact ⟨fun c' h => by cases h; rfl, fun _ _ _ h => by cases h⟩
          simp only [if_neg hr]
          cases hcv : copyValue env ((p.drop (ailen + 1)).length + 1) (p.drop (ailen + 1))
              ')' d2 with
          | none => exact ⟨fun c' h => by cases h; rfl, fun _ _ _ h => by cases h⟩
          | some res =>
            obtain ⟨d3, q⟩ := res
            simp only []
            have ha := lengthCheck_aiData { ctx with dataStr := d3 } p entry
              (d3.drop d2.length) (d3.drop d2.length).length
            by_cases hg : (gs1_aiValLengthContentCheck { ctx with dataStr := d3 } p entry
                (d3.drop d2.length) (d3.drop d2.length).length).1 = false
            · simp only [if_pos hg]
              exact ⟨fun c' h => by cases h; exact ha, fun _ _ _ h => by cases h⟩
            simp only [if_neg hg]
            constructor
            · intro c' h
              split at h
              · cases h; exact ha
              · cases h
            · intro p' f' ctx' _ hfull
              rw [if_pos (by rw [ha]; exact hfull)]
              exact ⟨_, rfl, rfl, ha⟩

/-- What a step of the parser loop does to the extracted AIs: it fails and leaves them,
or there is room and it appends one entry. -/
theorem parseStep_aiData (env : Env) (c : Char) (p : List Char) (f : Bool) (ctx : Ctx) :
    (∃ c', parseStep env c p f ctx = ParseStep.fail c' ∧ c'.aiData = ctx.aiData) ∨
    (ctx.aiData.length < env.MAX_AIS ∧ ∃ p' f' c',
      parseStep env c p f ctx = ParseStep.next p' f' c' ∧
      c'.aiData.length = ctx.aiData.length + 1) := by
  cases h : parseStep env c p f ctx with
  | fail c' => exact Or.inl ⟨c', rfl, (parseStep_limit env 0 c p f ctx).1 c' h⟩
  | next p' f' c' =>
    obtain ⟨s, _, _, _, _, _, _, _, hlt, hc⟩ := parseStep_spec env c p f ctx p' f' c' h
    refine Or.inr ⟨hlt, p', f', c', rfl, ?_⟩
    rw [hc]
    simp [segAiValues]

/-- The number of extracted AIs stays within the limit through the parser loop. -/
theorem parseLoop_count (env : Env) :
    ∀ (fuel : Nat) (p : List Char) (f : Bool) (ctx : Ctx),
      ctx.aiData.length ≤ env.MAX_AIS →
      (parseLoop env fuel p f ctx).2.aiData.length ≤ env.MAX_AIS := by
  intro fuel
  induction fuel with
  | zero => intro p f ctx h; exact h
  | succ n ih =>
    intro p f ctx h
    unfold parseLoop
    cases p with
    | nil => exact h
    | cons c p =>
      simp only []
      rcases parseStep_aiData env c p f ctx with ⟨c', h1, h2⟩ | ⟨hlt, p', f', c', h1, h2⟩
      · rw [h1]; show c'.aiData.length ≤ _; rw [h2]; exact h
      · rw [h1]
        refine ih p' f' c' ?_
        rw [h2]
        exact hlt

theorem parseAIdata_count (env : Env) (ctx : Ctx) (s : List Char)
    (h : ctx.aiData.length ≤ env.MAX_AIS) :
    (gs1_parseAIdata env ctx s).2.aiData.length ≤ env.MAX_AIS := by
  have hl := parseLoop_count env (s.length + 1) s true
    { ctx with dataStr := [], errMsg := [], errFlag := false, linterErr := 0,
               linterErrMarkup := [] } h
  unfold gs1_parseAIdata
  simp only []
  cases hloop : parseLoop env (s.length + 1) s true
      { ctx with dataStr := [], errMsg := [], errFlag := false, linterErr := 0,
                 linterErrMarkup := [] } with
  | mk b ctx1 =>
    rw [hloop] at hl
    cases b with
    | true =>
      simp only []
      rw [processAIdata_false_aiData]
      exact hl
    | false =>
      simp only []
      split_ifs <;> exact hl

/-- With no room left, bracketed input that would append an AI if there were room fails
with the message "Too many AIs" and leaves the extracted AIs. -/
theorem parseAIdata_full (env : Env) (m : Nat) (ctx : Ctx) (s : List Char)
    (hfull : env.MAX_AIS ≤ ctx.aiData.length)
    (happ : (gs1_parseAIdata (withMaxAIs env m) ctx s).2.aiData ≠ ctx.aiData) :
    ∃ c, gs1_parseAIdata env ctx s = (false, c) ∧
      c.errMsg = "Too many AIs".toList ∧ c.aiData = ctx.aiData := by
  cases s with
  | nil =>
    simp only [gs1_parseAIdata, parseLoop] at happ
    rw [processAIdata_false_aiData] at happ
    exact absurd rfl happ
  | cons c p =>
    unfold gs1_parseAIdata at happ ⊢
    simp only [] at happ ⊢
    rw [parseLoop] at happ ⊢
    cases hstep : parseStep (withMaxAIs env m) c p true
        { ctx with dataStr := [], errMsg := [], errFlag := false, linterErr := 0,
                   linterErrMarkup := [] } with
    | fail c1 =>
      rw [hstep] at happ
      have ha := (parseStep_limit (withMaxAIs env m) 0 c p true _).1 c1 hstep
      simp only [] at happ
      exfalso
      apply happ
      split_ifs <;> exact ha
    | next p' f' ctx' =>
      obtain ⟨c', hc, hm, ha⟩ := (parseStep_limit env m c p true _).2 p' f' ctx' hstep hfull
      rw [hc]
      simp only []
      have hne : c'.errMsg ≠ [] := by rw [hm]; decide
      rw [if_neg hne]
      exact ⟨_, rfl, hm, ha⟩

/-! ## The limit on the number of extracted AIs -/

/-- C35: when the number of extracted AIs is at most MAX_AIS before the call, it is at
most MAX_AIS after gs1_parseAIdata and after gs1_processAIdata, whatever they return; and
when it equals MAX_AIS, an input that would append an AI if there were room for one more
makes either function return false with the message "Too many AIs" and the extracted AIs
as they were. -/
theorem ai_count_bounded (env : Env) (ctx : Ctx) (hle : ctx.aiData.length ≤ env.MAX_AIS) :
    (∀ s, (gs1_parseAIdata env ctx s).2.aiData.length ≤ env.MAX_AIS) ∧
    (∀ d base ex, (gs1_processAIdata env ctx d base ex).2.aiData.length ≤ env.MAX_AIS) ∧
    (ctx.aiData.length = env.MAX_AIS →
      (∀ s, (gs1_parseAIdata (withMaxAIs env (env.MAX_AIS + 1)) ctx s).2.aiData ≠ ctx.aiData →
        (gs1_parseAIdata env ctx s).1 = false ∧
        (gs1_parseAIdata env ctx s).2.errMsg = "Too many AIs".toList ∧
        (gs1_parseAIdata env ctx s).2.aiData = ctx.aiData) ∧
      (∀ d base,
        (gs1_processAIdata (withMaxAIs env (env.MAX_AIS + 1)) ctx d base true).2.aiData
          ≠ ctx.aiData →
        (gs1_processAIdata env ctx d base true).1 = false ∧
        (gs1_processAIdata env ctx d base true).2.errMsg = "Too many AIs".toList ∧
        (gs1_processAIdata env ctx d base true).2.aiData = ctx.aiData)) := by
  refine ⟨fun s => parseAIdata_count env ctx s hle,
    fun d base ex => processAIdata_count env ctx d base ex hle, ?_⟩
  intro hfull
  constructor
  · intro s happ
    obtain ⟨c, hc, hm, ha⟩ := parseAIdata_full env _ ctx s (Nat.le_of_eq hfull.symm) happ
    rw [hc]
    exact ⟨rfl, hm, ha⟩
  · intro d base happ
    obtain ⟨c, hc, hm, ha⟩ :=
      processAIdata_full env _ ctx d base (Nat.le_of_eq hfull.symm) happ
    rw [hc]
    exact ⟨rfl, hm, ha⟩

theorem ai_count_bounded_witness :
    demoCtx.aiData.length ≤ fullEnv.MAX_AIS ∧ demoCtx.aiData.length = fullEnv.MAX_AIS ∧
    (gs1_parseAIdata (withMaxAIs fullEnv (fullEnv.MAX_AIS + 1)) demoCtx
      "(99)X".toList).2.aiData ≠ demoCtx.aiData ∧
    (gs1_processAIdata (withMaxAIs fullEnv (fullEnv.MAX_AIS + 1)) demoCtx
      "^99X".toList 0 true).2.aiData ≠ demoCtx.aiData ∧
    ((gs1_parseAIdata fullEnv demoCtx "(99)X".toList).1 = false ∧
      (gs1_parseAIdata fullEnv demoCtx "(99)X".toList).2.errMsg = "Too many AIs".toList ∧
      (gs1_parseAIdata fullEnv demoCtx "(99)X".toList).2.aiData = demoCtx.aiData) ∧
    ((gs1_processAIdata fullEnv demoCtx "^99X".toList 0 true).1 = false ∧
      (gs1_processAIdata fullEnv demoCtx "^99X".toList 0 true).2.errMsg
        = "Too many AIs".toList ∧
      (gs1_processAIdata fullEnv demoCtx "^99X".toList 0 true).2.aiData = demoCtx.aiData) :=
  ⟨by decide, by decide, by decide, by decide,
    ((ai_count_bounded fullEnv demoCtx (by decide)).2.2 (by decide)).1 "(99)X".toList
      (by decide),
    ((ai_count_bounded fullEnv demoCtx (by decide)).2.2 (by decide)).2 "^99X".toList 0
      (by decide)⟩

theorem mutexLoop_true_snd (env : Env) (ctx : Ctx) :
    ∀ l : List AiValue, (mutexLoop env ctx l).1 = true → (mutexLoop env ctx l).2 = ctx := by
  intro l
  induction l with
  | nil => intro _; rfl
  | cons a rest ih =>
    unfold mutexLoop
    repeat' split
    all_goals first
      | exact ih
      | (intro h; exact absurd h Bool.false_ne_true)

theorem requisitesLoop_true_snd (env : Env) (ctx : Ctx) :
    ∀ l : List AiValue, (requisitesLoop env ctx l).1 = true →
      (requisitesLoop env ctx l).2 = ctx := by
  intro l
  induction l with
  | nil => intro _; rfl
  | cons a rest ih =>
    unfold requisitesLoop
    repeat' split
    all_goals first
      | exact ih
      | (intro h; exact absurd h Bool.false_ne_true)

theorem repeatsLoop_true_snd (ctx : Ctx) :
    ∀ l : List AiValue, (repeatsLoop ctx l).1 = true → (repeatsLoop ctx l).2 = ctx := by
  intro l
  induction l with
  | nil => intro _; rfl
  | cons a rest ih =>
    unfold repeatsLoop
    repeat' split
    all_goals first
      | exact ih
      | (intro h; exact absurd h Bool.false_ne_true)

/-- A validation pass that returns true leaves the context as it was. -/
theorem callValidation_true (env : Env) (ctx : Ctx) (fn : ValidationFn)
    (h : (callValidation env ctx fn).1 = true) : callValidation env ctx fn = (true, ctx) := by
  have h2 : (callValidation env ctx fn).2 = ctx := by
    cases fn
    · exact mutexLoop_true_snd env ctx _ h
    · exact requisitesLoop_true_snd env ctx _ h
    · exact repeatsLoop_true_snd ctx _ h
  exact Prod.ext h h2

/-- The loop over the validation table, read off the table: it returns true with the
context unchanged when every enabled pass returns true, and else it returns what the first
enabled pass that fails returns. -/
theorem validateAIsLoop_spec (env : Env) (ctx : Ctx) : ∀ t : List ValidationEntry,
    ((∀ v ∈ t, v.enabled = true → ∀ fn, v.fn = some fn →
        (callValidation env ctx fn).1 = true) ∧
      validateAIsLoop env t ctx = (true, ctx)) ∨
    (∃ pre v post fn, t = pre ++ v :: post ∧
      (∀ w ∈ pre, w.enabled = true → ∀ g, w.fn = some g →
        (callValidation env ctx g).1 = true) ∧
      v.enabled = true ∧ v.fn = some fn ∧ (callValidation env ctx fn).1 = false ∧
      validateAIsLoop env t ctx = callValidation env ctx fn) := by
  intro t
  induction t with
  | nil => exact Or.inl ⟨fun v hv => absurd hv (List.not_mem_nil v), rfl⟩
  | cons v vs ih =>
    have hskip : validateAIsLoop env vs ctx = validateAIsLoop env (v :: vs) ctx →
        (∀ fn, v.enabled = true → v.fn = some fn → (callValidation env ctx fn).1 = true) →
        ((∀ u ∈ v :: vs, u.enabled = true → ∀ fn, u.fn = some fn →
            (callValidation env ctx fn).1 = true) ∧
          validateAIsLoop env (v :: vs) ctx = (true, ctx)) ∨
        (∃ pre w post fn, v :: vs = pre ++ w :: post ∧
          (∀ w ∈ pre, w.enabled = true → ∀ g, w.fn = some g →
            (callValidation env ctx g).1 = true) ∧
          w.enabled = true ∧ w.fn = some fn ∧ (callValidation env ctx fn).1 = false ∧
          validateAIsLoop env (v :: vs) ctx = callValidation env ctx fn) := by
      intro heq hv
      rcases ih with ⟨hall, hres⟩ | ⟨pre, w, post, fn, ht, hpre, hen, hfn, hfalse, hres⟩
      · refine Or.inl ⟨?_, heq ▸ hres⟩
        intro u hu hue fn hufn
        rcases List.mem_cons.mp hu with rfl | hu
        · exact hv fn hue hufn
        · exact hall u hu hue fn hufn
      · refine Or.inr ⟨v :: pre, w, post, fn, by rw [ht]; rfl, ?_, hen, hfn, hfalse,
          heq ▸ hres⟩
        intro u hu hue g hug
        rcases List.mem_cons.mp hu with rfl | hu
        · exact hv g hue hug
        · exact hpre u hu hue g hug
    cases hf : v.fn with
    | none =>
      refine hskip ?_ ?_
      · rw [validateAIsLoop, hf]
      · intro fn _ h; rw [hf] at h; cases h
    | some f =>
      by_cases hen : v.enabled = true
      · cases hc : (callValidation env ctx f).1 with
        | true =>
          have hcv := callValidation_true env ctx f hc
          refine hskip ?_ ?_
          · rw [validateAIsLoop, hf]
            simp only [hen, if_true, hcv]
          · intro fn _ h
            rw [hf] at h
            rw [← Option.some.inj h]; exact hc
        | false =>
          refine Or.inr ⟨[], v, vs, f, rfl, fun w hw => absurd hw (List.not_mem_nil w),
            hen, hf, hc, ?_⟩
          rw [validateAIsLoop, hf]
          simp only [hen, if_true]
          generalize callValidation env ctx f = r at hc ⊢
          obtain ⟨b, c⟩ := r
          simp only at hc
          subst hc
          rfl
      · refine hskip ?_ ?_
        · rw [validateAIsLoop, hf]
          simp only []
          rw [if_neg hen]
        · intro fn h _; exact absurd h hen

/-- Disabled entries and entries without a function do not matter to the loop. -/
theorem validateAIsLoop_filter (env : Env) : ∀ (t : List ValidationEntry) (ctx : Ctx),
    validateAIsLoop env t ctx =
      validateAIsLoop env (t.filter (fun v => v.enabled && v.fn.isSome)) ctx := by
  intro t
  induction t with
  | nil => intro ctx; rfl
  | cons v vs ih =>
    intro ctx
    cases hf : v.fn with
    | none =>
      rw [validateAIsLoop, hf, List.filter_cons_of_neg (by simp [hf])]
      exact ih ctx
    | some f =>
      by_cases hen : v.enabled = true
      · rw [List.filter_cons_of_pos (by simp [hf, hen])]
        rw [validateAIsLoop, hf, validateAIsLoop, hf]
        simp only [hen, if_true]
        split
        · rfl
        · exact ih _
      · rw [validateAIsLoop, hf, List.filter_cons_of_neg (by simp [hen])]
        simp only []
        rw [if_neg hen]
        exact ih ctx

/-! ## The validation passes in table order -/

/-- C37: for an entry with at least one component, all of `max >= 1`, a successful
`validate_ai_val` on a value of `r` bytes returns `min(r, sum of the max lengths)`, which
is at least 1; so the return value 0 is an error exit and never a success. -/
theorem validate_consumed (env : Env) (ctx : Ctx) (ai : List Char) (entry : AiEntry)
    (start : List Char) (r : Nat) (hr : r ≤ start.length) (hparts : entry.parts ≠ [])
    (hmax : ∀ part ∈ entry.parts, 1 ≤ part.max) :
    (∀ n, validateAiVal env entry start r = Except.ok n →
      (validate_ai_val env ctx ai entry start r).1 = min r (aiEntryMaxLength entry) ∧
      1 ≤ (validate_ai_val env ctx ai entry start r).1) ∧
    ((validate_ai_val env ctx ai entry start r).1 = 0 ↔
      ∃ e, validateAiVal env entry start r = Except.error e) := by
  have hsum : 1 ≤ aiEntryMaxLength entry := by
    unfold aiEntryMaxLength
    cases hp : entry.parts with
    | nil => exact absurd hp hparts
    | cons a as =>
      have := hmax a (by rw [hp]; exact List.mem_cons_self _ _)
      simp only [List.map_cons, List.sum_cons]
      omega
  have hok : ∀ n, validateAiVal env entry start r = Except.ok n →
      n = min r (aiEntryMaxLength entry) ∧ 1 ≤ n := by
    intro n h
    have hn := validateAiVal_ok_len env entry start r n hr h
    refine ⟨hn, ?_⟩
    have hr0 : r ≠ 0 := by
      intro h0
      unfold validateAiVal at h
      rw [if_pos h0] at h
      exact absurd h (by simp)
    rw [hn]
    omega
  rw [validate_ai_val_fst]
  constructor
  · intro n h
    rw [h]
    exact ⟨(hok n h).1, (hok n h).2⟩
  · cases h : validateAiVal env entry start r with
    | ok n =>
      have := (hok n h).2
      simp only []
      constructor
      · intro h0; omega
      · rintro ⟨e, he⟩; exact absurd he (by simp)
    | error e =>
      simp only []
      exact ⟨fun _ => ⟨e, rfl⟩, fun _ => by trivial⟩

theorem validate_consumed_witness :
    "ABC123^99X".toList.length ≥ 6 ∧ e10.parts ≠ [] ∧ (∀ part ∈ e10.parts, 1 ≤ part.max) ∧
    (validate_ai_val demoEnv demoCtx "10ABC123^99X".toList e10 "ABC123^99X".toList 6).1 = 6 ∧
    ((∀ n, validateAiVal demoEnv e10 "ABC123^99X".toList 6 = Except.ok n →
      (validate_ai_val demoEnv demoCtx "10ABC123^99X".toList e10 "ABC123^99X".toList 6).1 =
        min 6 (aiEntryMaxLength e10) ∧
      1 ≤ (validate_ai_val demoEnv demoCtx "10ABC123^99X".toList e10
        "ABC123^99X".toList 6).1) ∧
    ((validate_ai_val demoEnv demoCtx "10ABC123^99X".toList e10 "ABC123^99X".toList 6).1 = 0 ↔
      ∃ e, validateAiVal demoEnv e10 "ABC123^99X".toList 6 = Except.error e)) :=
  ⟨by decide, by decide, by decide, by decide,
    validate_consumed demoEnv demoCtx "10ABC123^99X".toList e10 "ABC123^99X".toList 6
      (by decide) (by decide) (by decide)⟩

/-! ## The data buffer across the generation of scan data -/

/-- C38 (failing input): for QR Code and Data Matrix with the plain data `AB|CD`,
gs1_generateScanData returns the scan data of the whole string and leaves `A||CD` in the
data buffer: the delimiter has been put back before the output is written, and the exit
path then writes `|` over the byte before it. AI data with a delimiter, and plain data
without one, are left as they were. -/
theorem generate_overwrites_plain_data :
    gs1_generateScanData { demoCtx with sym := Sym.sQR, dataStr := "AB|CD".toList } =
      (some "]Q1AB|CD".toList,
        { demoCtx with sym := Sym.sQR, dataStr := "A||CD".toList,
                       outStr := "]Q1AB|CD".toList }) ∧
    (gs1_generateScanData
      { demoCtx with sym := Sym.sDM, dataStr := "AB|CD".toList }).2.dataStr
        = "A||CD".toList ∧
    (gs1_generateScanData
      { demoCtx with sym := Sym.sDataBarExpanded,
                     dataStr := "^99A|^98B".toList }).2.dataStr = "^99A|^98B".toList ∧
    (gs1_generateScanData
      { demoCtx with sym := Sym.sQR, dataStr := "^99A|^98B".toList }).2.dataStr
        = "^99A|^98B".toList ∧
    (gs1_generateScanData
      { demoCtx with sym := Sym.sQR, dataStr := "TESTING".toList }).2.dataStr
        = "TESTING".toList := by
  refine ⟨by decide, by decide, by decide, by decide, by decide⟩

theorem weightedFrom_append_list (w : Nat) (hw : w = 3 ∨ w = 1) : ∀ (xs ys : List Char),
    weightedFrom w (xs ++ ys) =
      weightedFrom w xs + weightedFrom (if xs.length % 2 = 0 then w else 4 - w) ys := by
  intro xs
  induction xs generalizing w with
  | nil => intro ys; simp [weightedFrom]
  | cons x xs ih =>
    intro ys
    have h4 : 4 - w = 3 ∨ 4 - w = 1 := by rcases hw with h | h <;> subst h <;> simp
    have h44 : 4 - (4 - w) = w := by rcases hw with h | h <;> subst h <;> rfl
    simp only [List.cons_append, weightedFrom, List.length_cons, List.append_eq]
    rw [ih (4 - w) h4 ys, h44]
    by_cases hx : xs.length % 2 = 0
    · rw [if_pos hx, if_neg (by omega)]; omega
    · rw [if_neg hx, if_pos (by omega)]; omega

/-- Replacing one digit by a different digit changes the check digit. -/
theorem specCheckDigit_replace (a b : List Char) (x y : Char)
    (hx : isDigit x = true) (hy : isDigit y = true) (hxy : x ≠ y) :
    specCheckDigit (a ++ x :: b) ≠ specCheckDigit (a ++ y :: b) := by
  have hvx := digit_toNat x hx
  have hvy := digit_toNat y hy
  have hne : digitVal x ≠ digitVal y := by
    unfold digitVal
    intro h
    apply hxy
    have : x.toNat = y.toNat := by omega
    exact Char.ext (UInt32.ext (by simpa [Char.toNat, UInt32.toNat] using this))
  have hdx : digitVal x ≤ 9 := by unfold digitVal; omega
  have hdy : digitVal y ≤ 9 := by unfold digitVal; omega
  unfold specCheckDigit specWeightedSum
  simp only [List.reverse_append, List.reverse_cons, List.append_assoc, List.singleton_append]
  rw [weightedFrom_append_list 3 (Or.inl rfl), weightedFrom_append_list 3 (Or.inl rfl)]
  simp only [weightedFrom]
  generalize weightedFrom 3 b.reverse = B
  generalize digitVal x = dx at hne hdx
  generalize digitVal y = dy at hne hdy
  by_cases hb : b.reverse.length % 2 = 0
  · simp only [if_pos hb]
    generalize weightedFrom (4 - 3) a.reverse = A
    omega
  · simp only [if_neg hb]
    generalize weightedFrom (4 - (4 - 3)) a.reverse = A
    omega

/-! ## Error detection of the check digit -/

/-- C39: the check digit detects every single-digit error. When `gs1_validateParity`
returns true on a string of digits, replacing any one digit, a data digit or the check
digit, by a different digit gives a string on which it returns false. -/
theorem parity_detects_single_error (a b : List Char) (x y : Char)
    (hd : ∀ c ∈ a ++ x :: b, isDigit c = true) (hy : isDigit y = true) (hxy : x ≠ y)
    (hok : (gs1_validateParity (a ++ x :: b)).1 = true) :
    (gs1_validateParity (a ++ y :: b)).1 = false := by
  have hx : isDigit x = true := hd x (by simp)
  have hchar : ∀ m n : Nat, m < 10 → n < 10 → Char.ofNat (48 + m) = Char.ofNat (48 + n) →
      m = n := by
    intro m n hm hn h
    have := congrArg Char.toNat h
    rw [checkChar_toNat m hm, checkChar_toNat n hn] at this
    omega
  rcases List.eq_nil_or_concat b with hb | ⟨b', l, hb⟩
  · -- the check digit is replaced
    subst hb
    have ha : ∀ c ∈ a, isDigit c = true := fun c hc => hd c (by simp [hc])
    rw [validateParity_spec a x ha] at hok
    rw [validateParity_spec a y ha]
    by_cases h : x = specCheckChar a
    · rw [if_neg (fun h2 => hxy (h.trans h2.symm))]
    · rw [if_neg h] at hok
      exact absurd hok (by simp)
  · -- a data digit is replaced
    rw [List.concat_eq_append] at hb
    subst hb
    have e1 : a ++ x :: (b' ++ [l]) = (a ++ x :: b') ++ [l] := by simp
    have e2 : a ++ y :: (b' ++ [l]) = (a ++ y :: b') ++ [l] := by simp
    have h1 : ∀ c ∈ a ++ x :: b', isDigit c = true := by
      intro c hc
      apply hd c
      rw [e1]
      exact List.mem_append_left _ hc
    have h2 : ∀ c ∈ a ++ y :: b', isDigit c = true := by
      intro c hc
      rcases List.mem_append.mp hc with h | h
      · exact h1 c (List.mem_append_left _ h)
      · rcases List.mem_cons.mp h with h | h
        · rw [h]; exact hy
        · exact h1 c (List.mem_append_right _ (List.mem_cons_of_mem _ h))
    rw [e1, validateParity_spec _ l h1] at hok
    rw [e2, validateParity_spec _ l h2]
    by_cases h : l = specCheckChar (a ++ x :: b')
    · have hne : ¬ l = specCheckChar (a ++ y :: b') := by
        intro h'
        have := h.symm.trans h'
        unfold specCheckChar at this
        exact specCheckDigit_replace a b' x y hx hy hxy
          (hchar _ _ (specCheckDigit_lt _) (specCheckDigit_lt _) this)
      rw [if_neg hne]
    · rw [if_neg h] at hok
      exact absurd hok (by simp)

theorem parity_detects_single_error_witness :
    (∀ c ∈ "2401234".toList ++ '5' :: "678905".toList, isDigit c = true) ∧
    isDigit '7' = true ∧ '5' ≠ '7' ∧
    (gs1_validateParity ("2401234".toList ++ '5' :: "678905".toList)).1 = true ∧
    (gs1_validateParity ("2401234".toList ++ '7' :: "678905".toList)).1 = false :=
  ⟨by decide, by decide, by decide, by decide,
    parity_detects_single_error "2401234".toList "678905".toList '5' '7' (by decide)
      (by decide) (by decide) (by decide)⟩

theorem csetLinter_spec (env : Env) (part : AiComponent) :
    csetLinter env part.cset = specCsetLinter env part := by
  unfold specCsetLinter
  cases part.cset <;> rfl

theorem partLinters_kinds (env : Env) (part : AiComponent) (slice : List Char) :
    (partLinters env part).map (fun l => (l slice).err) = specLinterKinds env part slice := by
  unfold partLinters specLinterKinds
  rw [List.map_cons, List.map_map, csetLinter_spec]
  rfl

theorem componentFails_spec (env : Env) (part : AiComponent) (slice : List Char) :
    componentFails env part slice ↔ SpecComponentFails env part slice := by
  unfold componentFails SpecComponentFails partLinters
  rw [csetLinter_spec]
  constructor
  · rintro ⟨h1, h2⟩
    refine ⟨h1, ?_⟩
    rcases h2 with h2 | ⟨l, hl, he⟩
    · exact Or.inl h2
    · rcases List.mem_cons.mp hl with rfl | hl
      · exact Or.inr (Or.inl he)
      · obtain ⟨r, hr, rfl⟩ := List.mem_map.mp hl
        exact Or.inr (Or.inr ⟨r, hr, he⟩)
  · rintro ⟨h1, h2⟩
    refine ⟨h1, ?_⟩
    rcases h2 with h2 | h2 | ⟨r, hr, he⟩
    · exact Or.inl h2
    · exact Or.inr ⟨_, List.mem_cons_self _ _, h2⟩
    · exact Or.inr ⟨env.linterFn r, List.mem_cons_of_mem _ (List.mem_map_of_mem _ hr), he⟩

theorem firstFailing_spec (env : Env) (slices : List (AiComponent × List Char))
    (part : AiComponent) (slice : List Char) (h : FirstFailing env slices part slice) :
    SpecFirstFailing env slices part slice := by
  obtain ⟨pre, post, h1, h2, h3⟩ := h
  exact ⟨pre, post, h1, fun q hq hf => h2 q hq ((componentFails_spec env q.1 q.2).2 hf),
    (componentFails_spec env part slice).1 h3⟩

theorem find_first_nonzero (f : (List Char → LintResult) → Nat) :
    ∀ (lpre : List (List Char → LintResult)) (l : List Char → LintResult)
      (lpost : List (List Char → LintResult)),
      (∀ x ∈ lpre, f x = 0) → f l ≠ 0 →
      ((lpre ++ l :: lpost).map f).find? (fun k => decide (k ≠ 0)) = some (f l) := by
  intro lpre
  induction lpre with
  | nil =>
    intro l lpost _ hl
    simp [List.find?, hl]
  | cons a as ih =>
    intro l lpost hpre hl
    have ha : f a = 0 := hpre a (List.mem_cons_self _ _)
    rw [List.cons_append, List.map_cons, List.find?_cons_of_neg _ (by simp [ha])]
    exact ih l lpost (fun x hx => hpre x (List.mem_cons_of_mem _ hx)) hl

theorem firstRejecting_kind (env : Env) (part : AiComponent) (slice : List Char)
    (l : List Char → LintResult) (h : FirstRejecting env part slice l) :
    specFirstKind env part slice = some (l slice).err := by
  obtain ⟨lpre, lpost, h1, h2, h3⟩ := h
  unfold specFirstKind
  rw [← partLinters_kinds, h1]
  exact find_first_nonzero (fun l => (l slice).err) lpre l lpost h2 h3

/-! ## The walk over the components -/

/-- The extracted AIs after the AI-mode part of `gs1_processScanData` has failed: the
ones it started with when the body holds a `^`, and else the ones that `gs1_processAIdata`
had extracted when it failed. -/
theorem processScanAI_fail_aiData (env : Env) (ctx : Ctx) (pre B : List Char)
    (h : (processScanAI env ctx pre B).1 = false) :
    ('^' ∈ B → (processScanAI env ctx pre B).2.aiData = ctx.aiData) ∧
    ('^' ∉ B →
      (gs1_processAIdata env { ctx with dataStr := pre ++ scanBodyToData B }
        (scanBodyToData B) pre.length true).1 = false ∧
      (processScanAI env ctx pre B).2.aiData =
        (gs1_processAIdata env { ctx with dataStr := pre ++ scanBodyToData B }
          (scanBodyToData B) pre.length true).2.aiData) := by
  unfold processScanAI scanBodyToData at *
  by_cases hc : '^' ∈ B
  · rw [if_pos hc]
    exact ⟨fun _ => rfl, fun hn => absurd hc hn⟩
  · rw [if_neg hc] at h ⊢
    refine ⟨fun hn => absurd hn hc, fun _ => ?_⟩
    simp only [] at h ⊢
    generalize gs1_processAIdata env
      { ctx with dataStr := pre ++ '^' :: B.map (fun c => if c = GS then '^' else c) }
      ('^' :: B.map (fun c => if c = GS then '^' else c)) pre.length true = res at h ⊢
    obtain ⟨b, c2⟩ := res
    cases b with
    | false => exact ⟨rfl, rfl⟩
    | true => exact absurd h (by simp)

theorem processScanPlain_fail_aiData (env : Env) (ctx : Ctx) (B : List Char)
    (h : (processScanPlain env ctx B).1 = false) :
    (processScanPlain env ctx B).2.aiData =
      (env.gs1_parseDLuri { ctx with dataStr :=
        (if charAt (B.dropWhile (· = '\\')) 0 = '^' then '\\' :: B else B) }).2.aiData := by
  unfold processScanPlain at h ⊢
  simp only [] at h ⊢
  generalize (if charAt (B.dropWhile (· = '\\')) 0 = '^' then '\\' :: B else B) = d at h ⊢
  by_cases hu : (d.length ≥ 8 ∧ strncmp d "https://".toList 8 = 0) ∨
      (d.length ≥ 7 ∧ strncmp d "http://".toList 7 = 0)
  · rw [if_pos hu] at h ⊢
    generalize env.gs1_parseDLuri { ctx with dataStr := d } = res at h ⊢
    obtain ⟨b, c2⟩ := res
    cases b with
    | false => rfl
    | true => exact absurd h (by simp)
  · rw [if_neg hu] at h
    exact absurd h (by simp)

theorem processScan_plainMode (env : Env) (ctx : Ctx) (id : List Char) (sym : Sym)
    (hid : (id, sym) ∈ plainIds) (B : List Char) :
    gs1_processScanData env ctx (id ++ B) = processScanPlain env (scanStart ctx sym []) B := by
  simp only [plainIds, List.mem_cons, Prod.mk.injEq, List.mem_singleton, List.not_mem_nil,
    or_false] at hid
  rcases hid with ⟨rfl, rfl⟩ | ⟨rfl, rfl⟩
  · exact processScan_plain_DM env ctx B
  · exact processScan_plain_QR env ctx B

/-- The extracted AIs after `gs1_processScanData` has failed on scan data of a primary
symbology: `body` is the scan data after the identifier and `n` the number of primary
digits. -/
theorem processScan_primary_fail (env : Env) (ctx : Ctx) (s : List Char) (e : SymIdEntry)
    (h1 : ¬ (charAt s 0 ≠ ']' ∨ s.length < 3)) (hf : findSymId s symIdTable = some e)
    (hs : e.defaultSym = Sym.sEAN13 ∨ e.defaultSym = Sym.sEAN8) (n : Nat)
    (hn : (if e.defaultSym = Sym.sEAN13 then 13 else 8) = n) (body : List Char)
    (hb : s.drop 3 = body) (h : (gs1_processScanData env ctx s).1 = false) :
    ((¬ "|]e0".toList <+: body.drop n ∨ gs1_allDigits (body.take n) 0 = false ∨
        (gs1_validateParity (body.take n)).1 = false ∨ '^' ∈ body.drop (n + 4)) →
      (gs1_processScanData env ctx s).2.aiData = []) ∧
    ("|]e0".toList <+: body.drop n → gs1_allDigits (body.take n) 0 = true →
      (gs1_validateParity (body.take n)).1 = true → '^' ∉ body.drop (n + 4) →
      (gs1_processAIdata env
        (scanStart ctx e.defaultSym
          (body.take n ++ '|' :: scanBodyToData (body.drop (n + 4))))
        (scanBodyToData (body.drop (n + 4))) (n + 1) true).1 = false ∧
      (gs1_processScanData env ctx s).2.aiData =
        (gs1_processAIdata env
          (scanStart ctx e.defaultSym
            (body.take n ++ '|' :: scanBodyToData (body.drop (n + 4))))
          (scanBodyToData (body.drop (n + 4))) (n + 1) true).2.aiData) := by
  revert h
  unfold gs1_processScanData
  simp only []
  rw [if_neg h1, hf]
  simp only []
  rw [if_pos hs, hb, hn]
  have hcc := hasCC_iff body n
  by_cases hlen : body.length < n
  · rw [if_pos hlen]
    intro _
    exact ⟨fun _ => rfl, fun hp => absurd (hcc.mpr hp).1 (by omega)⟩
  rw [if_neg hlen]
  by_cases hp : "|]e0".toList <+: body.drop n
  · have hd : decide (body.length ≥ n + 4 ∧ strncmp (body.drop n) "|]e0".toList 4 = 0) = true :=
      decide_eq_true (hcc.mpr hp)
    rw [hd, if_neg (by simp)]
    by_cases hdig : gs1_allDigits (body.take n) 0 = false
    · rw [if_pos hdig]
      intro _
      exact ⟨fun _ => rfl, fun _ hd2 => absurd (hdig ▸ hd2) (by simp)⟩
    rw [if_neg hdig]
    cases hv : gs1_validateParity (body.take n) with
    | mk b p' =>
      cases b with
      | false =>
        intro _
        exact ⟨fun _ => rfl, fun _ _ hpar => absurd hpar (by simp)⟩
      | true =>
        have hp' : p' = body.take n := by
          have := gs1_validateParity_true (body.take n) (by rw [hv])
          rw [hv] at this
          exact (Prod.mk.inj this).2
        subst hp'
        simp only [Bool.true_eq_false, if_false]
        intro h
        have hlenpre : (body.take n ++ ['|']).length = n + 1 := by
          rw [List.length_append, List.length_take, Nat.min_eq_left (by omega)]
          rfl
        obtain ⟨ha, hb2⟩ := processScanAI_fail_aiData env _ (body.take n ++ ['|'])
          (body.drop (n + 4)) h
        rw [hlenpre] at hb2
        have happ : body.take n ++ ['|'] ++ scanBodyToData (body.drop (n + 4)) =
            body.take n ++ '|' :: scanBodyToData (body.drop (n + 4)) := by
          rw [List.append_assoc]; rfl
        rw [happ] at hb2
        constructor
        · intro hor
          rcases hor with hor | hor | hor | hor
          · exact absurd hp hor
          · exact absurd hor hdig
          · exact absurd hor (by simp)
          · exact ha hor
        · intro _ _ _ hno
          exact hb2 hno
  · have hd : decide (body.length ≥ n + 4 ∧ strncmp (body.drop n) "|]e0".toList 4 = 0) = false :=
      decide_eq_false (fun h => hp (hcc.mp h))
    rw [hd]
    by_cases hlong : body.length > n
    · rw [if_pos ⟨rfl, hlong⟩]
      intro _
      exact ⟨fun _ => rfl, fun hp2 => absurd hp2 hp⟩
    rw [if_neg (fun h => hlong h.2)]
    by_cases hdig : gs1_allDigits (body.take n) 0 = false
    · rw [if_pos hdig]
      intro _
      exact ⟨fun _ => rfl, fun hp2 => absurd hp2 hp⟩
    rw [if_neg hdig]
    cases hv : gs1_validateParity (body.take n) with
    | mk b p' =>
      cases b with
      | false =>
        intro _
        exact ⟨fun _ => rfl, fun hp2 => absurd hp2 hp⟩
      | true =>
        simp only [if_true]
        intro h
        exact absurd h (by simp)

theorem processScan_noId_aiData (env : Env) (ctx : Ctx) (s : List Char)
    (h : charAt s 0 ≠ ']' ∨ s.length < 3 ∨ findSymId s symIdTable = none) :
    (gs1_processScanData env ctx s).2.aiData = [] := by
  unfold gs1_processScanData
  simp only []
  by_cases h1 : charAt s 0 ≠ ']' ∨ s.length < 3
  · rw [if_pos h1]; rfl
  rw [if_neg h1]
  have hf : findSymId s symIdTable = none := by
    rcases h with h | h | h
    · exact absurd (Or.inl h) h1
    · exact absurd (Or.inr h) h1
    · exact h
  rw [hf]
  rfl

/-! ## The extracted AIs after a failed scan -/

/-- C20 (amended): `num_ais` is reset when `gs1_processScanData` starts and not when it
fails. After a failed call `ai_data` is empty when the error is found before the
extraction begins: no identifier of the table, an error in the primary data, or a `^` in
the AI data. Otherwise, for AI data after an AI-mode identifier or after `|]e0` behind
valid primary data, `gs1_processAIdata`, started from an empty list on that data with
every GS replaced by `^`, has failed too and `ai_data` holds what it had extracted. For
plain data, which only fails as a URI, `ai_data` is what the Digital Link parser left. -/
theorem scan_failure_ais (env : Env) (ctx : Ctx) (s : List Char)
    (h : (gs1_processScanData env ctx s).1 = false) :
    (charAt s 0 ≠ ']' ∨ s.length < 3 ∨ findSymId s symIdTable = none →
      (gs1_processScanData env ctx s).2.aiData = []) ∧
    (∀ id sym B, (id, sym) ∈ aiModeIds → s = id ++ B →
      ('^' ∈ B → (gs1_processScanData env ctx s).2.aiData = []) ∧
      ('^' ∉ B →
        (gs1_processAIdata env (scanStart ctx sym (scanBodyToData B)) (scanBodyToData B) 0
          true).1 = false ∧
        (gs1_processScanData env ctx s).2.aiData =
          (gs1_processAIdata env (scanStart ctx sym (scanBodyToData B)) (scanBodyToData B) 0
            true).2.aiData)) ∧
    (∀ id sym n body, (id, sym, n) ∈ eanIds → s = id ++ body →
      ((¬ "|]e0".toList <+: body.drop n ∨ gs1_allDigits (body.take n) 0 = false ∨
          (gs1_validateParity (body.take n)).1 = false ∨ '^' ∈ body.drop (n + 4)) →
        (gs1_processScanData env ctx s).2.aiData = []) ∧
      ("|]e0".toList <+: body.drop n → gs1_allDigits (body.take n) 0 = true →
        (gs1_validateParity (body.take n)).1 = true → '^' ∉ body.drop (n + 4) →
        (gs1_processAIdata env
          (scanStart ctx sym (body.take n ++ '|' :: scanBodyToData (body.drop (n + 4))))
          (scanBodyToData (body.drop (n + 4))) (n + 1) true).1 = false ∧
        (gs1_processScanData env ctx s).2.aiData =
          (gs1_processAIdata env
            (scanStart ctx sym (body.take n ++ '|' :: scanBodyToData (body.drop (n + 4))))
            (scanBodyToData (body.drop (n + 4))) (n + 1) true).2.aiData)) ∧
    (∀ id sym B, (id, sym) ∈ plainIds → s = id ++ B →
      (gs1_processScanData env ctx s).2.aiData =
        (env.gs1_parseDLuri (scanStart ctx sym
          (if charAt (B.dropWhile (· = '\\')) 0 = '^' then '\\' :: B else B))).2.aiData) := by
  refine ⟨processScan_noId_aiData env ctx s, ?_, ?_, ?_⟩
  · intro id sym B hid hs
    subst hs
    rw [processScan_aiMode env ctx id sym hid B] at h ⊢
    obtain ⟨ha, hb⟩ := processScanAI_fail_aiData env _ [] B h
    exact ⟨ha, hb⟩
  · intro id sym n body hid hs
    subst hs
    simp only [eanIds, List.mem_cons, Prod.mk.injEq, List.mem_singleton, List.not_mem_nil,
      or_false] at hid
    rcases hid with ⟨h1, h2, h3⟩ | ⟨h1, h2, h3⟩
    · subst h1 h2 h3
      exact processScan_primary_fail env ctx _
        { identifier := "]E0".toList, aiMode := false, defaultSym := Sym.sEAN13 }
        (by simp [charAt]) (by simp [findSymId, symIdTable, strncmp]) (Or.inl rfl) 13 rfl body
        (by simp) h
    · subst h1 h2 h3
      exact processScan_primary_fail env ctx _
        { identifier := "]E4".toList, aiMode := false, defaultSym := Sym.sEAN8 }
        (by simp [charAt]) (by simp [findSymId, symIdTable, strncmp]) (Or.inr rfl) 8 rfl body
        (by simp) h
  · intro id sym B hid hs
    subst hs
    rw [processScan_plainMode env ctx id sym hid B] at h ⊢
    exact processScanPlain_fail_aiData env _ B h

/-- Witness for C20 amended: `]Q31012345<GS>99` fails after AI 10 has been extracted, and
`ai_data` holds that entry, as `gs1_processAIdata` leaves it on `^1012345^99`; `]Q3101234^`
fails on the `^`, before the extraction, and `ai_data` is empty. -/
theorem scan_failure_ais_witness :
    (gs1_processScanData demoEnv demoCtx "]Q31012345\x1d99".toList).1 = false ∧
    ((gs1_processAIdata demoEnv (scanStart demoCtx Sym.sQR (scanBodyToData "1012345\x1d99".toList))
        (scanBodyToData "1012345\x1d99".toList) 0 true).1 = false ∧
      (gs1_processScanData demoEnv demoCtx "]Q31012345\x1d99".toList).2.aiData =
        (gs1_processAIdata demoEnv
          (scanStart demoCtx Sym.sQR (scanBodyToData "1012345\x1d99".toList))
          (scanBodyToData "1012345\x1d99".toList) 0 true).2.aiData) ∧
    (gs1_processAIdata demoEnv (scanStart demoCtx Sym.sQR (scanBodyToData "1012345\x1d99".toList))
      (scanBodyToData "1012345\x1d99".toList) 0 true).2.aiData.map
        (fun a => (a.ai, a.ailen, a.value, a.vallen)) = [(1, 2, 3, 5)] ∧
    (gs1_processScanData demoEnv demoCtx "]Q3101234^".toList).1 = false ∧
    (gs1_processScanData demoEnv demoCtx "]Q3101234^".toList).2.aiData = [] :=
  ⟨by decide,
    ((scan_failure_ais demoEnv demoCtx "]Q31012345\x1d99".toList (by decide)).2.1
      "]Q3".toList Sym.sQR "1012345\x1d99".toList (by decide) rfl).2 (by decide),
    by decide, by decide,
    ((scan_failure_ais demoEnv demoCtx "]Q3101234^".toList (by decide)).2.1
      "]Q3".toList Sym.sQR "101234^".toList (by decide) rfl).1 (by decide)⟩

end GS1
